import Mathlib

/-!
# KbFood: price validator and title similarity

A shallow embedding of `internal/domain/service/price_validator.go` and
`internal/domain/service/title_cleaner.go`, with the properties of the
specification proved over it.

## Modelling conventions

* `float64` is the type `F64`: NaN, the two infinities, or a finite value carried
  as an exact rational.  Every finite binary64 value is a rational, so the finite
  part of `F64` is a superset of the machine values.  Arithmetic (`F64.div`,
  `F64.sub`, `F64.ofInt`) rounds the exact result to binary64 with
  round-to-nearest, ties-to-even (`F64.round`), the IEEE 754 default Go uses.
  The sign of zero is not represented: comparisons do not observe it and the
  embedded code never divides by zero.
* Comparisons follow IEEE 754: every ordered comparison with NaN is false.
* `time.Time` is an instant, an integer count of nanoseconds since the zero time
  (January 1, year 1, 00:00:00 UTC); `time.Now()` is an explicit argument.
* A Go `string` is its sequence of bytes; `[]rune(s)` is UTF-8 decoding with
  U+FFFD for every invalid byte.
* Go `int` values are unbounded integers here; the lengths and distances that
  occur are bounded by the string lengths.
-/

namespace KbFood

/-! ## float64 -/

/-- A `float64` value. -/
inductive F64 where
  | nan : F64
  | posInf : F64
  | negInf : F64
  | fin (q : ℚ) : F64
  deriving DecidableEq

namespace F64

/-- Go `math.IsNaN`. -/
def isNaN : F64 → Bool
  | nan => true
  | _ => false

/-- Go `math.IsInf(f, 0)`. -/
def isInf : F64 → Bool
  | posInf => true
  | negInf => true
  | _ => false

/-- The float is neither NaN nor infinite. -/
def isFinite : F64 → Bool
  | fin _ => true
  | _ => false

/-- IEEE `<`: false as soon as one side is NaN. -/
def blt : F64 → F64 → Bool
  | nan, _ => false
  | _, nan => false
  | posInf, _ => false
  | _, negInf => false
  | negInf, _ => true
  | fin _, posInf => true
  | fin a, fin b => decide (a < b)

/-- IEEE `<=`: false as soon as one side is NaN. -/
def ble : F64 → F64 → Bool
  | nan, _ => false
  | _, nan => false
  | negInf, _ => true
  | _, posInf => true
  | posInf, _ => false
  | fin _, negInf => false
  | fin a, fin b => decide (a ≤ b)

/-- IEEE `==`: NaN is equal to nothing, itself included. -/
def beq : F64 → F64 → Bool
  | nan, _ => false
  | _, nan => false
  | posInf, posInf => true
  | negInf, negInf => true
  | fin a, fin b => decide (a = b)
  | _, _ => false

instance : LT F64 := ⟨fun a b => blt a b = true⟩
instance : LE F64 := ⟨fun a b => ble a b = true⟩
instance (a b : F64) : Decidable (a < b) := inferInstanceAs (Decidable (blt a b = true))
instance (a b : F64) : Decidable (a ≤ b) := inferInstanceAs (Decidable (ble a b = true))

/-- Unary minus. -/
def neg : F64 → F64
  | nan => nan
  | posInf => negInf
  | negInf => posInf
  | fin q => fin (-q)

/-- Round a non-negative rational to the nearest natural number, ties to even. -/
def roundHalfEven (x : ℚ) : ℕ :=
  let f := ⌊x⌋₊
  let r := x - f
  if r < 1 / 2 then f
  else if 1 / 2 < r then f + 1
  else if f % 2 = 0 then f else f + 1

/-- The binary exponent `⌊log₂ q⌋` of a positive rational. -/
def binExp (q : ℚ) : ℤ :=
  let k : ℤ := (Nat.log2 q.num.natAbs : ℤ) - (Nat.log2 q.den : ℤ)
  if (2 : ℚ) ^ k ≤ q then k else k - 1

/-- Exponent of the unit in the last place of the binary64 format at a positive
rational: 53 significant bits, and no finer than the subnormal spacing `2^-1074`. -/
def ulpExp (q : ℚ) : ℤ := max (binExp q - 52) (-1074)

/-- The multiple of the unit in the last place nearest to a positive rational. -/
def roundVal (q : ℚ) : ℚ :=
  (roundHalfEven (q / (2 : ℚ) ^ ulpExp q) : ℚ) * (2 : ℚ) ^ ulpExp q

/-- Round a positive rational to binary64; values that round to `2^1024` or more
overflow to `+Inf`. -/
def roundPos (q : ℚ) : F64 :=
  if (2 : ℚ) ^ (1024 : ℤ) ≤ roundVal q then posInf else fin (roundVal q)

/-- Round an exact rational result to binary64 (round-to-nearest, ties-to-even). -/
def round (q : ℚ) : F64 :=
  if q = 0 then fin 0
  else if 0 < q then roundPos q
  else neg (roundPos (-q))

/-- Go conversion `float64(n)` of an integer. -/
def ofInt (n : ℤ) : F64 := round (n : ℚ)

/-- IEEE division `a / b`. -/
def div : F64 → F64 → F64
  | nan, _ => nan
  | _, nan => nan
  | posInf, posInf => nan
  | posInf, negInf => nan
  | negInf, posInf => nan
  | negInf, negInf => nan
  | posInf, fin b => if b < 0 then negInf else posInf
  | negInf, fin b => if b < 0 then posInf else negInf
  | fin _, posInf => fin 0
  | fin _, negInf => fin 0
  | fin a, fin b =>
    if b = 0 then
      if a = 0 then nan else if 0 < a then posInf else negInf
    else round (a / b)

/-- IEEE subtraction `a - b`. -/
def sub : F64 → F64 → F64
  | nan, _ => nan
  | _, nan => nan
  | posInf, posInf => nan
  | negInf, negInf => nan
  | posInf, _ => posInf
  | negInf, _ => negInf
  | fin _, posInf => negInf
  | fin _, negInf => posInf
  | fin a, fin b => round (a - b)

end F64

/-! ## `internal/pkg/errors` -/

/-- Go `type ErrorCode int`. -/
abbrev ErrorCode := ℤ

/-- Code `InvalidInput`. -/
def InvalidInput : ErrorCode := 10001
/-- Code `ErrPriceBelowMin`. -/
def ErrPriceBelowMin : ErrorCode := 20001
/-- Code `ErrPriceDropExceeded`. -/
def ErrPriceDropExceeded : ErrorCode := 20002
/-- Code `ErrPriceRiseExceeded`. -/
def ErrPriceRiseExceeded : ErrorCode := 20003

/-- Go `errors.AppError` as built by `errors.New` (the cause is always nil there). -/
structure AppError where
  Code : ErrorCode
  Message : String
  deriving DecidableEq

/-- Go `errors.New`. -/
def errorsNew (code : ErrorCode) (message : String) : AppError := ⟨code, message⟩

/-! ## `time` -/

/-- An instant: nanoseconds since the zero time, January 1, year 1, 00:00:00 UTC. -/
abbrev Time := ℤ

/-- Constant `time.Hour` in nanoseconds. -/
def Hour : ℤ := 3600 * 1000000000

/-- Go `t.Truncate(d)` for `d > 0`: round `t` down to a multiple of `d` since the
zero time. -/
def Time.Truncate (t : Time) (d : ℤ) : Time := t - t % d

/-- Number of the UTC calendar day an instant falls on, counted from the zero time. -/
def utcDay (t : Time) : ℤ := t / (24 * Hour)

/-! ## `PriceValidator` -/

/-- Go `PriceValidator`. -/
structure PriceValidator where
  maxDropRatio : F64
  maxRiseRatio : F64
  minPrice : F64
  deriving DecidableEq

/-- Go `NewPriceValidator`: the default settings. -/
def NewPriceValidator : PriceValidator :=
  { maxDropRatio := F64.fin (1 / 2), maxRiseRatio := F64.fin 5, minPrice := F64.fin 1 }

/-- Go `NewPriceValidatorWithConfig`. -/
def NewPriceValidatorWithConfig (maxDrop maxRise min : F64) : PriceValidator :=
  { maxDropRatio := maxDrop, maxRiseRatio := maxRise, minPrice := min }

/-- Go `PriceValidator.ValidateUpdate`; `now` is the value of `time.Now()`.
The result is the final price and the error (`none` for Go `nil`). -/
def PriceValidator.ValidateUpdate (v : PriceValidator) (oldPrice newPrice : F64)
    (lastUpdateTime now : Time) : F64 × Option AppError :=
  if oldPrice.isNaN || newPrice.isNaN then
    (oldPrice, some (errorsNew InvalidInput "price is NaN"))
  else if oldPrice.isInf || newPrice.isInf then
    (oldPrice, some (errorsNew InvalidInput "price is infinite"))
  else if newPrice < F64.fin 0 then
    (oldPrice, some (errorsNew ErrPriceBelowMin "price is negative"))
  else
    let oldDate := Time.Truncate lastUpdateTime (24 * Hour)
    let today := Time.Truncate now (24 * Hour)
    -- Rule 0: cross-day
    if ¬ (oldDate = today) then
      if newPrice < v.minPrice then
        (oldPrice, some (errorsNew ErrPriceBelowMin "price below minimum threshold"))
      else
        (newPrice, none)
    -- Rule 1: minimum price
    else if newPrice < v.minPrice then
      (oldPrice, some (errorsNew ErrPriceBelowMin "price below minimum threshold"))
    else if oldPrice ≤ F64.fin 0 then
      (newPrice, none)
    else
      -- Rules 3 and 4, reached when rule 2 does not reject
      let afterDropCheck : F64 × Option AppError :=
        if oldPrice < newPrice then
          if F64.fin 10 ≤ oldPrice then
            let riseRatio := F64.div newPrice oldPrice
            if v.maxRiseRatio < riseRatio then
              (oldPrice, some (errorsNew ErrPriceRiseExceeded "price rise exceeded threshold"))
            else
              (newPrice, none)
          else
            (newPrice, none)
        else
          (newPrice, none)
      -- Rule 2: extreme drops
      if newPrice < oldPrice then
        let dropRatio := F64.div newPrice oldPrice
        if dropRatio < v.maxDropRatio then
          (oldPrice, some (errorsNew ErrPriceDropExceeded "price drop exceeded threshold"))
        else
          afterDropCheck
      else
        afterDropCheck

/-- Go `PriceValidator.ValidatePriceChange`: the error (`none` for Go `nil`). -/
def PriceValidator.ValidatePriceChange (v : PriceValidator) (oldPrice newPrice : F64) :
    Option AppError :=
  if oldPrice.isNaN || newPrice.isNaN then
    some (errorsNew InvalidInput "price is NaN")
  else if oldPrice.isInf || newPrice.isInf then
    some (errorsNew InvalidInput "price is infinite")
  else if newPrice < F64.fin 0 ∨ oldPrice < F64.fin 0 then
    some (errorsNew ErrPriceBelowMin "price is negative")
  else if newPrice < v.minPrice then
    some (errorsNew ErrPriceBelowMin "price below minimum threshold")
  else if F64.beq oldPrice (F64.fin 0) then
    none
  else
    -- the rise check, reached when the drop check does not reject
    let afterDropCheck : Option AppError :=
      if oldPrice < newPrice ∧ F64.fin 10 ≤ oldPrice then
        let riseRatio := F64.div newPrice oldPrice
        if v.maxRiseRatio < riseRatio then
          some (errorsNew ErrPriceRiseExceeded "price rise exceeded threshold")
        else
          none
      else
        none
    if newPrice < oldPrice then
      let dropRatio := F64.div newPrice oldPrice
      if dropRatio < v.maxDropRatio then
        some (errorsNew ErrPriceDropExceeded "price drop exceeded threshold")
      else
        afterDropCheck
    else
      afterDropCheck

/-! ## Strings and runes -/

/-- A Go `string`: its sequence of bytes.  `s == ""` is `s = []` and `s1 == s2` is
equality of the byte sequences. -/
abbrev GoString := List UInt8

/-- A Go `rune`: a Unicode code point. -/
abbrev Rune := ℕ

/-- The replacement character U+FFFD, produced for every invalid byte. -/
def RuneError : Rune := 0xFFFD

/-- A UTF-8 continuation byte `10xxxxxx`. -/
def isCont (b : UInt8) : Bool := decide (0x80 ≤ b.toNat ∧ b.toNat ≤ 0xBF)

/-- Decoding of the first code point of a non-empty byte sequence, as the Go runtime
does for `range` and for `[]rune(s)`: the code point and the number of bytes consumed.
An invalid or incomplete encoding, an overlong form, a surrogate and a value above
U+10FFFF all give `(RuneError, 1)`. -/
def decodeRune : GoString → Rune × ℕ
  | [] => (RuneError, 1)
  | b0 :: rest =>
    if b0.toNat < 0x80 then (b0.toNat, 1)
    else if 0xC0 ≤ b0.toNat ∧ b0.toNat < 0xE0 then
      match rest with
      | b1 :: _ =>
        let r := (b0.toNat % 0x20) * 0x40 + b1.toNat % 0x40
        if isCont b1 ∧ 0x7F < r then (r, 2) else (RuneError, 1)
      | _ => (RuneError, 1)
    else if 0xE0 ≤ b0.toNat ∧ b0.toNat < 0xF0 then
      match rest with
      | b1 :: b2 :: _ =>
        let r := (b0.toNat % 0x10) * 0x1000 + (b1.toNat % 0x40) * 0x40 + b2.toNat % 0x40
        if isCont b1 ∧ isCont b2 ∧ 0x7FF < r ∧ ¬ (0xD800 ≤ r ∧ r ≤ 0xDFFF) then (r, 3)
        else (RuneError, 1)
      | _ => (RuneError, 1)
    else if 0xF0 ≤ b0.toNat ∧ b0.toNat < 0xF8 then
      match rest with
      | b1 :: b2 :: b3 :: _ =>
        let r := (b0.toNat % 0x08) * 0x40000 + (b1.toNat % 0x40) * 0x1000 +
          (b2.toNat % 0x40) * 0x40 + b3.toNat % 0x40
        if isCont b1 ∧ isCont b2 ∧ isCont b3 ∧ 0xFFFF < r ∧ r ≤ 0x10FFFF then (r, 4)
        else (RuneError, 1)
      | _ => (RuneError, 1)
    else (RuneError, 1)

/-- The code points of the bytes that remain once `skip` bytes, already consumed by the
previous code point, have been passed over. -/
def runesFrom : ℕ → GoString → List Rune
  | _, [] => []
  | skip + 1, _ :: rest => runesFrom skip rest
  | 0, b :: rest => (decodeRune (b :: rest)).1 :: runesFrom ((decodeRune (b :: rest)).2 - 1) rest

/-- Go `[]rune(s)`. -/
def runes (s : GoString) : List Rune := runesFrom 0 s

/-! ## `TitleCleaner`: similarity -/

/-- Go helper `min(a, b, c int)` of `title_cleaner.go`. -/
def min3 (a b c : ℕ) : ℕ :=
  if a < b then
    if a < c then a else c
  else if b < c then b else c

/-- Go helper `max(a, b int)` of `title_cleaner.go`. -/
def max2 (a b : ℕ) : ℕ := if a > b then a else b

/-- Go slice indexing `row[i]`.  Every index the embedded code uses is within the
bounds of its slice (see `innerLoop_length` and `outerLoop_length`). -/
def rowAt (row : List ℕ) (i : ℕ) : ℕ := row.getD i 0

/-- The inner loop of `levenshteinDistance`: `for j, c2 := range r2` appending to
`currentRow`; the first argument of the recursion is the part of `r2` still to visit and
`j` its index. -/
def innerLoop (c1 : Rune) (previousRow : List ℕ) : List Rune → ℕ → List ℕ → List ℕ
  | [], _, currentRow => currentRow
  | c2 :: rest, j, currentRow =>
    let cost := if c1 ≠ c2 then 1 else 0
    innerLoop c1 previousRow rest (j + 1)
      (currentRow ++ [min3 (rowAt previousRow (j + 1) + 1) (rowAt currentRow j + 1)
        (rowAt previousRow j + cost)])

/-- The outer loop of `levenshteinDistance`: `for i, c1 := range r1`, replacing
`previousRow` by the row built for `c1`. -/
def outerLoop (r2 : List Rune) : List Rune → ℕ → List ℕ → List ℕ
  | [], _, previousRow => previousRow
  | c1 :: rest, i, previousRow =>
    outerLoop r2 rest (i + 1) (innerLoop c1 previousRow r2 0 [i + 1])

/-- The body of `levenshteinDistance` once `r1` is the longer of the two rune slices. -/
def levenshteinRows (r1 r2 : List Rune) : ℕ :=
  if r2.length = 0 then r1.length
  else
    let previousRow := outerLoop r2 r1 0 (List.range (r2.length + 1))
    rowAt previousRow (previousRow.length - 1)

/-- Go `levenshteinDistance`. -/
def levenshteinDistance (s1 s2 : GoString) : ℕ :=
  let r1 := runes s1
  let r2 := runes s2
  if r1.length < r2.length then levenshteinRows r2 r1 else levenshteinRows r1 r2

/-- Go `TitleCleaner`. -/
structure TitleCleaner where
  similarityThreshold : F64
  promotionThreshold : ℤ
  deriving DecidableEq

/-- Constant `SimilarityThreshold`. -/
def SimilarityThreshold : F64 := F64.fin (3 / 4)
/-- Constant `PromotionThreshold`. -/
def PromotionThreshold : ℤ := 3
/-- Constant `MidSimilarityThreshold`. -/
def MidSimilarityThreshold : F64 := F64.fin (1 / 2)
/-- Constant `PriceMatchThreshold`. -/
def PriceMatchThreshold : F64 := F64.fin 1

/-- Go `NewTitleCleaner`. -/
def NewTitleCleaner : TitleCleaner :=
  { similarityThreshold := SimilarityThreshold, promotionThreshold := PromotionThreshold }

/-- Go `TitleCleaner.CalculateSimilarity`. -/
def TitleCleaner.CalculateSimilarity (_tc : TitleCleaner) (s1 s2 : GoString) : F64 :=
  if s1 = [] ∧ s2 = [] then F64.fin 0
  else if s1 = s2 then F64.fin 1
  else if s1 = [] ∨ s2 = [] then F64.fin 0
  else
    let distance := levenshteinDistance s1 s2
    let maxLen := max2 (runes s1).length (runes s2).length
    if maxLen = 0 then F64.fin 0
    else F64.sub (F64.fin 1) (F64.div (F64.ofInt distance) (F64.ofInt maxLen))

/-! ## Reference notion: edit distance -/

/-- One single code-point edit: an insertion, a deletion or a substitution at any
position. -/
inductive EditStep : List Rune → List Rune → Prop where
  | insert (l r : List Rune) (c : Rune) : EditStep (l ++ r) (l ++ c :: r)
  | delete (l r : List Rune) (c : Rune) : EditStep (l ++ c :: r) (l ++ r)
  | substitute (l r : List Rune) (c c' : Rune) : EditStep (l ++ c :: r) (l ++ c' :: r)

/-- The relation `EditChain n a b`: `a` is turned into `b` by `n` single code-point edits. -/
inductive EditChain : ℕ → List Rune → List Rune → Prop where
  | refl (a : List Rune) : EditChain 0 a a
  | step {n : ℕ} {a b c : List Rune} : EditStep a b → EditChain n b c → EditChain (n + 1) a c

/-- The predicate `IsEditDistance a b d`: `d` is the minimum number of single code-point insertions,
deletions and substitutions that turn `a` into `b`. -/
def IsEditDistance (a b : List Rune) (d : ℕ) : Prop :=
  EditChain d a b ∧ ∀ n, EditChain n a b → d ≤ n

/-- The textbook recurrence for the edit distance, used to relate the two-row program
to `IsEditDistance`. -/
def editDist : List Rune → List Rune → ℕ
  | [], ys => ys.length
  | x :: xs, [] => (x :: xs).length
  | x :: xs, y :: ys =>
    min (editDist xs (y :: ys) + 1)
      (min (editDist (x :: xs) ys + 1) (editDist xs ys + if x = y then 0 else 1))
termination_by xs ys => xs.length + ys.length

/-- The row `[f 0, f 1, ..., f n]`, used to state the loop invariants. -/
def rowOf (f : ℕ → ℕ) (n : ℕ) : List ℕ := (List.range (n + 1)).map f

/-! ## `TitleCleaner`: classification, price match, election, identifiers -/

/-- Go `TitleCleaner.IsHighSimilarity`. -/
def TitleCleaner.IsHighSimilarity (tc : TitleCleaner) (title1 title2 : GoString) : Bool :=
  if title1 = [] ∨ title2 = [] then false
  else decide (tc.similarityThreshold ≤ tc.CalculateSimilarity title1 title2)

/-- Go `TitleCleaner.IsMidSimilarity`. -/
def TitleCleaner.IsMidSimilarity (tc : TitleCleaner) (title1 title2 : GoString) : Bool :=
  if title1 = [] ∨ title2 = [] then false
  else
    let sim := tc.CalculateSimilarity title1 title2
    decide (MidSimilarityThreshold ≤ sim) && decide (sim < tc.similarityThreshold)

/-- Go `TitleCleaner.IsPriceMatch`. -/
def TitleCleaner.IsPriceMatch (_tc : TitleCleaner) (price1 price2 : F64) : Bool :=
  if price1.isNaN || price2.isNaN then false
  else if price1.isInf || price2.isInf then false
  else
    let diff := F64.sub price1 price2
    let diff := if diff < F64.fin 0 then F64.neg diff else diff
    decide (diff ≤ PriceMatchThreshold)

/-- Go `math.MaxInt64`, the largest value of the type `int` (64 bits wide). -/
def MaxInt64 : ℤ := 9223372036854775807

/-- Go `math.MinInt64`, the smallest value of the type `int`. -/
def MinInt64 : ℤ := -9223372036854775808

/-- The value of the type `int` that an arithmetic result is stored as: the result modulo
`2^64`, in the range from `MinInt64` to `MaxInt64`. -/
def wrapInt (n : ℤ) : ℤ :=
  (n + 9223372036854775808) % 18446744073709551616 - 9223372036854775808

/-- A Go `map[string]int`: its entries, with pairwise distinct keys.  As the argument of
`ElectStandardTitle` the list is in the order in which the `range` visits the entries;
as the map of a stored candidate the order of the list has no meaning, `VoteMap.incr`
appends a new key, and the order of a later `range` is the one `Library.rangeVotes`
gives. -/
abbrev VoteMap := List (GoString × ℤ)

/-- The keys of a map are pairwise distinct. -/
def VoteMap.WellFormed (m : VoteMap) : Prop := (m.map Prod.fst).Nodup

/-- Go `m[k]`: the stored count, or 0 for an absent key. -/
def VoteMap.get (m : VoteMap) (k : GoString) : ℤ :=
  match m.lookup k with
  | some c => c
  | none => 0

/-- Go `m[k]++`: the count of `k` raised by one in the arithmetic of `int`, a new entry
`k: 1` when `k` is absent. -/
def VoteMap.incr (m : VoteMap) (k : GoString) : VoteMap :=
  if m.any (fun e => e.1 = k) then
    m.map (fun e => if e.1 = k then (e.1, wrapInt (e.2 + 1)) else e)
  else m ++ [(k, 1)]

/-- The sum of the values of a map. -/
def VoteMap.total (m : VoteMap) : ℤ := (m.map Prod.snd).sum

/-- One iteration of the loop of `ElectStandardTitle` on the state `(winner, maxVotes)`. -/
def electStep (acc : GoString × ℤ) (entry : GoString × ℤ) : GoString × ℤ :=
  if entry.2 > acc.2 then (entry.1, entry.2)
  else if entry.2 = acc.2 ∧ entry.1.length > acc.1.length then (entry.1, acc.2)
  else acc

/-- Go `TitleCleaner.ElectStandardTitle`; `votes` lists the entries of the map in the
order in which the `range` visits them, and `len(title)` is the number of bytes. -/
def TitleCleaner.ElectStandardTitle (_tc : TitleCleaner) (votes : VoteMap) : GoString :=
  if votes.length = 0 then []
  else (votes.foldl electStep ([], 0)).1

/-- Go `TitleCleaner.ShouldPromote`. -/
def TitleCleaner.ShouldPromote (tc : TitleCleaner) (occurrences : ℤ) : Bool :=
  decide (occurrences ≥ tc.promotionThreshold)

/-- What the service relies on and the repository does not contain: the Unicode table of
the script class `\p{Han}` of the regular expression, the MD5 digest, the local-midnight
truncation `time.Date(y, m, d, 0, 0, 0, 0, loc)` of `truncateToDay`, which depends on the
time zone of the process, and the order in which the `range` of `ElectStandardTitle`
visits the votes of a candidate.  The votes of a candidate are read from the store into a
new map, and Go leaves the order of a `range` over a map unspecified: `rangeVotes id m`
lists the entries of the map `m` of the candidate `id` in the order of that visit, which
is some rearrangement of the entries. -/
structure Library where
  isHan : Rune → Bool
  md5Sum : GoString → List UInt8
  truncateToDay : Time → Time
  rangeVotes : ℤ → VoteMap → VoteMap
  rangeVotes_perm : ∀ (id : ℤ) (m : VoteMap), (rangeVotes id m).Perm m

/-- The code points and their encodings: like `runesFrom`, with the bytes each code point
was decoded from. -/
def chunksFrom : ℕ → GoString → List (Rune × GoString)
  | _, [] => []
  | skip + 1, _ :: rest => chunksFrom skip rest
  | 0, b :: rest =>
    ((decodeRune (b :: rest)).1, (b :: rest).take (decodeRune (b :: rest)).2) ::
      chunksFrom ((decodeRune (b :: rest)).2 - 1) rest

/-- The range table `unicode.Han` of the Go library, the code points of the script Han
(Unicode 15.0.0, the tables of Go 1.21 and later): the CJK radicals, the ideographic
iteration mark U+3005 and number zero U+3007, the Hangzhou numerals, the CJK Unified
Ideographs with their extensions and the compatibility ideographs. -/
def unicodeHan (r : Rune) : Bool :=
  decide (0x2E80 ≤ r ∧ r ≤ 0x2E99) || decide (0x2E9B ≤ r ∧ r ≤ 0x2EF3) ||
    decide (0x2F00 ≤ r ∧ r ≤ 0x2FD5) || decide (r = 0x3005) || decide (r = 0x3007) ||
    decide (0x3021 ≤ r ∧ r ≤ 0x3029) || decide (0x3038 ≤ r ∧ r ≤ 0x303B) ||
    decide (0x3400 ≤ r ∧ r ≤ 0x4DBF) || decide (0x4E00 ≤ r ∧ r ≤ 0x9FFF) ||
    decide (0xF900 ≤ r ∧ r ≤ 0xFA6D) || decide (0xFA70 ≤ r ∧ r ≤ 0xFAD9) ||
    decide (0x16FE2 ≤ r ∧ r ≤ 0x16FE3) || decide (0x16FF0 ≤ r ∧ r ≤ 0x16FF1) ||
    decide (0x20000 ≤ r ∧ r ≤ 0x2A6DF) || decide (0x2A700 ≤ r ∧ r ≤ 0x2B739) ||
    decide (0x2B740 ≤ r ∧ r ≤ 0x2B81D) || decide (0x2B820 ≤ r ∧ r ≤ 0x2CEA1) ||
    decide (0x2CEB0 ≤ r ∧ r ≤ 0x2EBE0) || decide (0x2F800 ≤ r ∧ r ≤ 0x2FA1D) ||
    decide (0x30000 ≤ r ∧ r ≤ 0x3134A) || decide (0x31350 ≤ r ∧ r ≤ 0x323AF)

/-- The character class `[a-zA-Z0-9\p{Han}]` whose complement `titleCleanerRegex`
matches. -/
def keptByTitleCleaner (lib : Library) (r : Rune) : Bool :=
  decide (0x61 ≤ r ∧ r ≤ 0x7A) || decide (0x41 ≤ r ∧ r ≤ 0x5A) ||
    decide (0x30 ≤ r ∧ r ≤ 0x39) || lib.isHan r

/-- Go `TitleCleaner.CleanTitleForID`: `ReplaceAllString(title, "")` with the pattern
`[^a-zA-Z0-9\p{Han}]` deletes every code point outside the class (an invalid byte reads
as U+FFFD, with the Han table of Go not in it) and copies the bytes of the others. -/
def TitleCleaner.CleanTitleForID (_tc : TitleCleaner) (lib : Library) (title : GoString) :
    GoString :=
  if title = [] then []
  else (((chunksFrom 0 title).filter (fun c => keptByTitleCleaner lib c.1)).map Prod.snd).flatten

/-- One lowercase hexadecimal digit, as an ASCII byte. -/
def hexDigit (n : ℕ) : UInt8 := if n < 10 then UInt8.ofNat (0x30 + n) else UInt8.ofNat (0x57 + n)

/-- Go `hex.EncodeToString`. -/
def hexEncode (bytes : List UInt8) : GoString :=
  (bytes.map (fun b => [hexDigit (b.toNat / 16), hexDigit (b.toNat % 16)])).flatten

/-- Go `TitleCleaner.GenerateID`. -/
def TitleCleaner.GenerateID (tc : TitleCleaner) (lib : Library) (pre title : GoString) :
    GoString :=
  let cleaned := tc.CleanTitleForID lib title
  let hash := lib.md5Sum cleaned
  pre ++ [0x5F] ++ hexEncode hash

/-! ## Entities -/

/-- Go `entity.MasterProduct`. -/
structure MasterProduct where
  ID : GoString
  Region : GoString
  Platform : GoString
  StandardTitle : GoString
  Price : F64
  Status : ℤ
  TrustScore : ℤ
  CreateTime : Time
  UpdateTime : Time
  deriving DecidableEq

/-- Go `MasterProduct.IncrementTrustScore`: `m.TrustScore++` in the arithmetic of `int`. -/
def MasterProduct.IncrementTrustScore (m : MasterProduct) : MasterProduct :=
  { m with TrustScore := wrapInt (m.TrustScore + 1) }

/-- Go `entity.CandidateItem`. -/
structure CandidateItem where
  ID : ℤ
  GroupKey : GoString
  Region : GoString
  TitleVotes : VoteMap
  TotalOccurrences : ℤ
  LastPrice : F64
  LastStatus : ℤ
  FirstSeenTime : Time
  LastSeenTime : Time
  CreateTime : Time
  UpdateTime : Time
  deriving DecidableEq

/-- A Go `error` value built by `fmt.Errorf` or returned by the store; the formatted
arguments of a message are left out. -/
inductive GoErr where
  | new (msg : String) : GoErr
  | wrap (msg : String) (cause : GoErr) : GoErr
  deriving DecidableEq

/-- Go `CandidateItem.AddTitleVote`: the candidate after the call and the returned
error. -/
def CandidateItem.AddTitleVote (c : CandidateItem) (title : GoString) :
    CandidateItem × Option GoErr :=
  if title = [] then (c, some (GoErr.new "title cannot be empty"))
  else
    ({ c with TitleVotes := c.TitleVotes.incr title,
              TotalOccurrences := wrapInt (c.TotalOccurrences + 1) }, none)

/-- Go `CandidateItem.UpdateLastSeen`; `now` is the value of `time.Now()`. -/
def CandidateItem.UpdateLastSeen (c : CandidateItem) (price : F64) (status : ℤ)
    (now : Time) : CandidateItem :=
  { c with LastPrice := price, LastStatus := status, LastSeenTime := now }

/-- Go `entity.PriceTrend`. -/
structure PriceTrend where
  ID : ℤ
  ActivityID : GoString
  Price : F64
  RecordDate : Time
  CreateTime : Time
  deriving DecidableEq

/-- Go `entity.NewPriceTrend`; `now` is the value of `time.Now()`, and
`recordDate.IsZero()` is `recordDate = 0`. -/
def NewPriceTrend (activityID : GoString) (price : F64) (recordDate now : Time) :
    Except GoErr PriceTrend :=
  if activityID = [] then Except.error (GoErr.new "activityID cannot be empty")
  else if price < F64.fin 0 then Except.error (GoErr.new "price cannot be negative")
  else if recordDate = 0 then Except.error (GoErr.new "recordDate cannot be zero")
  else Except.ok
    { ID := 0, ActivityID := activityID, Price := price, RecordDate := recordDate,
      CreateTime := now }

/-- Go `entity.PlatformProductDTO`. -/
structure PlatformProductDTO where
  ActivityID : GoString
  Platform : GoString
  Region : GoString
  Title : GoString
  ShopName : GoString
  OriginalPrice : F64
  CurrentPrice : F64
  SalesStatus : ℤ
  ActivityCreateTime : Time
  deriving DecidableEq

/-- Go `entity.DTInputDTO`. -/
structure DTInputDTO where
  Title : GoString
  Price : F64
  Status : ℤ
  CrawlTime : ℤ
  Region : GoString
  deriving DecidableEq

/-! ## The store behind the repository interfaces -/

/-- The operations of the repository interfaces that the service calls. -/
inductive StoreOp where
  | masterFindByID (id : GoString) : StoreOp
  | masterFindByRegion (region : GoString) : StoreOp
  | masterCreate (id : GoString) : StoreOp
  | masterUpdate (id : GoString) : StoreOp
  | candidateFindByRegion (region : GoString) : StoreOp
  | candidateListAll : StoreOp
  | candidateCreate : StoreOp
  | candidateUpdate (id : ℤ) : StoreOp
  | candidateDelete (id : ℤ) : StoreOp
  | trendUpsert (activityID : GoString) : StoreOp
  deriving DecidableEq

/-- Modelled from the spec: the SQL queries behind the repositories (package `sqlc`) are
not part of the sources, so the store is the state the specification describes: the
master catalog, the candidate pool and the trend log, each a list of rows in the order in
which a listing returns them.  The field `fails` says which operations return a storage
error (none of them in a succeeding store), `clock` is the time the store stamps on the
rows it writes, and `nextCandidateID` is the identifier the next created candidate
receives. -/
structure Store where
  masters : List MasterProduct
  candidates : List CandidateItem
  trends : List PriceTrend
  nextCandidateID : ℤ
  clock : Time
  fails : StoreOp → Bool

/-- The error a failing store operation returns. -/
def storageError : GoErr := GoErr.new "storage error"

/-- Modelled from the spec: `MasterProductRepository.FindByID`, the master with that
identifier, `none` (Go `nil`) when there is none. -/
def Store.masterFindByID (st : Store) (id : GoString) : Except GoErr (Option MasterProduct) :=
  if st.fails (StoreOp.masterFindByID id) then Except.error storageError
  else Except.ok (st.masters.find? (fun m => decide (m.ID = id)))

/-- Modelled from the spec: `MasterProductRepository.FindByRegion`, the masters of the
region in catalog order. -/
def Store.masterFindByRegion (st : Store) (region : GoString) :
    Except GoErr (List MasterProduct) :=
  if st.fails (StoreOp.masterFindByRegion region) then Except.error storageError
  else Except.ok (st.masters.filter (fun m => decide (m.Region = region)))

/-- Modelled from the spec: `MasterProductRepository.Create`, a new row with the given
identifier, region, platform, title, price, status and trust score; an identifier already
in use is an error (primary key). -/
def Store.masterCreate (st : Store) (m : MasterProduct) : Option GoErr × Store :=
  if st.fails (StoreOp.masterCreate m.ID) then (some storageError, st)
  else if st.masters.any (fun x => decide (x.ID = m.ID)) then (some storageError, st)
  else (none, { st with masters := st.masters ++
    [{ m with CreateTime := st.clock, UpdateTime := st.clock }] })

/-- The update of one master row: price, status and trust score are taken from the
entity, the update time from the clock of the store. -/
def updateMasterRow (clock : Time) (m row : MasterProduct) : MasterProduct :=
  if row.ID = m.ID then
    { row with Price := m.Price, Status := m.Status, TrustScore := m.TrustScore,
               UpdateTime := clock }
  else row

/-- Modelled from the spec: `MasterProductRepository.Update`, which writes price, status
and trust score of the row with the identifier of the entity. -/
def Store.masterUpdate (st : Store) (m : MasterProduct) : Option GoErr × Store :=
  if st.fails (StoreOp.masterUpdate m.ID) then (some storageError, st)
  else (none, { st with masters := st.masters.map (updateMasterRow st.clock m) })

/-- Modelled from the spec: `CandidateRepository.FindByRegion`. -/
def Store.candidateFindByRegion (st : Store) (region : GoString) :
    Except GoErr (List CandidateItem) :=
  if st.fails (StoreOp.candidateFindByRegion region) then Except.error storageError
  else Except.ok (st.candidates.filter (fun c => decide (c.Region = region)))

/-- Modelled from the spec: `CandidateRepository.ListAll`. -/
def Store.candidateListAll (st : Store) : Except GoErr (List CandidateItem) :=
  if st.fails StoreOp.candidateListAll then Except.error storageError
  else Except.ok st.candidates

/-- Modelled from the spec: `CandidateRepository.Create`, a new row with a fresh
identifier and the group key, region, votes, occurrences, last price, last status, first
and last seen time of the entity. -/
def Store.candidateCreate (st : Store) (c : CandidateItem) : Option GoErr × Store :=
  if st.fails StoreOp.candidateCreate then (some storageError, st)
  else (none, { st with
    candidates := st.candidates ++
      [{ c with ID := st.nextCandidateID, CreateTime := st.clock, UpdateTime := st.clock }],
    nextCandidateID := st.nextCandidateID + 1 })

/-- The update of one candidate row: votes, occurrences, last price, last status and last
seen time are taken from the entity. -/
def updateCandidateRow (clock : Time) (c row : CandidateItem) : CandidateItem :=
  if row.ID = c.ID then
    { row with TitleVotes := c.TitleVotes, TotalOccurrences := c.TotalOccurrences,
               LastPrice := c.LastPrice, LastStatus := c.LastStatus,
               LastSeenTime := c.LastSeenTime, UpdateTime := clock }
  else row

/-- Modelled from the spec: `CandidateRepository.Update`. -/
def Store.candidateUpdate (st : Store) (c : CandidateItem) : Option GoErr × Store :=
  if st.fails (StoreOp.candidateUpdate c.ID) then (some storageError, st)
  else (none, { st with candidates := st.candidates.map (updateCandidateRow st.clock c) })

/-- Go `candidateRepository.DeleteByIDs`: the identifiers are deleted one at a time, and
the first failure stops the loop. -/
def Store.candidateDeleteByIDs (st : Store) : List ℤ → Option GoErr × Store
  | [] => (none, st)
  | id :: ids =>
    if st.fails (StoreOp.candidateDelete id) then (some storageError, st)
    else Store.candidateDeleteByIDs
      { st with candidates := st.candidates.filter (fun c => decide (c.ID ≠ id)) } ids

/-- Modelled from the spec: `TrendRepository.Upsert`, one row per activity and record
date, the latest write winning. -/
def Store.trendUpsert (st : Store) (t : PriceTrend) : Option GoErr × Store :=
  if st.fails (StoreOp.trendUpsert t.ActivityID) then (some storageError, st)
  else
    let others := st.trends.filter (fun x =>
      decide (¬ (x.ActivityID = t.ActivityID ∧ x.RecordDate = t.RecordDate)))
    (none, { st with trends := others ++ [t] })

/-! ## `DataCleaningService` -/

/-- Go `DataCleaningService`.  The master and candidate repositories are the `Store`;
`hasTrendRepo` says whether `trendRepo` is non-nil. -/
structure DataCleaningService where
  hasTrendRepo : Bool
  priceValidator : PriceValidator
  titleCleaner : TitleCleaner
  deriving DecidableEq

/-- Go `NewDataCleaningService`. -/
def NewDataCleaningService (hasTrendRepo : Bool) : DataCleaningService :=
  { hasTrendRepo := hasTrendRepo, priceValidator := NewPriceValidator,
    titleCleaner := NewTitleCleaner }

/-- The string "DT". -/
def strDT : GoString := [0x44, 0x54]

/-- The string "DT生活精选" (UTF-8). -/
def strShopName : GoString :=
  [0x44, 0x54, 0xE7, 0x94, 0x9F, 0xE6, 0xB4, 0xBB, 0xE7, 0xB2, 0xBE, 0xE9, 0x80, 0x89]

/-- The string "探探糖" (UTF-8). -/
def strDefaultPlatform : GoString := [0xE6, 0x8E, 0xA2, 0xE6, 0x8E, 0xA2, 0xE7, 0xB3, 0x96]

/-- Go `DataCleaningService.recordPriceTrend`: errors are logged, never returned. -/
def DataCleaningService.recordPriceTrend (s : DataCleaningService) (lib : Library)
    (now : Time) (activityID : GoString) (price : F64) (st : Store) : Store :=
  if s.hasTrendRepo = false then st
  else
    match NewPriceTrend activityID price (lib.truncateToDay now) now with
    | Except.error _ => st
    | Except.ok trend => (st.trendUpsert trend).2

/-- Go `DataCleaningService.handleMasterMatch`: the returned DTO and error, and the store
after the call. -/
def DataCleaningService.handleMasterMatch (s : DataCleaningService) (master : MasterProduct)
    (price : F64) (status : ℤ) (now : Time) (st : Store) :
    (Option PlatformProductDTO × Option GoErr) × Store :=
  let validated := s.priceValidator.ValidateUpdate master.Price price master.UpdateTime now
  match validated.2 with
  | some _ => ((none, none), st)
  | none =>
    let finalPrice := validated.1
    let master := MasterProduct.IncrementTrustScore
      { master with Price := finalPrice, Status := status }
    match st.masterUpdate master with
    | (some err, st1) => ((none, some (GoErr.wrap "update master" err)), st1)
    | (none, st1) =>
      ((some
        { ActivityID := master.ID, Platform := strDT, Region := master.Region,
          Title := master.StandardTitle, ShopName := strShopName, OriginalPrice := price,
          CurrentPrice := finalPrice, SalesStatus := status,
          ActivityCreateTime := master.UpdateTime }, none), st1)

/-- The loop of `handleCandidateLogic` over the candidates of the region: the result of
the `return` in its body, or `none` when the loop ends without returning. -/
def candidateScan (s : DataCleaningService) (rawTitle cleanKey : GoString) (item : DTInputDTO)
    (now : Time) (st : Store) : List CandidateItem → Option (Option GoErr × Store)
  | [] => none
  | candidate :: rest =>
    if s.titleCleaner.IsHighSimilarity cleanKey candidate.GroupKey = true then
      let voted := (candidate.AddTitleVote rawTitle).1
      let seen := voted.UpdateLastSeen item.Price item.Status now
      some (st.candidateUpdate seen)
    else candidateScan s rawTitle cleanKey item now st rest

/-- Go `DataCleaningService.handleCandidateLogic`. -/
def DataCleaningService.handleCandidateLogic (s : DataCleaningService)
    (region rawTitle cleanKey : GoString) (item : DTInputDTO) (now : Time) (st : Store) :
    Option GoErr × Store :=
  if rawTitle = [] then (some (GoErr.new "empty title"), st)
  else if item.Price < F64.fin 0 then (some (GoErr.new "invalid price"), st)
  else
    match st.candidateFindByRegion region with
    | Except.error err => (some err, st)
    | Except.ok candidates =>
      match candidateScan s rawTitle cleanKey item now st candidates with
      | some result => result
      | none =>
        st.candidateCreate
          { ID := 0, GroupKey := cleanKey, Region := region, TitleVotes := [(rawTitle, 1)],
            TotalOccurrences := 1, LastPrice := item.Price, LastStatus := item.Status,
            FirstSeenTime := now, LastSeenTime := now, CreateTime := 0, UpdateTime := 0 }

/-- Strategy A of `ProcessIncomingItem`: the master at which the first loop returns. -/
def strategyA (s : DataCleaningService) (rawTitle : GoString) :
    List MasterProduct → Option MasterProduct
  | [] => none
  | master :: rest =>
    if s.titleCleaner.IsHighSimilarity rawTitle master.StandardTitle = true then some master
    else strategyA s rawTitle rest

/-- Strategy B of `ProcessIncomingItem`: the master at which the second loop returns. -/
def strategyB (s : DataCleaningService) (rawTitle : GoString) (price : F64) :
    List MasterProduct → Option MasterProduct
  | [] => none
  | master :: rest =>
    if (s.titleCleaner.IsMidSimilarity rawTitle master.StandardTitle &&
        s.titleCleaner.IsPriceMatch price master.Price) = true then some master
    else strategyB s rawTitle price rest

/-- Go `DataCleaningService.ProcessIncomingItem`; `item` is `none` for a nil pointer and
`now` is the value of `time.Now()` during the call. -/
def DataCleaningService.ProcessIncomingItem (s : DataCleaningService) (lib : Library)
    (item : Option DTInputDTO) (region : GoString) (now : Time) (st : Store) :
    (Option PlatformProductDTO × Option GoErr) × Store :=
  match item with
  | none => ((none, some (GoErr.new "item cannot be nil")), st)
  | some item =>
    let rawTitle := item.Title
    let cleanKey := s.titleCleaner.CleanTitleForID lib rawTitle
    match st.masterFindByRegion region with
    | Except.error err => ((none, some (GoErr.wrap "find masters" err)), st)
    | Except.ok masters =>
      match strategyA s rawTitle masters with
      | some master => s.handleMasterMatch master item.Price item.Status now st
      | none =>
        match strategyB s rawTitle item.Price masters with
        | some master => s.handleMasterMatch master item.Price item.Status now st
        | none =>
          match s.handleCandidateLogic region rawTitle cleanKey item now st with
          | (some err, st1) => ((none, some (GoErr.wrap "handle candidate" err)), st1)
          | (none, st1) => ((none, none), st1)

/-- The result map of `PromoteCandidates`, a Go `map[string][]*PlatformProductDTO`: its
entries with pairwise distinct regions. -/
abbrev PromotedData := List (GoString × List PlatformProductDTO)

/-- Go `promotedData[region] = append(promotedData[region], dto)`. -/
def PromotedData.add (pd : PromotedData) (region : GoString) (dto : PlatformProductDTO) :
    PromotedData :=
  if pd.any (fun e => e.1 = region) then
    pd.map (fun e => if e.1 = region then (e.1, e.2 ++ [dto]) else e)
  else pd ++ [(region, [dto])]

/-- The number of DTOs of a result map, over all regions. -/
def PromotedData.count (pd : PromotedData) : ℕ := (pd.map (fun e => e.2.length)).sum

/-- The DTO `PromoteCandidates` builds from a master. -/
def promotedDTO (master : MasterProduct) : PlatformProductDTO :=
  { ActivityID := master.ID, Platform := strDT, Region := master.Region,
    Title := master.StandardTitle, ShopName := strShopName, OriginalPrice := master.Price,
    CurrentPrice := master.Price, SalesStatus := master.Status,
    ActivityCreateTime := master.UpdateTime }

/-- The loop of `PromoteCandidates` from its iteration `i` on; `clock i` is the value of
`time.Now()` during iteration `i`.  The result is the error of an early `return`, or the
result map and the identifiers to delete, together with the store. -/
def promoteLoop (s : DataCleaningService) (lib : Library) (clock : ℕ → Time) :
    List CandidateItem → ℕ → Store → PromotedData → List ℤ →
      Except GoErr (PromotedData × List ℤ) × Store
  | [], _, st, promotedData, toDeleteIDs => (Except.ok (promotedData, toDeleteIDs), st)
  | candidate :: rest, i, st, promotedData, toDeleteIDs =>
    if s.titleCleaner.ShouldPromote candidate.TotalOccurrences = false then
      promoteLoop s lib clock rest (i + 1) st promotedData toDeleteIDs
    else
      let winnerTitle := s.titleCleaner.ElectStandardTitle
        (lib.rangeVotes candidate.ID candidate.TitleVotes)
      if winnerTitle = [] then
        promoteLoop s lib clock rest (i + 1) st promotedData toDeleteIDs
      else
        let uniqueID := s.titleCleaner.GenerateID lib strDT winnerTitle
        match st.masterFindByID uniqueID with
        | Except.error err => (Except.error (GoErr.wrap "find master" err), st)
        | Except.ok none =>
          let master : MasterProduct :=
            { ID := uniqueID, Region := candidate.Region, Platform := strDefaultPlatform,
              StandardTitle := winnerTitle, Price := candidate.LastPrice,
              Status := candidate.LastStatus, TrustScore := candidate.TotalOccurrences,
              CreateTime := 0, UpdateTime := 0 }
          match st.masterCreate master with
          | (some err, st1) => (Except.error (GoErr.wrap "create master" err), st1)
          | (none, st1) =>
            let st2 := s.recordPriceTrend lib (clock i) master.ID master.Price st1
            promoteLoop s lib clock rest (i + 1) st2
              (promotedData.add candidate.Region (promotedDTO master))
              (toDeleteIDs ++ [candidate.ID])
        | Except.ok (some found) =>
          let oldPrice := found.Price
          let validated := s.priceValidator.ValidateUpdate found.Price candidate.LastPrice
            found.UpdateTime (clock i)
          let finalPrice := match validated.2 with
            | some _ => found.Price
            | none => validated.1
          let master := { found with Price := finalPrice, Status := candidate.LastStatus }
          match st.masterUpdate master with
          | (some err, st1) => (Except.error (GoErr.wrap "update master" err), st1)
          | (none, st1) =>
            let st2 :=
              if F64.beq finalPrice oldPrice = false then
                s.recordPriceTrend lib (clock i) master.ID finalPrice st1
              else st1
            promoteLoop s lib clock rest (i + 1) st2
              (promotedData.add candidate.Region (promotedDTO master))
              (toDeleteIDs ++ [candidate.ID])

/-- The body of the loop of `PromoteCandidates` for one candidate, `now` being the value
of `time.Now()` during the iteration: the error of an early `return`, or the result map
and the identifiers to delete with which the loop goes on, together with the store. -/
def promoteStep (s : DataCleaningService) (lib : Library) (now : Time)
    (candidate : CandidateItem) (st : Store) (promotedData : PromotedData)
    (toDeleteIDs : List ℤ) : Except GoErr (PromotedData × List ℤ) × Store :=
  if s.titleCleaner.ShouldPromote candidate.TotalOccurrences = false then
    (Except.ok (promotedData, toDeleteIDs), st)
  else
    let winnerTitle := s.titleCleaner.ElectStandardTitle
      (lib.rangeVotes candidate.ID candidate.TitleVotes)
    if winnerTitle = [] then
      (Except.ok (promotedData, toDeleteIDs), st)
    else
      let uniqueID := s.titleCleaner.GenerateID lib strDT winnerTitle
      match st.masterFindByID uniqueID with
      | Except.error err => (Except.error (GoErr.wrap "find master" err), st)
      | Except.ok none =>
        let master : MasterProduct :=
          { ID := uniqueID, Region := candidate.Region, Platform := strDefaultPlatform,
            StandardTitle := winnerTitle, Price := candidate.LastPrice,
            Status := candidate.LastStatus, TrustScore := candidate.TotalOccurrences,
            CreateTime := 0, UpdateTime := 0 }
        match st.masterCreate master with
        | (some err, st1) => (Except.error (GoErr.wrap "create master" err), st1)
        | (none, st1) =>
          (Except.ok (promotedData.add candidate.Region (promotedDTO master),
              toDeleteIDs ++ [candidate.ID]),
            s.recordPriceTrend lib now master.ID master.Price st1)
      | Except.ok (some found) =>
        let oldPrice := found.Price
        let validated := s.priceValidator.ValidateUpdate found.Price candidate.LastPrice
          found.UpdateTime now
        let finalPrice := match validated.2 with
          | some _ => found.Price
          | none => validated.1
        let master := { found with Price := finalPrice, Status := candidate.LastStatus }
        match st.masterUpdate master with
        | (some err, st1) => (Except.error (GoErr.wrap "update master" err), st1)
        | (none, st1) =>
          (Except.ok (promotedData.add candidate.Region (promotedDTO master),
              toDeleteIDs ++ [candidate.ID]),
            if F64.beq finalPrice oldPrice = false then
              s.recordPriceTrend lib now master.ID finalPrice st1
            else st1)

/-- Go `DataCleaningService.PromoteCandidates`. -/
def DataCleaningService.PromoteCandidates (s : DataCleaningService) (lib : Library)
    (clock : ℕ → Time) (st : Store) : (Option PromotedData × Option GoErr) × Store :=
  match st.candidateListAll with
  | Except.error err => ((none, some (GoErr.wrap "list candidates" err)), st)
  | Except.ok candidates =>
    match promoteLoop s lib clock candidates 0 st [] [] with
    | (Except.error err, st1) => ((none, some err), st1)
    | (Except.ok (promotedData, toDeleteIDs), st1) =>
      if toDeleteIDs.length > 0 then
        match st1.candidateDeleteByIDs toDeleteIDs with
        | (some err, st2) => ((none, some (GoErr.wrap "delete candidates" err)), st2)
        | (none, st2) => ((some promotedData, none), st2)
      else ((some promotedData, none), st1)

/-! ## Notions used to state the claims about the service -/

/-- The element `x` is the first element of the list `l`, in list order, that satisfies
`p`. -/
def IsFirst {α : Type} (p : α → Bool) (l : List α) (x : α) : Prop :=
  ∃ pre post, l = pre ++ x :: post ∧ p x = true ∧ ∀ y ∈ pre, p y = false

/-- The master `m` is the first of `masters` whose standard title is High-similar to the
title of the item. -/
def MatchedByTitle (s : DataCleaningService) (item : DTInputDTO) (masters : List MasterProduct)
    (m : MasterProduct) : Prop :=
  IsFirst (fun x => s.titleCleaner.IsHighSimilarity item.Title x.StandardTitle) masters m

/-- No master is High-similar to the title of the item, and `m` is the first of `masters`
whose standard title is Mid-similar to it and whose price matches the price of the item. -/
def MatchedByTitleAndPrice (s : DataCleaningService) (item : DTInputDTO)
    (masters : List MasterProduct) (m : MasterProduct) : Prop :=
  (∀ y ∈ masters, s.titleCleaner.IsHighSimilarity item.Title y.StandardTitle = false) ∧
    IsFirst (fun x => s.titleCleaner.IsMidSimilarity item.Title x.StandardTitle &&
      s.titleCleaner.IsPriceMatch item.Price x.Price) masters m

/-- The primary keys of the store: no two masters and no two candidates share an
identifier. -/
def Store.WellFormed (st : Store) : Prop :=
  (st.masters.map (fun m => m.ID)).Nodup ∧ (st.candidates.map (fun c => c.ID)).Nodup

/-- A succeeding store: no operation returns a storage error. -/
def Store.Succeeds (st : Store) : Prop := ∀ op, st.fails op = false

/-- A candidate is eligible for promotion: its occurrences reach the promotion threshold
and the title elected from its votes is not empty.  Whether the elected title is empty
does not depend on the order in which the votes are visited
(`electStandardTitle_eq_nil_perm`). -/
def Eligible (s : DataCleaningService) (c : CandidateItem) : Bool :=
  decide (s.titleCleaner.promotionThreshold ≤ c.TotalOccurrences) &&
    decide (s.titleCleaner.ElectStandardTitle c.TitleVotes ≠ [])

/-- The regions of a result map are pairwise distinct. -/
def PromotedData.WellFormed (pd : PromotedData) : Prop := (pd.map Prod.fst).Nodup

/-- The title `PromoteCandidates` elects for a candidate: `ElectStandardTitle` on its
votes, in the order in which the `range` visits them. -/
def electedTitle (s : DataCleaningService) (lib : Library) (c : CandidateItem) : GoString :=
  s.titleCleaner.ElectStandardTitle (lib.rangeVotes c.ID c.TitleVotes)

/-- The identifier `PromoteCandidates` derives for a candidate: `GenerateID("DT", ·)` of
the title elected from its votes. -/
def derivedID (s : DataCleaningService) (lib : Library) (c : CandidateItem) : GoString :=
  s.titleCleaner.GenerateID lib strDT (electedTitle s lib c)

/-- The master `PromoteCandidates` builds for a candidate whose derived identifier names
no master. -/
def newMasterOf (s : DataCleaningService) (lib : Library) (c : CandidateItem) :
    MasterProduct :=
  { ID := derivedID s lib c, Region := c.Region, Platform := strDefaultPlatform,
    StandardTitle := electedTitle s lib c, Price := c.LastPrice,
    Status := c.LastStatus, TrustScore := c.TotalOccurrences, CreateTime := 0,
    UpdateTime := 0 }

/-- The price the duplicate-promotion path writes to the master it found: the validated
price, or the stored price when `ValidateUpdate` returns an error. -/
def finalPriceOf (s : DataCleaningService) (found : MasterProduct) (c : CandidateItem)
    (now : Time) : F64 :=
  if (s.priceValidator.ValidateUpdate found.Price c.LastPrice found.UpdateTime now).2 = none
  then (s.priceValidator.ValidateUpdate found.Price c.LastPrice found.UpdateTime now).1
  else found.Price

/-- The candidate row the fold creates for an observation that matches no candidate of
the region. -/
def seededCandidate (s : DataCleaningService) (lib : Library) (region : GoString)
    (st : Store) (item : DTInputDTO) (now : Time) : CandidateItem :=
  { ID := st.nextCandidateID, GroupKey := s.titleCleaner.CleanTitleForID lib item.Title,
    Region := region, TitleVotes := [(item.Title, 1)], TotalOccurrences := 1,
    LastPrice := item.Price, LastStatus := item.Status, FirstSeenTime := now,
    LastSeenTime := now, CreateTime := st.clock, UpdateTime := st.clock }

/-- The candidate row after the fold has added an observation to it. -/
def foldedInto (c : CandidateItem) (item : DTInputDTO) (now clock : Time) : CandidateItem :=
  { c with TitleVotes := c.TitleVotes.incr item.Title,
           TotalOccurrences := wrapInt (c.TotalOccurrences + 1),
           LastPrice := item.Price, LastStatus := item.Status, LastSeenTime := now,
           UpdateTime := clock }

/-- The provenance of the price `price` of a master with the identifier `id` in the loop
of `PromoteCandidates` over the pool `l`, started in the store `st`: it is the price of a
master of `st` with that identifier; or iteration `i` of the loop, reached without an
error, found the master `found` under the identifier derived for its eligible candidate,
and `ValidateUpdate` returned the price without error for the stored price and update
time of `found`, the last price of the candidate and the time of the iteration; or
iteration `i` found no master under the derived identifier and created one with the last
price of its candidate. -/
def PriceProvenance (s : DataCleaningService) (lib : Library) (clock : ℕ → Time)
    (st : Store) (l : List CandidateItem) (id : GoString) (price : F64) : Prop :=
  (∃ row0 ∈ st.masters, row0.ID = id ∧ row0.Price = price) ∨
  (∃ (i : ℕ) (c : CandidateItem) (found : MasterProduct) (pd : PromotedData)
      (ids : List ℤ) (sti : Store),
    l[i]? = some c ∧ Eligible s c = true ∧
    promoteLoop s lib clock (l.take i) 0 st [] [] = (Except.ok (pd, ids), sti) ∧
    sti.masterFindByID (derivedID s lib c) = Except.ok (some found) ∧ found.ID = id ∧
    s.priceValidator.ValidateUpdate found.Price c.LastPrice found.UpdateTime (clock i) =
      (price, none)) ∨
  (∃ (i : ℕ) (c : CandidateItem) (pd : PromotedData) (ids : List ℤ) (sti : Store),
    l[i]? = some c ∧ Eligible s c = true ∧
    promoteLoop s lib clock (l.take i) 0 st [] [] = (Except.ok (pd, ids), sti) ∧
    sti.masterFindByID (derivedID s lib c) = Except.ok none ∧ derivedID s lib c = id ∧
    c.LastPrice = price)

/-! ## Concrete values for the witnesses -/

/-- A library instance: the table `unicode.Han` for the Han table, a constant digest, UTC
midnight for the local midnight, and the votes visited in the order of the list. -/
def exLibrary : Library :=
  { isHan := unicodeHan,
    md5Sum := fun _ => List.replicate 16 0,
    truncateToDay := fun t => Time.Truncate t (24 * Hour),
    rangeVotes := fun _ m => m,
    rangeVotes_perm := fun _ m => List.Perm.refl m }

/-- A master "ABCD" of the region "r", priced 100, last updated at instant 1000. -/
def exMaster : MasterProduct :=
  { ID := [0x6D], Region := [0x72], Platform := strDefaultPlatform,
    StandardTitle := [0x41, 0x42, 0x43, 0x44], Price := F64.fin 100, Status := 1,
    TrustScore := 3, CreateTime := 1000, UpdateTime := 1000 }

/-- A candidate "ABCD" of the region "r", seen twice. -/
def exCandidate : CandidateItem :=
  { ID := 1, GroupKey := [0x41, 0x42, 0x43, 0x44], Region := [0x72],
    TitleVotes := [([0x41, 0x42, 0x43, 0x44], 2)], TotalOccurrences := 2,
    LastPrice := F64.fin 100, LastStatus := 1, FirstSeenTime := 1000, LastSeenTime := 1000,
    CreateTime := 1000, UpdateTime := 1000 }

/-- A succeeding store with the given masters and candidates. -/
def exStore (masters : List MasterProduct) (candidates : List CandidateItem) : Store :=
  { masters := masters, candidates := candidates, trends := [], nextCandidateID := 10,
    clock := 2000, fails := fun _ => false }

/-- An observation "ABCD" in the region "r" at the given price. -/
def exItem (price : F64) : DTInputDTO :=
  { Title := [0x41, 0x42, 0x43, 0x44], Price := price, Status := 1, CrawlTime := 0,
    Region := [0x72] }

/-- A candidate "ABCD" of the region "r", seen three times, last at the price 90. -/
def exCandidate3 : CandidateItem :=
  { exCandidate with TitleVotes := [([0x41, 0x42, 0x43, 0x44], 3)], TotalOccurrences := 3,
                     LastPrice := F64.fin 90 }

/-- The example master under the identifier that promotion derives from the title
"ABCD". -/
def exDupMaster : MasterProduct :=
  { exMaster with ID := NewTitleCleaner.GenerateID exLibrary strDT [0x41, 0x42, 0x43, 0x44] }

/-- The master of the derived identifier of "ABCD" with the stored price NaN. -/
def exNaNMaster : MasterProduct := { exDupMaster with Price := F64.nan }

/-- A library instance whose digest tells short strings apart: the first 16 bytes of the
input padded with zeros. -/
def exLibrary2 : Library :=
  { exLibrary with md5Sum := fun x => (x ++ List.replicate 16 0).take 16 }

/-- The library instance `exLibrary2` with the votes visited in the reverse order of the
list. -/
def exLibraryRev : Library :=
  { exLibrary2 with rangeVotes := fun _ m => m.reverse,
                    rangeVotes_perm := fun _ m => List.reverse_perm m }

/-- A candidate "WXYZ" of the region "r", seen three times. -/
def exCandidateW : CandidateItem :=
  { exCandidate3 with ID := 2, GroupKey := [0x57, 0x58, 0x59, 0x5A],
                      TitleVotes := [([0x57, 0x58, 0x59, 0x5A], 3)] }

/-- A store with the candidates "ABCD" and "WXYZ" and no master, in which the lookup of
the identifier derived for "ABCD" fails and every other operation succeeds. -/
def exFailingStore : Store :=
  { exStore [] [exCandidate3, exCandidateW] with
    fails := fun op => decide (op = StoreOp.masterFindByID
      (derivedID (NewDataCleaningService true) exLibrary2 exCandidate3)) }

/-- The master of the derived identifier of "ABCD", in the region "q". -/
def exOtherRegionMaster : MasterProduct := { exDupMaster with Region := [0x71] }

/-- An observation in the region "r" with the given title, at the price 10. -/
def exTitled (title : GoString) : DTInputDTO :=
  { Title := title, Price := F64.fin 10, Status := 1, CrawlTime := 0, Region := [0x72] }

/-- The title "A!!!!!!!". -/
def exTitleA : GoString := [0x41, 0x21, 0x21, 0x21, 0x21, 0x21, 0x21, 0x21]

/-- The title "B!!!!!!!". -/
def exTitleB : GoString := [0x42, 0x21, 0x21, 0x21, 0x21, 0x21, 0x21, 0x21]

/-- The title "C!!!!!!!". -/
def exTitleC : GoString := [0x43, 0x21, 0x21, 0x21, 0x21, 0x21, 0x21, 0x21]

/-- The title "ABCDEFGH". -/
def exTitleH : GoString := [0x41, 0x42, 0x43, 0x44, 0x45, 0x46, 0x47, 0x48]

/-- The title "ABCDEFGX". -/
def exTitleX : GoString := [0x41, 0x42, 0x43, 0x44, 0x45, 0x46, 0x47, 0x58]

/-- The example candidate with `MaxInt64` votes for "ABCD" and `MaxInt64` occurrences. -/
def exCandidateMax : CandidateItem :=
  { exCandidate with TitleVotes := [([0x41, 0x42, 0x43, 0x44], MaxInt64)],
                     TotalOccurrences := MaxInt64 }

/-- The example master with the trust score `MaxInt64`. -/
def exMasterMax : MasterProduct := { exMaster with TrustScore := MaxInt64 }

/-- The title "ABCDEFGY". -/
def exTitleY : GoString := [0x41, 0x42, 0x43, 0x44, 0x45, 0x46, 0x47, 0x59]

/-- A master "ABCX" of the region "r", priced 100. -/
def exMasterHigh : MasterProduct :=
  { exMaster with ID := [0x68], StandardTitle := [0x41, 0x42, 0x43, 0x58] }

/-- A master "ABXY" of the region "r", priced 100.5. -/
def exMasterMid : MasterProduct :=
  { exMaster with ID := [0x70], StandardTitle := [0x41, 0x42, 0x58, 0x59],
                  Price := F64.fin (201 / 2) }

/-- A master "ABXY" of the region "r", priced 200. -/
def exMasterMidFar : MasterProduct :=
  { exMaster with ID := [0x66], StandardTitle := [0x41, 0x42, 0x58, 0x59],
                  Price := F64.fin 200 }

/-- A master "WXYZ" of the region "r", priced 100. -/
def exMasterLow : MasterProduct :=
  { exMaster with ID := [0x6C], StandardTitle := [0x57, 0x58, 0x59, 0x5A] }

/-- A candidate of the region "r" with the group key "WXYZ". -/
def exCandidateLowKey : CandidateItem :=
  { exCandidate with ID := 7, GroupKey := [0x57, 0x58, 0x59, 0x5A],
                     TitleVotes := [([0x57, 0x58, 0x59, 0x5A], 2)] }

/-- A candidate of the region "r" with the group key "ABCX". -/
def exCandidateHighKey : CandidateItem :=
  { exCandidate with ID := 5, GroupKey := [0x41, 0x42, 0x43, 0x58],
                     TitleVotes := [([0x41, 0x42, 0x43, 0x58], 2)] }

/-- The example candidate in the region "q". -/
def exCandidateQ : CandidateItem := { exCandidate with ID := 9, Region := [0x71] }

/-! ## Basic facts about `F64` comparisons and calendar days -/

namespace F64

theorem fin_lt_fin (a b : ℚ) : (fin a < fin b) ↔ a < b := by
  show blt (fin a) (fin b) = true ↔ a < b
  simp [blt]

theorem fin_le_fin (a b : ℚ) : (fin a ≤ fin b) ↔ a ≤ b := by
  show ble (fin a) (fin b) = true ↔ a ≤ b
  simp [ble]

theorem not_lt_nan (a : F64) : ¬ (a < nan) := by
  show ¬ (blt a nan = true)
  cases a <;> simp [blt]

theorem not_nan_lt (a : F64) : ¬ (nan < a) := by
  show ¬ (blt nan a = true)
  simp [blt]

theorem not_le_nan (a : F64) : ¬ (a ≤ nan) := by
  show ¬ (ble a nan = true)
  cases a <;> simp [ble]

theorem not_nan_le (a : F64) : ¬ (nan ≤ a) := by
  show ¬ (ble nan a = true)
  simp [ble]

/-- For floats, `a < b` excludes `b ≤ a`. -/
theorem not_le_of_lt {a b : F64} (h : a < b) : ¬ (b ≤ a) := by
  have h1 : blt a b = true := h
  show ¬ (ble b a = true)
  cases a <;> cases b <;> simp_all [blt, ble]

/-- When neither side is NaN, `¬ a < b` is `b ≤ a`. -/
theorem le_of_not_lt {a b : F64} (ha : a.isNaN = false) (hb : b.isNaN = false)
    (h : ¬ (a < b)) : b ≤ a := by
  have h1 : ¬ (blt a b = true) := h
  show ble b a = true
  cases a <;> cases b <;> simp_all [blt, ble, isNaN]

theorem isFinite_iff (a : F64) : a.isFinite = true ↔ (a.isNaN = false ∧ a.isInf = false) := by
  cases a <;> simp [isFinite, isNaN, isInf]

end F64

theorem day_pos : (0 : ℤ) < 24 * Hour := by decide

/-- Truncating two instants to 24 hours gives the same instant exactly when they
fall on the same UTC calendar day. -/
theorem truncate_eq_iff (a b : Time) :
    Time.Truncate a (24 * Hour) = Time.Truncate b (24 * Hour) ↔ utcDay a = utcDay b := by
  have hd : (24 * Hour : ℤ) ≠ 0 := ne_of_gt day_pos
  have key : ∀ t : ℤ, Time.Truncate t (24 * Hour) = (24 * Hour) * utcDay t := by
    intro t
    unfold Time.Truncate utcDay
    have := Int.emod_add_ediv t (24 * Hour)
    linarith
  rw [key a, key b]
  constructor
  · intro h
    exact mul_left_cancel₀ hd h
  · intro h
    rw [h]

/-! ## The decision list of `PriceValidator.ValidateUpdate` -/

/-- The result of `ValidateUpdate` when one of the prices is NaN. -/
theorem validateUpdate_of_nan (v : PriceValidator) (oldPrice newPrice : F64)
    (lastUpdateTime now : Time) (h : (oldPrice.isNaN || newPrice.isNaN) = true) :
    v.ValidateUpdate oldPrice newPrice lastUpdateTime now =
      (oldPrice, some (errorsNew InvalidInput "price is NaN")) := by
  unfold PriceValidator.ValidateUpdate
  rw [if_pos h]

/-- The result of `ValidateUpdate` when no price is NaN and one of them is infinite. -/
theorem validateUpdate_of_inf (v : PriceValidator) (oldPrice newPrice : F64)
    (lastUpdateTime now : Time) (h1 : (oldPrice.isNaN || newPrice.isNaN) = false)
    (h : (oldPrice.isInf || newPrice.isInf) = true) :
    v.ValidateUpdate oldPrice newPrice lastUpdateTime now =
      (oldPrice, some (errorsNew InvalidInput "price is infinite")) := by
  unfold PriceValidator.ValidateUpdate
  rw [if_neg (by rw [h1]; exact Bool.false_ne_true), if_pos h]

/-- The result of `ValidateUpdate` on finite prices: the decision list of the function with the
input guards discharged and the day test expressed through `utcDay`. -/
theorem validateUpdate_fin (v : PriceValidator) (o n : ℚ) (lastUpdateTime now : Time) :
    v.ValidateUpdate (F64.fin o) (F64.fin n) lastUpdateTime now =
      if n < 0 then
        (F64.fin o, some (errorsNew ErrPriceBelowMin "price is negative"))
      else if utcDay lastUpdateTime ≠ utcDay now then
        if F64.fin n < v.minPrice then
          (F64.fin o, some (errorsNew ErrPriceBelowMin "price below minimum threshold"))
        else (F64.fin n, none)
      else if F64.fin n < v.minPrice then
        (F64.fin o, some (errorsNew ErrPriceBelowMin "price below minimum threshold"))
      else if o ≤ 0 then (F64.fin n, none)
      else if n < o then
        if F64.div (F64.fin n) (F64.fin o) < v.maxDropRatio then
          (F64.fin o, some (errorsNew ErrPriceDropExceeded "price drop exceeded threshold"))
        else (F64.fin n, none)
      else if o < n then
        if 10 ≤ o ∧ v.maxRiseRatio < F64.div (F64.fin n) (F64.fin o) then
          (F64.fin o, some (errorsNew ErrPriceRiseExceeded "price rise exceeded threshold"))
        else (F64.fin n, none)
      else (F64.fin n, none) := by
  unfold PriceValidator.ValidateUpdate
  rw [if_neg (by simp [F64.isNaN]), if_neg (by simp [F64.isInf])]
  by_cases h3 : n < 0
  · rw [if_pos ((F64.fin_lt_fin n 0).2 h3), if_pos h3]
  rw [if_neg (fun h => h3 ((F64.fin_lt_fin n 0).1 h)), if_neg h3]
  dsimp only
  by_cases h4 : utcDay lastUpdateTime = utcDay now
  · rw [if_neg (not_not.2 ((truncate_eq_iff _ _).2 h4)), if_neg (not_not.2 h4)]
    by_cases h5 : F64.fin n < v.minPrice
    · rw [if_pos h5, if_pos h5]
    rw [if_neg h5, if_neg h5]
    by_cases h6 : o ≤ 0
    · rw [if_pos ((F64.fin_le_fin o 0).2 h6), if_pos h6]
    rw [if_neg (fun h => h6 ((F64.fin_le_fin o 0).1 h)), if_neg h6]
    by_cases h7 : n < o
    · have h8 : ¬ (o < n) := not_lt.2 (le_of_lt h7)
      rw [if_pos ((F64.fin_lt_fin n o).2 h7), if_pos h7,
        if_neg (fun h => h8 ((F64.fin_lt_fin o n).1 h))]
    rw [if_neg (fun h => h7 ((F64.fin_lt_fin n o).1 h)), if_neg h7]
    by_cases h8 : o < n
    · rw [if_pos ((F64.fin_lt_fin o n).2 h8), if_pos h8]
      by_cases h9 : (10 : ℚ) ≤ o
      · rw [if_pos ((F64.fin_le_fin 10 o).2 h9)]
        by_cases h10 : v.maxRiseRatio < F64.div (F64.fin n) (F64.fin o)
        · rw [if_pos h10, if_pos ⟨h9, h10⟩]
        · rw [if_neg h10, if_neg (fun h => h10 h.2)]
      · rw [if_neg (fun h => h9 ((F64.fin_le_fin 10 o).1 h)), if_neg (fun h => h9 h.1)]
    · rw [if_neg (fun h => h8 ((F64.fin_lt_fin o n).1 h)), if_neg h8]
  · rw [if_pos (fun h => h4 ((truncate_eq_iff _ _).1 h)), if_pos h4]

namespace F64

/-- Bounds on a quotient of positive naturals by the bit lengths of its terms. -/
theorem log2_quotient_bounds (n d : ℕ) (hn0 : n ≠ 0) (hd0 : d ≠ 0) :
    (2 : ℚ) ^ ((Nat.log2 n : ℤ) - (Nat.log2 d : ℤ) - 1) ≤ (n : ℚ) / (d : ℚ) ∧
      (n : ℚ) / (d : ℚ) < (2 : ℚ) ^ ((Nat.log2 n : ℤ) - (Nat.log2 d : ℤ) + 1) := by
  have hdpos : (0 : ℚ) < (d : ℚ) := by exact_mod_cast Nat.pos_of_ne_zero hd0
  have ha1 : ((2 : ℚ) ^ (Nat.log2 n)) ≤ (n : ℚ) := by
    exact_mod_cast Nat.log2_self_le hn0
  have ha2 : (n : ℚ) < (2 : ℚ) ^ (Nat.log2 n + 1) := by
    exact_mod_cast (Nat.lt_log2_self : n < 2 ^ (Nat.log2 n + 1))
  have hb1 : ((2 : ℚ) ^ (Nat.log2 d)) ≤ (d : ℚ) := by
    exact_mod_cast Nat.log2_self_le hd0
  have hb2 : (d : ℚ) < (2 : ℚ) ^ (Nat.log2 d + 1) := by
    exact_mod_cast (Nat.lt_log2_self : d < 2 ^ (Nat.log2 d + 1))
  have h2 : (2 : ℚ) ≠ 0 := two_ne_zero
  have hpa : (0 : ℚ) < (2 : ℚ) ^ (Nat.log2 n) := by positivity
  have hpb : (0 : ℚ) < (2 : ℚ) ^ (Nat.log2 d) := by positivity
  have hk : (2 : ℚ) ^ ((Nat.log2 n : ℤ) - (Nat.log2 d : ℤ)) =
      (2 : ℚ) ^ (Nat.log2 n) / (2 : ℚ) ^ (Nat.log2 d) := by
    rw [zpow_sub₀ h2, zpow_natCast, zpow_natCast]
  constructor
  · rw [zpow_sub_one₀ h2, hk, le_div_iff₀ hdpos]
    calc (2 : ℚ) ^ (Nat.log2 n) / (2 : ℚ) ^ (Nat.log2 d) * 2⁻¹ * (d : ℚ)
        ≤ (2 : ℚ) ^ (Nat.log2 n) / (2 : ℚ) ^ (Nat.log2 d) * 2⁻¹
            * (2 : ℚ) ^ (Nat.log2 d + 1) := by
          apply mul_le_mul_of_nonneg_left (le_of_lt hb2)
          positivity
      _ = (2 : ℚ) ^ (Nat.log2 n) := by
          rw [pow_succ]; field_simp
      _ ≤ (n : ℚ) := ha1
  · rw [zpow_add_one₀ h2, hk, div_lt_iff₀ hdpos]
    calc (n : ℚ) < (2 : ℚ) ^ (Nat.log2 n + 1) := ha2
      _ = (2 : ℚ) ^ (Nat.log2 n) / (2 : ℚ) ^ (Nat.log2 d) * 2
            * (2 : ℚ) ^ (Nat.log2 d) := by
          rw [pow_succ]; field_simp
      _ ≤ (2 : ℚ) ^ (Nat.log2 n) / (2 : ℚ) ^ (Nat.log2 d) * 2
            * (d : ℚ) := by
          apply mul_le_mul_of_nonneg_left hb1
          positivity

/-- The value `binExp q` is the floor of the binary logarithm of a positive rational. -/
theorem binExp_spec (q : ℚ) (hq : 0 < q) :
    (2 : ℚ) ^ binExp q ≤ q ∧ q < (2 : ℚ) ^ (binExp q + 1) := by
  have hnum : 0 < q.num := Rat.num_pos.2 hq
  have hn0 : q.num.natAbs ≠ 0 := by
    intro h
    have := Int.natAbs_eq_zero.1 h
    omega
  have hqe : (q.num.natAbs : ℚ) / (q.den : ℚ) = q := by
    have h1 : ((q.num.natAbs : ℕ) : ℚ) = (q.num : ℚ) := by
      have h0 : ((q.num.natAbs : ℕ) : ℤ) = q.num := Int.natAbs_of_nonneg (le_of_lt hnum)
      calc ((q.num.natAbs : ℕ) : ℚ) = (((q.num.natAbs : ℕ) : ℤ) : ℚ) := (Int.cast_natCast _).symm
        _ = (q.num : ℚ) := by rw [h0]
    rw [h1]
    exact Rat.num_div_den q
  have hb := log2_quotient_bounds q.num.natAbs q.den hn0 q.den_nz
  rw [hqe] at hb
  unfold binExp
  dsimp only
  by_cases h : (2 : ℚ) ^ ((Nat.log2 q.num.natAbs : ℤ) - (Nat.log2 q.den : ℤ)) ≤ q
  · rw [if_pos h]
    exact ⟨h, hb.2⟩
  · rw [if_neg h]
    refine ⟨hb.1, ?_⟩
    rw [sub_add_cancel]
    exact lt_of_not_le h

/-- The binary exponent is monotone. -/
theorem binExp_mono (q r : ℚ) (hq : 0 < q) (hqr : q ≤ r) : binExp q ≤ binExp r := by
  have h1 := (binExp_spec q hq).1
  have h2 := (binExp_spec r (lt_of_lt_of_le hq hqr)).2
  have h3 : (2 : ℚ) ^ binExp q < (2 : ℚ) ^ (binExp r + 1) :=
    lt_of_le_of_lt (le_trans h1 hqr) h2
  have h4 := (zpow_lt_zpow_iff_right₀ (by norm_num : (1 : ℚ) < 2)).1 h3
  omega

/-- Rounding a natural number to the nearest natural number leaves it unchanged. -/
theorem roundHalfEven_natCast (N : ℕ) : roundHalfEven (N : ℚ) = N := by
  unfold roundHalfEven
  dsimp only
  rw [Nat.floor_natCast, sub_self, if_pos (by norm_num)]

/-- The rounded value is the floor or the floor plus one. -/
theorem roundHalfEven_floor (x : ℚ) :
    roundHalfEven x = ⌊x⌋₊ ∨ roundHalfEven x = ⌊x⌋₊ + 1 := by
  unfold roundHalfEven
  dsimp only
  split_ifs <;> simp

/-- Rounding to the nearest natural number is monotone on the non-negative rationals. -/
theorem roundHalfEven_mono (x y : ℚ) (hxy : x ≤ y) :
    roundHalfEven x ≤ roundHalfEven y := by
  have hfg : ⌊x⌋₊ ≤ ⌊y⌋₊ := Nat.floor_mono hxy
  rcases Nat.lt_or_ge ⌊x⌋₊ ⌊y⌋₊ with hlt | hge
  · rcases roundHalfEven_floor x with h1 | h1 <;> rcases roundHalfEven_floor y with h2 | h2 <;>
      omega
  · have hfe : ⌊x⌋₊ = ⌊y⌋₊ := le_antisymm hfg hge
    unfold roundHalfEven
    dsimp only
    rw [hfe]
    have hr : x - (⌊y⌋₊ : ℚ) ≤ y - (⌊y⌋₊ : ℚ) := by linarith
    split_ifs <;> first | omega | (exfalso; linarith)

/-- A natural upper bound survives rounding. -/
theorem roundHalfEven_le_of_le (x : ℚ) (N : ℕ) (h : x ≤ N) :
    roundHalfEven x ≤ N := by
  have := roundHalfEven_mono x N h
  rwa [roundHalfEven_natCast] at this

/-- A natural lower bound survives rounding. -/
theorem le_roundHalfEven_of_le (x : ℚ) (N : ℕ) (h : (N : ℚ) ≤ x) :
    N ≤ roundHalfEven x := by
  have := roundHalfEven_mono N x h
  rwa [roundHalfEven_natCast] at this

/-- A non-negative integer power of two is a natural number. -/
theorem two_zpow_eq_natCast (z : ℤ) (hz : 0 ≤ z) :
    (2 : ℚ) ^ z = ((2 ^ z.toNat : ℕ) : ℚ) := by
  have h : z = (z.toNat : ℤ) := (Int.toNat_of_nonneg hz).symm
  rw [Nat.cast_pow, Nat.cast_ofNat]
  conv_lhs => rw [h]
  exact zpow_natCast 2 z.toNat

theorem two_zpow_pos (z : ℤ) : (0 : ℚ) < (2 : ℚ) ^ z := by positivity

/-- The unit in the last place is monotone. -/
theorem ulpExp_mono (q r : ℚ) (hq : 0 < q) (hqr : q ≤ r) : ulpExp q ≤ ulpExp r := by
  unfold ulpExp
  have := binExp_mono q r hq hqr
  omega

/-- The rounded magnitude of a positive rational is monotone. -/
theorem roundVal_mono (q r : ℚ) (hq : 0 < q) (hqr : q ≤ r) : roundVal q ≤ roundVal r := by
  have hr : 0 < r := lt_of_lt_of_le hq hqr
  have hu := ulpExp_mono q r hq hqr
  rcases eq_or_lt_of_le hu with heq | hlt
  · unfold roundVal
    rw [← heq]
    apply mul_le_mul_of_nonneg_right _ (le_of_lt (two_zpow_pos _))
    have : q / (2 : ℚ) ^ ulpExp q ≤ r / (2 : ℚ) ^ ulpExp q :=
      div_le_div_of_nonneg_right hqr (le_of_lt (two_zpow_pos _))
    exact_mod_cast roundHalfEven_mono _ _ this
  · -- the two values are separated by the power of two `2 ^ binExp r`
    have hu' : ulpExp r = binExp r - 52 := by
      unfold ulpExp at hlt ⊢
      omega
    have hbq : binExp q + 1 ≤ binExp r := by
      unfold ulpExp at hlt
      omega
    have hq2 : q ≤ (2 : ℚ) ^ binExp r :=
      le_trans (le_of_lt (binExp_spec q hq).2)
        (zpow_le_zpow_right₀ (by norm_num) hbq)
    have hkq : 0 ≤ binExp r - ulpExp q := by
      unfold ulpExp at hlt ⊢
      omega
    have h1 : roundVal q ≤ (2 : ℚ) ^ binExp r := by
      unfold roundVal
      have hdiv : q / (2 : ℚ) ^ ulpExp q ≤ ((2 ^ (binExp r - ulpExp q).toNat : ℕ) : ℚ) := by
        rw [← two_zpow_eq_natCast _ hkq, zpow_sub₀ (two_ne_zero)]
        exact div_le_div_of_nonneg_right hq2 (le_of_lt (two_zpow_pos _))
      have := roundHalfEven_le_of_le _ _ hdiv
      have h' : (roundHalfEven (q / (2 : ℚ) ^ ulpExp q) : ℚ) ≤
          ((2 ^ (binExp r - ulpExp q).toNat : ℕ) : ℚ) := by exact_mod_cast this
      rw [← two_zpow_eq_natCast _ hkq] at h'
      calc (roundHalfEven (q / (2 : ℚ) ^ ulpExp q) : ℚ) * (2 : ℚ) ^ ulpExp q
          ≤ (2 : ℚ) ^ (binExp r - ulpExp q) * (2 : ℚ) ^ ulpExp q :=
            mul_le_mul_of_nonneg_right h' (le_of_lt (two_zpow_pos _))
        _ = (2 : ℚ) ^ binExp r := by
            rw [← zpow_add₀ (two_ne_zero)]; congr 1; ring
    have h2 : (2 : ℚ) ^ binExp r ≤ roundVal r := by
      unfold roundVal
      rw [hu']
      have hdiv : ((2 ^ 52 : ℕ) : ℚ) ≤ r / (2 : ℚ) ^ (binExp r - 52) := by
        rw [le_div_iff₀ (two_zpow_pos _)]
        calc ((2 ^ 52 : ℕ) : ℚ) * (2 : ℚ) ^ (binExp r - 52)
            = (2 : ℚ) ^ (52 : ℤ) * (2 : ℚ) ^ (binExp r - 52) := by norm_num
          _ = (2 : ℚ) ^ binExp r := by
            rw [← zpow_add₀ (two_ne_zero)]; congr 1; ring
          _ ≤ r := (binExp_spec r hr).1
      have := le_roundHalfEven_of_le _ _ hdiv
      have h' : ((2 ^ 52 : ℕ) : ℚ) ≤ (roundHalfEven (r / (2 : ℚ) ^ (binExp r - 52)) : ℚ) := by
        exact_mod_cast this
      calc (2 : ℚ) ^ binExp r = (2 : ℚ) ^ (52 : ℤ) * (2 : ℚ) ^ (binExp r - 52) := by
            rw [← zpow_add₀ (two_ne_zero)]; congr 1; ring
        _ = ((2 ^ 52 : ℕ) : ℚ) * (2 : ℚ) ^ (binExp r - 52) := by norm_num
        _ ≤ _ := mul_le_mul_of_nonneg_right h' (le_of_lt (two_zpow_pos _))
    exact le_trans h1 h2

theorem roundVal_nonneg (q : ℚ) : 0 ≤ roundVal q := by
  unfold roundVal
  exact mul_nonneg (Nat.cast_nonneg _) (le_of_lt (two_zpow_pos _))

/-- A positive dyadic rational with at most 53 significant bits and exponent at least
`-1074` is its own rounded magnitude. -/
theorem roundVal_dyadic (m : ℕ) (e : ℤ) (hm : 0 < m) (hm53 : m < 2 ^ 53) (he : -1074 ≤ e) :
    roundVal ((m : ℚ) * (2 : ℚ) ^ e) = (m : ℚ) * (2 : ℚ) ^ e := by
  have hmq : (0 : ℚ) < (m : ℚ) := by exact_mod_cast hm
  have hq : (0 : ℚ) < (m : ℚ) * (2 : ℚ) ^ e := mul_pos hmq (two_zpow_pos _)
  have hb : binExp ((m : ℚ) * (2 : ℚ) ^ e) < 53 + e := by
    have h1 := (binExp_spec _ hq).1
    have h2 : (m : ℚ) * (2 : ℚ) ^ e < (2 : ℚ) ^ (53 + e) := by
      rw [zpow_add₀ (two_ne_zero)]
      apply mul_lt_mul_of_pos_right _ (two_zpow_pos _)
      have : ((m : ℕ) : ℚ) < ((2 ^ 53 : ℕ) : ℚ) := by exact_mod_cast hm53
      calc (m : ℚ) < ((2 ^ 53 : ℕ) : ℚ) := this
        _ = (2 : ℚ) ^ (53 : ℤ) := by norm_num
    exact (zpow_lt_zpow_iff_right₀ (by norm_num : (1 : ℚ) < 2)).1 (lt_of_le_of_lt h1 h2)
  have hu : 0 ≤ e - ulpExp ((m : ℚ) * (2 : ℚ) ^ e) := by
    unfold ulpExp
    omega
  unfold roundVal
  have hdiv : (m : ℚ) * (2 : ℚ) ^ e / (2 : ℚ) ^ ulpExp ((m : ℚ) * (2 : ℚ) ^ e) =
      ((m * 2 ^ (e - ulpExp ((m : ℚ) * (2 : ℚ) ^ e)).toNat : ℕ) : ℚ) := by
    rw [Nat.cast_mul, ← two_zpow_eq_natCast _ hu, zpow_sub₀ (two_ne_zero)]
    ring
  rw [hdiv, roundHalfEven_natCast, ← hdiv]
  field_simp

/-- Transitivity of `≤` on floats. -/
theorem leTrans {a b c : F64} (hab : a ≤ b) (hbc : b ≤ c) : a ≤ c := by
  have h1 : ble a b = true := hab
  have h2 : ble b c = true := hbc
  show ble a c = true
  cases a <;> cases b <;> cases c <;> simp_all [ble]
  exact le_trans h1 h2

/-- No float is below itself. -/
theorem ltIrrefl (a : F64) : ¬ (a < a) := by
  show ¬ (blt a a = true)
  cases a <;> simp [blt]

/-- Negation reverses `≤`. -/
theorem neg_le_neg64 {a b : F64} (h : a ≤ b) : neg b ≤ neg a := by
  have h1 : ble a b = true := h
  show ble (neg b) (neg a) = true
  cases a <;> cases b <;> simp_all [ble, neg]

/-- Rounding a positive rational gives `+Inf` or a finite non-negative value. -/
theorem roundPos_cases (q : ℚ) :
    roundPos q = posInf ∨ ∃ v : ℚ, 0 ≤ v ∧ roundPos q = fin v := by
  unfold roundPos
  by_cases h : (2 : ℚ) ^ (1024 : ℤ) ≤ roundVal q
  · rw [if_pos h]; exact Or.inl rfl
  · rw [if_neg h]; exact Or.inr ⟨_, roundVal_nonneg q, rfl⟩

/-- Rounding positive rationals is monotone. -/
theorem roundPos_mono (q r : ℚ) (hq : 0 < q) (hqr : q ≤ r) : roundPos q ≤ roundPos r := by
  have hv := roundVal_mono q r hq hqr
  unfold roundPos
  by_cases h2 : (2 : ℚ) ^ (1024 : ℤ) ≤ roundVal r
  · rw [if_pos h2]
    by_cases h1 : (2 : ℚ) ^ (1024 : ℤ) ≤ roundVal q
    · rw [if_pos h1]; rfl
    · rw [if_neg h1]; rfl
  · rw [if_neg h2]
    have h1 : ¬ (2 : ℚ) ^ (1024 : ℤ) ≤ roundVal q := fun h => h2 (le_trans h hv)
    rw [if_neg h1]
    exact (fin_le_fin _ _).2 hv

/-- Rounding to binary64 is monotone. -/
theorem round_mono (q r : ℚ) (hqr : q ≤ r) : round q ≤ round r := by
  unfold round
  rcases lt_trichotomy q 0 with hq | hq | hq
  · rw [if_neg (ne_of_lt hq), if_neg (not_lt.2 (le_of_lt hq))]
    rcases lt_trichotomy r 0 with hr | hr | hr
    · rw [if_neg (ne_of_lt hr), if_neg (not_lt.2 (le_of_lt hr))]
      exact neg_le_neg64 (roundPos_mono (-r) (-q) (by linarith) (by linarith))
    · rw [if_pos hr]
      rcases roundPos_cases (-q) with h | ⟨v, hv, h⟩
      · rw [h]; rfl
      · rw [h]
        show fin (-v) ≤ fin 0
        exact (fin_le_fin _ _).2 (by linarith)
    · rw [if_neg (ne_of_gt hr), if_pos hr]
      rcases roundPos_cases (-q) with h | ⟨v, hv, h⟩ <;>
        rcases roundPos_cases r with h' | ⟨w, hw, h'⟩ <;> rw [h, h']
      · rfl
      · rfl
      · rfl
      · show fin (-v) ≤ fin w
        exact (fin_le_fin _ _).2 (by linarith)
  · rw [if_pos hq]
    have hr : 0 ≤ r := by linarith
    rcases eq_or_lt_of_le hr with hr0 | hrp
    · rw [if_pos hr0.symm]
      exact (fin_le_fin _ _).2 (le_refl _)
    · rw [if_neg (ne_of_gt hrp), if_pos hrp]
      rcases roundPos_cases r with h' | ⟨w, hw, h'⟩ <;> rw [h']
      · rfl
      · exact (fin_le_fin _ _).2 hw
  · have hr : 0 < r := lt_of_lt_of_le hq hqr
    rw [if_neg (ne_of_gt hq), if_pos hq, if_neg (ne_of_gt hr), if_pos hr]
    exact roundPos_mono q r hq hqr

/-- A dyadic rational `m * 2^e` with `m < 2^53`, `e ≥ -1074` and magnitude below
`2^1024` is a binary64 value: rounding returns it unchanged. -/
theorem round_dyadic (m : ℕ) (e : ℤ) (hm53 : m < 2 ^ 53) (he : -1074 ≤ e)
    (hlt : (m : ℚ) * (2 : ℚ) ^ e < (2 : ℚ) ^ (1024 : ℤ)) :
    round ((m : ℚ) * (2 : ℚ) ^ e) = fin ((m : ℚ) * (2 : ℚ) ^ e) := by
  unfold round
  rcases Nat.eq_zero_or_pos m with hm | hm
  · subst hm
    simp
  · have hmq : (0 : ℚ) < (m : ℚ) := by exact_mod_cast hm
    have hq : (0 : ℚ) < (m : ℚ) * (2 : ℚ) ^ e := mul_pos hmq (two_zpow_pos _)
    rw [if_neg (ne_of_gt hq), if_pos hq]
    unfold roundPos
    rw [roundVal_dyadic m e hm hm53 he, if_neg (not_le.2 hlt)]

/-- Every natural number below `2^53` is a binary64 value. -/
theorem round_natCast (n : ℕ) (hn : n < 2 ^ 53) : round (n : ℚ) = fin (n : ℚ) := by
  have h := round_dyadic n 0 hn (by norm_num) (by
    rw [zpow_zero, mul_one]
    have : ((n : ℕ) : ℚ) < ((2 ^ 53 : ℕ) : ℚ) := by exact_mod_cast hn
    calc (n : ℚ) < ((2 ^ 53 : ℕ) : ℚ) := this
      _ ≤ (2 : ℚ) ^ (1024 : ℤ) := by norm_num)
  rwa [zpow_zero, mul_one] at h

theorem round_half : round (1 / 2) = fin (1 / 2) := by
  have h := round_dyadic 1 (-1) (by norm_num) (by norm_num) (by norm_num)
  have e : ((1 : ℕ) : ℚ) * (2 : ℚ) ^ (-1 : ℤ) = 1 / 2 := by norm_num
  rwa [e] at h

/-- For floats, `a ≤ b` excludes `b < a`. -/
theorem not_lt_of_le64 {a b : F64} (h : a ≤ b) : ¬ (b < a) := by
  have h1 : ble a b = true := h
  show ¬ (blt b a = true)
  cases a <;> cases b <;> simp_all [blt, ble]

theorem ltOfLeOfLt {a b c : F64} (hab : a ≤ b) (hbc : b < c) : a < c := by
  have h1 : ble a b = true := hab
  have h2 : blt b c = true := hbc
  show blt a c = true
  cases a <;> cases b <;> cases c <;> simp_all [blt, ble]
  exact lt_of_le_of_lt h1 h2

theorem ltOfLtOfLe {a b c : F64} (hab : a < b) (hbc : b ≤ c) : a < c := by
  have h1 : blt a b = true := hab
  have h2 : ble b c = true := hbc
  show blt a c = true
  cases a <;> cases b <;> cases c <;> simp_all [blt, ble]
  exact lt_of_lt_of_le h1 h2

/-- Division of finite floats with a non-zero divisor rounds the exact quotient. -/
theorem div_fin_fin (a b : ℚ) (hb : b ≠ 0) : div (fin a) (fin b) = round (a / b) := by
  show (if b = 0 then _ else round (a / b)) = _
  rw [if_neg hb]

end F64

/-! ## Claims about `PriceValidator.ValidateUpdate` -/

/-- A property of both branches of a conditional holds of the conditional. -/
theorem ite_ind {α : Type} (P : α → Prop) (c : Prop) [Decidable c] (a b : α)
    (ha : P a) (hb : P b) : P (if c then a else b) := by
  by_cases h : c
  · rw [if_pos h]; exact ha
  · rw [if_neg h]; exact hb

/-- A finite float is `fin q` for some rational `q`. -/
theorem exists_of_isFinite {a : F64} (h : a.isFinite = true) : ∃ q, a = F64.fin q := by
  cases a with
  | fin q => exact ⟨q, rfl⟩
  | nan => simp [F64.isFinite] at h
  | posInf => simp [F64.isFinite] at h
  | negInf => simp [F64.isFinite] at h

/-- C1: for every configuration, prices and instants, `ValidateUpdate` returns either
the new price with no error, or the old price together with an error. -/
theorem validateUpdate_new_or_fallback (v : PriceValidator) (oldPrice newPrice : F64)
    (lastUpdateTime now : Time) :
    v.ValidateUpdate oldPrice newPrice lastUpdateTime now = (newPrice, none) ∨
      ∃ e, v.ValidateUpdate oldPrice newPrice lastUpdateTime now = (oldPrice, some e) := by
  by_cases h1 : (oldPrice.isNaN || newPrice.isNaN) = true
  · exact Or.inr ⟨_, validateUpdate_of_nan v _ _ _ _ h1⟩
  by_cases h2 : (oldPrice.isInf || newPrice.isInf) = true
  · exact Or.inr ⟨_, validateUpdate_of_inf v _ _ _ _ (by simpa using h1) h2⟩
  cases oldPrice with
  | nan => simp [F64.isNaN] at h1
  | posInf => simp [F64.isInf] at h2
  | negInf => simp [F64.isInf] at h2
  | fin o =>
    cases newPrice with
    | nan => simp [F64.isNaN] at h1
    | posInf => simp [F64.isInf] at h2
    | negInf => simp [F64.isInf] at h2
    | fin n =>
      rw [validateUpdate_fin]
      have yes : ∀ e : AppError, (F64.fin o, some e) = (F64.fin n, (none : Option AppError)) ∨
          ∃ e', (F64.fin o, some e) = (F64.fin o, some e') := fun e => Or.inr ⟨e, rfl⟩
      have no : (F64.fin n, (none : Option AppError)) = (F64.fin n, none) ∨
          ∃ e', (F64.fin n, (none : Option AppError)) = (F64.fin o, some e') := Or.inl rfl
      refine ite_ind (fun r => r = (F64.fin n, none) ∨ ∃ e, r = (F64.fin o, some e))
        _ _ _ (yes _) ?_
      refine ite_ind (fun r => r = (F64.fin n, none) ∨ ∃ e, r = (F64.fin o, some e))
        _ _ _ (ite_ind (fun r => r = (F64.fin n, none) ∨ ∃ e, r = (F64.fin o, some e))
        _ _ _ (yes _) no) ?_
      refine ite_ind (fun r => r = (F64.fin n, none) ∨ ∃ e, r = (F64.fin o, some e))
        _ _ _ (yes _) ?_
      refine ite_ind (fun r => r = (F64.fin n, none) ∨ ∃ e, r = (F64.fin o, some e))
        _ _ _ no ?_
      refine ite_ind (fun r => r = (F64.fin n, none) ∨ ∃ e, r = (F64.fin o, some e))
        _ _ _ (ite_ind (fun r => r = (F64.fin n, none) ∨ ∃ e, r = (F64.fin o, some e))
        _ _ _ (yes _) no) ?_
      exact ite_ind (fun r => r = (F64.fin n, none) ∨ ∃ e, r = (F64.fin o, some e))
        _ _ _ (ite_ind (fun r => r = (F64.fin n, none) ∨ ∃ e, r = (F64.fin o, some e))
        _ _ _ (yes _) no) no

/-- The same-day drop rule on finite prices, in the form used by the claims. -/
theorem validateUpdate_drop_aux (v : PriceValidator) (oldPrice newPrice : F64)
    (lastUpdateTime now : Time)
    (hfo : oldPrice.isFinite = true) (hfn : newPrice.isFinite = true)
    (hday : utcDay lastUpdateTime = utcDay now)
    (hold : F64.fin 0 < oldPrice) (hmin : v.minPrice ≤ newPrice)
    (hnew : F64.fin 0 ≤ newPrice) (hlt : newPrice < oldPrice) :
    v.ValidateUpdate oldPrice newPrice lastUpdateTime now =
      if F64.div newPrice oldPrice < v.maxDropRatio then
        (oldPrice, some (errorsNew ErrPriceDropExceeded "price drop exceeded threshold"))
      else (newPrice, none) := by
  obtain ⟨o, rfl⟩ := exists_of_isFinite hfo
  obtain ⟨n, rfl⟩ := exists_of_isFinite hfn
  rw [validateUpdate_fin]
  have h1 : ¬ n < 0 := not_lt.2 ((F64.fin_le_fin 0 n).1 hnew)
  have h2 : ¬ (utcDay lastUpdateTime ≠ utcDay now) := not_not.2 hday
  have h3 : ¬ (F64.fin n < v.minPrice) := F64.not_lt_of_le64 hmin
  have h4 : ¬ o ≤ 0 := not_le.2 ((F64.fin_lt_fin 0 o).1 hold)
  have h5 : n < o := (F64.fin_lt_fin n o).1 hlt
  rw [if_neg h1, if_neg h2, if_neg h3, if_neg h4, if_pos h5]

/-- C2: same-day drop rule. On the same UTC day, with finite prices, `oldPrice > 0`,
`newPrice >= minPrice`, `newPrice >= 0` and `newPrice < oldPrice`, the update is
rejected with `ErrPriceDropExceeded` and the old price when the float quotient
`newPrice / oldPrice` is below `maxDropRatio`, and accepted otherwise; a quotient equal
to `maxDropRatio` is accepted; with the default configuration 110 to 48 is rejected and
100 to 70 is accepted. -/
theorem validateUpdate_sameDay_drop :
    (∀ (v : PriceValidator) (oldPrice newPrice : F64) (lastUpdateTime now : Time),
      oldPrice.isFinite = true → newPrice.isFinite = true →
      utcDay lastUpdateTime = utcDay now →
      F64.fin 0 < oldPrice → v.minPrice ≤ newPrice → F64.fin 0 ≤ newPrice →
      newPrice < oldPrice →
      v.ValidateUpdate oldPrice newPrice lastUpdateTime now =
        if F64.div newPrice oldPrice < v.maxDropRatio then
          (oldPrice, some (errorsNew ErrPriceDropExceeded "price drop exceeded threshold"))
        else (newPrice, none)) ∧
    (∀ (v : PriceValidator) (oldPrice newPrice : F64) (lastUpdateTime now : Time),
      oldPrice.isFinite = true → newPrice.isFinite = true →
      utcDay lastUpdateTime = utcDay now →
      F64.fin 0 < oldPrice → v.minPrice ≤ newPrice → F64.fin 0 ≤ newPrice →
      newPrice < oldPrice → F64.div newPrice oldPrice = v.maxDropRatio →
      v.ValidateUpdate oldPrice newPrice lastUpdateTime now = (newPrice, none)) ∧
    (∀ (lastUpdateTime now : Time), utcDay lastUpdateTime = utcDay now →
      NewPriceValidator.ValidateUpdate (F64.fin 110) (F64.fin 48) lastUpdateTime now =
        (F64.fin 110,
          some (errorsNew ErrPriceDropExceeded "price drop exceeded threshold"))) ∧
    (∀ (lastUpdateTime now : Time), utcDay lastUpdateTime = utcDay now →
      NewPriceValidator.ValidateUpdate (F64.fin 100) (F64.fin 70) lastUpdateTime now =
        (F64.fin 70, none)) := by
  refine ⟨validateUpdate_drop_aux, ?_, ?_, ?_⟩
  · intro v oldPrice newPrice lastUpdateTime now hfo hfn hday hold hmin hnew hlt heq
    rw [validateUpdate_drop_aux v oldPrice newPrice lastUpdateTime now hfo hfn hday hold hmin
      hnew hlt, heq, if_neg (F64.ltIrrefl _)]
  · intro lastUpdateTime now hday
    rw [validateUpdate_drop_aux NewPriceValidator (F64.fin 110) (F64.fin 48) lastUpdateTime now
      rfl rfl hday (by decide) (by decide) (by decide) (by decide)]
    have h1 : F64.div (F64.fin 48) (F64.fin 110) ≤ F64.fin (7 / 16) := by
      rw [F64.div_fin_fin _ _ (by norm_num)]
      have h := F64.round_dyadic 7 (-4) (by norm_num) (by norm_num) (by norm_num)
      have e : ((7 : ℕ) : ℚ) * (2 : ℚ) ^ (-4 : ℤ) = 7 / 16 := by norm_num
      rw [e] at h
      rw [← h]
      exact F64.round_mono _ _ (by norm_num)
    have h2 : F64.fin (7 / 16) < NewPriceValidator.maxDropRatio :=
      (F64.fin_lt_fin _ _).2 (by norm_num)
    rw [if_pos (F64.ltOfLeOfLt h1 h2)]
  · intro lastUpdateTime now hday
    rw [validateUpdate_drop_aux NewPriceValidator (F64.fin 100) (F64.fin 70) lastUpdateTime now
      rfl rfl hday (by decide) (by decide) (by decide) (by decide)]
    have h1 : NewPriceValidator.maxDropRatio ≤ F64.div (F64.fin 70) (F64.fin 100) := by
      rw [F64.div_fin_fin _ _ (by norm_num)]
      show F64.fin (1 / 2) ≤ _
      rw [← F64.round_half]
      exact F64.round_mono _ _ (by norm_num)
    rw [if_neg (F64.not_lt_of_le64 h1)]

/-- Witness for C2: the default validator, 110 to 48 within one day. -/
theorem validateUpdate_sameDay_drop_witness :
    NewPriceValidator.ValidateUpdate (F64.fin 110) (F64.fin 48) 1000 2000 =
      if F64.div (F64.fin 48) (F64.fin 110) < NewPriceValidator.maxDropRatio then
        (F64.fin 110, some (errorsNew ErrPriceDropExceeded "price drop exceeded threshold"))
      else (F64.fin 48, none) :=
  validateUpdate_sameDay_drop.1 NewPriceValidator (F64.fin 110) (F64.fin 48) 1000 2000
    rfl rfl (by decide) (by decide) (by decide) (by decide) (by decide)

/-- The same-day rise rule on finite prices, in the form used by the claims. -/
theorem validateUpdate_rise_aux (v : PriceValidator) (oldPrice newPrice : F64)
    (lastUpdateTime now : Time)
    (hfo : oldPrice.isFinite = true) (hfn : newPrice.isFinite = true)
    (hday : utcDay lastUpdateTime = utcDay now)
    (hold : F64.fin 0 < oldPrice) (hmin : v.minPrice ≤ newPrice)
    (hgt : oldPrice < newPrice) :
    v.ValidateUpdate oldPrice newPrice lastUpdateTime now =
      if F64.fin 10 ≤ oldPrice ∧ v.maxRiseRatio < F64.div newPrice oldPrice then
        (oldPrice, some (errorsNew ErrPriceRiseExceeded "price rise exceeded threshold"))
      else (newPrice, none) := by
  obtain ⟨o, rfl⟩ := exists_of_isFinite hfo
  obtain ⟨n, rfl⟩ := exists_of_isFinite hfn
  rw [validateUpdate_fin]
  have h4' : 0 < o := (F64.fin_lt_fin 0 o).1 hold
  have h5 : o < n := (F64.fin_lt_fin o n).1 hgt
  have h1 : ¬ n < 0 := not_lt.2 (le_of_lt (lt_trans h4' h5))
  have h2 : ¬ (utcDay lastUpdateTime ≠ utcDay now) := not_not.2 hday
  have h3 : ¬ (F64.fin n < v.minPrice) := F64.not_lt_of_le64 hmin
  have h4 : ¬ o ≤ 0 := not_le.2 h4'
  have h6 : ¬ n < o := not_lt.2 (le_of_lt h5)
  rw [if_neg h1, if_neg h2, if_neg h3, if_neg h4, if_neg h6, if_pos h5]
  by_cases hc : (10 : ℚ) ≤ o ∧ v.maxRiseRatio < F64.div (F64.fin n) (F64.fin o)
  · rw [if_pos hc, if_pos ⟨(F64.fin_le_fin 10 o).2 hc.1, hc.2⟩]
  · rw [if_neg hc, if_neg (fun h => hc ⟨(F64.fin_le_fin 10 o).1 h.1, h.2⟩)]

/-- C3: same-day rise rule. On the same UTC day, with finite prices, `oldPrice > 0`,
`newPrice >= minPrice` and `newPrice > oldPrice`, the update is rejected with
`ErrPriceRiseExceeded` and the old price exactly when `oldPrice >= 10` and the float
quotient `newPrice / oldPrice` exceeds `maxRiseRatio`, and accepted in every other case;
with the default configuration 48 to 110 is accepted, 48 to 480 is rejected and 5 to 50 is
accepted. -/
theorem validateUpdate_sameDay_rise :
    (∀ (v : PriceValidator) (oldPrice newPrice : F64) (lastUpdateTime now : Time),
      oldPrice.isFinite = true → newPrice.isFinite = true →
      utcDay lastUpdateTime = utcDay now →
      F64.fin 0 < oldPrice → v.minPrice ≤ newPrice → oldPrice < newPrice →
      v.ValidateUpdate oldPrice newPrice lastUpdateTime now =
        if F64.fin 10 ≤ oldPrice ∧ v.maxRiseRatio < F64.div newPrice oldPrice then
          (oldPrice, some (errorsNew ErrPriceRiseExceeded "price rise exceeded threshold"))
        else (newPrice, none)) ∧
    (∀ (lastUpdateTime now : Time), utcDay lastUpdateTime = utcDay now →
      NewPriceValidator.ValidateUpdate (F64.fin 48) (F64.fin 110) lastUpdateTime now =
        (F64.fin 110, none)) ∧
    (∀ (lastUpdateTime now : Time), utcDay lastUpdateTime = utcDay now →
      NewPriceValidator.ValidateUpdate (F64.fin 48) (F64.fin 480) lastUpdateTime now =
        (F64.fin 48,
          some (errorsNew ErrPriceRiseExceeded "price rise exceeded threshold"))) ∧
    (∀ (lastUpdateTime now : Time), utcDay lastUpdateTime = utcDay now →
      NewPriceValidator.ValidateUpdate (F64.fin 5) (F64.fin 50) lastUpdateTime now =
        (F64.fin 50, none)) := by
  refine ⟨validateUpdate_rise_aux, ?_, ?_, ?_⟩
  · intro lastUpdateTime now hday
    rw [validateUpdate_rise_aux NewPriceValidator (F64.fin 48) (F64.fin 110) lastUpdateTime now
      rfl rfl hday (by decide) (by decide) (by decide)]
    have h1 : F64.div (F64.fin 110) (F64.fin 48) ≤ NewPriceValidator.maxRiseRatio := by
      rw [F64.div_fin_fin _ _ (by norm_num)]
      show _ ≤ F64.fin 5
      have h := F64.round_natCast 5 (by norm_num)
      rw [Nat.cast_ofNat] at h
      rw [← h]
      exact F64.round_mono _ _ (by norm_num)
    rw [if_neg (fun h => F64.not_lt_of_le64 h1 h.2)]
  · intro lastUpdateTime now hday
    rw [validateUpdate_rise_aux NewPriceValidator (F64.fin 48) (F64.fin 480) lastUpdateTime now
      rfl rfl hday (by decide) (by decide) (by decide)]
    have h1 : F64.div (F64.fin 480) (F64.fin 48) = F64.fin 10 := by
      rw [F64.div_fin_fin _ _ (by norm_num)]
      have h := F64.round_natCast 10 (by norm_num)
      rw [Nat.cast_ofNat] at h
      rw [← h]
      congr 1
      norm_num
    rw [h1, if_pos ⟨by decide, by decide⟩]
  · intro lastUpdateTime now hday
    rw [validateUpdate_rise_aux NewPriceValidator (F64.fin 5) (F64.fin 50) lastUpdateTime now
      rfl rfl hday (by decide) (by decide) (by decide)]
    rw [if_neg (fun h => absurd h.1 (by decide))]

/-- Witness for C3: the default validator, 48 to 480 within one day. -/
theorem validateUpdate_sameDay_rise_witness :
    NewPriceValidator.ValidateUpdate (F64.fin 48) (F64.fin 480) 1000 2000 =
      if F64.fin 10 ≤ F64.fin 48 ∧
          NewPriceValidator.maxRiseRatio < F64.div (F64.fin 480) (F64.fin 48) then
        (F64.fin 48, some (errorsNew ErrPriceRiseExceeded "price rise exceeded threshold"))
      else (F64.fin 480, none) :=
  validateUpdate_sameDay_rise.1 NewPriceValidator (F64.fin 48) (F64.fin 480) 1000 2000
    rfl rfl (by decide) (by decide) (by decide) (by decide)

/-- The cross-day rule on finite prices. -/
theorem validateUpdate_crossDay_aux (v : PriceValidator) (o n : ℚ)
    (lastUpdateTime now : Time) (hday : utcDay lastUpdateTime ≠ utcDay now) :
    v.ValidateUpdate (F64.fin o) (F64.fin n) lastUpdateTime now =
      if n < 0 then
        (F64.fin o, some (errorsNew ErrPriceBelowMin "price is negative"))
      else if F64.fin n < v.minPrice then
        (F64.fin o, some (errorsNew ErrPriceBelowMin "price below minimum threshold"))
      else (F64.fin n, none) := by
  rw [validateUpdate_fin]
  by_cases h1 : n < 0
  · rw [if_pos h1, if_pos h1]
  · rw [if_neg h1, if_neg h1, if_pos hday]

/-- Counterexample for C4 as stated: with a NaN floor the cross-day update 110 to 48 is
accepted although the IEEE comparison `48 >= minPrice` is false. -/
theorem validateUpdate_crossDay_nan_floor :
    (NewPriceValidatorWithConfig (F64.fin (1 / 2)) (F64.fin 5) F64.nan).ValidateUpdate
        (F64.fin 110) (F64.fin 48) 0 (24 * Hour) = (F64.fin 48, none) ∧
      utcDay 0 ≠ utcDay (24 * Hour) ∧
      ¬ (F64.fin 0 ≤ F64.fin 48 ∧
        (NewPriceValidatorWithConfig (F64.fin (1 / 2)) (F64.fin 5) F64.nan).minPrice ≤
          F64.fin 48) := by
  refine ⟨?_, by decide, fun h => F64.not_nan_le _ h.2⟩
  rw [validateUpdate_crossDay_aux _ _ _ _ _ (by decide), if_neg (by norm_num)]
  exact if_neg (F64.not_lt_nan _)

/-- C4 (amended): cross-day rule. When `lastUpdateTime` falls on another UTC day than the
current time and both prices are finite, the update is accepted exactly when
`newPrice >= 0` and the floor test `newPrice < minPrice` fails, whatever the old price;
otherwise the old price is returned with `ErrPriceBelowMin`. When `minPrice` is not NaN
the floor test fails exactly when `newPrice >= minPrice`. With the default configuration
110 to 48 across a day boundary is accepted. -/
theorem validateUpdate_crossDay :
    (∀ (v : PriceValidator) (oldPrice newPrice : F64) (lastUpdateTime now : Time),
      oldPrice.isFinite = true → newPrice.isFinite = true →
      utcDay lastUpdateTime ≠ utcDay now →
      ((v.ValidateUpdate oldPrice newPrice lastUpdateTime now = (newPrice, none) ↔
          (F64.fin 0 ≤ newPrice ∧ ¬ (newPrice < v.minPrice))) ∧
        (¬ (F64.fin 0 ≤ newPrice ∧ ¬ (newPrice < v.minPrice)) →
          ∃ msg, v.ValidateUpdate oldPrice newPrice lastUpdateTime now =
            (oldPrice, some (errorsNew ErrPriceBelowMin msg))) ∧
        (v.minPrice.isNaN = false →
          (¬ (newPrice < v.minPrice) ↔ v.minPrice ≤ newPrice)))) ∧
    (∀ (lastUpdateTime now : Time), utcDay lastUpdateTime ≠ utcDay now →
      NewPriceValidator.ValidateUpdate (F64.fin 110) (F64.fin 48) lastUpdateTime now =
        (F64.fin 48, none)) := by
  constructor
  · intro v oldPrice newPrice lastUpdateTime now hfo hfn hday
    obtain ⟨o, rfl⟩ := exists_of_isFinite hfo
    obtain ⟨n, rfl⟩ := exists_of_isFinite hfn
    rw [validateUpdate_crossDay_aux v o n lastUpdateTime now hday]
    refine ⟨?_, ?_, ?_⟩
    · by_cases h1 : n < 0
      · rw [if_pos h1]
        constructor
        · intro h
          exact absurd (congrArg Prod.snd h) (by simp)
        · intro h
          exact absurd ((F64.fin_le_fin 0 n).1 h.1) (not_le.2 h1)
      · rw [if_neg h1]
        by_cases h2 : F64.fin n < v.minPrice
        · rw [if_pos h2]
          constructor
          · intro h
            exact absurd (congrArg Prod.snd h) (by simp)
          · intro h
            exact absurd h2 h.2
        · rw [if_neg h2]
          exact ⟨fun _ => ⟨(F64.fin_le_fin 0 n).2 (not_lt.1 h1), h2⟩, fun _ => rfl⟩
    · intro hc
      by_cases h1 : n < 0
      · rw [if_pos h1]; exact ⟨_, rfl⟩
      · rw [if_neg h1]
        by_cases h2 : F64.fin n < v.minPrice
        · rw [if_pos h2]; exact ⟨_, rfl⟩
        · exact absurd ⟨(F64.fin_le_fin 0 n).2 (not_lt.1 h1), h2⟩ hc
    · intro hnan
      exact ⟨fun h => F64.le_of_not_lt rfl hnan h, fun h => F64.not_lt_of_le64 h⟩
  · intro lastUpdateTime now hday
    rw [validateUpdate_crossDay_aux _ _ _ _ _ hday, if_neg (by norm_num),
      if_neg (by decide)]

/-- Witness for C4: the default validator, 110 to 48 across a day boundary. -/
theorem validateUpdate_crossDay_witness :
    utcDay 0 ≠ utcDay (24 * Hour) ∧
      NewPriceValidator.ValidateUpdate (F64.fin 110) (F64.fin 48) 0 (24 * Hour) =
        (F64.fin 48, none) :=
  ⟨by decide, validateUpdate_crossDay.2 0 (24 * Hour) (by decide)⟩

/-- C5: the input guards come first. Whatever the instants and the configuration, a NaN
or infinite price gives the old price with `InvalidInput`; otherwise a negative new
price gives the old price with `ErrPriceBelowMin`. -/
theorem validateUpdate_input_guards :
    (∀ (v : PriceValidator) (oldPrice newPrice : F64) (lastUpdateTime now : Time),
      (oldPrice.isNaN = true ∨ oldPrice.isInf = true ∨
        newPrice.isNaN = true ∨ newPrice.isInf = true) →
      ∃ msg, v.ValidateUpdate oldPrice newPrice lastUpdateTime now =
        (oldPrice, some (errorsNew InvalidInput msg))) ∧
    (∀ (v : PriceValidator) (oldPrice newPrice : F64) (lastUpdateTime now : Time),
      oldPrice.isFinite = true → newPrice.isFinite = true → newPrice < F64.fin 0 →
      v.ValidateUpdate oldPrice newPrice lastUpdateTime now =
        (oldPrice, some (errorsNew ErrPriceBelowMin "price is negative"))) := by
  constructor
  · intro v oldPrice newPrice lastUpdateTime now h
    by_cases h1 : (oldPrice.isNaN || newPrice.isNaN) = true
    · exact ⟨_, validateUpdate_of_nan v _ _ _ _ h1⟩
    · refine ⟨_, validateUpdate_of_inf v _ _ _ _ (by simpa using h1) ?_⟩
      rw [Bool.or_eq_true] at h1 ⊢
      rcases h with h | h | h | h
      · exact absurd (Or.inl h) h1
      · exact Or.inl h
      · exact absurd (Or.inr h) h1
      · exact Or.inr h
  · intro v oldPrice newPrice lastUpdateTime now hfo hfn hneg
    obtain ⟨o, rfl⟩ := exists_of_isFinite hfo
    obtain ⟨n, rfl⟩ := exists_of_isFinite hfn
    rw [validateUpdate_fin, if_pos ((F64.fin_lt_fin n 0).1 hneg)]

/-- Witness for C5: an infinite new price, and a negative new price. -/
theorem validateUpdate_input_guards_witness :
    (∃ msg, NewPriceValidator.ValidateUpdate (F64.fin 100) F64.posInf 1000 2000 =
        (F64.fin 100, some (errorsNew InvalidInput msg))) ∧
      NewPriceValidator.ValidateUpdate (F64.fin 100) (F64.fin (-10)) 1000 2000 =
        (F64.fin 100, some (errorsNew ErrPriceBelowMin "price is negative")) :=
  ⟨validateUpdate_input_guards.1 NewPriceValidator (F64.fin 100) F64.posInf 1000 2000
      (Or.inr (Or.inr (Or.inr rfl))),
    validateUpdate_input_guards.2 NewPriceValidator (F64.fin 100) (F64.fin (-10)) 1000 2000
      rfl rfl (by decide)⟩

/-- C6: first-price rule. On the same UTC day, with finite prices, `oldPrice <= 0`,
`newPrice >= minPrice` and `newPrice >= 0`, the new price is accepted; no ratio is
consulted. -/
theorem validateUpdate_first_price (v : PriceValidator) (oldPrice newPrice : F64)
    (lastUpdateTime now : Time)
    (hfo : oldPrice.isFinite = true) (hfn : newPrice.isFinite = true)
    (hday : utcDay lastUpdateTime = utcDay now)
    (hold : oldPrice ≤ F64.fin 0) (hmin : v.minPrice ≤ newPrice)
    (hnew : F64.fin 0 ≤ newPrice) :
    v.ValidateUpdate oldPrice newPrice lastUpdateTime now = (newPrice, none) := by
  obtain ⟨o, rfl⟩ := exists_of_isFinite hfo
  obtain ⟨n, rfl⟩ := exists_of_isFinite hfn
  rw [validateUpdate_fin]
  have h1 : ¬ n < 0 := not_lt.2 ((F64.fin_le_fin 0 n).1 hnew)
  have h2 : ¬ (utcDay lastUpdateTime ≠ utcDay now) := not_not.2 hday
  have h3 : ¬ (F64.fin n < v.minPrice) := F64.not_lt_of_le64 hmin
  have h4 : o ≤ 0 := (F64.fin_le_fin o 0).1 hold
  rw [if_neg h1, if_neg h2, if_neg h3, if_pos h4]

/-- Witness for C6: the default validator, first price 50 after a stored 0. -/
theorem validateUpdate_first_price_witness :
    NewPriceValidator.ValidateUpdate (F64.fin 0) (F64.fin 50) 1000 2000 =
      (F64.fin 50, none) :=
  validateUpdate_first_price NewPriceValidator (F64.fin 0) (F64.fin 50) 1000 2000
    rfl rfl (by decide) (by decide) (by decide) (by decide)

/-! ## The edit-distance recurrence and edit chains -/

theorem editDist_nil_left (ys : List Rune) : editDist [] ys = ys.length := by
  rw [editDist]

theorem editDist_nil_right (xs : List Rune) : editDist xs [] = xs.length := by
  cases xs with
  | nil => rw [editDist]
  | cons x xs => rw [editDist]

theorem editDist_cons_cons (x y : Rune) (xs ys : List Rune) :
    editDist (x :: xs) (y :: ys) =
      min (editDist xs (y :: ys) + 1)
        (min (editDist (x :: xs) ys + 1) (editDist xs ys + if x = y then 0 else 1)) := by
  rw [editDist]

/-- The recurrence is symmetric in its two arguments. -/
theorem editDist_comm (a b : List Rune) : editDist a b = editDist b a := by
  induction a generalizing b with
  | nil => rw [editDist_nil_left, editDist_nil_right]
  | cons x xs iha =>
    induction b with
    | nil => rw [editDist_nil_left, editDist_nil_right]
    | cons y ys ihb =>
      rw [editDist_cons_cons, editDist_cons_cons, iha (y :: ys), ihb, iha ys]
      have hc : (if x = y then 0 else 1) = (if y = x then 0 else 1) := by
        by_cases h : x = y
        · rw [if_pos h, if_pos h.symm]
        · rw [if_neg h, if_neg (fun h' => h h'.symm)]
      rw [hc]
      exact min_left_comm _ _ _

theorem editDist_self (a : List Rune) : editDist a a = 0 := by
  induction a with
  | nil => rw [editDist_nil_left]; rfl
  | cons x xs ih =>
    rw [editDist_cons_cons, ih, if_pos rfl]
    simp

theorem cost_le_one (x y : Rune) : (if x = y then 0 else 1) ≤ 1 := by
  split_ifs <;> omega

/-- Deleting the head costs at most one. -/
theorem editDist_cons_le (x : Rune) (xs c : List Rune) :
    editDist (x :: xs) c ≤ editDist xs c + 1 := by
  cases c with
  | nil => rw [editDist_nil_right, editDist_nil_right]; simp
  | cons y ys => rw [editDist_cons_cons]; exact min_le_left _ _

/-- Inserting a head in the target costs at most one. -/
theorem editDist_le_cons_right (y : Rune) (xs ys : List Rune) :
    editDist xs (y :: ys) ≤ editDist xs ys + 1 := by
  rw [editDist_comm xs (y :: ys), editDist_comm xs ys]
  exact editDist_cons_le y ys xs

/-- Inserting a head in the source costs at most one. -/
theorem editDist_le_cons (x : Rune) (xs c : List Rune) :
    editDist xs c ≤ editDist (x :: xs) c + 1 := by
  induction c with
  | nil =>
    rw [editDist_nil_right, editDist_nil_right]
    simp only [List.length_cons]
    omega
  | cons y ys ih =>
    rw [editDist_cons_cons]
    have h1 := editDist_le_cons_right y xs ys
    have h2 := cost_le_one x y
    omega

/-- Substituting the head costs at most one. -/
theorem editDist_subst_le (x x' : Rune) (xs c : List Rune) :
    editDist (x :: xs) c ≤ editDist (x' :: xs) c + 1 := by
  induction c with
  | nil => rw [editDist_nil_right, editDist_nil_right]; simp
  | cons y ys ih =>
    rw [editDist_cons_cons, editDist_cons_cons]
    have h2 := cost_le_one x y
    have h3 := cost_le_one x' y
    omega

/-- A one-edit bound passes under a common head. -/
theorem editDist_cons_congr (x : Rune) (a b : List Rune)
    (h : ∀ c, editDist a c ≤ editDist b c + 1) (c : List Rune) :
    editDist (x :: a) c ≤ editDist (x :: b) c + 1 := by
  induction c with
  | nil =>
    have := h []
    rw [editDist_nil_right, editDist_nil_right] at *
    simp only [List.length_cons]
    omega
  | cons y ys ih =>
    rw [editDist_cons_cons, editDist_cons_cons]
    have h1 := h (y :: ys)
    have h2 := h ys
    omega

/-- One edit changes the recurrence by at most one. -/
theorem editDist_step_le {a b : List Rune} (h : EditStep a b) (c : List Rune) :
    editDist a c ≤ editDist b c + 1 := by
  cases h with
  | insert l r x =>
    induction l generalizing c with
    | nil => exact editDist_le_cons x r c
    | cons z l ih => exact editDist_cons_congr z _ _ ih c
  | delete l r x =>
    induction l generalizing c with
    | nil => exact editDist_cons_le x r c
    | cons z l ih => exact editDist_cons_congr z _ _ ih c
  | substitute l r x x' =>
    induction l generalizing c with
    | nil => exact editDist_subst_le x x' r c
    | cons z l ih => exact editDist_cons_congr z _ _ ih c

/-- No chain of edits is shorter than the recurrence. -/
theorem editDist_le_of_chain {n : ℕ} {a b : List Rune} (h : EditChain n a b) :
    editDist a b ≤ n := by
  induction h with
  | refl a => rw [editDist_self]
  | @step n a b c hs _ ih =>
    have := editDist_step_le hs c
    omega

theorem editStep_cons (x : Rune) {a b : List Rune} (h : EditStep a b) :
    EditStep (x :: a) (x :: b) := by
  cases h with
  | insert l r c => exact EditStep.insert (x :: l) r c
  | delete l r c => exact EditStep.delete (x :: l) r c
  | substitute l r c c' => exact EditStep.substitute (x :: l) r c c'

theorem editStep_symm {a b : List Rune} (h : EditStep a b) : EditStep b a := by
  cases h with
  | insert l r c => exact EditStep.delete l r c
  | delete l r c => exact EditStep.insert l r c
  | substitute l r c c' => exact EditStep.substitute l r c' c

theorem editStep_reverse {a b : List Rune} (h : EditStep a b) :
    EditStep a.reverse b.reverse := by
  cases h with
  | insert l r c =>
    rw [List.reverse_append, List.reverse_append, List.reverse_cons, List.append_assoc]
    exact EditStep.insert r.reverse l.reverse c
  | delete l r c =>
    rw [List.reverse_append, List.reverse_append, List.reverse_cons, List.append_assoc]
    exact EditStep.delete r.reverse l.reverse c
  | substitute l r c c' =>
    rw [List.reverse_append, List.reverse_append, List.reverse_cons, List.reverse_cons,
      List.append_assoc, List.append_assoc]
    exact EditStep.substitute r.reverse l.reverse c c'

theorem editChain_cons (x : Rune) {n : ℕ} {a b : List Rune} (h : EditChain n a b) :
    EditChain n (x :: a) (x :: b) := by
  induction h with
  | refl a => exact EditChain.refl _
  | step hs _ ih => exact EditChain.step (editStep_cons x hs) ih

/-- A chain extended by one edit at its end. -/
theorem editChain_snoc {n : ℕ} {a b c : List Rune} (h : EditChain n a b)
    (hs : EditStep b c) : EditChain (n + 1) a c := by
  induction h with
  | refl a => exact EditChain.step hs (EditChain.refl _)
  | step hs' _ ih => exact EditChain.step hs' (ih hs)

theorem editChain_symm {n : ℕ} {a b : List Rune} (h : EditChain n a b) :
    EditChain n b a := by
  induction h with
  | refl a => exact EditChain.refl _
  | step hs _ ih => exact editChain_snoc ih (editStep_symm hs)

theorem editChain_reverse {n : ℕ} {a b : List Rune} (h : EditChain n a b) :
    EditChain n a.reverse b.reverse := by
  induction h with
  | refl a => exact EditChain.refl _
  | step hs _ ih => exact EditChain.step (editStep_reverse hs) ih

theorem editChain_nil_left (b : List Rune) : EditChain b.length [] b := by
  induction b with
  | nil => exact EditChain.refl _
  | cons y ys ih => exact EditChain.step (EditStep.insert [] [] y) (editChain_cons y ih)

theorem editChain_nil_right (a : List Rune) : EditChain a.length a [] := by
  induction a with
  | nil => exact EditChain.refl _
  | cons x xs ih => exact EditChain.step (EditStep.delete [] xs x) ih

/-- The recurrence is attained by a chain of edits. -/
theorem editDist_chain (a b : List Rune) : EditChain (editDist a b) a b := by
  induction a generalizing b with
  | nil => rw [editDist_nil_left]; exact editChain_nil_left b
  | cons x xs iha =>
    induction b with
    | nil => rw [editDist_nil_right]; exact editChain_nil_right _
    | cons y ys ihb =>
      have hdel : EditChain (editDist xs (y :: ys) + 1) (x :: xs) (y :: ys) :=
        EditChain.step (EditStep.delete [] xs x) (iha (y :: ys))
      have hins : EditChain (editDist (x :: xs) ys + 1) (x :: xs) (y :: ys) :=
        editChain_snoc ihb (EditStep.insert [] ys y)
      have hsub : EditChain (editDist xs ys + if x = y then 0 else 1) (x :: xs) (y :: ys) := by
        by_cases hxy : x = y
        · rw [if_pos hxy, hxy]
          exact editChain_cons y (iha ys)
        · rw [if_neg hxy]
          exact EditChain.step (EditStep.substitute [] xs x y) (editChain_cons y (iha ys))
      rw [editDist_cons_cons]
      rcases min_choice (editDist xs (y :: ys) + 1)
        (min (editDist (x :: xs) ys + 1) (editDist xs ys + if x = y then 0 else 1)) with h | h
      · rw [h]; exact hdel
      · rw [h]
        rcases min_choice (editDist (x :: xs) ys + 1)
          (editDist xs ys + if x = y then 0 else 1) with h' | h'
        · rw [h']; exact hins
        · rw [h']; exact hsub

/-- The recurrence computes the minimum number of single code-point edits. -/
theorem editDist_isEditDistance (a b : List Rune) : IsEditDistance a b (editDist a b) :=
  ⟨editDist_chain a b, fun _ h => editDist_le_of_chain h⟩

theorem isEditDistance_unique {a b : List Rune} {d d' : ℕ} (h : IsEditDistance a b d)
    (h' : IsEditDistance a b d') : d = d' :=
  le_antisymm (h.2 _ h'.1) (h'.2 _ h.1)

theorem isEditDistance_symm {a b : List Rune} {d : ℕ} (h : IsEditDistance a b d) :
    IsEditDistance b a d :=
  ⟨editChain_symm h.1, fun n hn => h.2 n (editChain_symm hn)⟩

theorem isEditDistance_reverse {a b : List Rune} {d : ℕ} (h : IsEditDistance a b d) :
    IsEditDistance a.reverse b.reverse d :=
  ⟨editChain_reverse h.1, fun n hn => h.2 n (by simpa using editChain_reverse hn)⟩

/-- The recurrence is invariant under reversal of both sequences. -/
theorem editDist_reverse (a b : List Rune) :
    editDist a.reverse b.reverse = editDist a b :=
  isEditDistance_unique (editDist_isEditDistance a.reverse b.reverse)
    (isEditDistance_reverse (editDist_isEditDistance a b))

/-! ## The two-row program computes the recurrence -/

theorem rowOf_length (f : ℕ → ℕ) (n : ℕ) : (rowOf f n).length = n + 1 := by
  simp [rowOf]

theorem rowOf_succ (f : ℕ → ℕ) (n : ℕ) : rowOf f (n + 1) = rowOf f n ++ [f (n + 1)] := by
  simp [rowOf, List.range_succ]

theorem rowAt_rowOf (f : ℕ → ℕ) (n j : ℕ) (h : j ≤ n) : rowAt (rowOf f n) j = f j := by
  unfold rowAt rowOf
  rw [List.getD_eq_getElem _ _ (by simp; omega)]
  simp

theorem min3_eq (a b c : ℕ) : min3 a b c = min a (min b c) := by
  unfold min3
  split_ifs <;> omega

/-- The recurrence read at the last elements of the two sequences. -/
theorem editDist_snoc_snoc (p q : List Rune) (x y : Rune) :
    editDist (p ++ [x]) (q ++ [y]) =
      min (editDist p (q ++ [y]) + 1)
        (min (editDist (p ++ [x]) q + 1) (editDist p q + if x = y then 0 else 1)) := by
  have h1 : editDist (p ++ [x]) (q ++ [y]) = editDist (x :: p.reverse) (y :: q.reverse) := by
    rw [← editDist_reverse]; simp
  have h2 : editDist p (q ++ [y]) = editDist p.reverse (y :: q.reverse) := by
    rw [← editDist_reverse]; simp
  have h3 : editDist (p ++ [x]) q = editDist (x :: p.reverse) q.reverse := by
    rw [← editDist_reverse]; simp
  have h4 : editDist p q = editDist p.reverse q.reverse := (editDist_reverse p q).symm
  rw [h1, h2, h3, h4, editDist_cons_cons]

theorem innerLoop_length (c1 : Rune) (previousRow : List ℕ) (rest : List Rune) (j : ℕ)
    (currentRow : List ℕ) :
    (innerLoop c1 previousRow rest j currentRow).length = currentRow.length + rest.length := by
  induction rest generalizing j currentRow with
  | nil => simp [innerLoop]
  | cons c2 rest ih =>
    rw [innerLoop, ih]
    simp
    omega

theorem outerLoop_length (r2 rest : List Rune) (i : ℕ) (previousRow : List ℕ)
    (h : previousRow.length = r2.length + 1) :
    (outerLoop r2 rest i previousRow).length = r2.length + 1 := by
  induction rest generalizing i previousRow with
  | nil => simpa [outerLoop] using h
  | cons c1 rest ih =>
    rw [outerLoop]
    apply ih
    rw [innerLoop_length]
    simp
    omega

/-- Invariant of the inner loop: started on the row of the prefix `p` and on the first
`done.length + 1` entries of the row of `p ++ [c1]`, it returns the row of `p ++ [c1]`. -/
theorem innerLoop_spec (c1 : Rune) (p r2 : List Rune) (rest done : List Rune)
    (h : r2 = done ++ rest) :
    innerLoop c1 (rowOf (fun k => editDist p (r2.take k)) r2.length) rest done.length
        (rowOf (fun k => editDist (p ++ [c1]) (r2.take k)) done.length) =
      rowOf (fun k => editDist (p ++ [c1]) (r2.take k)) r2.length := by
  induction rest generalizing done with
  | nil =>
    rw [innerLoop]
    rw [h]
    simp
  | cons c2 rest ih =>
    have hlen : done.length + 1 ≤ r2.length := by
      rw [h]; simp
    have htake : r2.take done.length = done := by
      rw [h]; simp
    have htake' : r2.take (done.length + 1) = done ++ [c2] := by
      rw [h, List.take_append_eq_append_take]
      simp
    have h' : r2 = (done ++ [c2]) ++ rest := by
      rw [h]; simp
    have hstep := ih (done ++ [c2]) h'
    rw [List.length_append, List.length_singleton] at hstep
    rw [innerLoop]
    rw [rowAt_rowOf _ _ _ hlen, rowAt_rowOf _ _ _ (le_refl _),
      rowAt_rowOf _ _ _ (Nat.le_of_succ_le hlen)]
    rw [rowOf_succ] at hstep
    rw [htake'] at hstep
    rw [htake, htake']
    rw [editDist_snoc_snoc] at hstep
    rw [min3_eq]
    have hc : (if c1 ≠ c2 then 1 else 0) = (if c1 = c2 then 0 else 1) := by
      by_cases hcc : c1 = c2
      · rw [if_pos hcc, if_neg (not_not.2 hcc)]
      · rw [if_neg hcc, if_pos hcc]
    rw [hc]
    exact hstep

/-- Invariant of the outer loop: started on the row of the prefix `p`, it returns the row
of the whole of `p ++ rest`. -/
theorem outerLoop_spec (r2 : List Rune) (rest p : List Rune) :
    outerLoop r2 rest p.length (rowOf (fun k => editDist p (r2.take k)) r2.length) =
      rowOf (fun k => editDist (p ++ rest) (r2.take k)) r2.length := by
  induction rest generalizing p with
  | nil => rw [outerLoop, List.append_nil]
  | cons c1 rest ih =>
    rw [outerLoop]
    have h0 : [p.length + 1] = rowOf (fun k => editDist (p ++ [c1]) (r2.take k)) 0 := by
      show _ = [editDist (p ++ [c1]) (r2.take 0)]
      rw [List.take_zero, editDist_nil_right, List.length_append, List.length_singleton]
    have hin := innerLoop_spec c1 p r2 r2 [] rfl
    rw [List.length_nil] at hin
    rw [h0, hin]
    have := ih (p ++ [c1])
    rw [List.length_append, List.length_singleton] at this
    rw [this]
    simp

/-- The initial row `0, 1, ..., len(r2)` is the row of the empty prefix. -/
theorem range_eq_rowOf (r2 : List Rune) :
    List.range (r2.length + 1) = rowOf (fun k => editDist [] (r2.take k)) r2.length := by
  unfold rowOf
  apply List.ext_getElem
  · simp
  · intro n h1 h2
    simp only [List.length_range] at h1
    simp [editDist_nil_left]
    omega

/-- The two-row program returns the value of the recurrence. -/
theorem levenshteinRows_eq (r1 r2 : List Rune) : levenshteinRows r1 r2 = editDist r1 r2 := by
  unfold levenshteinRows
  by_cases h : r2.length = 0
  · rw [if_pos h]
    have : r2 = [] := List.length_eq_zero.1 h
    rw [this, editDist_nil_right]
  · rw [if_neg h]
    dsimp only
    rw [range_eq_rowOf]
    have := outerLoop_spec r2 r1 []
    rw [List.length_nil, List.nil_append] at this
    rw [this, rowOf_length, Nat.add_sub_cancel, rowAt_rowOf _ _ _ (le_refl _)]
    simp

/-- Go `levenshteinDistance` returns the value of the recurrence on the two rune
sequences. -/
theorem levenshteinDistance_eq (s1 s2 : GoString) :
    levenshteinDistance s1 s2 = editDist (runes s1) (runes s2) := by
  unfold levenshteinDistance
  dsimp only
  by_cases h : (runes s1).length < (runes s2).length
  · rw [if_pos h, levenshteinRows_eq, editDist_comm]
  · rw [if_neg h, levenshteinRows_eq]

/-- A non-empty string has at least one rune. -/
theorem runes_ne_nil (s : GoString) (h : s ≠ []) : runes s ≠ [] := by
  cases s with
  | nil => exact absurd rfl h
  | cons b rest => simp [runes, runesFrom]

theorem runes_nil : runes [] = [] := rfl

/-- The recurrence never exceeds the longer of the two lengths. -/
theorem editDist_le_max (a b : List Rune) : editDist a b ≤ max a.length b.length := by
  induction a generalizing b with
  | nil => rw [editDist_nil_left]; exact le_max_right _ _
  | cons x xs iha =>
    cases b with
    | nil => rw [editDist_nil_right]; exact le_max_left _ _
    | cons y ys =>
      rw [editDist_cons_cons]
      have h1 := iha ys
      have h2 := cost_le_one x y
      simp only [List.length_cons]
      omega

theorem max2_eq (a b : ℕ) : max2 a b = max a b := by
  unfold max2
  split_ifs <;> omega

/-! ## Claims about `TitleCleaner.CalculateSimilarity` -/

namespace F64

theorem round_zero : round 0 = fin 0 := by
  unfold round
  rw [if_pos rfl]

theorem round_one : round 1 = fin 1 := by
  have h := round_natCast 1 (by norm_num)
  rwa [Nat.cast_one] at h

/-- A float between two finite floats is finite and lies between them. -/
theorem fin_of_between {x : F64} {a b : ℚ} (h1 : fin a ≤ x) (h2 : x ≤ fin b) :
    ∃ z, x = fin z ∧ a ≤ z ∧ z ≤ b := by
  have h1' : ble (fin a) x = true := h1
  have h2' : ble x (fin b) = true := h2
  cases x with
  | nan => simp [ble] at h1'
  | posInf => simp [ble] at h2'
  | negInf => simp [ble] at h1'
  | fin z => exact ⟨z, rfl, by simpa [ble] using h1', by simpa [ble] using h2'⟩

/-- Rounding maps the unit interval into itself. -/
theorem round_unit_interval (q : ℚ) (h0 : 0 ≤ q) (h1 : q ≤ 1) :
    ∃ z, round q = fin z ∧ 0 ≤ z ∧ z ≤ 1 := by
  have l := round_mono 0 q h0
  have u := round_mono q 1 h1
  rw [round_zero] at l
  rw [round_one] at u
  exact fin_of_between l u

/-- The value `1.0 - 0/m` is `1.0` for every length `m ≥ 1`. -/
theorem one_sub_zero_div (m : ℕ) (hm : 1 ≤ m) :
    sub (fin 1) (div (ofInt ((0 : ℕ) : ℤ)) (ofInt (m : ℤ))) = fin 1 := by
  have h0 : ofInt ((0 : ℕ) : ℤ) = fin 0 := by
    unfold ofInt
    rw [Nat.cast_zero, Int.cast_zero, round_zero]
  have hm1 : fin 1 ≤ ofInt (m : ℤ) := by
    unfold ofInt
    rw [← round_one]
    apply round_mono
    exact_mod_cast hm
  have hd : div (fin 0) (ofInt (m : ℤ)) = fin 0 := by
    have h' : ble (fin 1) (ofInt (m : ℤ)) = true := hm1
    cases hx : ofInt (m : ℤ) with
    | nan => rw [hx] at h'; simp [ble] at h'
    | posInf => rfl
    | negInf => rw [hx] at h'; simp [ble] at h'
    | fin v =>
      rw [hx] at h'
      have hv : (1 : ℚ) ≤ v := by simpa [ble] using h'
      rw [div_fin_fin _ _ (by linarith), zero_div, round_zero]
  rw [h0, hd]
  show round (1 - 0) = fin 1
  rw [sub_zero, round_one]

/-- The value `1.0 - d/m` lies in `[0, 1]` when `d ≤ m`, `1 ≤ m` and `m` is a Go `int`. -/
theorem one_sub_div_bounds (d m : ℕ) (hd : d ≤ m) (hm : 1 ≤ m) (hm63 : m < 2 ^ 63) :
    fin 0 ≤ sub (fin 1) (div (ofInt (d : ℤ)) (ofInt (m : ℤ))) ∧
      sub (fin 1) (div (ofInt (d : ℤ)) (ofInt (m : ℤ))) ≤ fin 1 := by
  have h63 : round ((2 : ℚ) ^ (63 : ℕ)) = fin ((2 : ℚ) ^ (63 : ℕ)) := by
    have h := round_dyadic 1 63 (by norm_num) (by norm_num) (by norm_num)
    have e : ((1 : ℕ) : ℚ) * (2 : ℚ) ^ (63 : ℤ) = (2 : ℚ) ^ (63 : ℕ) := by norm_num
    rwa [e] at h
  have hmq : (m : ℚ) ≤ (2 : ℚ) ^ (63 : ℕ) := by
    have : ((m : ℕ) : ℚ) ≤ ((2 ^ 63 : ℕ) : ℚ) := by exact_mod_cast (le_of_lt hm63)
    calc (m : ℚ) ≤ ((2 ^ 63 : ℕ) : ℚ) := this
      _ = (2 : ℚ) ^ (63 : ℕ) := by norm_num
  have hm1 : fin 1 ≤ ofInt (m : ℤ) := by
    unfold ofInt
    rw [← round_one]
    apply round_mono
    exact_mod_cast hm
  have hm2 : ofInt (m : ℤ) ≤ fin ((2 : ℚ) ^ (63 : ℕ)) := by
    unfold ofInt
    rw [← h63]
    apply round_mono
    exact_mod_cast hmq
  obtain ⟨y, hy, hy1, -⟩ := fin_of_between hm1 hm2
  have hd1 : fin 0 ≤ ofInt (d : ℤ) := by
    unfold ofInt
    rw [← round_zero]
    apply round_mono
    exact_mod_cast Nat.zero_le d
  have hd2 : ofInt (d : ℤ) ≤ fin y := by
    rw [← hy]
    unfold ofInt
    apply round_mono
    exact_mod_cast hd
  obtain ⟨x, hx, hx0, hxy⟩ := fin_of_between hd1 hd2
  have hypos : 0 < y := by linarith
  obtain ⟨z, hz, hz0, hz1⟩ := round_unit_interval (x / y) (div_nonneg hx0 (le_of_lt hypos))
    ((div_le_one hypos).2 hxy)
  rw [hx, hy, div_fin_fin _ _ (ne_of_gt hypos), hz]
  show fin 0 ≤ round (1 - z) ∧ round (1 - z) ≤ fin 1
  obtain ⟨w, hw, hw0, hw1⟩ := round_unit_interval (1 - z) (by linarith) (by linarith)
  rw [hw]
  exact ⟨(fin_le_fin _ _).2 hw0, (fin_le_fin _ _).2 hw1⟩

end F64

theorem runesFrom_length_le (k : ℕ) (s : GoString) : (runesFrom k s).length ≤ s.length := by
  induction s generalizing k with
  | nil => simp [runesFrom]
  | cons b rest ih =>
    cases k with
    | zero =>
      rw [runesFrom]
      simp only [List.length_cons]
      have := ih ((decodeRune (b :: rest)).2 - 1)
      omega
    | succ k =>
      rw [runesFrom]
      simp only [List.length_cons]
      have := ih k
      omega

theorem runes_length_le (s : GoString) : (runes s).length ≤ s.length :=
  runesFrom_length_le 0 s

/-- The value computed by `CalculateSimilarity` on two non-empty strings. -/
theorem calculateSimilarity_of_ne_nil (tc : TitleCleaner) (a b : GoString)
    (ha : a ≠ []) (hb : b ≠ []) :
    tc.CalculateSimilarity a b =
      F64.sub (F64.fin 1)
        (F64.div (F64.ofInt (levenshteinDistance a b : ℤ))
          (F64.ofInt (max (runes a).length (runes b).length : ℕ))) := by
  have hmax : 1 ≤ max (runes a).length (runes b).length := by
    have := List.length_pos.2 (runes_ne_nil a ha)
    exact le_trans this (le_max_left _ _)
  unfold TitleCleaner.CalculateSimilarity
  rw [if_neg (fun h => ha h.1)]
  by_cases hab : a = b
  · rw [if_pos hab]
    subst hab
    rw [levenshteinDistance_eq, editDist_self]
    exact (F64.one_sub_zero_div _ hmax).symm
  · rw [if_neg hab, if_neg (fun h => h.elim ha hb)]
    dsimp only
    rw [max2_eq, if_neg (by omega)]

/-- C7: for non-empty strings, `levenshteinDistance` is the minimum number of single
code-point insertions, deletions and substitutions turning the code points of one string
into those of the other, and `CalculateSimilarity` is `1 - d / max(|a|, |b|)` for that
distance `d`, in float64 arithmetic. -/
theorem calculateSimilarity_eq_edit_distance (tc : TitleCleaner) (a b : GoString)
    (ha : a ≠ []) (hb : b ≠ []) :
    IsEditDistance (runes a) (runes b) (levenshteinDistance a b) ∧
      tc.CalculateSimilarity a b =
        F64.sub (F64.fin 1)
          (F64.div (F64.ofInt (levenshteinDistance a b : ℤ))
            (F64.ofInt (max (runes a).length (runes b).length : ℕ))) := by
  refine ⟨?_, calculateSimilarity_of_ne_nil tc a b ha hb⟩
  rw [levenshteinDistance_eq]
  exact editDist_isEditDistance _ _

/-- Witness for C7: the strings "ab" and "b". -/
theorem calculateSimilarity_eq_edit_distance_witness :
    IsEditDistance (runes [97, 98]) (runes [98]) (levenshteinDistance [97, 98] [98]) ∧
      NewTitleCleaner.CalculateSimilarity [97, 98] [98] =
        F64.sub (F64.fin 1)
          (F64.div (F64.ofInt (levenshteinDistance [97, 98] [98] : ℤ))
            (F64.ofInt (max (runes [97, 98]).length (runes [98]).length : ℕ))) :=
  calculateSimilarity_eq_edit_distance NewTitleCleaner [97, 98] [98] (by decide) (by decide)

/-- C8: for all strings (of a length that fits a Go `int`), `CalculateSimilarity` lies
between 0 and 1, and `levenshteinDistance` never exceeds the larger of the two code-point
lengths. -/
theorem calculateSimilarity_bounds (tc : TitleCleaner) (a b : GoString)
    (ha : a.length < 2 ^ 63) (hb : b.length < 2 ^ 63) :
    F64.fin 0 ≤ tc.CalculateSimilarity a b ∧ tc.CalculateSimilarity a b ≤ F64.fin 1 ∧
      levenshteinDistance a b ≤ max (runes a).length (runes b).length := by
  have hlev : levenshteinDistance a b ≤ max (runes a).length (runes b).length := by
    rw [levenshteinDistance_eq]
    exact editDist_le_max _ _
  have h01 : F64.fin 0 ≤ F64.fin 1 := by decide
  have h00 : F64.fin 0 ≤ F64.fin 0 := by decide
  have h11 : F64.fin 1 ≤ F64.fin 1 := by decide
  by_cases hane : a = []
  · have : tc.CalculateSimilarity a b = F64.fin 0 := by
      unfold TitleCleaner.CalculateSimilarity
      by_cases hbne : b = []
      · rw [if_pos ⟨hane, hbne⟩]
      · rw [if_neg (fun h => hbne h.2), if_neg (fun h => hbne (h.symm.trans hane)),
          if_pos (Or.inl hane)]
    rw [this]
    exact ⟨h00, h01, hlev⟩
  by_cases hbne : b = []
  · have : tc.CalculateSimilarity a b = F64.fin 0 := by
      unfold TitleCleaner.CalculateSimilarity
      rw [if_neg (fun h => hane h.1), if_neg (fun h => hane (h.trans hbne)),
        if_pos (Or.inr hbne)]
    rw [this]
    exact ⟨h00, h01, hlev⟩
  rw [calculateSimilarity_of_ne_nil tc a b hane hbne]
  have hmax : 1 ≤ max (runes a).length (runes b).length := by
    have := List.length_pos.2 (runes_ne_nil a hane)
    exact le_trans this (le_max_left _ _)
  have hmax63 : max (runes a).length (runes b).length < 2 ^ 63 := by
    have h1 := runes_length_le a
    have h2 := runes_length_le b
    exact max_lt (lt_of_le_of_lt h1 ha) (lt_of_le_of_lt h2 hb)
  have := F64.one_sub_div_bounds _ _ hlev hmax hmax63
  exact ⟨this.1, this.2, hlev⟩

/-- Witness for C8: the strings "ab" and "b". -/
theorem calculateSimilarity_bounds_witness :
    F64.fin 0 ≤ NewTitleCleaner.CalculateSimilarity [97, 98] [98] ∧
      NewTitleCleaner.CalculateSimilarity [97, 98] [98] ≤ F64.fin 1 ∧
      levenshteinDistance [97, 98] [98] ≤ max (runes [97, 98]).length (runes [98]).length :=
  calculateSimilarity_bounds NewTitleCleaner [97, 98] [98] (by decide) (by decide)

/-- Counterexample for C9 as stated: the empty string compared with itself scores 0.0,
not 1.0. -/
theorem calculateSimilarity_empty_self :
    NewTitleCleaner.CalculateSimilarity [] [] = F64.fin 0 ∧
      NewTitleCleaner.CalculateSimilarity [] [] ≠ F64.fin 1 := by
  have h : NewTitleCleaner.CalculateSimilarity [] [] = F64.fin 0 := by
    unfold TitleCleaner.CalculateSimilarity
    rw [if_pos ⟨rfl, rfl⟩]
  refine ⟨h, ?_⟩
  rw [h]
  decide

/-- C9 (amended): for every non-empty string `s`, `CalculateSimilarity(s, s) = 1.0`. -/
theorem calculateSimilarity_self (tc : TitleCleaner) (s : GoString) (hs : s ≠ []) :
    tc.CalculateSimilarity s s = F64.fin 1 := by
  unfold TitleCleaner.CalculateSimilarity
  rw [if_neg (fun h => hs h.1), if_pos rfl]

/-- Witness for C9 (amended): the string "A". -/
theorem calculateSimilarity_self_witness :
    NewTitleCleaner.CalculateSimilarity [65] [65] = F64.fin 1 :=
  calculateSimilarity_self NewTitleCleaner [65] (by decide)

/-- C10: for every string `s`, `CalculateSimilarity(s, "")` and
`CalculateSimilarity("", s)` are 0.0, the case of two empty strings included. -/
theorem calculateSimilarity_empty (tc : TitleCleaner) (s : GoString) :
    tc.CalculateSimilarity s [] = F64.fin 0 ∧ tc.CalculateSimilarity [] s = F64.fin 0 ∧
      tc.CalculateSimilarity [] [] = F64.fin 0 := by
  have hnil : tc.CalculateSimilarity [] [] = F64.fin 0 := by
    unfold TitleCleaner.CalculateSimilarity
    rw [if_pos ⟨rfl, rfl⟩]
  by_cases hs : s = []
  · subst hs
    exact ⟨hnil, hnil, hnil⟩
  · refine ⟨?_, ?_, hnil⟩
    · unfold TitleCleaner.CalculateSimilarity
      rw [if_neg (fun h => hs h.1), if_neg hs, if_pos (Or.inr rfl)]
    · unfold TitleCleaner.CalculateSimilarity
      rw [if_neg (fun h => hs h.2), if_neg (fun h => hs h.symm), if_pos (Or.inl rfl)]

/-! ## Claims about the two-tier classification -/

theorem isHighSimilarity_of_ne_nil (tc : TitleCleaner) (a b : GoString) (ha : a ≠ [])
    (hb : b ≠ []) :
    tc.IsHighSimilarity a b = true ↔ tc.similarityThreshold ≤ tc.CalculateSimilarity a b := by
  unfold TitleCleaner.IsHighSimilarity
  rw [if_neg (fun h => h.elim ha hb)]
  exact decide_eq_true_iff

theorem isMidSimilarity_of_ne_nil (tc : TitleCleaner) (a b : GoString) (ha : a ≠ [])
    (hb : b ≠ []) :
    tc.IsMidSimilarity a b = true ↔
      (MidSimilarityThreshold ≤ tc.CalculateSimilarity a b ∧
        tc.CalculateSimilarity a b < tc.similarityThreshold) := by
  unfold TitleCleaner.IsMidSimilarity
  rw [if_neg (fun h => h.elim ha hb)]
  simp only [Bool.and_eq_true, decide_eq_true_eq]

theorem isHighSimilarity_of_nil (tc : TitleCleaner) (a b : GoString) (h : a = [] ∨ b = []) :
    tc.IsHighSimilarity a b = false := by
  unfold TitleCleaner.IsHighSimilarity
  rw [if_pos h]

theorem isMidSimilarity_of_nil (tc : TitleCleaner) (a b : GoString) (h : a = [] ∨ b = []) :
    tc.IsMidSimilarity a b = false := by
  unfold TitleCleaner.IsMidSimilarity
  rw [if_pos h]

/-- High and Mid exclude each other, whatever the thresholds. -/
theorem not_high_and_mid (tc : TitleCleaner) (a b : GoString) :
    ¬ (tc.IsHighSimilarity a b = true ∧ tc.IsMidSimilarity a b = true) := by
  intro h
  by_cases he : a = [] ∨ b = []
  · rw [isHighSimilarity_of_nil tc a b he] at h
    exact Bool.false_ne_true h.1
  · have ha : a ≠ [] := fun x => he (Or.inl x)
    have hb : b ≠ [] := fun x => he (Or.inr x)
    have h1 := (isHighSimilarity_of_ne_nil tc a b ha hb).1 h.1
    have h2 := (isMidSimilarity_of_ne_nil tc a b ha hb).1 h.2
    exact F64.not_lt_of_le64 h1 h2.2

/-- C11: two-tier classification. High and Mid are never both true; an empty argument
makes both false; for non-empty strings High holds exactly when the similarity is at least
0.75 and Mid exactly when it is at least 0.5 and below 0.75; so exactly one of High, Mid and
Low (neither) holds of every pair. -/
theorem similarity_classification :
    (∀ (tc : TitleCleaner) (a b : GoString),
      ¬ (tc.IsHighSimilarity a b = true ∧ tc.IsMidSimilarity a b = true)) ∧
    (∀ (tc : TitleCleaner) (a b : GoString), (a = [] ∨ b = []) →
      tc.IsHighSimilarity a b = false ∧ tc.IsMidSimilarity a b = false) ∧
    (∀ (a b : GoString), a ≠ [] → b ≠ [] →
      (NewTitleCleaner.IsHighSimilarity a b = true ↔
        F64.fin (3 / 4) ≤ NewTitleCleaner.CalculateSimilarity a b) ∧
      (NewTitleCleaner.IsMidSimilarity a b = true ↔
        (F64.fin (1 / 2) ≤ NewTitleCleaner.CalculateSimilarity a b ∧
          NewTitleCleaner.CalculateSimilarity a b < F64.fin (3 / 4)))) ∧
    (∀ (tc : TitleCleaner) (a b : GoString),
      (tc.IsHighSimilarity a b = true ∧ tc.IsMidSimilarity a b = false) ∨
      (tc.IsHighSimilarity a b = false ∧ tc.IsMidSimilarity a b = true) ∨
      (tc.IsHighSimilarity a b = false ∧ tc.IsMidSimilarity a b = false)) := by
  refine ⟨not_high_and_mid, ?_, ?_, ?_⟩
  · intro tc a b h
    exact ⟨isHighSimilarity_of_nil tc a b h, isMidSimilarity_of_nil tc a b h⟩
  · intro a b ha hb
    exact ⟨isHighSimilarity_of_ne_nil NewTitleCleaner a b ha hb,
      isMidSimilarity_of_ne_nil NewTitleCleaner a b ha hb⟩
  · intro tc a b
    have h := not_high_and_mid tc a b
    cases hH : tc.IsHighSimilarity a b <;> cases hM : tc.IsMidSimilarity a b
    · exact Or.inr (Or.inr ⟨rfl, rfl⟩)
    · exact Or.inr (Or.inl ⟨rfl, rfl⟩)
    · exact Or.inl ⟨rfl, rfl⟩
    · exact absurd ⟨hH, hM⟩ h

/-- Witness for C11: the strings "ab" and "b". -/
theorem similarity_classification_witness :
    (NewTitleCleaner.IsHighSimilarity [97, 98] [98] = true ↔
        F64.fin (3 / 4) ≤ NewTitleCleaner.CalculateSimilarity [97, 98] [98]) ∧
      (NewTitleCleaner.IsMidSimilarity [97, 98] [98] = true ↔
        (F64.fin (1 / 2) ≤ NewTitleCleaner.CalculateSimilarity [97, 98] [98] ∧
          NewTitleCleaner.CalculateSimilarity [97, 98] [98] < F64.fin (3 / 4))) :=
  similarity_classification.2.2.1 [97, 98] [98] (by decide) (by decide)

/-! ## Claims about `ElectStandardTitle` -/

/-- Invariant of the election loop: the state is an entry already visited, no visited entry
has more votes, and no visited entry with as many votes has a longer title. -/
theorem electStep_invariant (seen rest : VoteMap) (acc : GoString × ℤ)
    (hmem : acc ∈ seen)
    (hmax : ∀ e ∈ seen, e.2 ≤ acc.2 ∧ (e.2 = acc.2 → e.1.length ≤ acc.1.length)) :
    rest.foldl electStep acc ∈ seen ++ rest ∧
      ∀ e ∈ seen ++ rest, e.2 ≤ (rest.foldl electStep acc).2 ∧
        (e.2 = (rest.foldl electStep acc).2 →
          e.1.length ≤ (rest.foldl electStep acc).1.length) := by
  induction rest generalizing seen acc with
  | nil =>
    rw [List.foldl_nil, List.append_nil]
    exact ⟨hmem, hmax⟩
  | cons x rest ih =>
    rw [List.foldl_cons]
    have happ : seen ++ x :: rest = (seen ++ [x]) ++ rest := by simp
    rw [happ]
    apply ih
    · unfold electStep
      split_ifs with h1 h2
      · simp
      · have : (x.1, acc.2) = x := by rw [← h2.1]
        rw [this]; simp
      · simp [hmem]
    · intro e he
      rw [List.mem_append, List.mem_singleton] at he
      unfold electStep
      split_ifs with h1 h2
      · rcases he with he | rfl
        · have := hmax e he
          constructor
          · show e.2 ≤ x.2
            omega
          · intro heq
            have : e.2 = x.2 := heq
            omega
        · exact ⟨le_refl _, fun _ => le_refl _⟩
      · rcases he with he | rfl
        · have := hmax e he
          refine ⟨this.1, fun heq => ?_⟩
          have h3 := this.2 heq
          show e.1.length ≤ x.1.length
          have h4 : x.1.length > acc.1.length := h2.2
          omega
        · exact ⟨le_of_eq h2.1, fun _ => le_refl _⟩
      · rcases he with he | rfl
        · exact hmax e he
        · constructor
          · omega
          · intro heq
            by_contra hlen
            exact h2 ⟨heq, by omega⟩

/-- The outcome of the election on a non-empty map whose counts are positive. -/
theorem electStandardTitle_aux (tc : TitleCleaner) (votes : VoteMap) (hne : votes ≠ [])
    (hpos : ∀ e ∈ votes, 1 ≤ e.2) :
    ∃ c, (tc.ElectStandardTitle votes, c) ∈ votes ∧ (∀ e ∈ votes, e.2 ≤ c) ∧
      (∀ e ∈ votes, e.2 = c → e.1.length ≤ (tc.ElectStandardTitle votes).length) := by
  cases votes with
  | nil => exact absurd rfl hne
  | cons x rest =>
    have hx : 1 ≤ x.2 := hpos x (List.mem_cons_self _ _)
    have hfirst : electStep ([], 0) x = x := by
      unfold electStep
      rw [if_pos (by show x.2 > 0; omega)]
    have hinv := electStep_invariant [x] rest x (List.mem_singleton.2 rfl) (by
      intro e he
      rw [List.mem_singleton] at he
      subst he
      exact ⟨le_refl _, fun _ => le_refl _⟩)
    have helect : tc.ElectStandardTitle (x :: rest) = (rest.foldl electStep x).1 := by
      unfold TitleCleaner.ElectStandardTitle
      rw [if_neg (by simp), List.foldl_cons, hfirst]
    rw [helect]
    refine ⟨(rest.foldl electStep x).2, ?_, ?_, ?_⟩
    · exact hinv.1
    · intro e he
      exact (hinv.2 e he).1
    · intro e he heq
      exact (hinv.2 e he).2 heq

/-- One iteration of the election loop takes the larger, in the lexicographic order, of
the pair (count, length of the title) of its state and that of the entry. -/
theorem electStep_key (acc e : GoString × ℤ) :
    toLex ((electStep acc e).2, (electStep acc e).1.length) =
      max (toLex (acc.2, acc.1.length)) (toLex (e.2, e.1.length)) := by
  unfold electStep
  by_cases h1 : e.2 > acc.2
  · rw [if_pos h1, max_eq_right]
    rw [Prod.Lex.le_iff]
    exact Or.inl h1
  · rw [if_neg h1]
    by_cases h2 : e.2 = acc.2 ∧ e.1.length > acc.1.length
    · rw [if_pos h2, max_eq_right]
      · show toLex (acc.2, e.1.length) = toLex (e.2, e.1.length)
        rw [h2.1]
      · rw [Prod.Lex.le_iff]
        exact Or.inr ⟨h2.1.symm, le_of_lt h2.2⟩
    · rw [if_neg h2, max_eq_left]
      rw [Prod.Lex.le_iff]
      by_cases h3 : e.2 = acc.2
      · right
        refine ⟨h3, ?_⟩
        show e.1.length ≤ acc.1.length
        by_contra h4
        exact h2 ⟨h3, by omega⟩
      · left
        show e.2 < acc.2
        omega

/-- The pair (count, length of the title) the election loop ends in. -/
theorem electLoop_key (votes : VoteMap) (acc : GoString × ℤ) :
    toLex ((votes.foldl electStep acc).2, (votes.foldl electStep acc).1.length) =
      votes.foldl (fun (k : ℤ ×ₗ ℕ) e => max k (toLex (e.2, e.1.length)))
        (toLex (acc.2, acc.1.length)) := by
  induction votes generalizing acc with
  | nil => rfl
  | cons x rest ih =>
    rw [List.foldl_cons, List.foldl_cons, ih, electStep_key]

/-- Folding `max` over a list does not depend on the order of the list. -/
theorem foldl_max_perm {α β : Type} [LinearOrder β] (f : α → β) (l1 l2 : List α)
    (hperm : l1.Perm l2) :
    ∀ k : β, l1.foldl (fun k e => max k (f e)) k = l2.foldl (fun k e => max k (f e)) k := by
  induction hperm with
  | nil => intro k; rfl
  | cons x _ ih =>
    intro k
    rw [List.foldl_cons, List.foldl_cons, ih]
  | swap x y l =>
    intro k
    rw [List.foldl_cons, List.foldl_cons, List.foldl_cons, List.foldl_cons,
      max_assoc, max_comm (f y) (f x), ← max_assoc]
  | trans _ _ ih1 ih2 =>
    intro k
    rw [ih1, ih2]

/-- The length of the elected title does not depend on the order in which the entries of
the map are visited. -/
theorem electStandardTitle_length_perm (tc : TitleCleaner) (v1 v2 : VoteMap)
    (hperm : v1.Perm v2) :
    (tc.ElectStandardTitle v1).length = (tc.ElectStandardTitle v2).length := by
  unfold TitleCleaner.ElectStandardTitle
  rw [hperm.length_eq]
  by_cases h : v2.length = 0
  · rw [if_pos h, if_pos h]
  · rw [if_neg h, if_neg h]
    have h1 := electLoop_key v1 ([], 0)
    have h2 := electLoop_key v2 ([], 0)
    have h3 := foldl_max_perm (fun e : GoString × ℤ => (toLex (e.2, e.1.length) : ℤ ×ₗ ℕ))
      v1 v2 hperm (toLex (((([] : GoString), (0 : ℤ)) : GoString × ℤ).2,
        ((([] : GoString), (0 : ℤ)) : GoString × ℤ).1.length))
    rw [← h1, ← h2] at h3
    exact congrArg (fun p => (ofLex p).2) h3

/-- Whether the elected title is empty does not depend on the order in which the entries
of the map are visited. -/
theorem electStandardTitle_eq_nil_perm (tc : TitleCleaner) (v1 v2 : VoteMap)
    (hperm : v1.Perm v2) :
    tc.ElectStandardTitle v1 = [] ↔ tc.ElectStandardTitle v2 = [] := by
  rw [← List.length_eq_zero, ← List.length_eq_zero,
    electStandardTitle_length_perm tc v1 v2 hperm]

/-- C15: on a vote map whose counts are all at least 1, `ElectStandardTitle` returns a key
of the map that has the maximum count, and no key with the maximum count is longer in
bytes; on the empty map it returns the empty string; on `{"A": 5, "AA": 5}` it returns
"AA", whichever entry is visited first. -/
theorem electStandardTitle_spec :
    (∀ (tc : TitleCleaner) (votes : VoteMap), votes ≠ [] → (∀ e ∈ votes, 1 ≤ e.2) →
      ∃ c, (tc.ElectStandardTitle votes, c) ∈ votes ∧ (∀ e ∈ votes, e.2 ≤ c) ∧
        (∀ e ∈ votes, e.2 = c → e.1.length ≤ (tc.ElectStandardTitle votes).length)) ∧
    (∀ (tc : TitleCleaner), tc.ElectStandardTitle [] = []) ∧
    NewTitleCleaner.ElectStandardTitle [([65], 5), ([65, 65], 5)] = [65, 65] ∧
    NewTitleCleaner.ElectStandardTitle [([65, 65], 5), ([65], 5)] = [65, 65] := by
  refine ⟨electStandardTitle_aux, fun _ => rfl, by decide, by decide⟩

/-- Witness for C15: the map `{"A": 5, "AA": 5}`. -/
theorem electStandardTitle_spec_witness :
    ∃ c, (NewTitleCleaner.ElectStandardTitle [([65], 5), ([65, 65], 5)], c) ∈
        [(([65] : GoString), (5 : ℤ)), ([65, 65], 5)] ∧
      (∀ e ∈ [(([65] : GoString), (5 : ℤ)), ([65, 65], 5)], e.2 ≤ c) ∧
      (∀ e ∈ [(([65] : GoString), (5 : ℤ)), ([65, 65], 5)], e.2 = c →
        e.1.length ≤ (NewTitleCleaner.ElectStandardTitle [([65], 5), ([65, 65], 5)]).length) :=
  electStandardTitle_spec.1 NewTitleCleaner [([65], 5), ([65, 65], 5)] (by decide)
    (by decide)

/-! ## Vote maps -/

theorem voteMap_incr_cons_ne (e : GoString × ℤ) (rest : VoteMap) (k : GoString)
    (h : e.1 ≠ k) : VoteMap.incr (e :: rest) k = e :: VoteMap.incr rest k := by
  unfold VoteMap.incr
  simp only [List.any_cons, decide_eq_false h, Bool.false_or, List.map_cons, if_neg h]
  split_ifs <;> simp

theorem voteMap_incr_cons_eq (e : GoString × ℤ) (rest : VoteMap) (k : GoString)
    (h : e.1 = k) :
    VoteMap.incr (e :: rest) k =
      (e.1, wrapInt (e.2 + 1)) ::
        rest.map (fun x => if x.1 = k then (x.1, wrapInt (x.2 + 1)) else x) := by
  unfold VoteMap.incr
  simp only [List.any_cons, decide_eq_true h, Bool.true_or, List.map_cons, if_pos h, if_true]

/-- Incrementing leaves a map without the key unchanged, entry by entry. -/
theorem voteMap_map_of_not_mem (rest : VoteMap) (k : GoString)
    (h : k ∉ rest.map Prod.fst) :
    rest.map (fun x => if x.1 = k then (x.1, wrapInt (x.2 + 1)) else x) = rest := by
  induction rest with
  | nil => rfl
  | cons x rest ih =>
    rw [List.map_cons, List.mem_cons, not_or] at h
    rw [List.map_cons, if_neg (fun hx => h.1 hx.symm), ih h.2]

theorem voteMap_get_cons (e : GoString × ℤ) (rest : VoteMap) (k : GoString) :
    VoteMap.get (e :: rest) k = if e.1 = k then e.2 else VoteMap.get rest k := by
  unfold VoteMap.get
  by_cases h : e.1 = k
  · rw [if_pos h]
    have : (k == e.1) = true := by rw [h]; exact beq_self_eq_true _
    simp [List.lookup, this]
  · rw [if_neg h]
    have : (k == e.1) = false := by
      rw [beq_eq_false_iff_ne]
      exact fun hx => h hx.symm
    simp [List.lookup, this]

/-- In the arithmetic of `int` a value below `MaxInt64` is raised by one. -/
theorem wrapInt_succ (n : ℤ) (h1 : MinInt64 ≤ n) (h2 : n < MaxInt64) :
    wrapInt (n + 1) = n + 1 := by
  unfold wrapInt
  unfold MinInt64 at h1
  unfold MaxInt64 at h2
  omega

/-- In the arithmetic of `int` the successor of `MaxInt64` is `MinInt64`. -/
theorem wrapInt_succ_max : wrapInt (MaxInt64 + 1) = MinInt64 := by
  decide

theorem voteMap_get_incr_self (m : VoteMap) (k : GoString) :
    (m.incr k).get k = wrapInt (m.get k + 1) := by
  induction m with
  | nil =>
    show VoteMap.get [(k, 1)] k = wrapInt (VoteMap.get [] k + 1)
    rw [voteMap_get_cons, if_pos rfl]
    rfl
  | cons e rest ih =>
    by_cases h : e.1 = k
    · rw [voteMap_incr_cons_eq e rest k h, voteMap_get_cons, voteMap_get_cons, if_pos h,
        if_pos h]
    · rw [voteMap_incr_cons_ne e rest k h, voteMap_get_cons, voteMap_get_cons, if_neg h,
        if_neg h, ih]

theorem voteMap_get_incr_other (m : VoteMap) (k k' : GoString) (hk : k' ≠ k) :
    (m.incr k).get k' = m.get k' := by
  induction m with
  | nil =>
    show VoteMap.get [(k, 1)] k' = VoteMap.get [] k'
    rw [voteMap_get_cons, if_neg (fun h => hk h.symm)]
  | cons e rest ih =>
    by_cases h : e.1 = k
    · rw [voteMap_incr_cons_eq e rest k h, voteMap_get_cons, voteMap_get_cons]
      have hne : ¬ e.1 = k' := fun hx => hk (hx.symm.trans h)
      rw [if_neg hne, if_neg hne]
      clear ih
      induction rest with
      | nil => rfl
      | cons x rest ih2 =>
        rw [List.map_cons, voteMap_get_cons, voteMap_get_cons, ih2]
        by_cases hx : x.1 = k
        · rw [if_pos hx]
          have hxk : ¬ x.1 = k' := fun h' => hk (h'.symm.trans hx)
          rw [if_neg hxk, if_neg hxk]
        · rw [if_neg hx]
    · rw [voteMap_incr_cons_ne e rest k h, voteMap_get_cons, voteMap_get_cons, ih]

theorem voteMap_total_cons (e : GoString × ℤ) (rest : VoteMap) :
    VoteMap.total (e :: rest) = e.2 + VoteMap.total rest := by
  unfold VoteMap.total
  rw [List.map_cons, List.sum_cons]

/-- On a well-formed map the sum of the counts grows by exactly one when the count of the
key is below `MaxInt64`. -/
theorem voteMap_total_incr (m : VoteMap) (k : GoString) (hwf : m.WellFormed)
    (h1 : MinInt64 ≤ m.get k) (h2 : m.get k < MaxInt64) :
    (m.incr k).total = m.total + 1 := by
  induction m with
  | nil =>
    show VoteMap.total [(k, 1)] = VoteMap.total [] + 1
    rw [voteMap_total_cons]
    rfl
  | cons e rest ih =>
    rw [voteMap_get_cons] at h1 h2
    have hnd : e.1 ∉ rest.map Prod.fst ∧ (rest.map Prod.fst).Nodup := by
      have : ((e :: rest).map Prod.fst).Nodup := hwf
      rw [List.map_cons, List.nodup_cons] at this
      exact this
    by_cases h : e.1 = k
    · rw [if_pos h] at h1 h2
      rw [voteMap_incr_cons_eq e rest k h, voteMap_map_of_not_mem rest k (h ▸ hnd.1),
        voteMap_total_cons, voteMap_total_cons, wrapInt_succ e.2 h1 h2]
      show e.2 + 1 + VoteMap.total rest = e.2 + VoteMap.total rest + 1
      ring
    · rw [if_neg h] at h1 h2
      rw [voteMap_incr_cons_ne e rest k h, voteMap_total_cons, voteMap_total_cons,
        ih hnd.2 h1 h2]
      ring

theorem voteMap_keys_incr (m : VoteMap) (k : GoString) :
    ∀ x, x ∈ (m.incr k).map Prod.fst ↔ (x ∈ m.map Prod.fst ∨ x = k) := by
  induction m with
  | nil =>
    intro x
    show x ∈ List.map Prod.fst [(k, (1 : ℤ))] ↔ _
    simp
  | cons e rest ih =>
    intro x
    by_cases h : e.1 = k
    · rw [voteMap_incr_cons_eq e rest k h]
      simp only [List.map_cons, List.mem_cons, List.map_map]
      have hfst : (Prod.fst ∘ fun x : GoString × ℤ =>
          if x.1 = k then (x.1, wrapInt (x.2 + 1)) else x) =
          Prod.fst := by
        funext y
        simp only [Function.comp]
        split_ifs <;> rfl
      rw [hfst]
      constructor
      · rintro (hx | hx)
        · exact Or.inl (Or.inl hx)
        · exact Or.inl (Or.inr hx)
      · rintro ((hx | hx) | hx)
        · exact Or.inl hx
        · exact Or.inr hx
        · exact Or.inl (hx.trans h.symm)
    · rw [voteMap_incr_cons_ne e rest k h]
      simp only [List.map_cons, List.mem_cons]
      rw [ih x]
      tauto

/-- Incrementing keeps the keys of a map pairwise distinct. -/
theorem voteMap_wellFormed_incr (m : VoteMap) (k : GoString) (hwf : m.WellFormed) :
    (m.incr k).WellFormed := by
  induction m with
  | nil =>
    show (List.map Prod.fst [(k, (1 : ℤ))]).Nodup
    simp
  | cons e rest ih =>
    have hnd : e.1 ∉ rest.map Prod.fst ∧ (rest.map Prod.fst).Nodup := by
      have : ((e :: rest).map Prod.fst).Nodup := hwf
      rw [List.map_cons, List.nodup_cons] at this
      exact this
    by_cases h : e.1 = k
    · rw [voteMap_incr_cons_eq e rest k h, voteMap_map_of_not_mem rest k (h ▸ hnd.1)]
      show VoteMap.WellFormed ((e.1, wrapInt (e.2 + 1)) :: rest)
      unfold VoteMap.WellFormed
      rw [List.map_cons, List.nodup_cons]
      exact hnd
    · rw [voteMap_incr_cons_ne e rest k h]
      unfold VoteMap.WellFormed
      rw [List.map_cons, List.nodup_cons]
      refine ⟨?_, ih hnd.2⟩
      rw [voteMap_keys_incr rest k e.1]
      rintro (hx | hx)
      · exact hnd.1 hx
      · exact h hx

/-! ## Claims about `ProcessIncomingItem` -/

theorem strategyA_of_isFirst (s : DataCleaningService) (rawTitle : GoString)
    (masters : List MasterProduct) (m : MasterProduct)
    (h : IsFirst (fun x => s.titleCleaner.IsHighSimilarity rawTitle x.StandardTitle) masters m) :
    strategyA s rawTitle masters = some m := by
  obtain ⟨pre, post, rfl, hm, hpre⟩ := h
  induction pre with
  | nil =>
    rw [List.nil_append, strategyA, if_pos hm]
  | cons y pre ih =>
    rw [List.cons_append, strategyA]
    have hy : s.titleCleaner.IsHighSimilarity rawTitle y.StandardTitle = false :=
      hpre y (List.mem_cons_self _ _)
    rw [if_neg (by rw [hy]; exact Bool.false_ne_true)]
    exact ih (fun z hz => hpre z (List.mem_cons_of_mem _ hz))

theorem strategyA_of_none (s : DataCleaningService) (rawTitle : GoString)
    (masters : List MasterProduct)
    (h : ∀ y ∈ masters, s.titleCleaner.IsHighSimilarity rawTitle y.StandardTitle = false) :
    strategyA s rawTitle masters = none := by
  induction masters with
  | nil => rfl
  | cons y rest ih =>
    rw [strategyA, if_neg (by rw [h y (List.mem_cons_self _ _)]; exact Bool.false_ne_true)]
    exact ih (fun z hz => h z (List.mem_cons_of_mem _ hz))

theorem strategyB_of_isFirst (s : DataCleaningService) (rawTitle : GoString) (price : F64)
    (masters : List MasterProduct) (m : MasterProduct)
    (h : IsFirst (fun x => s.titleCleaner.IsMidSimilarity rawTitle x.StandardTitle &&
      s.titleCleaner.IsPriceMatch price x.Price) masters m) :
    strategyB s rawTitle price masters = some m := by
  obtain ⟨pre, post, rfl, hm, hpre⟩ := h
  induction pre with
  | nil =>
    rw [List.nil_append, strategyB, if_pos hm]
  | cons y pre ih =>
    rw [List.cons_append, strategyB]
    have hy : (s.titleCleaner.IsMidSimilarity rawTitle y.StandardTitle &&
        s.titleCleaner.IsPriceMatch price y.Price) = false := hpre y (List.mem_cons_self _ _)
    rw [if_neg (by rw [hy]; exact Bool.false_ne_true)]
    exact ih (fun z hz => hpre z (List.mem_cons_of_mem _ hz))

theorem strategyB_of_none (s : DataCleaningService) (rawTitle : GoString) (price : F64)
    (masters : List MasterProduct)
    (h : ∀ y ∈ masters, (s.titleCleaner.IsMidSimilarity rawTitle y.StandardTitle &&
      s.titleCleaner.IsPriceMatch price y.Price) = false) :
    strategyB s rawTitle price masters = none := by
  induction masters with
  | nil => rfl
  | cons y rest ih =>
    rw [strategyB, if_neg (by rw [h y (List.mem_cons_self _ _)]; exact Bool.false_ne_true)]
    exact ih (fun z hz => h z (List.mem_cons_of_mem _ hz))

/-- An item matched by title is handed to `handleMasterMatch` with the matched master. -/
theorem processIncomingItem_of_title (s : DataCleaningService) (lib : Library)
    (item : DTInputDTO) (region : GoString) (now : Time) (st : Store)
    (masters : List MasterProduct) (m : MasterProduct)
    (hread : st.masterFindByRegion region = Except.ok masters)
    (hm : MatchedByTitle s item masters m) :
    s.ProcessIncomingItem lib (some item) region now st =
      s.handleMasterMatch m item.Price item.Status now st := by
  unfold DataCleaningService.ProcessIncomingItem
  simp only [hread, strategyA_of_isFirst s item.Title masters m hm]

/-- An item matched by title and price is handed to `handleMasterMatch` with the matched
master. -/
theorem processIncomingItem_of_title_and_price (s : DataCleaningService) (lib : Library)
    (item : DTInputDTO) (region : GoString) (now : Time) (st : Store)
    (masters : List MasterProduct) (m : MasterProduct)
    (hread : st.masterFindByRegion region = Except.ok masters)
    (hm : MatchedByTitleAndPrice s item masters m) :
    s.ProcessIncomingItem lib (some item) region now st =
      s.handleMasterMatch m item.Price item.Status now st := by
  unfold DataCleaningService.ProcessIncomingItem
  simp only [hread, strategyA_of_none s item.Title masters hm.1,
    strategyB_of_isFirst s item.Title item.Price masters m hm.2]

/-- An item that matches no master goes to the candidate pool. -/
theorem processIncomingItem_of_no_match (s : DataCleaningService) (lib : Library)
    (item : DTInputDTO) (region : GoString) (now : Time) (st : Store)
    (masters : List MasterProduct)
    (hread : st.masterFindByRegion region = Except.ok masters)
    (hA : ∀ y ∈ masters, s.titleCleaner.IsHighSimilarity item.Title y.StandardTitle = false)
    (hB : ∀ y ∈ masters, (s.titleCleaner.IsMidSimilarity item.Title y.StandardTitle &&
      s.titleCleaner.IsPriceMatch item.Price y.Price) = false) :
    s.ProcessIncomingItem lib (some item) region now st =
      ((none, (s.handleCandidateLogic region item.Title
          (s.titleCleaner.CleanTitleForID lib item.Title) item now st).1.map
            (GoErr.wrap "handle candidate")),
        (s.handleCandidateLogic region item.Title
          (s.titleCleaner.CleanTitleForID lib item.Title) item now st).2) := by
  unfold DataCleaningService.ProcessIncomingItem
  simp only [hread, strategyA_of_none s item.Title masters hA,
    strategyB_of_none s item.Title item.Price masters hB]
  rcases s.handleCandidateLogic region item.Title
    (s.titleCleaner.CleanTitleForID lib item.Title) item now st with ⟨_ | err, st1⟩ <;> rfl

/-- C12: match selection in `ProcessIncomingItem`, for every item and every list of
masters the store returns for the region. The first master that is High-similar to the raw
title is the matched one, whatever precedes it in the list; failing that, the first master
that is Mid-similar with a matching price (`IsPriceMatch`); failing both, no master is
matched and the item is passed to the candidate pool. -/
theorem processIncomingItem_match_selection (s : DataCleaningService) (lib : Library)
    (item : DTInputDTO) (region : GoString) (now : Time) (st : Store)
    (masters : List MasterProduct)
    (hread : st.masterFindByRegion region = Except.ok masters) :
    (∀ m, MatchedByTitle s item masters m →
      s.ProcessIncomingItem lib (some item) region now st =
        s.handleMasterMatch m item.Price item.Status now st) ∧
    (∀ m, MatchedByTitleAndPrice s item masters m →
      s.ProcessIncomingItem lib (some item) region now st =
        s.handleMasterMatch m item.Price item.Status now st) ∧
    ((∀ y ∈ masters, s.titleCleaner.IsHighSimilarity item.Title y.StandardTitle = false) →
      (∀ y ∈ masters, (s.titleCleaner.IsMidSimilarity item.Title y.StandardTitle &&
        s.titleCleaner.IsPriceMatch item.Price y.Price) = false) →
      s.ProcessIncomingItem lib (some item) region now st =
        ((none, (s.handleCandidateLogic region item.Title
            (s.titleCleaner.CleanTitleForID lib item.Title) item now st).1.map
              (GoErr.wrap "handle candidate")),
          (s.handleCandidateLogic region item.Title
            (s.titleCleaner.CleanTitleForID lib item.Title) item now st).2)) :=
  ⟨fun m hm => processIncomingItem_of_title s lib item region now st masters m hread hm,
    fun m hm =>
      processIncomingItem_of_title_and_price s lib item region now st masters m hread hm,
    fun hA hB => processIncomingItem_of_no_match s lib item region now st masters hread hA hB⟩

theorem handleMasterMatch_rejected (s : DataCleaningService) (m : MasterProduct) (price : F64)
    (status : ℤ) (now : Time) (st : Store)
    (h : (s.priceValidator.ValidateUpdate m.Price price m.UpdateTime now).2 ≠ none) :
    s.handleMasterMatch m price status now st = ((none, none), st) := by
  unfold DataCleaningService.handleMasterMatch
  cases hv : (s.priceValidator.ValidateUpdate m.Price price m.UpdateTime now).2 with
  | none => exact absurd hv h
  | some e => simp only [hv]

theorem handleMasterMatch_accepted (s : DataCleaningService) (m : MasterProduct) (price : F64)
    (status : ℤ) (now : Time) (st : Store) (p : F64)
    (h : s.priceValidator.ValidateUpdate m.Price price m.UpdateTime now = (p, none))
    (hok : st.fails (StoreOp.masterUpdate m.ID) = false) :
    s.handleMasterMatch m price status now st =
      ((some
        { ActivityID := m.ID, Platform := strDT, Region := m.Region,
          Title := m.StandardTitle, ShopName := strShopName, OriginalPrice := price,
          CurrentPrice := p, SalesStatus := status, ActivityCreateTime := m.UpdateTime },
        none),
       { st with masters := st.masters.map (updateMasterRow st.clock
          { m with Price := p, Status := status, TrustScore := wrapInt (m.TrustScore + 1) }) }) := by
  unfold DataCleaningService.handleMasterMatch
  simp only [h, MasterProduct.IncrementTrustScore, Store.masterUpdate, hok]
  rfl

/-- In a store with distinct master identifiers, updating by identifier touches the one
row that is the master read. -/
theorem map_updateMasterRow (clock : Time) (m m' : MasterProduct) (rows : List MasterProduct)
    (hid : m'.ID = m.ID) (hmem : m ∈ rows) (hnd : (rows.map (fun x => x.ID)).Nodup) :
    rows.map (updateMasterRow clock m') =
      rows.map (fun row => if row = m then
        { m with Price := m'.Price, Status := m'.Status, TrustScore := m'.TrustScore,
                 UpdateTime := clock } else row) := by
  apply List.map_congr_left
  intro row hrow
  unfold updateMasterRow
  by_cases h : row = m
  · subst h
    rw [if_pos hid.symm, if_pos rfl]
  · rw [if_neg h, if_neg]
    intro hrid
    apply h
    exact List.inj_on_of_nodup_map hnd hrow hmem (hrid.trans hid)

theorem masterFindByRegion_ok (st : Store) (region : GoString) (masters : List MasterProduct)
    (h : st.masterFindByRegion region = Except.ok masters) :
    masters = st.masters.filter (fun m => decide (m.Region = region)) := by
  unfold Store.masterFindByRegion at h
  by_cases hf : st.fails (StoreOp.masterFindByRegion region) = true
  · rw [if_pos hf] at h
    exact absurd h (by simp)
  · rw [if_neg hf] at h
    exact (Except.ok.inj h).symm

theorem isFirst_mem {α : Type} {p : α → Bool} {l : List α} {x : α} (h : IsFirst p l x) :
    x ∈ l := by
  obtain ⟨pre, post, rfl, -, -⟩ := h
  simp

/-- A matched master is a row of the catalog. -/
theorem matched_mem_masters (s : DataCleaningService) (item : DTInputDTO) (region : GoString)
    (st : Store) (masters : List MasterProduct) (m : MasterProduct)
    (hread : st.masterFindByRegion region = Except.ok masters)
    (hm : MatchedByTitle s item masters m ∨ MatchedByTitleAndPrice s item masters m) :
    m ∈ st.masters := by
  have hmem : m ∈ masters := by
    rcases hm with h | h
    · exact isFirst_mem h
    · exact isFirst_mem h.2
  rw [masterFindByRegion_ok st region masters hread] at hmem
  exact List.mem_of_mem_filter hmem

theorem processIncomingItem_of_matched (s : DataCleaningService) (lib : Library)
    (item : DTInputDTO) (region : GoString) (now : Time) (st : Store)
    (masters : List MasterProduct) (m : MasterProduct)
    (hread : st.masterFindByRegion region = Except.ok masters)
    (hm : MatchedByTitle s item masters m ∨ MatchedByTitleAndPrice s item masters m) :
    s.ProcessIncomingItem lib (some item) region now st =
      s.handleMasterMatch m item.Price item.Status now st := by
  rcases hm with h | h
  · exact processIncomingItem_of_title s lib item region now st masters m hread h
  · exact processIncomingItem_of_title_and_price s lib item region now st masters m hread h

/-- A non-empty title is High-similar to itself under the default threshold. -/
theorem isHighSimilarity_self (t : GoString) (ht : t ≠ []) :
    NewTitleCleaner.IsHighSimilarity t t = true := by
  have hsim : NewTitleCleaner.CalculateSimilarity t t = F64.fin 1 := by
    unfold TitleCleaner.CalculateSimilarity
    rw [if_neg (fun h => ht h.1), if_pos rfl]
  unfold TitleCleaner.IsHighSimilarity
  rw [if_neg (fun h => h.elim ht ht), hsim, decide_eq_true_iff]
  exact (F64.fin_le_fin _ _).2 (by norm_num)

/-- The example observation is matched by title with the example master. -/
theorem exItem_matched (price : F64) :
    MatchedByTitle (NewDataCleaningService true) (exItem price) [exMaster] exMaster :=
  ⟨[], [], rfl, isHighSimilarity_self [0x41, 0x42, 0x43, 0x44] (by decide),
    fun _ h => absurd h (List.not_mem_nil _)⟩

/-- The default validator rejects 100 to 40 within one day. -/
theorem validateUpdate_100_40 :
    NewPriceValidator.ValidateUpdate (F64.fin 100) (F64.fin 40) 1000 2000 =
      (F64.fin 100, some (errorsNew ErrPriceDropExceeded "price drop exceeded threshold")) := by
  rw [validateUpdate_drop_aux NewPriceValidator (F64.fin 100) (F64.fin 40) 1000 2000
    rfl rfl (by decide) (by decide) (by decide) (by decide) (by decide)]
  have h1 : F64.div (F64.fin 40) (F64.fin 100) ≤ F64.fin (7 / 16) := by
    rw [F64.div_fin_fin _ _ (by norm_num)]
    have h := F64.round_dyadic 7 (-4) (by norm_num) (by norm_num) (by norm_num)
    have e : ((7 : ℕ) : ℚ) * (2 : ℚ) ^ (-4 : ℤ) = 7 / 16 := by norm_num
    rw [e] at h
    rw [← h]
    exact F64.round_mono _ _ (by norm_num)
  have h2 : F64.fin (7 / 16) < NewPriceValidator.maxDropRatio :=
    (F64.fin_lt_fin _ _).2 (by norm_num)
  rw [if_pos (F64.ltOfLeOfLt h1 h2)]

/-- The default validator accepts 100 to 90 within one day. -/
theorem validateUpdate_100_90 :
    NewPriceValidator.ValidateUpdate (F64.fin 100) (F64.fin 90) 1000 2000 =
      (F64.fin 90, none) := by
  rw [validateUpdate_drop_aux NewPriceValidator (F64.fin 100) (F64.fin 90) 1000 2000
    rfl rfl (by decide) (by decide) (by decide) (by decide) (by decide)]
  have h1 : NewPriceValidator.maxDropRatio ≤ F64.div (F64.fin 90) (F64.fin 100) := by
    rw [F64.div_fin_fin _ _ (by norm_num)]
    show F64.fin (1 / 2) ≤ _
    rw [← F64.round_half]
    exact F64.round_mono _ _ (by norm_num)
  rw [if_neg (F64.not_lt_of_le64 h1)]

/-- C13: when the item matches a master, by title or by title and price, and
`ValidateUpdate` rejects its price against the stored price and update time of that master,
`ProcessIncomingItem` returns `(nil, nil)` and the store is left as it was: every master,
the matched one included, and every candidate. -/
theorem processIncomingItem_rejected_price (s : DataCleaningService) (lib : Library)
    (item : DTInputDTO) (region : GoString) (now : Time) (st : Store)
    (masters : List MasterProduct) (m : MasterProduct)
    (hread : st.masterFindByRegion region = Except.ok masters)
    (hm : MatchedByTitle s item masters m ∨ MatchedByTitleAndPrice s item masters m)
    (hrej : (s.priceValidator.ValidateUpdate m.Price item.Price m.UpdateTime now).2 ≠ none) :
    s.ProcessIncomingItem lib (some item) region now st = ((none, none), st) := by
  rw [processIncomingItem_of_matched s lib item region now st masters m hread hm]
  exact handleMasterMatch_rejected s m item.Price item.Status now st hrej

/-- Witness for C13: a master stored at 100 and an observation at 40 on the same day. -/
theorem processIncomingItem_rejected_price_witness :
    (NewDataCleaningService true).ProcessIncomingItem exLibrary (some (exItem (F64.fin 40)))
        [0x72] 2000 (exStore [exMaster] []) = ((none, none), exStore [exMaster] []) :=
  processIncomingItem_rejected_price (NewDataCleaningService true) exLibrary
    (exItem (F64.fin 40)) [0x72] 2000 (exStore [exMaster] []) [exMaster] exMaster rfl
    (Or.inl (exItem_matched _))
    (by
      show (NewPriceValidator.ValidateUpdate (F64.fin 100) (F64.fin 40) 1000 2000).2 ≠ none
      rw [validateUpdate_100_40]
      exact fun h => Option.noConfusion h)

/-- C14, amended: when the item matches a master and `ValidateUpdate` accepts its price,
and the update of the store succeeds, `ProcessIncomingItem` writes the validated price,
the status of the item and the trust score raised by one in the arithmetic of `int` to the
matched master, and returns a DTO with the identifier of that master and the validated
price; the other masters, the candidates and the trends are as before. The trust score is
raised by exactly one when it is below `MaxInt64`; the trust score `MaxInt64` becomes
`MinInt64`. -/
theorem processIncomingItem_accepted_price (s : DataCleaningService) (lib : Library)
    (item : DTInputDTO) (region : GoString) (now : Time) (st : Store)
    (masters : List MasterProduct) (m : MasterProduct) (p : F64)
    (hread : st.masterFindByRegion region = Except.ok masters)
    (hm : MatchedByTitle s item masters m ∨ MatchedByTitleAndPrice s item masters m)
    (hwf : st.WellFormed)
    (hacc : s.priceValidator.ValidateUpdate m.Price item.Price m.UpdateTime now = (p, none))
    (hok : st.fails (StoreOp.masterUpdate m.ID) = false) :
    ∃ dto st',
      s.ProcessIncomingItem lib (some item) region now st = ((some dto, none), st') ∧
      dto.ActivityID = m.ID ∧ dto.CurrentPrice = p ∧
      st'.masters = st.masters.map (fun row => if row = m then
        { m with Price := p, Status := item.Status, TrustScore := wrapInt (m.TrustScore + 1),
                 UpdateTime := st.clock } else row) ∧
      st'.candidates = st.candidates ∧ st'.trends = st.trends ∧
      (MinInt64 ≤ m.TrustScore → m.TrustScore < MaxInt64 →
        wrapInt (m.TrustScore + 1) = m.TrustScore + 1) ∧
      (m.TrustScore = MaxInt64 → wrapInt (m.TrustScore + 1) = MinInt64) := by
  rw [processIncomingItem_of_matched s lib item region now st masters m hread hm,
    handleMasterMatch_accepted s m item.Price item.Status now st p hacc hok]
  refine ⟨_, _, rfl, rfl, rfl, ?_, rfl, rfl, wrapInt_succ _, ?_⟩
  · exact map_updateMasterRow st.clock m _ st.masters rfl
      (matched_mem_masters s item region st masters m hread hm) hwf.1
  · intro h
    rw [h]
    exact wrapInt_succ_max

/-- Witness for C14: the example master of the region "r", stored at 100 with the trust
score 3, a master of the region "q" and a candidate in the store, and an observation at 90
on the same day. -/
theorem processIncomingItem_accepted_price_witness :
    ∃ dto st',
      (NewDataCleaningService true).ProcessIncomingItem exLibrary
        (some (exItem (F64.fin 90))) [0x72] 2000
        (exStore [exOtherRegionMaster, exMaster] [exCandidate]) = ((some dto, none), st') ∧
      dto.ActivityID = exMaster.ID ∧ dto.CurrentPrice = F64.fin 90 ∧
      st'.masters =
        [exOtherRegionMaster,
          { exMaster with Price := F64.fin 90, TrustScore := 4, UpdateTime := 2000 }] ∧
      st'.candidates = [exCandidate] ∧ st'.trends = [] ∧
      wrapInt (exMaster.TrustScore + 1) = exMaster.TrustScore + 1 :=
  let ⟨dto, st1, h1, h2, h3, h4, h5, h6, h7, _⟩ :=
    processIncomingItem_accepted_price (NewDataCleaningService true) exLibrary
      (exItem (F64.fin 90)) [0x72] 2000
      (exStore [exOtherRegionMaster, exMaster] [exCandidate]) [exMaster] exMaster
      (F64.fin 90) rfl (Or.inl (exItem_matched _)) ⟨by decide, by decide⟩
      validateUpdate_100_90 rfl
  ⟨dto, st1, h1, h2, h3, by rw [h4]; decide, h5, h6, h7 (by decide) (by decide)⟩

/-- C14, counterexample: the example master with the trust score `MaxInt64`, stored at
100, and a matching observation at 90 on the same day. `ProcessIncomingItem` accepts the
price and persists the master with the trust score `MinInt64`. -/
theorem processIncomingItem_trustScore_wraps :
    exMasterMax.TrustScore = 9223372036854775807 ∧
      ((NewDataCleaningService true).ProcessIncomingItem exLibrary
        (some (exItem (F64.fin 90))) [0x72] 2000 (exStore [exMasterMax] [])).1.2 = none ∧
      ((NewDataCleaningService true).ProcessIncomingItem exLibrary
        (some (exItem (F64.fin 90))) [0x72] 2000 (exStore [exMasterMax] [])).1.1.map
          (fun dto => dto.CurrentPrice) = some (F64.fin 90) ∧
      ((NewDataCleaningService true).ProcessIncomingItem exLibrary
        (some (exItem (F64.fin 90))) [0x72] 2000 (exStore [exMasterMax] [])).2.masters.map
          (fun m => (m.Price, m.TrustScore)) = [(F64.fin 90, -9223372036854775808)] := by
  rw [processIncomingItem_of_matched (NewDataCleaningService true) exLibrary
    (exItem (F64.fin 90)) [0x72] 2000 (exStore [exMasterMax] []) [exMasterMax] exMasterMax rfl
    (Or.inl ⟨[], [], rfl, isHighSimilarity_self [0x41, 0x42, 0x43, 0x44] (by decide),
      fun _ h => absurd h (List.not_mem_nil _)⟩),
    handleMasterMatch_accepted (NewDataCleaningService true) exMasterMax
      (exItem (F64.fin 90)).Price (exItem (F64.fin 90)).Status 2000
      (exStore [exMasterMax] []) (F64.fin 90) validateUpdate_100_90 rfl]
  exact ⟨rfl, rfl, rfl, by decide⟩

/-! ## Claims about the candidate fold -/

/-- The candidate as the fold writes it back: one more vote for the raw title, one more
occurrence, and the observation as last-seen snapshot. -/
theorem addVote_updateLastSeen (c : CandidateItem) (rawTitle : GoString) (price : F64)
    (status : ℤ) (now : Time) (h : rawTitle ≠ []) :
    (c.AddTitleVote rawTitle).1.UpdateLastSeen price status now =
      { c with TitleVotes := c.TitleVotes.incr rawTitle,
               TotalOccurrences := wrapInt (c.TotalOccurrences + 1),
               LastPrice := price, LastStatus := status, LastSeenTime := now } := by
  unfold CandidateItem.AddTitleVote CandidateItem.UpdateLastSeen
  rw [if_neg h]

theorem candidateScan_of_isFirst (s : DataCleaningService) (rawTitle cleanKey : GoString)
    (item : DTInputDTO) (now : Time) (st : Store) (candidates : List CandidateItem)
    (c : CandidateItem)
    (h : IsFirst (fun x => s.titleCleaner.IsHighSimilarity cleanKey x.GroupKey) candidates c) :
    candidateScan s rawTitle cleanKey item now st candidates =
      some (st.candidateUpdate
        ((c.AddTitleVote rawTitle).1.UpdateLastSeen item.Price item.Status now)) := by
  obtain ⟨pre, post, rfl, hc, hpre⟩ := h
  induction pre with
  | nil =>
    rw [List.nil_append, candidateScan, if_pos hc]
  | cons y pre ih =>
    rw [List.cons_append, candidateScan]
    have hy : s.titleCleaner.IsHighSimilarity cleanKey y.GroupKey = false :=
      hpre y (List.mem_cons_self _ _)
    rw [if_neg (by rw [hy]; exact Bool.false_ne_true)]
    exact ih (fun z hz => hpre z (List.mem_cons_of_mem _ hz))

theorem candidateScan_of_none (s : DataCleaningService) (rawTitle cleanKey : GoString)
    (item : DTInputDTO) (now : Time) (st : Store) (candidates : List CandidateItem)
    (h : ∀ y ∈ candidates, s.titleCleaner.IsHighSimilarity cleanKey y.GroupKey = false) :
    candidateScan s rawTitle cleanKey item now st candidates = none := by
  induction candidates with
  | nil => rfl
  | cons y rest ih =>
    rw [candidateScan, if_neg (by rw [h y (List.mem_cons_self _ _)]; exact Bool.false_ne_true)]
    exact ih (fun z hz => h z (List.mem_cons_of_mem _ hz))

/-- The fold on a valid observation with a High-similar candidate is one `Update` call. -/
theorem handleCandidateLogic_update (s : DataCleaningService)
    (region rawTitle cleanKey : GoString) (item : DTInputDTO) (now : Time) (st : Store)
    (candidates : List CandidateItem) (c : CandidateItem)
    (htitle : rawTitle ≠ []) (hprice : ¬ (item.Price < F64.fin 0))
    (hread : st.candidateFindByRegion region = Except.ok candidates)
    (hc : IsFirst (fun x => s.titleCleaner.IsHighSimilarity cleanKey x.GroupKey) candidates c) :
    s.handleCandidateLogic region rawTitle cleanKey item now st =
      st.candidateUpdate
        { c with TitleVotes := c.TitleVotes.incr rawTitle,
                 TotalOccurrences := wrapInt (c.TotalOccurrences + 1),
                 LastPrice := item.Price, LastStatus := item.Status, LastSeenTime := now } := by
  unfold DataCleaningService.handleCandidateLogic
  rw [if_neg htitle, if_neg hprice]
  simp only [hread, candidateScan_of_isFirst s rawTitle cleanKey item now st candidates c hc,
    addVote_updateLastSeen c rawTitle item.Price item.Status now htitle]

/-- The fold on a valid observation without a High-similar candidate is one `Create`
call. -/
theorem handleCandidateLogic_create (s : DataCleaningService)
    (region rawTitle cleanKey : GoString) (item : DTInputDTO) (now : Time) (st : Store)
    (candidates : List CandidateItem)
    (htitle : rawTitle ≠ []) (hprice : ¬ (item.Price < F64.fin 0))
    (hread : st.candidateFindByRegion region = Except.ok candidates)
    (hnone : ∀ y ∈ candidates, s.titleCleaner.IsHighSimilarity cleanKey y.GroupKey = false) :
    s.handleCandidateLogic region rawTitle cleanKey item now st =
      st.candidateCreate
        { ID := 0, GroupKey := cleanKey, Region := region, TitleVotes := [(rawTitle, 1)],
          TotalOccurrences := 1, LastPrice := item.Price, LastStatus := item.Status,
          FirstSeenTime := now, LastSeenTime := now, CreateTime := 0, UpdateTime := 0 } := by
  unfold DataCleaningService.handleCandidateLogic
  rw [if_neg htitle, if_neg hprice]
  simp only [hread, candidateScan_of_none s rawTitle cleanKey item now st candidates hnone]

theorem candidateFindByRegion_ok (st : Store) (region : GoString)
    (candidates : List CandidateItem)
    (h : st.candidateFindByRegion region = Except.ok candidates) :
    candidates = st.candidates.filter (fun c => decide (c.Region = region)) := by
  unfold Store.candidateFindByRegion at h
  by_cases hf : st.fails (StoreOp.candidateFindByRegion region) = true
  · rw [if_pos hf] at h
    exact absurd h (by simp)
  · rw [if_neg hf] at h
    exact (Except.ok.inj h).symm

/-- In a store with distinct candidate identifiers, updating by identifier touches the one
row that is the candidate read. -/
theorem map_updateCandidateRow (clock : Time) (c c' : CandidateItem)
    (rows : List CandidateItem) (hid : c'.ID = c.ID) (hmem : c ∈ rows)
    (hnd : (rows.map (fun x => x.ID)).Nodup) :
    rows.map (updateCandidateRow clock c') =
      rows.map (fun row => if row = c then
        { c with TitleVotes := c'.TitleVotes, TotalOccurrences := c'.TotalOccurrences,
                 LastPrice := c'.LastPrice, LastStatus := c'.LastStatus,
                 LastSeenTime := c'.LastSeenTime, UpdateTime := clock } else row) := by
  apply List.map_congr_left
  intro row hrow
  unfold updateCandidateRow
  by_cases h : row = c
  · subst h
    rw [if_pos hid.symm, if_pos rfl]
  · rw [if_neg h, if_neg]
    intro hrid
    apply h
    exact List.inj_on_of_nodup_map hnd hrow hmem (hrid.trans hid)

/-- C17: on an empty title or a negative price the candidate fold returns an error that
does not depend on the store, failing or not, and returns the store as it received it: it
reads nothing and writes nothing. -/
theorem handleCandidateLogic_invalid (s : DataCleaningService)
    (region rawTitle cleanKey : GoString) (item : DTInputDTO) (now : Time)
    (h : rawTitle = [] ∨ item.Price < F64.fin 0) :
    ∃ err, ∀ st : Store,
      s.handleCandidateLogic region rawTitle cleanKey item now st = (some err, st) := by
  by_cases ht : rawTitle = []
  · refine ⟨GoErr.new "empty title", fun st => ?_⟩
    unfold DataCleaningService.handleCandidateLogic
    rw [if_pos ht]
  · have hp : item.Price < F64.fin 0 := h.resolve_left ht
    refine ⟨GoErr.new "invalid price", fun st => ?_⟩
    unfold DataCleaningService.handleCandidateLogic
    rw [if_neg ht, if_pos hp]

/-- Witness for C17: an observation at the price -1. -/
theorem handleCandidateLogic_invalid_witness :
    ∃ err, ∀ st : Store,
      (NewDataCleaningService true).handleCandidateLogic [0x72] [0x41] [0x41]
        (exItem (F64.fin (-1))) 2000 st = (some err, st) :=
  handleCandidateLogic_invalid (NewDataCleaningService true) [0x72] [0x41] [0x41]
    (exItem (F64.fin (-1))) 2000 (Or.inr (by decide))

/-- The effect of `AddTitleVote` with a non-empty title on a candidate whose vote map is
well formed. -/
theorem addTitleVote_of_ne_nil (c : CandidateItem) (title : GoString) (ht : title ≠ [])
    (hwf : c.TitleVotes.WellFormed) :
    (c.AddTitleVote title).2 = none ∧
      (c.AddTitleVote title).1.TitleVotes.get title =
        wrapInt (c.TitleVotes.get title + 1) ∧
      (c.AddTitleVote title).1.TotalOccurrences = wrapInt (c.TotalOccurrences + 1) ∧
      (∀ k, k ≠ title → (c.AddTitleVote title).1.TitleVotes.get k = c.TitleVotes.get k) ∧
      (c.AddTitleVote title).1.TitleVotes.WellFormed ∧
      (MinInt64 ≤ c.TitleVotes.get title → c.TitleVotes.get title < MaxInt64 →
        (c.AddTitleVote title).1.TitleVotes.get title = c.TitleVotes.get title + 1 ∧
        (∀ k, c.TitleVotes.get k ≤ (c.AddTitleVote title).1.TitleVotes.get k) ∧
        (c.AddTitleVote title).1.TitleVotes.total = c.TitleVotes.total + 1) ∧
      (MinInt64 ≤ c.TotalOccurrences → c.TotalOccurrences < MaxInt64 →
        (c.AddTitleVote title).1.TotalOccurrences = c.TotalOccurrences + 1) ∧
      (MinInt64 ≤ c.TitleVotes.get title → c.TitleVotes.get title < MaxInt64 →
        MinInt64 ≤ c.TotalOccurrences → c.TotalOccurrences < MaxInt64 →
        c.TitleVotes.total ≤ c.TotalOccurrences →
        (c.AddTitleVote title).1.TitleVotes.total ≤
          (c.AddTitleVote title).1.TotalOccurrences) := by
  have h : c.AddTitleVote title =
      ({ c with TitleVotes := c.TitleVotes.incr title,
                TotalOccurrences := wrapInt (c.TotalOccurrences + 1) }, none) := by
    unfold CandidateItem.AddTitleVote
    rw [if_neg ht]
  rw [h]
  refine ⟨rfl, voteMap_get_incr_self _ _, rfl,
    fun k hk => voteMap_get_incr_other _ _ _ hk, voteMap_wellFormed_incr _ _ hwf, ?_, ?_, ?_⟩
  · intro h1 h2
    refine ⟨?_, ?_, voteMap_total_incr _ _ hwf h1 h2⟩
    · show (c.TitleVotes.incr title).get title = _
      rw [voteMap_get_incr_self, wrapInt_succ _ h1 h2]
    · intro k
      show c.TitleVotes.get k ≤ (c.TitleVotes.incr title).get k
      by_cases hk : k = title
      · rw [hk, voteMap_get_incr_self, wrapInt_succ _ h1 h2]
        omega
      · rw [voteMap_get_incr_other _ _ _ hk]
  · intro h1 h2
    exact wrapInt_succ _ h1 h2
  · intro h1 h2 h3 h4 hinv
    show (c.TitleVotes.incr title).total ≤ wrapInt (c.TotalOccurrences + 1)
    rw [voteMap_total_incr _ _ hwf h1 h2, wrapInt_succ _ h3 h4]
    omega

/-- C18, amended: candidate vote invariant. A candidate created by the fold has as many
occurrences as the sum of its votes. `AddTitleVote` with a non-empty title raises the count
of that title and the occurrences by one in the arithmetic of `int` and changes no other
count: by exactly one when the value is below `MaxInt64`, so that no count is lowered and
`TotalOccurrences >= sum of the votes` is kept when the count of the title and the
occurrences are below `MaxInt64`. With an empty title it returns an error and changes
nothing; `UpdateLastSeen` touches neither the votes nor the occurrences. -/
theorem candidate_vote_invariant :
    (∀ (s : DataCleaningService) (region rawTitle cleanKey : GoString) (item : DTInputDTO)
        (now : Time) (st : Store) (candidates : List CandidateItem),
      rawTitle ≠ [] → ¬ (item.Price < F64.fin 0) →
      st.candidateFindByRegion region = Except.ok candidates →
      (∀ y ∈ candidates, s.titleCleaner.IsHighSimilarity cleanKey y.GroupKey = false) →
      st.fails StoreOp.candidateCreate = false →
      ∃ c, (s.handleCandidateLogic region rawTitle cleanKey item now st).2.candidates =
          st.candidates ++ [c] ∧
        c.TitleVotes = [(rawTitle, 1)] ∧ c.TotalOccurrences = c.TitleVotes.total) ∧
    (∀ (c : CandidateItem) (title : GoString), title ≠ [] → c.TitleVotes.WellFormed →
      (c.AddTitleVote title).2 = none ∧
      (c.AddTitleVote title).1.TitleVotes.get title =
        wrapInt (c.TitleVotes.get title + 1) ∧
      (c.AddTitleVote title).1.TotalOccurrences = wrapInt (c.TotalOccurrences + 1) ∧
      (∀ k, k ≠ title → (c.AddTitleVote title).1.TitleVotes.get k = c.TitleVotes.get k) ∧
      (c.AddTitleVote title).1.TitleVotes.WellFormed ∧
      (MinInt64 ≤ c.TitleVotes.get title → c.TitleVotes.get title < MaxInt64 →
        (c.AddTitleVote title).1.TitleVotes.get title = c.TitleVotes.get title + 1 ∧
        (∀ k, c.TitleVotes.get k ≤ (c.AddTitleVote title).1.TitleVotes.get k) ∧
        (c.AddTitleVote title).1.TitleVotes.total = c.TitleVotes.total + 1) ∧
      (MinInt64 ≤ c.TotalOccurrences → c.TotalOccurrences < MaxInt64 →
        (c.AddTitleVote title).1.TotalOccurrences = c.TotalOccurrences + 1) ∧
      (MinInt64 ≤ c.TitleVotes.get title → c.TitleVotes.get title < MaxInt64 →
        MinInt64 ≤ c.TotalOccurrences → c.TotalOccurrences < MaxInt64 →
        c.TitleVotes.total ≤ c.TotalOccurrences →
        (c.AddTitleVote title).1.TitleVotes.total ≤
          (c.AddTitleVote title).1.TotalOccurrences)) ∧
    (∀ (c : CandidateItem),
      (c.AddTitleVote []).2 = some (GoErr.new "title cannot be empty") ∧
      (c.AddTitleVote []).1 = c) ∧
    (∀ (c : CandidateItem) (price : F64) (status : ℤ) (now : Time),
      (c.UpdateLastSeen price status now).TitleVotes = c.TitleVotes ∧
      (c.UpdateLastSeen price status now).TotalOccurrences = c.TotalOccurrences) := by
  refine ⟨?_, addTitleVote_of_ne_nil, fun c => ⟨rfl, rfl⟩, fun c price status now => ⟨rfl, rfl⟩⟩
  intro s region rawTitle cleanKey item now st candidates htitle hprice hread hnone hok
  rw [handleCandidateLogic_create s region rawTitle cleanKey item now st candidates htitle
    hprice hread hnone]
  unfold Store.candidateCreate
  simp only [hok]
  refine ⟨_, rfl, rfl, ?_⟩
  show (1 : ℤ) = VoteMap.total [(rawTitle, 1)]
  rw [voteMap_total_cons]
  rfl

/-- Witness for C18: one more vote for "ABCD" on the example candidate, which has two
votes for "ABCD" and two occurrences. -/
theorem candidate_vote_invariant_witness :
    (exCandidate.AddTitleVote [0x41, 0x42, 0x43, 0x44]).2 = none ∧
      ((exCandidate.AddTitleVote [0x41, 0x42, 0x43, 0x44]).1.TitleVotes.get
          [0x41, 0x42, 0x43, 0x44] =
        exCandidate.TitleVotes.get [0x41, 0x42, 0x43, 0x44] + 1 ∧
      (∀ k, exCandidate.TitleVotes.get k ≤
        (exCandidate.AddTitleVote [0x41, 0x42, 0x43, 0x44]).1.TitleVotes.get k) ∧
      (exCandidate.AddTitleVote [0x41, 0x42, 0x43, 0x44]).1.TitleVotes.total =
        exCandidate.TitleVotes.total + 1) ∧
      (exCandidate.AddTitleVote [0x41, 0x42, 0x43, 0x44]).1.TotalOccurrences =
        exCandidate.TotalOccurrences + 1 ∧
      (exCandidate.AddTitleVote [0x41, 0x42, 0x43, 0x44]).1.TitleVotes.total ≤
        (exCandidate.AddTitleVote [0x41, 0x42, 0x43, 0x44]).1.TotalOccurrences :=
  ⟨(candidate_vote_invariant.2.1 exCandidate [0x41, 0x42, 0x43, 0x44] (by decide)
      (by show (List.map Prod.fst exCandidate.TitleVotes).Nodup; decide)).1,
    (candidate_vote_invariant.2.1 exCandidate [0x41, 0x42, 0x43, 0x44] (by decide)
      (by show (List.map Prod.fst exCandidate.TitleVotes).Nodup; decide)).2.2.2.2.2.1
      (by decide) (by decide),
    (candidate_vote_invariant.2.1 exCandidate [0x41, 0x42, 0x43, 0x44] (by decide)
      (by show (List.map Prod.fst exCandidate.TitleVotes).Nodup; decide)).2.2.2.2.2.2.1
      (by decide) (by decide),
    (candidate_vote_invariant.2.1 exCandidate [0x41, 0x42, 0x43, 0x44] (by decide)
      (by show (List.map Prod.fst exCandidate.TitleVotes).Nodup; decide)).2.2.2.2.2.2.2
      (by decide) (by decide) (by decide) (by decide) (by decide)⟩

/-- C18, counterexample: a candidate with `MaxInt64` votes for "ABCD" and `MaxInt64`
occurrences. `AddTitleVote` with the title "ABCD" returns no error and leaves the count of
"ABCD" and the occurrences at `MinInt64`: the count is lowered, not raised by one. -/
theorem addTitleVote_wraps_at_maxInt :
    exCandidateMax.TitleVotes.get [0x41, 0x42, 0x43, 0x44] = 9223372036854775807 ∧
      exCandidateMax.TotalOccurrences = 9223372036854775807 ∧
      (exCandidateMax.AddTitleVote [0x41, 0x42, 0x43, 0x44]).2 = none ∧
      (exCandidateMax.AddTitleVote [0x41, 0x42, 0x43, 0x44]).1.TitleVotes.get
        [0x41, 0x42, 0x43, 0x44] = -9223372036854775808 ∧
      (exCandidateMax.AddTitleVote [0x41, 0x42, 0x43, 0x44]).1.TotalOccurrences =
        -9223372036854775808 := by
  decide

/-! ## Claims about `PromoteCandidates` -/

/-- Recording a trend changes nothing but the trend log. -/
theorem recordPriceTrend_frame (s : DataCleaningService) (lib : Library) (now : Time)
    (activityID : GoString) (price : F64) (st : Store) :
    (s.recordPriceTrend lib now activityID price st).masters = st.masters ∧
      (s.recordPriceTrend lib now activityID price st).candidates = st.candidates ∧
      (s.recordPriceTrend lib now activityID price st).fails = st.fails ∧
      (s.recordPriceTrend lib now activityID price st).clock = st.clock := by
  unfold DataCleaningService.recordPriceTrend
  by_cases h : s.hasTrendRepo = false
  · rw [if_pos h]
    exact ⟨rfl, rfl, rfl, rfl⟩
  · rw [if_neg h]
    cases NewPriceTrend activityID price (lib.truncateToDay now) now with
    | error e => exact ⟨rfl, rfl, rfl, rfl⟩
    | ok t =>
      show (st.trendUpsert t).2.masters = _ ∧ (st.trendUpsert t).2.candidates = _ ∧
        (st.trendUpsert t).2.fails = _ ∧ (st.trendUpsert t).2.clock = _
      unfold Store.trendUpsert
      by_cases hf : st.fails (StoreOp.trendUpsert t.ActivityID) = true
      · rw [if_pos hf]
        exact ⟨rfl, rfl, rfl, rfl⟩
      · rw [if_neg hf]
        exact ⟨rfl, rfl, rfl, rfl⟩

/-- A candidate below the promotion threshold is passed over. -/
theorem promoteLoop_below (s : DataCleaningService) (lib : Library) (clock : ℕ → Time)
    (c : CandidateItem) (rest : List CandidateItem) (i : ℕ) (st : Store) (pd : PromotedData)
    (ids : List ℤ) (h : s.titleCleaner.ShouldPromote c.TotalOccurrences = false) :
    promoteLoop s lib clock (c :: rest) i st pd ids =
      promoteLoop s lib clock rest (i + 1) st pd ids := by
  rw [promoteLoop, if_pos h]

/-- A candidate whose election yields the empty title is passed over. -/
theorem promoteLoop_empty_title (s : DataCleaningService) (lib : Library) (clock : ℕ → Time)
    (c : CandidateItem) (rest : List CandidateItem) (i : ℕ) (st : Store) (pd : PromotedData)
    (ids : List ℤ) (h : s.titleCleaner.ShouldPromote c.TotalOccurrences = true)
    (he : s.titleCleaner.ElectStandardTitle (lib.rangeVotes c.ID c.TitleVotes) = []) :
    promoteLoop s lib clock (c :: rest) i st pd ids =
      promoteLoop s lib clock rest (i + 1) st pd ids := by
  rw [promoteLoop, if_neg (by rw [h]; exact Bool.noConfusion)]
  simp only [he, if_true]

/-- The iteration for an eligible candidate whose derived identifier names no master. -/
theorem promoteLoop_create (s : DataCleaningService) (lib : Library) (clock : ℕ → Time)
    (c : CandidateItem) (rest : List CandidateItem) (i : ℕ) (st : Store) (pd : PromotedData)
    (ids : List ℤ) (h : s.titleCleaner.ShouldPromote c.TotalOccurrences = true)
    (he : s.titleCleaner.ElectStandardTitle (lib.rangeVotes c.ID c.TitleVotes) ≠ [])
    (hfind : st.masterFindByID (s.titleCleaner.GenerateID lib strDT
      (s.titleCleaner.ElectStandardTitle (lib.rangeVotes c.ID c.TitleVotes))) = Except.ok none)
    (hok : st.fails (StoreOp.masterCreate (s.titleCleaner.GenerateID lib strDT
      (s.titleCleaner.ElectStandardTitle (lib.rangeVotes c.ID c.TitleVotes)))) = false) :
    promoteLoop s lib clock (c :: rest) i st pd ids =
      promoteLoop s lib clock rest (i + 1)
        (s.recordPriceTrend lib (clock i)
          (s.titleCleaner.GenerateID lib strDT (s.titleCleaner.ElectStandardTitle (lib.rangeVotes c.ID c.TitleVotes)))
          c.LastPrice
          { st with masters := st.masters ++
            [{ ID := s.titleCleaner.GenerateID lib strDT
                 (s.titleCleaner.ElectStandardTitle (lib.rangeVotes c.ID c.TitleVotes)),
               Region := c.Region, Platform := strDefaultPlatform,
               StandardTitle := s.titleCleaner.ElectStandardTitle (lib.rangeVotes c.ID c.TitleVotes),
               Price := c.LastPrice, Status := c.LastStatus, TrustScore := c.TotalOccurrences,
               CreateTime := st.clock, UpdateTime := st.clock }] })
        (pd.add c.Region (promotedDTO
          { ID := s.titleCleaner.GenerateID lib strDT
              (s.titleCleaner.ElectStandardTitle (lib.rangeVotes c.ID c.TitleVotes)),
            Region := c.Region, Platform := strDefaultPlatform,
            StandardTitle := s.titleCleaner.ElectStandardTitle (lib.rangeVotes c.ID c.TitleVotes),
            Price := c.LastPrice, Status := c.LastStatus, TrustScore := c.TotalOccurrences,
            CreateTime := 0, UpdateTime := 0 }))
        (ids ++ [c.ID]) := by
  have hnone : st.masters.any (fun x => decide (x.ID = s.titleCleaner.GenerateID lib strDT
      (s.titleCleaner.ElectStandardTitle (lib.rangeVotes c.ID c.TitleVotes)))) = false := by
    unfold Store.masterFindByID at hfind
    by_cases hf : st.fails (StoreOp.masterFindByID (s.titleCleaner.GenerateID lib strDT
        (s.titleCleaner.ElectStandardTitle (lib.rangeVotes c.ID c.TitleVotes)))) = true
    · rw [if_pos hf] at hfind
      exact absurd hfind (by simp)
    · rw [if_neg hf] at hfind
      have h1 := Except.ok.inj hfind
      rw [List.find?_eq_none] at h1
      rw [List.any_eq_false]
      exact h1
  rw [promoteLoop, if_neg (by rw [h]; exact Bool.noConfusion)]
  simp only [if_neg he, hfind, Store.masterCreate, hok, hnone]
  rfl

/-- The iteration for an eligible candidate whose derived identifier names a master. -/
theorem promoteLoop_duplicate (s : DataCleaningService) (lib : Library) (clock : ℕ → Time)
    (c : CandidateItem) (rest : List CandidateItem) (i : ℕ) (st : Store) (pd : PromotedData)
    (ids : List ℤ) (found : MasterProduct)
    (h : s.titleCleaner.ShouldPromote c.TotalOccurrences = true)
    (he : s.titleCleaner.ElectStandardTitle (lib.rangeVotes c.ID c.TitleVotes) ≠ [])
    (hfind : st.masterFindByID (s.titleCleaner.GenerateID lib strDT
      (s.titleCleaner.ElectStandardTitle (lib.rangeVotes c.ID c.TitleVotes))) =
        Except.ok (some found))
    (hok : st.fails (StoreOp.masterUpdate found.ID) = false) (finalPrice : F64)
    (hfinal : finalPrice =
      if (s.priceValidator.ValidateUpdate found.Price c.LastPrice found.UpdateTime
          (clock i)).2 = none
      then (s.priceValidator.ValidateUpdate found.Price c.LastPrice found.UpdateTime
          (clock i)).1
      else found.Price) :
    promoteLoop s lib clock (c :: rest) i st pd ids =
      promoteLoop s lib clock rest (i + 1)
        (if F64.beq finalPrice found.Price = false then
          s.recordPriceTrend lib (clock i) found.ID finalPrice
            { st with masters := st.masters.map (updateMasterRow st.clock
                { found with Price := finalPrice, Status := c.LastStatus }) }
         else
            { st with masters := st.masters.map (updateMasterRow st.clock
                { found with Price := finalPrice, Status := c.LastStatus }) })
        (pd.add c.Region (promotedDTO
          { found with Price := finalPrice, Status := c.LastStatus }))
        (ids ++ [c.ID]) := by
  rw [promoteLoop, if_neg (by rw [h]; exact Bool.noConfusion)]
  simp only [if_neg he, hfind, Store.masterUpdate, hok, Bool.false_eq_true, if_false]
  generalize s.priceValidator.ValidateUpdate found.Price c.LastPrice found.UpdateTime
    (clock i) = v at hfinal ⊢
  rcases v with ⟨p, _ | e⟩
  · have hp : finalPrice = p := by rw [hfinal]; rfl
    subst hp
    by_cases hb : F64.beq finalPrice found.Price = false
    · simp only [if_pos hb]
    · simp only [if_neg hb]
  · have hp : finalPrice = found.Price := by rw [hfinal]; rfl
    rw [hp]

/-- Updating the entries of a region no entry has changes nothing. -/
theorem promotedData_map_of_not_mem (pd : PromotedData) (region : GoString)
    (dto : PlatformProductDTO) (h : region ∉ pd.map Prod.fst) :
    pd.map (fun e => if e.1 = region then (e.1, e.2 ++ [dto]) else e) = pd := by
  induction pd with
  | nil => rfl
  | cons e rest ih =>
    rw [List.map_cons, List.mem_cons, not_or] at h
    rw [List.map_cons, if_neg (fun he => h.1 he.symm), ih h.2]

/-- Appending a DTO to the entry of a region leaves the regions as they are. -/
theorem promotedData_keys_map (pd : PromotedData) (region : GoString)
    (dto : PlatformProductDTO) :
    (pd.map (fun e => if e.1 = region then (e.1, e.2 ++ [dto]) else e)).map Prod.fst =
      pd.map Prod.fst := by
  induction pd with
  | nil => rfl
  | cons e rest ih =>
    rw [List.map_cons, List.map_cons, List.map_cons, ih]
    by_cases he : e.1 = region
    · rw [if_pos he]
    · rw [if_neg he]

/-- Appending a DTO to the entry of a region that has one adds one DTO. -/
theorem promotedData_count_map (pd : PromotedData) (region : GoString)
    (dto : PlatformProductDTO) (hwf : pd.WellFormed) (h : region ∈ pd.map Prod.fst) :
    PromotedData.count (pd.map (fun e => if e.1 = region then (e.1, e.2 ++ [dto]) else e)) =
      PromotedData.count pd + 1 := by
  induction pd with
  | nil => exact absurd h (List.not_mem_nil _)
  | cons e rest ih =>
    have hnd : e.1 ∉ rest.map Prod.fst ∧ (rest.map Prod.fst).Nodup := List.nodup_cons.mp hwf
    by_cases he : e.1 = region
    · have hrest : region ∉ rest.map Prod.fst := he ▸ hnd.1
      rw [List.map_cons, if_pos he, promotedData_map_of_not_mem rest region dto hrest]
      simp only [PromotedData.count, List.map_cons, List.sum_cons, List.length_append,
        List.length_singleton]
      omega
    · have hrest : region ∈ rest.map Prod.fst := by
        rw [List.map_cons, List.mem_cons] at h
        rcases h with h | h
        · exact absurd h.symm he
        · exact h
      have ih2 := ih hnd.2 hrest
      rw [List.map_cons, if_neg he]
      simp only [PromotedData.count, List.map_cons, List.sum_cons] at ih2 ⊢
      omega

/-- The membership test of `PromotedData.add`. -/
theorem promotedData_any_iff (pd : PromotedData) (region : GoString) :
    pd.any (fun e => decide (e.1 = region)) = true ↔ region ∈ pd.map Prod.fst := by
  rw [List.any_eq_true, List.mem_map]
  constructor
  · rintro ⟨e, he, h⟩
    exact ⟨e, he, of_decide_eq_true h⟩
  · rintro ⟨e, he, h⟩
    exact ⟨e, he, decide_eq_true h⟩

/-- Adding a DTO to a result map adds one DTO. -/
theorem promotedData_count_add (pd : PromotedData) (region : GoString)
    (dto : PlatformProductDTO) (hwf : pd.WellFormed) :
    (pd.add region dto).count = pd.count + 1 := by
  unfold PromotedData.add
  by_cases h : pd.any (fun e => decide (e.1 = region)) = true
  · rw [if_pos h]
    exact promotedData_count_map pd region dto hwf ((promotedData_any_iff pd region).mp h)
  · rw [if_neg h]
    simp only [PromotedData.count, List.map_append, List.sum_append, List.map_cons,
      List.map_nil, List.sum_cons, List.sum_nil, List.length_singleton, Nat.add_zero]

/-- Adding a DTO to a result map keeps its regions pairwise distinct. -/
theorem promotedData_wellFormed_add (pd : PromotedData) (region : GoString)
    (dto : PlatformProductDTO) (hwf : pd.WellFormed) : (pd.add region dto).WellFormed := by
  unfold PromotedData.add
  by_cases h : pd.any (fun e => decide (e.1 = region)) = true
  · rw [if_pos h]
    show (List.map Prod.fst _).Nodup
    rw [promotedData_keys_map]
    exact hwf
  · rw [if_neg h]
    show (List.map Prod.fst _).Nodup
    rw [List.map_append, List.map_cons, List.map_nil]
    have hnot : region ∉ pd.map Prod.fst := fun hm => h ((promotedData_any_iff pd region).mpr hm)
    refine List.Nodup.append hwf (List.nodup_singleton _) ?_
    intro x hx hx2
    rw [List.mem_singleton] at hx2
    have hx3 : x = region := hx2
    exact hnot (hx3 ▸ hx)

/-- The promotion test and the election together are the eligibility of a candidate. -/
theorem eligible_iff (s : DataCleaningService) (c : CandidateItem) :
    Eligible s c = true ↔
      s.titleCleaner.ShouldPromote c.TotalOccurrences = true ∧
        s.titleCleaner.ElectStandardTitle c.TitleVotes ≠ [] := by
  unfold Eligible TitleCleaner.ShouldPromote
  simp only [Bool.and_eq_true, decide_eq_true_iff, ge_iff_le]

/-- The promotion test and the election, on the votes in the order in which they are
visited, together are the eligibility of a candidate. -/
theorem eligible_iff_range (s : DataCleaningService) (lib : Library) (c : CandidateItem) :
    Eligible s c = true ↔
      s.titleCleaner.ShouldPromote c.TotalOccurrences = true ∧
        s.titleCleaner.ElectStandardTitle (lib.rangeVotes c.ID c.TitleVotes) ≠ [] := by
  rw [eligible_iff, Ne, Ne,
    electStandardTitle_eq_nil_perm s.titleCleaner _ _ (lib.rangeVotes_perm c.ID c.TitleVotes)]

/-- In a succeeding store the loop of `PromoteCandidates` runs to its end: it queues the
identifiers of the eligible candidates in pool order, adds one DTO for each of them, and
leaves the candidate pool and the failure behaviour of the store as they were. -/
theorem promoteLoop_succeeds (s : DataCleaningService) (lib : Library) (clock : ℕ → Time)
    (l : List CandidateItem) :
    ∀ (i : ℕ) (st : Store) (pd : PromotedData) (ids : List ℤ), st.Succeeds → pd.WellFormed →
      ∃ pd1 st1, promoteLoop s lib clock l i st pd ids =
          (Except.ok (pd1, ids ++ (l.filter (Eligible s)).map (fun c => c.ID)), st1) ∧
        st1.candidates = st.candidates ∧ st1.fails = st.fails ∧ pd1.WellFormed ∧
        pd1.count = pd.count + (l.filter (Eligible s)).length := by
  induction l with
  | nil =>
    intro i st pd ids _ hpd
    refine ⟨pd, st, ?_, rfl, rfl, hpd, ?_⟩
    · rw [promoteLoop, List.filter_nil, List.map_nil, List.append_nil]
    · rw [List.filter_nil, List.length_nil, Nat.add_zero]
  | cons c rest ih =>
    intro i st pd ids hst hpd
    by_cases hsp : s.titleCleaner.ShouldPromote c.TotalOccurrences = true
    · by_cases he : s.titleCleaner.ElectStandardTitle (lib.rangeVotes c.ID c.TitleVotes) = []
      · have hel : Eligible s c = false := by
          rw [← Bool.not_eq_true, eligible_iff_range s lib c]
          exact fun h => h.2 he
        rw [promoteLoop_empty_title s lib clock c rest i st pd ids hsp he,
          List.filter_cons_of_neg (by rw [hel]; exact Bool.noConfusion)]
        exact ih (i + 1) st pd ids hst hpd
      · have hel : Eligible s c = true := (eligible_iff_range s lib c).mpr ⟨hsp, he⟩
        rw [List.filter_cons_of_pos hel, List.map_cons, List.length_cons]
        have hfind : st.masterFindByID (s.titleCleaner.GenerateID lib strDT
            (s.titleCleaner.ElectStandardTitle (lib.rangeVotes c.ID c.TitleVotes))) =
            Except.ok (st.masters.find? (fun m => decide (m.ID =
              s.titleCleaner.GenerateID lib strDT
                (s.titleCleaner.ElectStandardTitle (lib.rangeVotes c.ID c.TitleVotes))))) := by
          unfold Store.masterFindByID
          rw [hst, if_neg Bool.noConfusion]
        cases hf : st.masters.find? (fun m => decide (m.ID =
            s.titleCleaner.GenerateID lib strDT
              (s.titleCleaner.ElectStandardTitle (lib.rangeVotes c.ID c.TitleVotes)))) with
        | none =>
          rw [hf] at hfind
          rw [promoteLoop_create s lib clock c rest i st pd ids hsp he hfind (hst _)]
          have hfr := recordPriceTrend_frame s lib (clock i)
            (s.titleCleaner.GenerateID lib strDT (s.titleCleaner.ElectStandardTitle (lib.rangeVotes c.ID c.TitleVotes)))
            c.LastPrice
            { st with masters := st.masters ++
              [{ ID := s.titleCleaner.GenerateID lib strDT
                   (s.titleCleaner.ElectStandardTitle (lib.rangeVotes c.ID c.TitleVotes)),
                 Region := c.Region, Platform := strDefaultPlatform,
                 StandardTitle := s.titleCleaner.ElectStandardTitle (lib.rangeVotes c.ID c.TitleVotes),
                 Price := c.LastPrice, Status := c.LastStatus,
                 TrustScore := c.TotalOccurrences,
                 CreateTime := st.clock, UpdateTime := st.clock }] }
          obtain ⟨pd1, st1, hrun, hc, hfl, hwf, hcount⟩ := ih (i + 1) _ _ (ids ++ [c.ID])
            (fun op => by rw [hfr.2.2.1]; exact hst op)
            (promotedData_wellFormed_add pd c.Region _ hpd)
          refine ⟨pd1, st1, ?_, ?_, ?_, hwf, ?_⟩
          · rw [hrun, List.append_assoc, List.singleton_append]
          · rw [hc, hfr.2.1]
          · rw [hfl, hfr.2.2.1]
          · rw [hcount, promotedData_count_add pd c.Region _ hpd]
            omega
        | some found =>
          rw [hf] at hfind
          obtain ⟨fp, hfp⟩ : ∃ fp : F64, fp =
              if (s.priceValidator.ValidateUpdate found.Price c.LastPrice found.UpdateTime
                  (clock i)).2 = none
              then (s.priceValidator.ValidateUpdate found.Price c.LastPrice found.UpdateTime
                  (clock i)).1
              else found.Price := ⟨_, rfl⟩
          rw [promoteLoop_duplicate s lib clock c rest i st pd ids found hsp he hfind (hst _)
            fp hfp]
          have hframe : ∀ (p : F64) (stm : Store), stm.candidates = st.candidates →
              stm.fails = st.fails →
              (if F64.beq p found.Price = false then
                s.recordPriceTrend lib (clock i) found.ID p stm else stm).candidates =
                  st.candidates ∧
              (if F64.beq p found.Price = false then
                s.recordPriceTrend lib (clock i) found.ID p stm else stm).fails = st.fails := by
            intro p stm h1 h2
            by_cases hb : F64.beq p found.Price = false
            · rw [if_pos hb]
              have hfr := recordPriceTrend_frame s lib (clock i) found.ID p stm
              exact ⟨hfr.2.1.trans h1, hfr.2.2.1.trans h2⟩
            · rw [if_neg hb]
              exact ⟨h1, h2⟩
          have hfr := hframe fp
            { st with masters := st.masters.map (updateMasterRow st.clock
                { found with Price := fp, Status := c.LastStatus }) } rfl rfl
          obtain ⟨pd1, st1, hrun, hc, hfl, hwf, hcount⟩ := ih (i + 1) _ _ (ids ++ [c.ID])
            (fun op => by rw [hfr.2]; exact hst op)
            (promotedData_wellFormed_add pd c.Region _ hpd)
          refine ⟨pd1, st1, ?_, ?_, ?_, hwf, ?_⟩
          · rw [hrun, List.append_assoc, List.singleton_append]
          · rw [hc, hfr.1]
          · rw [hfl, hfr.2]
          · rw [hcount, promotedData_count_add pd c.Region _ hpd]
            omega
    · have hsp2 : s.titleCleaner.ShouldPromote c.TotalOccurrences = false := by
        rw [← Bool.not_eq_true]
        exact hsp
      have hel : Eligible s c = false := by
        rw [← Bool.not_eq_true, eligible_iff_range s lib c]
        exact fun h => hsp h.1
      rw [promoteLoop_below s lib clock c rest i st pd ids hsp2,
        List.filter_cons_of_neg (by rw [hel]; exact Bool.noConfusion)]
      exact ih (i + 1) st pd ids hst hpd

/-- In a succeeding store `DeleteByIDs` removes the candidates with the given
identifiers. -/
theorem candidateDeleteByIDs_succeeds (ids : List ℤ) :
    ∀ st : Store, st.Succeeds →
      ∃ st1, st.candidateDeleteByIDs ids = (none, st1) ∧
        st1.candidates = st.candidates.filter (fun c => decide (c.ID ∉ ids)) := by
  induction ids with
  | nil =>
    intro st _
    refine ⟨st, rfl, ?_⟩
    simp
  | cons id rest ih =>
    intro st hst
    obtain ⟨st1, hrun, hc⟩ := ih
      { st with candidates := st.candidates.filter (fun c => decide (c.ID ≠ id)) }
      (fun op => hst op)
    refine ⟨st1, ?_, ?_⟩
    · rw [Store.candidateDeleteByIDs, hst, if_neg Bool.noConfusion]
      exact hrun
    · rw [hc, List.filter_filter]
      apply List.filter_congr
      intro c _
      simp only [List.mem_cons, not_or, ne_eq, Bool.decide_and]
      exact Bool.and_comm _ _

/-- With pairwise distinct identifiers, removing the identifiers of the rows that satisfy
`p` removes exactly those rows. -/
theorem filter_not_mem_ids (l : List CandidateItem) (p : CandidateItem → Bool)
    (hnd : (l.map (fun c => c.ID)).Nodup) :
    l.filter (fun c => decide (c.ID ∉ (l.filter p).map (fun c => c.ID))) =
      l.filter (fun c => !p c) := by
  apply List.filter_congr
  intro c hc
  have hinj := List.inj_on_of_nodup_map hnd
  by_cases hp : p c = true
  · have hmem : c.ID ∈ (l.filter p).map (fun c => c.ID) :=
      List.mem_map.mpr ⟨c, List.mem_filter.mpr ⟨hc, hp⟩, rfl⟩
    rw [hp, decide_eq_false (not_not.mpr hmem)]
    rfl
  · have hnot : c.ID ∉ (l.filter p).map (fun c => c.ID) := by
      intro hmem
      obtain ⟨d, hd, hid⟩ := List.mem_map.mp hmem
      have hdl := List.mem_filter.mp hd
      have hdc : d = c := hinj hdl.1 hc hid
      exact hp (hdc ▸ hdl.2)
    rw [decide_eq_true hnot]
    rw [Bool.not_eq_true] at hp
    rw [hp]
    rfl

/-- The rows that satisfy a test and the rows that fail it are all the rows. -/
theorem length_filter_not_add (l : List CandidateItem) (p : CandidateItem → Bool) :
    (l.filter (fun c => !p c)).length + (l.filter p).length = l.length := by
  induction l with
  | nil => rfl
  | cons c rest ih =>
    by_cases hp : p c = true
    · rw [List.filter_cons_of_pos hp, List.filter_cons_of_neg (by rw [hp]; exact Bool.noConfusion),
        List.length_cons, List.length_cons]
      omega
    · rw [List.filter_cons_of_neg hp, List.filter_cons_of_pos (by
        rw [Bool.not_eq_true] at hp
        rw [hp]
        rfl), List.length_cons, List.length_cons]
      omega

/-- C19: on a store whose operations all succeed and whose candidates have pairwise
distinct identifiers, `PromoteCandidates` with the promotion threshold 3 returns a result
map and no error; the pool it leaves consists of exactly the candidates that have fewer
than three occurrences or an empty elected title, unchanged and in their order, so that
it has deleted exactly the candidates with at least three occurrences and a non-empty
elected title; and the number of DTOs of the result map over all regions is the number of
deleted candidates. -/
theorem promoteCandidates_deletes_eligible (s : DataCleaningService) (lib : Library)
    (clock : ℕ → Time) (st : Store) (hthr : s.titleCleaner.promotionThreshold = 3)
    (hst : st.Succeeds) (hwf : st.WellFormed) :
    ∃ pd st1, s.PromoteCandidates lib clock st = ((some pd, none), st1) ∧
      st1.candidates = st.candidates.filter (fun c =>
        !(decide (3 ≤ c.TotalOccurrences) &&
          decide (s.titleCleaner.ElectStandardTitle c.TitleVotes ≠ []))) ∧
      pd.count = (st.candidates.filter (fun c =>
        decide (3 ≤ c.TotalOccurrences) &&
          decide (s.titleCleaner.ElectStandardTitle c.TitleVotes ≠ []))).length ∧
      st1.candidates.length + pd.count = st.candidates.length := by
  have hE : Eligible s = fun c => decide (3 ≤ c.TotalOccurrences) &&
      decide (s.titleCleaner.ElectStandardTitle c.TitleVotes ≠ []) := by
    funext c
    unfold Eligible
    rw [hthr]
  have hlist : st.candidateListAll = Except.ok st.candidates := by
    unfold Store.candidateListAll
    rw [hst, if_neg Bool.noConfusion]
  obtain ⟨pd, st1, hrun, hc, hfl, _, hcount⟩ :=
    promoteLoop_succeeds s lib clock st.candidates 0 st [] [] hst List.nodup_nil
  rw [List.nil_append] at hrun
  have hpd : pd.count = (st.candidates.filter (Eligible s)).length := by
    rw [hcount]
    show 0 + _ = _
    rw [Nat.zero_add]
  have hkeep := filter_not_mem_ids st.candidates (Eligible s) hwf.2
  have hlen := length_filter_not_add st.candidates (Eligible s)
  unfold DataCleaningService.PromoteCandidates
  simp only [hlist, hrun]
  by_cases hpos : ((st.candidates.filter (Eligible s)).map (fun c => c.ID)).length > 0
  · obtain ⟨st2, hdel, hc2⟩ := candidateDeleteByIDs_succeeds
      ((st.candidates.filter (Eligible s)).map (fun c => c.ID)) st1
      (fun op => by rw [hfl]; exact hst op)
    rw [if_pos hpos]
    simp only [hdel]
    rw [hc, hkeep] at hc2
    refine ⟨pd, st2, rfl, ?_, ?_, ?_⟩
    · rw [hc2, hE]
    · rw [hpd, hE]
    · rw [hc2, hpd]
      exact hlen
  · rw [if_neg hpos]
    have hnil : (st.candidates.filter (Eligible s)).map (fun c => c.ID) = [] :=
      List.length_eq_zero.mp (Nat.eq_zero_of_not_pos hpos)
    rw [hnil] at hkeep
    have hc1 : st1.candidates = st.candidates.filter (fun c => !Eligible s c) := by
      rw [hc, ← hkeep]
      simp
    refine ⟨pd, st1, rfl, ?_, ?_, ?_⟩
    · rw [hc1, hE]
    · rw [hpd, hE]
    · rw [hc1, hpd]
      exact hlen

/-- C19 at a pool of two candidates: the one seen three times is deleted and yields a
DTO, the one seen twice stays. -/
theorem promoteCandidates_deletes_eligible_witness :
    (NewDataCleaningService true).titleCleaner.promotionThreshold = 3 ∧
      (exStore [] [exCandidate3, { exCandidate with ID := 2 }]).Succeeds ∧
      (exStore [] [exCandidate3, { exCandidate with ID := 2 }]).WellFormed ∧
      ∃ pd st1, (NewDataCleaningService true).PromoteCandidates exLibrary (fun _ => 2000)
          (exStore [] [exCandidate3, { exCandidate with ID := 2 }]) = ((some pd, none), st1) ∧
        st1.candidates = (exStore [] [exCandidate3, { exCandidate with ID := 2 }]).candidates.filter
          (fun c => !(decide (3 ≤ c.TotalOccurrences) &&
            decide ((NewDataCleaningService true).titleCleaner.ElectStandardTitle
              c.TitleVotes ≠ []))) ∧
        pd.count = ((exStore [] [exCandidate3, { exCandidate with ID := 2 }]).candidates.filter
          (fun c => decide (3 ≤ c.TotalOccurrences) &&
            decide ((NewDataCleaningService true).titleCleaner.ElectStandardTitle
              c.TitleVotes ≠ []))).length ∧
        st1.candidates.length + pd.count =
          (exStore [] [exCandidate3, { exCandidate with ID := 2 }]).candidates.length :=
  ⟨rfl, fun _ => rfl, ⟨List.nodup_nil, by decide⟩,
    promoteCandidates_deletes_eligible (NewDataCleaningService true) exLibrary (fun _ => 2000)
      (exStore [] [exCandidate3, { exCandidate with ID := 2 }]) rfl (fun _ => rfl)
      ⟨List.nodup_nil, by decide⟩⟩

/-! ## Claims about the duplicate-promotion path -/

/-- An accepted price is the new price, finite and not negative. -/
theorem validateUpdate_accepted (v : PriceValidator) (oldPrice newPrice : F64)
    (lastUpdateTime now : Time)
    (h : (v.ValidateUpdate oldPrice newPrice lastUpdateTime now).2 = none) :
    ∃ q : ℚ, 0 ≤ q ∧ newPrice = F64.fin q ∧
      (v.ValidateUpdate oldPrice newPrice lastUpdateTime now).1 = F64.fin q := by
  by_cases h1 : (oldPrice.isNaN || newPrice.isNaN) = true
  · rw [validateUpdate_of_nan v _ _ _ _ h1] at h
    exact Option.noConfusion h
  by_cases h2 : (oldPrice.isInf || newPrice.isInf) = true
  · rw [validateUpdate_of_inf v _ _ _ _ (by simpa using h1) h2] at h
    exact Option.noConfusion h
  cases oldPrice with
  | nan => simp [F64.isNaN] at h1
  | posInf => simp [F64.isInf] at h2
  | negInf => simp [F64.isInf] at h2
  | fin o =>
    cases newPrice with
    | nan => simp [F64.isNaN] at h1
    | posInf => simp [F64.isInf] at h2
    | negInf => simp [F64.isInf] at h2
    | fin n =>
      rw [validateUpdate_fin] at h ⊢
      by_cases h3 : n < 0
      · rw [if_pos h3] at h
        exact Option.noConfusion h
      rw [if_neg h3] at h ⊢
      refine ⟨n, not_lt.mp h3, rfl, ?_⟩
      revert h
      have yes : ∀ e : AppError, ((F64.fin o, some e) : F64 × Option AppError).2 = none →
          ((F64.fin o, some e) : F64 × Option AppError).1 = F64.fin n :=
        fun e h => Option.noConfusion h
      have no : ((F64.fin n, none) : F64 × Option AppError).2 = none →
          ((F64.fin n, none) : F64 × Option AppError).1 = F64.fin n := fun _ => rfl
      refine ite_ind (fun r : F64 × Option AppError => r.2 = none → r.1 = F64.fin n)
        _ _ _ (ite_ind (fun r : F64 × Option AppError => r.2 = none → r.1 = F64.fin n)
        _ _ _ (yes _) no) ?_
      refine ite_ind (fun r : F64 × Option AppError => r.2 = none → r.1 = F64.fin n)
        _ _ _ (yes _) ?_
      refine ite_ind (fun r : F64 × Option AppError => r.2 = none → r.1 = F64.fin n)
        _ _ _ no ?_
      refine ite_ind (fun r : F64 × Option AppError => r.2 = none → r.1 = F64.fin n)
        _ _ _ (ite_ind (fun r : F64 × Option AppError => r.2 = none → r.1 = F64.fin n)
        _ _ _ (yes _) no) ?_
      exact ite_ind (fun r : F64 × Option AppError => r.2 = none → r.1 = F64.fin n)
        _ _ _ (ite_ind (fun r : F64 × Option AppError => r.2 = none → r.1 = F64.fin n)
        _ _ _ (yes _) no) no

/-- The master `FindByID` returns is a row of the catalog with that identifier. -/
theorem masterFindByID_some (st : Store) (id : GoString) (found : MasterProduct)
    (h : st.masterFindByID id = Except.ok (some found)) :
    found ∈ st.masters ∧ found.ID = id := by
  unfold Store.masterFindByID at h
  by_cases hf : st.fails (StoreOp.masterFindByID id) = true
  · rw [if_pos hf] at h
    exact absurd h (by simp)
  · rw [if_neg hf] at h
    have h1 := Except.ok.inj h
    have h2 : decide (found.ID = id) = true :=
      List.find?_some (p := fun m : MasterProduct => decide (m.ID = id)) h1
    exact ⟨List.mem_of_find?_eq_some h1, of_decide_eq_true h2⟩

/-- The identifier promotion derives is not the empty string. -/
theorem generateID_ne_nil (tc : TitleCleaner) (lib : Library) (pre title : GoString) :
    tc.GenerateID lib pre title ≠ [] := by
  unfold TitleCleaner.GenerateID
  intro h
  have hlen := congrArg List.length h
  simp only [List.length_append, List.length_singleton, List.length_nil] at hlen
  omega

/-- A trend entry for a non-empty identifier, a price that is not negative and a record
date that is not the zero time is created. -/
theorem newPriceTrend_ok (activityID : GoString) (price : F64) (recordDate now : Time)
    (hid : activityID ≠ []) (hprice : ¬ (price < F64.fin 0)) (hdate : recordDate ≠ 0) :
    NewPriceTrend activityID price recordDate now = Except.ok
      { ID := 0, ActivityID := activityID, Price := price, RecordDate := recordDate,
        CreateTime := now } := by
  unfold NewPriceTrend
  rw [if_neg hid, if_neg hprice, if_neg hdate]

/-- The example candidate seen three times elects the title "ABCD", whose derived
identifier names the master `exDupMaster`. -/
theorem exDupMaster_found (hasTrendRepo : Bool) :
    (exStore [exDupMaster] [exCandidate3]).masterFindByID
        ((NewDataCleaningService hasTrendRepo).titleCleaner.GenerateID exLibrary strDT
          ((NewDataCleaningService hasTrendRepo).titleCleaner.ElectStandardTitle
            exCandidate3.TitleVotes)) = Except.ok (some exDupMaster) := by
  have helect : (NewDataCleaningService hasTrendRepo).titleCleaner.ElectStandardTitle
      exCandidate3.TitleVotes = [0x41, 0x42, 0x43, 0x44] := by
    show NewTitleCleaner.ElectStandardTitle exCandidate3.TitleVotes = _
    decide
  rw [helect]
  unfold Store.masterFindByID
  rw [if_neg (by exact Bool.noConfusion)]
  have hid : decide (exDupMaster.ID = (NewDataCleaningService hasTrendRepo).titleCleaner.GenerateID
      exLibrary strDT [0x41, 0x42, 0x43, 0x44]) = true := decide_eq_true rfl
  show Except.ok (List.find? _ [exDupMaster]) = _
  rw [List.find?_cons]
  simp only [hid]

/-- A stored price that is NaN: `ValidateUpdate` rejects the price of the example
candidate, the master keeps its NaN price, and, NaN being unequal to itself, a trend
entry with the price NaN is written all the same. -/
theorem promoteCandidates_duplicate_nan_price :
    ((NewDataCleaningService true).priceValidator.ValidateUpdate exNaNMaster.Price
        exCandidate3.LastPrice exNaNMaster.UpdateTime (24 * Hour)).2 ≠ none ∧
      (NewDataCleaningService true).PromoteCandidates exLibrary (fun _ => 24 * Hour)
          (exStore [exNaNMaster] [exCandidate3]) =
        ((some [([0x72], [promotedDTO exNaNMaster])], none),
          { exStore [{ exNaNMaster with UpdateTime := 2000 }] [] with
            trends := [{ ID := 0, ActivityID := exNaNMaster.ID, Price := F64.nan,
                         RecordDate := 24 * Hour, CreateTime := 24 * Hour }] }) := by
  have hval : (NewDataCleaningService true).priceValidator.ValidateUpdate exNaNMaster.Price
      exCandidate3.LastPrice exNaNMaster.UpdateTime (24 * Hour) =
      (F64.nan, some (errorsNew InvalidInput "price is NaN")) :=
    validateUpdate_of_nan _ _ _ _ _ rfl
  refine ⟨by rw [hval]; exact fun h => Option.noConfusion h, ?_⟩
  have helect : (NewDataCleaningService true).titleCleaner.ElectStandardTitle
      exCandidate3.TitleVotes = [0x41, 0x42, 0x43, 0x44] := by decide
  have hfind : (exStore [exNaNMaster] [exCandidate3]).masterFindByID
      ((NewDataCleaningService true).titleCleaner.GenerateID exLibrary strDT
        ((NewDataCleaningService true).titleCleaner.ElectStandardTitle
          exCandidate3.TitleVotes)) = Except.ok (some exNaNMaster) := by
    rw [helect]
    unfold Store.masterFindByID
    rw [if_neg (by exact Bool.noConfusion)]
    have hid : decide (exNaNMaster.ID = (NewDataCleaningService true).titleCleaner.GenerateID
        exLibrary strDT [0x41, 0x42, 0x43, 0x44]) = true := decide_eq_true rfl
    show Except.ok (List.find? _ [exNaNMaster]) = _
    rw [List.find?_cons]
    simp only [hid]
  have hstep := promoteLoop_duplicate (NewDataCleaningService true) exLibrary
    (fun _ => 24 * Hour) exCandidate3 [] 0 (exStore [exNaNMaster] [exCandidate3]) [] []
    exNaNMaster (by decide) (by decide) hfind rfl F64.nan
    (by
      show F64.nan = if ((NewDataCleaningService true).priceValidator.ValidateUpdate
        exNaNMaster.Price exCandidate3.LastPrice exNaNMaster.UpdateTime (24 * Hour)).2 = none
        then _ else _
      rw [hval]
      rfl)
  have hne : F64.beq F64.nan exNaNMaster.Price = false := rfl
  rw [if_pos hne] at hstep
  have htrunc : exLibrary.truncateToDay (24 * Hour) = 24 * Hour := by
    show Time.Truncate (24 * Hour) (24 * Hour) = 24 * Hour
    unfold Time.Truncate Hour
    norm_num
  have hday : (24 * Hour : ℤ) ≠ 0 := by
    unfold Hour
    norm_num
  have htrend : NewPriceTrend exNaNMaster.ID F64.nan (exLibrary.truncateToDay (24 * Hour))
      (24 * Hour) = Except.ok
        { ID := 0, ActivityID := exNaNMaster.ID, Price := F64.nan,
          RecordDate := 24 * Hour, CreateTime := 24 * Hour } := by
    rw [htrunc]
    exact newPriceTrend_ok exNaNMaster.ID F64.nan (24 * Hour) (24 * Hour) (by decide)
      (F64.not_nan_lt _) hday
  have hrec : ∀ st : Store, st.fails = (fun _ => false) →
      (NewDataCleaningService true).recordPriceTrend exLibrary (24 * Hour)
        exNaNMaster.ID F64.nan st =
      { st with trends := st.trends.filter (fun x =>
          decide (¬ (x.ActivityID = exNaNMaster.ID ∧ x.RecordDate = 24 * Hour))) ++
        [{ ID := 0, ActivityID := exNaNMaster.ID, Price := F64.nan,
           RecordDate := 24 * Hour, CreateTime := 24 * Hour }] } := by
    intro st hst
    unfold DataCleaningService.recordPriceTrend
    rw [if_neg (by exact Bool.noConfusion)]
    simp only [htrend]
    unfold Store.trendUpsert
    rw [hst, if_neg (by exact Bool.noConfusion)]
  unfold DataCleaningService.PromoteCandidates
  have hlist : (exStore [exNaNMaster] [exCandidate3]).candidateListAll =
      Except.ok [exCandidate3] := rfl
  simp only [hlist, hstep]
  rw [hrec _ rfl]
  rfl

/-! ## Claims about symmetry and the two validators -/

/-- `levenshteinDistance` does not depend on the order of its arguments. -/
theorem levenshteinDistance_comm (a b : GoString) :
    levenshteinDistance a b = levenshteinDistance b a := by
  rw [levenshteinDistance_eq, levenshteinDistance_eq, editDist_comm]

/-- `CalculateSimilarity` does not depend on the order of its arguments. -/
theorem calculateSimilarity_comm (tc : TitleCleaner) (a b : GoString) :
    tc.CalculateSimilarity a b = tc.CalculateSimilarity b a := by
  by_cases ha : a = []
  · by_cases hb : b = []
    · rw [ha, hb]
    · unfold TitleCleaner.CalculateSimilarity
      rw [if_neg (fun h => hb h.2), if_neg (fun h => hb (ha ▸ h.symm)),
        if_pos (Or.inl ha), if_neg (fun h => hb h.1), if_neg (fun h => hb (ha ▸ h)),
        if_pos (Or.inr ha)]
  · by_cases hb : b = []
    · unfold TitleCleaner.CalculateSimilarity
      rw [if_neg (fun h => ha h.1), if_neg (fun h => ha (hb ▸ h)),
        if_pos (Or.inr hb), if_neg (fun h => ha h.2), if_neg (fun h => ha (hb ▸ h.symm)),
        if_pos (Or.inl hb)]
    · rw [calculateSimilarity_of_ne_nil tc a b ha hb,
        calculateSimilarity_of_ne_nil tc b a hb ha, levenshteinDistance_comm a b,
        max_comm]

/-- C30: similarity is symmetric. The edit distance, the similarity and the two
classifications give the same answer whichever of the two strings is passed first. -/
theorem similarity_symmetric :
    (∀ a b : GoString, levenshteinDistance a b = levenshteinDistance b a) ∧
    (∀ (tc : TitleCleaner) (a b : GoString),
      tc.CalculateSimilarity a b = tc.CalculateSimilarity b a) ∧
    (∀ (tc : TitleCleaner) (a b : GoString),
      tc.IsHighSimilarity a b = tc.IsHighSimilarity b a) ∧
    (∀ (tc : TitleCleaner) (a b : GoString),
      tc.IsMidSimilarity a b = tc.IsMidSimilarity b a) := by
  refine ⟨levenshteinDistance_comm, calculateSimilarity_comm, ?_, ?_⟩
  · intro tc a b
    unfold TitleCleaner.IsHighSimilarity
    rw [calculateSimilarity_comm tc a b]
    by_cases h : a = [] ∨ b = []
    · rw [if_pos h, if_pos h.symm]
    · rw [if_neg h, if_neg (fun h2 => h h2.symm)]
  · intro tc a b
    unfold TitleCleaner.IsMidSimilarity
    rw [calculateSimilarity_comm tc a b]
    by_cases h : a = [] ∨ b = []
    · rw [if_pos h, if_pos h.symm]
    · rw [if_neg h, if_neg (fun h2 => h h2.symm)]

/-- The result of `ValidatePriceChange` on finite prices with a non-negative old price:
the decision list of the function with the input guards discharged. -/
theorem validatePriceChange_fin (v : PriceValidator) (o n : ℚ) (ho : 0 ≤ o) :
    v.ValidatePriceChange (F64.fin o) (F64.fin n) =
      if n < 0 then some (errorsNew ErrPriceBelowMin "price is negative")
      else if F64.fin n < v.minPrice then
        some (errorsNew ErrPriceBelowMin "price below minimum threshold")
      else if o ≤ 0 then none
      else if n < o then
        if F64.div (F64.fin n) (F64.fin o) < v.maxDropRatio then
          some (errorsNew ErrPriceDropExceeded "price drop exceeded threshold")
        else none
      else if o < n then
        if 10 ≤ o ∧ v.maxRiseRatio < F64.div (F64.fin n) (F64.fin o) then
          some (errorsNew ErrPriceRiseExceeded "price rise exceeded threshold")
        else none
      else none := by
  unfold PriceValidator.ValidatePriceChange
  rw [if_neg (by simp [F64.isNaN]), if_neg (by simp [F64.isInf])]
  have ho2 : ¬ (F64.fin o < F64.fin 0) := fun h => absurd ((F64.fin_lt_fin o 0).1 h) (not_lt.2 ho)
  by_cases h3 : n < 0
  · rw [if_pos (Or.inl ((F64.fin_lt_fin n 0).2 h3)), if_pos h3]
  rw [if_neg (fun h => h.elim (fun h => h3 ((F64.fin_lt_fin n 0).1 h)) ho2), if_neg h3]
  by_cases h5 : F64.fin n < v.minPrice
  · rw [if_pos h5, if_pos h5]
  rw [if_neg h5, if_neg h5]
  by_cases h6 : o ≤ 0
  · have h60 : o = 0 := le_antisymm h6 ho
    rw [if_pos (by rw [h60]; rfl), if_pos h6]
  have h60 : ¬ (F64.beq (F64.fin o) (F64.fin 0) = true) := by
    intro h
    have h2 : o = 0 := of_decide_eq_true h
    exact h6 (le_of_eq h2)
  rw [if_neg h60, if_neg h6]
  dsimp only
  by_cases h7 : n < o
  · have h8 : ¬ (o < n) := not_lt.2 (le_of_lt h7)
    have h9 : ¬ (F64.fin o < F64.fin n ∧ F64.fin 10 ≤ F64.fin o) :=
      fun h => h8 ((F64.fin_lt_fin o n).1 h.1)
    rw [if_pos ((F64.fin_lt_fin n o).2 h7), if_pos h7, if_neg h9]
  rw [if_neg (fun h => h7 ((F64.fin_lt_fin n o).1 h)), if_neg h7]
  by_cases h8 : o < n
  · rw [if_pos h8]
    by_cases h9 : (10 : ℚ) ≤ o
    · rw [if_pos ⟨(F64.fin_lt_fin o n).2 h8, (F64.fin_le_fin 10 o).2 h9⟩]
      by_cases h10 : v.maxRiseRatio < F64.div (F64.fin n) (F64.fin o)
      · rw [if_pos h10, if_pos ⟨h9, h10⟩]
      · rw [if_neg h10, if_neg (fun h => h10 h.2)]
    · have h10 : ¬ (F64.fin o < F64.fin n ∧ F64.fin 10 ≤ F64.fin o) :=
        fun h => h9 ((F64.fin_le_fin 10 o).1 h.2)
      have h11 : ¬ (10 ≤ o ∧ v.maxRiseRatio < F64.div (F64.fin n) (F64.fin o)) :=
        fun h => h9 h.1
      rw [if_neg h10, if_neg h11]
  · have h10 : ¬ (F64.fin o < F64.fin n ∧ F64.fin 10 ≤ F64.fin o) :=
      fun h => h8 ((F64.fin_lt_fin o n).1 h.1)
    rw [if_neg h10, if_neg h8]

/-- On the same UTC day and for an old price that is not negative, the error of
`ValidateUpdate` is the error of `ValidatePriceChange`. -/
theorem validateUpdate_error_eq (v : PriceValidator) (oldPrice newPrice : F64)
    (lastUpdateTime now : Time) (hday : utcDay lastUpdateTime = utcDay now)
    (hold : F64.fin 0 ≤ oldPrice ∨ oldPrice.isNaN = true ∨ oldPrice.isInf = true) :
    (v.ValidateUpdate oldPrice newPrice lastUpdateTime now).2 =
      v.ValidatePriceChange oldPrice newPrice := by
  by_cases h1 : (oldPrice.isNaN || newPrice.isNaN) = true
  · rw [validateUpdate_of_nan v _ _ _ _ h1]
    unfold PriceValidator.ValidatePriceChange
    rw [if_pos h1]
  by_cases h2 : (oldPrice.isInf || newPrice.isInf) = true
  · rw [validateUpdate_of_inf v _ _ _ _ (by simpa using h1) h2]
    unfold PriceValidator.ValidatePriceChange
    rw [if_neg h1, if_pos h2]
  cases oldPrice with
  | nan => simp [F64.isNaN] at h1
  | posInf => simp [F64.isInf] at h2
  | negInf => simp [F64.isInf] at h2
  | fin o =>
    cases newPrice with
    | nan => simp [F64.isNaN] at h1
    | posInf => simp [F64.isInf] at h2
    | negInf => simp [F64.isInf] at h2
    | fin n =>
      have ho : 0 ≤ o := by
        rcases hold with h | h | h
        · exact (F64.fin_le_fin 0 o).1 h
        · exact Bool.noConfusion h
        · exact Bool.noConfusion h
      rw [validateUpdate_fin, validatePriceChange_fin v o n ho]
      by_cases h3 : n < 0
      · rw [if_pos h3, if_pos h3]
      rw [if_neg h3, if_neg h3, if_neg (not_not.2 hday)]
      by_cases h5 : F64.fin n < v.minPrice
      · rw [if_pos h5, if_pos h5]
      rw [if_neg h5, if_neg h5]
      by_cases h6 : o ≤ 0
      · rw [if_pos h6, if_pos h6]
      rw [if_neg h6, if_neg h6]
      by_cases h7 : n < o
      · rw [if_pos h7, if_pos h7]
        by_cases h8 : F64.div (F64.fin n) (F64.fin o) < v.maxDropRatio
        · rw [if_pos h8, if_pos h8]
        · rw [if_neg h8, if_neg h8]
      rw [if_neg h7, if_neg h7]
      by_cases h8 : o < n
      · rw [if_pos h8, if_pos h8]
        by_cases h9 : 10 ≤ o ∧ v.maxRiseRatio < F64.div (F64.fin n) (F64.fin o)
        · rw [if_pos h9, if_pos h9]
        · rw [if_neg h9, if_neg h9]
      · rw [if_neg h8, if_neg h8]

/-- C28: the two validators agree on same-day updates. For every configuration and all
prices with an old price that is at least 0, NaN or infinite, when the last update is on
the UTC calendar day of the current time, `ValidateUpdate` returns an error if and only if
`ValidatePriceChange` does, and the two errors have the same code; in fact they are the
same error. -/
theorem validators_agree_same_day (v : PriceValidator) (oldPrice newPrice : F64)
    (lastUpdateTime now : Time) (hday : utcDay lastUpdateTime = utcDay now)
    (hold : F64.fin 0 ≤ oldPrice ∨ oldPrice.isNaN = true ∨ oldPrice.isInf = true) :
    ((v.ValidateUpdate oldPrice newPrice lastUpdateTime now).2 ≠ none ↔
      v.ValidatePriceChange oldPrice newPrice ≠ none) ∧
    (∀ e1 e2, (v.ValidateUpdate oldPrice newPrice lastUpdateTime now).2 = some e1 →
      v.ValidatePriceChange oldPrice newPrice = some e2 → e1.Code = e2.Code ∧ e1 = e2) := by
  have h := validateUpdate_error_eq v oldPrice newPrice lastUpdateTime now hday hold
  refine ⟨by rw [h], ?_⟩
  intro e1 e2 h1 h2
  rw [h, h2] at h1
  have h3 : e2 = e1 := Option.some.inj h1
  rw [h3]
  exact ⟨rfl, rfl⟩

/-- Witness for C28: the default validator on 100 and 40 on one day; both validators
return the drop error. -/
theorem validators_agree_same_day_witness :
    ((NewPriceValidator.ValidateUpdate (F64.fin 100) (F64.fin 40) 1000 2000).2 ≠ none ↔
      NewPriceValidator.ValidatePriceChange (F64.fin 100) (F64.fin 40) ≠ none) ∧
    (∀ e1 e2, (NewPriceValidator.ValidateUpdate (F64.fin 100) (F64.fin 40) 1000 2000).2 =
        some e1 →
      NewPriceValidator.ValidatePriceChange (F64.fin 100) (F64.fin 40) = some e2 →
      e1.Code = e2.Code ∧ e1 = e2) :=
  validators_agree_same_day NewPriceValidator (F64.fin 100) (F64.fin 40) 1000 2000
    (by decide) (Or.inl (by decide))

/-! ## Claims about identifiers and the election order -/

/-- A hexadecimal digit is one of the characters `0` to `9` and `a` to `f`. -/
theorem hexDigit_lower (n : ℕ) (h : n < 16) :
    (0x30 ≤ (hexDigit n).toNat ∧ (hexDigit n).toNat ≤ 0x39) ∨
      (0x61 ≤ (hexDigit n).toNat ∧ (hexDigit n).toNat ≤ 0x66) := by
  interval_cases n <;> decide

/-- The hexadecimal encoding has two characters for each byte, each of them one of `0` to
`9` and `a` to `f`. -/
theorem hexEncode_spec (bytes : List UInt8) :
    (hexEncode bytes).length = 2 * bytes.length ∧
      ∀ c ∈ hexEncode bytes, (0x30 ≤ c.toNat ∧ c.toNat ≤ 0x39) ∨
        (0x61 ≤ c.toNat ∧ c.toNat ≤ 0x66) := by
  induction bytes with
  | nil => exact ⟨rfl, fun c hc => absurd hc (List.not_mem_nil c)⟩
  | cons b rest ih =>
    have hstep : hexEncode (b :: rest) =
        hexDigit (b.toNat / 16) :: hexDigit (b.toNat % 16) :: hexEncode rest := rfl
    have hb : b.toNat < 256 := b.val.isLt
    rw [hstep]
    refine ⟨?_, ?_⟩
    · rw [List.length_cons, List.length_cons, ih.1, List.length_cons]
      omega
    · intro c hc
      rw [List.mem_cons, List.mem_cons] at hc
      rcases hc with hc | hc | hc
      · rw [hc]
        exact hexDigit_lower _ (by omega)
      · rw [hc]
        exact hexDigit_lower _ (by omega)
      · exact ih.2 c hc

/-- C25: `GenerateID(p, t)` is `p`, an underscore and the lowercase hexadecimal encoding
of the MD5 digest of `CleanTitleForID(t)`, 32 characters for the 16 bytes of a digest; it
is never empty, it is determined by `p` and `t`, and two titles with the same
`CleanTitleForID` result get the same identifier under the same prefix, as do "A B" and
"AB". -/
theorem generateID_spec (tc : TitleCleaner) (lib : Library) :
    (∀ pre title : GoString, tc.GenerateID lib pre title =
      pre ++ [0x5F] ++ hexEncode (lib.md5Sum (tc.CleanTitleForID lib title))) ∧
    (∀ title : GoString, (lib.md5Sum (tc.CleanTitleForID lib title)).length = 16 →
      (hexEncode (lib.md5Sum (tc.CleanTitleForID lib title))).length = 32 ∧
      ∀ c ∈ hexEncode (lib.md5Sum (tc.CleanTitleForID lib title)),
        (0x30 ≤ c.toNat ∧ c.toNat ≤ 0x39) ∨ (0x61 ≤ c.toNat ∧ c.toNat ≤ 0x66)) ∧
    (∀ pre title : GoString, tc.GenerateID lib pre title ≠ []) ∧
    (∀ p1 p2 t1 t2 : GoString, p1 = p2 → t1 = t2 →
      tc.GenerateID lib p1 t1 = tc.GenerateID lib p2 t2) ∧
    (∀ pre t1 t2 : GoString, tc.CleanTitleForID lib t1 = tc.CleanTitleForID lib t2 →
      tc.GenerateID lib pre t1 = tc.GenerateID lib pre t2) ∧
    (∀ pre : GoString, NewTitleCleaner.GenerateID exLibrary pre [0x41, 0x20, 0x42] =
      NewTitleCleaner.GenerateID exLibrary pre [0x41, 0x42]) := by
  refine ⟨fun _ _ => rfl, ?_, generateID_ne_nil tc lib, ?_, ?_, ?_⟩
  · intro title h16
    have h := hexEncode_spec (lib.md5Sum (tc.CleanTitleForID lib title))
    rw [h16] at h
    exact h
  · intro p1 p2 t1 t2 hp ht
    rw [hp, ht]
  · intro pre t1 t2 h
    unfold TitleCleaner.GenerateID
    rw [h]
  · intro pre
    have h : NewTitleCleaner.CleanTitleForID exLibrary [0x41, 0x20, 0x42] =
        NewTitleCleaner.CleanTitleForID exLibrary [0x41, 0x42] := by decide
    unfold TitleCleaner.GenerateID
    rw [h]

/-- Witness for C25: the identifier of "A B" under the prefix "DT" with the example
library. -/
theorem generateID_spec_witness :
    (hexEncode (exLibrary.md5Sum
        (NewTitleCleaner.CleanTitleForID exLibrary [0x41, 0x20, 0x42]))).length = 32 ∧
      NewTitleCleaner.GenerateID exLibrary strDT [0x41, 0x20, 0x42] =
        NewTitleCleaner.GenerateID exLibrary strDT [0x41, 0x42] :=
  ⟨((generateID_spec NewTitleCleaner exLibrary).2.1 [0x41, 0x20, 0x42] rfl).1,
    (generateID_spec NewTitleCleaner exLibrary).2.2.2.2.1 strDT [0x41, 0x20, 0x42]
      [0x41, 0x42] (by decide)⟩

/-- When no two titles with the same count have the same byte length, the election does
not depend on the order in which the entries are visited. -/
theorem electStandardTitle_perm (tc : TitleCleaner) (v1 v2 : VoteMap) (hperm : v1.Perm v2)
    (hpos : ∀ e ∈ v1, 1 ≤ e.2)
    (huniq : ∀ e1 ∈ v1, ∀ e2 ∈ v1, e1.2 = e2.2 → e1.1.length = e2.1.length → e1.1 = e2.1) :
    tc.ElectStandardTitle v1 = tc.ElectStandardTitle v2 := by
  by_cases hne : v1 = []
  · rw [hne] at hperm
    rw [hne, List.Perm.nil_eq hperm]
  · have hne2 : v2 ≠ [] := fun h => hne (List.Perm.eq_nil (h ▸ hperm))
    obtain ⟨c1, hm1, hmax1, hlen1⟩ := electStandardTitle_aux tc v1 hne hpos
    obtain ⟨c2, hm2, hmax2, hlen2⟩ := electStandardTitle_aux tc v2 hne2
      (fun e he => hpos e (hperm.mem_iff.2 he))
    have hm2in : (tc.ElectStandardTitle v2, c2) ∈ v1 := hperm.mem_iff.2 hm2
    have hm1in : (tc.ElectStandardTitle v1, c1) ∈ v2 := hperm.mem_iff.1 hm1
    have hc : c1 = c2 := le_antisymm (hmax2 _ hm1in) (hmax1 _ hm2in)
    have hl1 := hlen1 _ hm2in hc.symm
    have hl2 := hlen2 _ hm1in hc
    exact huniq _ hm1 _ hm2in hc (le_antisymm hl2 hl1)

/-- C29: on the votes `{"ABCDEFGH": 2, "ABCDEFGX": 2}` the election depends on the order
in which the entries are visited: the title visited first wins, and the identifiers derived
from the two winners differ. -/
theorem electStandardTitle_order_dependent :
    List.Perm [(exTitleH, (2 : ℤ)), (exTitleX, 2)] [(exTitleX, 2), (exTitleH, 2)] ∧
      VoteMap.WellFormed [(exTitleH, 2), (exTitleX, 2)] ∧
      NewTitleCleaner.ElectStandardTitle [(exTitleH, 2), (exTitleX, 2)] = exTitleH ∧
      NewTitleCleaner.ElectStandardTitle [(exTitleX, 2), (exTitleH, 2)] = exTitleX ∧
      NewTitleCleaner.GenerateID exLibrary2 strDT exTitleH ≠
        NewTitleCleaner.GenerateID exLibrary2 strDT exTitleX := by
  refine ⟨List.Perm.swap _ _ _, ?_, by decide, by decide, by decide⟩
  show (List.map Prod.fst _).Nodup
  decide

/-! ## Claims about `TitleCleaner.IsPriceMatch` -/

namespace F64

/-- The binary exponent of a positive rational between `2^k` and `2^(k+1)` is `k`. -/
theorem binExp_eq (q : ℚ) (k : ℤ) (hq : 0 < q) (h1 : (2 : ℚ) ^ k ≤ q)
    (h2 : q < (2 : ℚ) ^ (k + 1)) : binExp q = k := by
  have hs := binExp_spec q hq
  have ha : (2 : ℚ) ^ k < (2 : ℚ) ^ (binExp q + 1) := lt_of_le_of_lt h1 hs.2
  have hb : (2 : ℚ) ^ binExp q < (2 : ℚ) ^ (k + 1) := lt_of_le_of_lt hs.1 h2
  have ha2 := (zpow_lt_zpow_iff_right₀ (by norm_num : (1 : ℚ) < 2)).1 ha
  have hb2 := (zpow_lt_zpow_iff_right₀ (by norm_num : (1 : ℚ) < 2)).1 hb
  omega

/-- Between 1 and 2 the unit in the last place is `2^-52`. -/
theorem roundVal_unit_binade (q : ℚ) (h1 : 1 ≤ q) (h2 : q < 2) :
    roundVal q = (roundHalfEven (q * 2 ^ 52) : ℚ) / 2 ^ 52 := by
  have hb : binExp q = 0 :=
    binExp_eq q 0 (by linarith) (by rw [zpow_zero]; exact h1) (by norm_num; exact h2)
  have hu : ulpExp q = -52 := by
    unfold ulpExp
    rw [hb]
    decide
  unfold roundVal
  rw [hu]
  have hz : (2 : ℚ) ^ (-52 : ℤ) = 1 / 2 ^ 52 := by
    rw [zpow_neg, one_div]
    norm_cast
  rw [hz]
  have hq : q / (1 / 2 ^ 52) = q * 2 ^ 52 := by
    field_simp
  rw [hq]
  ring

/-- Above a natural number plus one half, rounding to the nearest natural number gives at
least the next natural number. -/
theorem roundHalfEven_gt (x : ℚ) (N : ℕ) (h : (N : ℚ) + 1 / 2 < x) :
    N + 1 ≤ roundHalfEven x := by
  have hx0 : (0 : ℚ) ≤ x := by
    have : (0 : ℚ) ≤ (N : ℚ) := Nat.cast_nonneg N
    linarith
  have hN : N ≤ ⌊x⌋₊ := Nat.le_floor (by linarith)
  rcases Nat.lt_or_ge N ⌊x⌋₊ with hlt | hge
  · rcases roundHalfEven_floor x with h1 | h1 <;> omega
  · have hfe : ⌊x⌋₊ = N := le_antisymm hge hN
    unfold roundHalfEven
    dsimp only
    rw [hfe]
    have hr : (1 : ℚ) / 2 < x - (N : ℚ) := by linarith
    rw [if_neg (not_lt.2 (le_of_lt hr)), if_pos hr]

/-- At a natural number plus one half, with the natural number even, rounding to the
nearest natural number gives that number. -/
theorem roundHalfEven_tie (N : ℕ) (hN : N % 2 = 0) :
    roundHalfEven ((N : ℚ) + 1 / 2) = N := by
  have hf : ⌊(N : ℚ) + 1 / 2⌋₊ = N := by
    rw [Nat.floor_eq_iff (by positivity)]
    constructor <;> linarith
  unfold roundHalfEven
  dsimp only
  rw [hf]
  have hr : (N : ℚ) + 1 / 2 - (N : ℚ) = 1 / 2 := by ring
  rw [hr, if_neg (lt_irrefl _), if_neg (lt_irrefl _), if_pos hN]

/-- The tie between 1 and the next binary64 value rounds to 1. -/
theorem round_tie_one : round (1 + 1 / 2 ^ 53) = fin 1 := by
  have hpos : (0 : ℚ) < 1 + 1 / 2 ^ 53 := by positivity
  have hv : roundVal (1 + 1 / 2 ^ 53) = 1 := by
    rw [roundVal_unit_binade _ (by norm_num) (by norm_num)]
    have hx : ((1 : ℚ) + 1 / 2 ^ 53) * 2 ^ 52 = ((2 ^ 52 : ℕ) : ℚ) + 1 / 2 := by
      norm_num
    rw [hx, roundHalfEven_tie _ (by norm_num)]
    norm_num
  unfold round
  rw [if_neg (ne_of_gt hpos), if_pos hpos]
  unfold roundPos
  rw [hv, if_neg (by norm_num)]

/-- A non-negative rational rounds to at most 1 exactly when it is at most the tie
between 1 and the next binary64 value. -/
theorem round_le_one_iff (d : ℚ) : round d ≤ fin 1 ↔ d ≤ 1 + 1 / 2 ^ 53 := by
  constructor
  · intro h
    by_contra hd
    have hd1 : 1 + 1 / 2 ^ 53 < d := lt_of_not_le hd
    have hpos : (0 : ℚ) < d := lt_trans (by positivity) hd1
    by_cases h2 : d < 2
    · have hv : 1 < roundVal d := by
        rw [roundVal_unit_binade d (le_trans (by norm_num) (le_of_lt hd1)) h2]
        have hx : ((2 ^ 52 : ℕ) : ℚ) + 1 / 2 < d * 2 ^ 52 := by
          have : ((1 : ℚ) + 1 / 2 ^ 53) * 2 ^ 52 < d * 2 ^ 52 :=
            mul_lt_mul_of_pos_right hd1 (by positivity)
          have hx2 : ((1 : ℚ) + 1 / 2 ^ 53) * 2 ^ 52 = ((2 ^ 52 : ℕ) : ℚ) + 1 / 2 := by
            norm_num
          rw [← hx2]
          exact this
        have hr := roundHalfEven_gt _ _ hx
        have hr2 : ((2 ^ 52 + 1 : ℕ) : ℚ) ≤ (roundHalfEven (d * 2 ^ 52) : ℚ) := by
          exact_mod_cast hr
        rw [lt_div_iff₀ (by positivity)]
        have hc : ((2 ^ 52 + 1 : ℕ) : ℚ) = 2 ^ 52 + 1 := by norm_num
        rw [hc] at hr2
        linarith
      unfold round at h
      rw [if_neg (ne_of_gt hpos), if_pos hpos] at h
      unfold roundPos at h
      by_cases hbig : (2 : ℚ) ^ (1024 : ℤ) ≤ roundVal d
      · rw [if_pos hbig] at h
        exact absurd h (by decide)
      · rw [if_neg hbig] at h
        exact absurd ((fin_le_fin _ _).1 h) (not_le.2 hv)
    · have h22 : round 2 ≤ round d := round_mono 2 d (not_lt.1 h2)
      have hr2 : round 2 = fin 2 := by
        have := round_natCast 2 (by norm_num)
        rwa [Nat.cast_ofNat] at this
      rw [hr2] at h22
      have := (fin_le_fin _ _).1 (leTrans h22 h)
      norm_num at this
  · intro h
    have := round_mono d _ h
    rw [round_tie_one] at this
    exact this

/-- The negation of a rounded positive rational is below zero unless the rounding gave
zero, and negating it again gives the rounded value back. -/
theorem abs_sub_eq_round (a b : ℚ) :
    (if sub (fin a) (fin b) < fin 0 then neg (sub (fin a) (fin b))
      else sub (fin a) (fin b)) = round |a - b| := by
  show (if round (a - b) < fin 0 then neg (round (a - b)) else round (a - b)) = _
  rcases lt_trichotomy (a - b) 0 with h | h | h
  · rw [abs_of_neg h]
    have hpos : 0 < -(a - b) := neg_pos.2 h
    have hr : round (a - b) = neg (roundPos (-(a - b))) := by
      unfold round
      rw [if_neg (ne_of_lt h), if_neg (not_lt.2 (le_of_lt h))]
    have hr2 : round (-(a - b)) = roundPos (-(a - b)) := by
      unfold round
      rw [if_neg (ne_of_gt hpos), if_pos hpos]
    rw [hr, hr2]
    rcases roundPos_cases (-(a - b)) with hc | ⟨v, hv0, hc⟩
    · rw [hc]
      rfl
    · rw [hc]
      by_cases hv : v = 0
      · rw [hv]
        have hz : neg (fin 0) = fin 0 := by
          show fin (-0) = fin 0
          rw [neg_zero]
        rw [hz, if_neg (ltIrrefl _)]
      · have hvpos : 0 < v := lt_of_le_of_ne hv0 (Ne.symm hv)
        have hlt : neg (fin v) < fin 0 := by
          show fin (-v) < fin 0
          exact (fin_lt_fin _ _).2 (neg_lt_zero.2 hvpos)
        rw [if_pos hlt]
        show fin (- -v) = fin v
        rw [neg_neg]
  · rw [h, abs_zero, round_zero, if_neg (ltIrrefl _)]
  · rw [abs_of_pos h]
    have hr : round (a - b) = roundPos (a - b) := by
      unfold round
      rw [if_neg (ne_of_gt h), if_pos h]
    rw [hr]
    rcases roundPos_cases (a - b) with hc | ⟨v, hv0, hc⟩
    · rw [hc, if_neg (by decide)]
    · rw [hc, if_neg (fun hlt => absurd ((fin_lt_fin _ _).1 hlt) (not_lt.2 hv0))]

end F64

/-- `IsPriceMatch` on finite prices: the difference may exceed 1 by half a unit in the
last place. -/
theorem isPriceMatch_fin_iff (tc : TitleCleaner) (a b : ℚ) :
    tc.IsPriceMatch (F64.fin a) (F64.fin b) = true ↔ |a - b| ≤ 1 + 1 / 2 ^ 53 := by
  unfold TitleCleaner.IsPriceMatch
  rw [if_neg (by simp [F64.isNaN]), if_neg (by simp [F64.isInf])]
  dsimp only
  rw [F64.abs_sub_eq_round, decide_eq_true_iff]
  exact F64.round_le_one_iff _

/-- C27: `IsPriceMatch(p1, p2)` is true if and only if both prices are finite and their
difference `|p1 - p2|`, the binary64 value `round |a - b|` that the subtraction and the
negation of the code compute, is at most 1.0; a difference of exactly 1.0 is a match, as
is every exact difference of at most 1.0, and the function is symmetric in its two
arguments. The computed difference is at most 1.0 exactly when the exact difference is at
most `1 + 2^-53`. -/
theorem isPriceMatch_spec (tc : TitleCleaner) :
    (∀ p1 p2 : F64, tc.IsPriceMatch p1 p2 = true ↔
      ∃ a b : ℚ, p1 = F64.fin a ∧ p2 = F64.fin b ∧ F64.round |a - b| ≤ F64.fin 1) ∧
    (∀ a b : ℚ, F64.round |a - b| ≤ F64.fin 1 ↔ |a - b| ≤ 1 + 1 / 2 ^ 53) ∧
    (∀ a b : ℚ, |a - b| ≤ 1 → tc.IsPriceMatch (F64.fin a) (F64.fin b) = true) ∧
    (∀ p1 p2 : F64, tc.IsPriceMatch p1 p2 = tc.IsPriceMatch p2 p1) ∧
    (∀ a b : ℚ,
      (if F64.sub (F64.fin a) (F64.fin b) < F64.fin 0 then
          F64.neg (F64.sub (F64.fin a) (F64.fin b))
        else F64.sub (F64.fin a) (F64.fin b)) = F64.round |a - b|) := by
  have hiff : ∀ a b : ℚ, tc.IsPriceMatch (F64.fin a) (F64.fin b) = true ↔
      F64.round |a - b| ≤ F64.fin 1 := by
    intro a b
    rw [isPriceMatch_fin_iff, F64.round_le_one_iff]
  refine ⟨?_, fun a b => F64.round_le_one_iff _, ?_, ?_,
    fun a b => F64.abs_sub_eq_round a b⟩
  · intro p1 p2
    constructor
    · intro h
      cases p1 with
      | fin a =>
        cases p2 with
        | fin b => exact ⟨a, b, rfl, rfl, (hiff a b).1 h⟩
        | nan => exact Bool.noConfusion h
        | posInf => exact Bool.noConfusion h
        | negInf => exact Bool.noConfusion h
      | nan => exact Bool.noConfusion h
      | posInf => cases p2 <;> exact Bool.noConfusion h
      | negInf => cases p2 <;> exact Bool.noConfusion h
    · rintro ⟨a, b, h1, h2, h⟩
      rw [h1, h2]
      exact (hiff a b).2 h
  · intro a b h
    rw [isPriceMatch_fin_iff]
    have : (0 : ℚ) ≤ 1 / 2 ^ 53 := by positivity
    linarith
  · intro p1 p2
    cases p1 with
    | fin a =>
      cases p2 with
      | fin b =>
        rw [Bool.eq_iff_iff, isPriceMatch_fin_iff, isPriceMatch_fin_iff, abs_sub_comm]
      | nan => rfl
      | posInf => rfl
      | negInf => rfl
    | nan => cases p2 <;> rfl
    | posInf => cases p2 <;> rfl
    | negInf => cases p2 <;> rfl

/-- Witness for C27: the prices 5 and 4, whose difference is exactly 1.0. -/
theorem isPriceMatch_spec_witness :
    |(5 : ℚ) - 4| ≤ 1 ∧ NewTitleCleaner.IsPriceMatch (F64.fin 5) (F64.fin 4) = true :=
  ⟨by norm_num, (isPriceMatch_spec NewTitleCleaner).2.2.1 5 4 (by norm_num)⟩

/-- The rounding of the subtraction at the threshold: the binary64 values 1.5 and
`0.5 - 2^-54` differ by `1 + 2^-54` in exact arithmetic, their computed difference is 1.0,
and they match. -/
theorem isPriceMatch_above_threshold :
    F64.round (3 / 2) = F64.fin (3 / 2) ∧
      F64.round (1 / 2 - 1 / 2 ^ 54) = F64.fin (1 / 2 - 1 / 2 ^ 54) ∧
      ¬ (|(3 / 2 : ℚ) - (1 / 2 - 1 / 2 ^ 54)| ≤ 1) ∧
      NewTitleCleaner.IsPriceMatch (F64.fin (3 / 2)) (F64.fin (1 / 2 - 1 / 2 ^ 54)) =
        true := by
  refine ⟨?_, ?_, ?_, ?_⟩
  · have h := F64.round_dyadic 3 (-1) (by norm_num) (by norm_num) (by norm_num)
    have he : ((3 : ℕ) : ℚ) * (2 : ℚ) ^ (-1 : ℤ) = 3 / 2 := by norm_num
    rwa [he] at h
  · have h := F64.round_dyadic (2 ^ 53 - 1) (-54) (by norm_num) (by norm_num) (by norm_num)
    have he : ((2 ^ 53 - 1 : ℕ) : ℚ) * (2 : ℚ) ^ (-54 : ℤ) = 1 / 2 - 1 / 2 ^ 54 := by
      norm_num
    rwa [he] at h
  · norm_num [abs_le]
  · rw [isPriceMatch_fin_iff]
    norm_num [abs_le]

/-! ## Claims about `CleanTitleForID` -/

/-- The code points of a string are the first components of its chunks. -/
theorem runesFrom_eq_chunksFrom (s : GoString) :
    ∀ k, runesFrom k s = (chunksFrom k s).map Prod.fst := by
  induction s with
  | nil => intro k; cases k <;> rfl
  | cons b rest ih =>
    intro k
    cases k with
    | zero =>
      rw [runesFrom, chunksFrom, List.map_cons, ih]
    | succ k =>
      rw [runesFrom, chunksFrom, ih]

/-- Passing over as many bytes as a prefix has leaves the code points of the rest. -/
theorem runesFrom_append (xs t : GoString) :
    runesFrom xs.length (xs ++ t) = runesFrom 0 t := by
  induction xs with
  | nil => rfl
  | cons x xs ih =>
    rw [List.length_cons, List.cons_append]
    cases hxt : xs ++ t with
    | nil =>
      have h1 : xs = [] := (List.append_eq_nil.1 hxt).1
      have h2 : t = [] := (List.append_eq_nil.1 hxt).2
      rw [h1, h2]
      rfl
    | cons y ys =>
      rw [← hxt, runesFrom, ih]

/-- The bytes of a code point other than U+FFFD decode to that code point whatever
follows them. -/
theorem decodeRune_take (b : UInt8) (rest t : GoString)
    (h : (decodeRune (b :: rest)).1 ≠ RuneError) :
    decodeRune ((b :: rest).take (decodeRune (b :: rest)).2 ++ t) = decodeRune (b :: rest) ∧
      ((b :: rest).take (decodeRune (b :: rest)).2).length = (decodeRune (b :: rest)).2 ∧
      1 ≤ (decodeRune (b :: rest)).2 := by
  unfold decodeRune at h ⊢
  by_cases h1 : b.toNat < 0x80
  · simp only [if_pos h1] at h ⊢
    simp [decodeRune, h1]
  simp only [if_neg h1] at h ⊢
  by_cases h2 : 0xC0 ≤ b.toNat ∧ b.toNat < 0xE0
  · simp only [if_pos h2] at h ⊢
    cases rest with
    | nil => exact absurd rfl h
    | cons b1 r1 =>
      dsimp only at h ⊢
      by_cases hc : isCont b1 = true ∧ 0x7F < (b.toNat % 0x20) * 0x40 + b1.toNat % 0x40
      · simp only [if_pos hc] at h ⊢
        simp [decodeRune, h1, h2, hc]
      · simp only [if_neg hc] at h
        exact absurd rfl h
  simp only [if_neg h2] at h ⊢
  by_cases h3 : 0xE0 ≤ b.toNat ∧ b.toNat < 0xF0
  · simp only [if_pos h3] at h ⊢
    match rest, h with
    | [], h => exact absurd rfl h
    | [_], h => exact absurd rfl h
    | b1 :: b2 :: r2, h =>
      dsimp only at h ⊢
      by_cases hc : isCont b1 = true ∧ isCont b2 = true ∧
          0x7FF < (b.toNat % 0x10) * 0x1000 + (b1.toNat % 0x40) * 0x40 + b2.toNat % 0x40 ∧
          ¬ (0xD800 ≤ (b.toNat % 0x10) * 0x1000 + (b1.toNat % 0x40) * 0x40 + b2.toNat % 0x40 ∧
            (b.toNat % 0x10) * 0x1000 + (b1.toNat % 0x40) * 0x40 + b2.toNat % 0x40 ≤ 0xDFFF)
      · simp only [if_pos hc] at h ⊢
        simp [decodeRune, h1, h2, h3, hc]
      · simp only [if_neg hc] at h
        exact absurd rfl h
  simp only [if_neg h3] at h ⊢
  by_cases h4 : 0xF0 ≤ b.toNat ∧ b.toNat < 0xF8
  · simp only [if_pos h4] at h ⊢
    match rest, h with
    | [], h => exact absurd rfl h
    | [_], h => exact absurd rfl h
    | [_, _], h => exact absurd rfl h
    | b1 :: b2 :: b3 :: r3, h =>
      dsimp only at h ⊢
      by_cases hc : isCont b1 = true ∧ isCont b2 = true ∧ isCont b3 = true ∧
          0xFFFF < (b.toNat % 0x08) * 0x40000 + (b1.toNat % 0x40) * 0x1000 +
            (b2.toNat % 0x40) * 0x40 + b3.toNat % 0x40 ∧
          (b.toNat % 0x08) * 0x40000 + (b1.toNat % 0x40) * 0x1000 +
            (b2.toNat % 0x40) * 0x40 + b3.toNat % 0x40 ≤ 0x10FFFF
      · simp only [if_pos hc] at h ⊢
        simp [decodeRune, h1, h2, h3, h4, hc]
      · simp only [if_neg hc] at h
        exact absurd rfl h
  · simp only [if_neg h4] at h
    exact absurd rfl h

/-- The chunk of every code point other than U+FFFD is a non-empty byte sequence that
decodes to that code point whatever follows it. -/
theorem chunksFrom_valid (s : GoString) :
    ∀ k, ∀ c ∈ chunksFrom k s, c.1 ≠ RuneError →
      (∀ t, decodeRune (c.2 ++ t) = (c.1, c.2.length)) ∧ c.2 ≠ [] := by
  induction s with
  | nil =>
    intro k c hc
    cases k <;> exact absurd hc (List.not_mem_nil c)
  | cons b rest ih =>
    intro k c hc hne
    cases k with
    | succ k =>
      rw [chunksFrom] at hc
      exact ih k c hc hne
    | zero =>
      rw [chunksFrom, List.mem_cons] at hc
      rcases hc with hc | hc
      · rw [hc] at hne ⊢
        have hd := decodeRune_take b rest
        refine ⟨fun t => ?_, ?_⟩
        · rw [(hd t hne).1, (hd t hne).2.1]
        · intro hnil
          have h1 := (hd [] hne).2.1
          have h2 := (hd [] hne).2.2
          have hnil2 : (List.take (decodeRune (b :: rest)).2 (b :: rest)) = [] := hnil
          rw [hnil2, List.length_nil] at h1
          omega
      · exact ih _ c hc hne

/-- The code points of the concatenation of valid chunks are the code points of the
chunks. -/
theorem runesFrom_flatten (cs : List (Rune × GoString))
    (h : ∀ c ∈ cs, (∀ t, decodeRune (c.2 ++ t) = (c.1, c.2.length)) ∧ c.2 ≠ []) :
    runesFrom 0 ((cs.map Prod.snd).flatten) = cs.map Prod.fst := by
  induction cs with
  | nil => rfl
  | cons c cs ih =>
    have hc := h c (List.mem_cons_self _ _)
    have ih2 := ih (fun d hd => h d (List.mem_cons_of_mem _ hd))
    rw [List.map_cons, List.flatten_cons, List.map_cons]
    cases hc2 : c.2 with
    | nil => exact absurd hc2 hc.2
    | cons x xs =>
      have hdec := hc.1 ((cs.map Prod.snd).flatten)
      rw [hc2] at hdec
      rw [List.cons_append] at hdec ⊢
      rw [runesFrom, hdec]
      show c.1 :: runesFrom ((x :: xs).length - 1) (xs ++ _) = _
      rw [List.length_cons, Nat.add_sub_cancel, runesFrom_append, ih2]

/-- The replacement character is not in the class the title cleaner keeps. -/
theorem keptByTitleCleaner_runeError (lib : Library)
    (hHan : ∀ r, lib.isHan r = true → 0x80 ≤ r ∧ r ≠ RuneError) :
    keptByTitleCleaner lib RuneError = false := by
  have h : lib.isHan RuneError = false := by
    rw [← Bool.not_eq_true]
    exact fun h => (hHan _ h).2 rfl
  unfold keptByTitleCleaner
  rw [h]
  decide

/-- The code points of the cleaned title are the code points of the title that are in the
class the title cleaner keeps, in their order. -/
theorem runes_cleanTitleForID (tc : TitleCleaner) (lib : Library)
    (hHan : ∀ r, lib.isHan r = true → 0x80 ≤ r ∧ r ≠ RuneError) (title : GoString) :
    runes (tc.CleanTitleForID lib title) = (runes title).filter (keptByTitleCleaner lib) := by
  unfold TitleCleaner.CleanTitleForID
  by_cases ht : title = []
  · rw [if_pos ht, ht]
    rfl
  · rw [if_neg ht]
    unfold runes
    rw [runesFrom_flatten, runesFrom_eq_chunksFrom, List.filter_map]
    · rfl
    · intro c hc
      have hmem := List.mem_filter.1 hc
      apply chunksFrom_valid title 0 c hmem.1
      intro hre
      have hk : keptByTitleCleaner lib c.1 = true := hmem.2
      rw [hre, keptByTitleCleaner_runeError lib hHan] at hk
      exact Bool.noConfusion hk

/-- A title without a code point of the kept class is cleaned to the empty string. -/
theorem cleanTitleForID_of_none (tc : TitleCleaner) (lib : Library) (title : GoString)
    (h : ∀ r ∈ runes title, keptByTitleCleaner lib r = false) :
    tc.CleanTitleForID lib title = [] := by
  unfold TitleCleaner.CleanTitleForID
  by_cases ht : title = []
  · rw [if_pos ht]
  · rw [if_neg ht]
    have hnil : (chunksFrom 0 title).filter (fun c => keptByTitleCleaner lib c.1) = [] := by
      rw [List.filter_eq_nil_iff]
      intro c hc
      have hr : c.1 ∈ runes title := by
        unfold runes
        rw [runesFrom_eq_chunksFrom]
        exact List.mem_map_of_mem _ hc
      rw [h _ hr]
      exact Bool.noConfusion
    rw [hnil]
    rfl

/-- The code points of `CleanTitleForID(title)` are the code points of the title, in
their order, without those that are not an ASCII letter, an ASCII digit or a character of
the Han table of the library, for every table without ASCII characters and U+FFFD. -/
theorem cleanTitleForID_kept (tc : TitleCleaner) (lib : Library)
    (hHan : ∀ r, lib.isHan r = true → 0x80 ≤ r ∧ r ≠ RuneError) :
    (∀ title : GoString, runes (tc.CleanTitleForID lib title) =
      (runes title).filter (fun r => decide (0x61 ≤ r ∧ r ≤ 0x7A) ||
        decide (0x41 ≤ r ∧ r ≤ 0x5A) || decide (0x30 ≤ r ∧ r ≤ 0x39) || lib.isHan r)) ∧
    tc.CleanTitleForID lib [] = [] ∧
    (∀ title : GoString,
      (∀ r ∈ runes title, ¬ (0x61 ≤ r ∧ r ≤ 0x7A) ∧ ¬ (0x41 ≤ r ∧ r ≤ 0x5A) ∧
        ¬ (0x30 ≤ r ∧ r ≤ 0x39) ∧ lib.isHan r = false) →
      tc.CleanTitleForID lib title = []) ∧
    tc.CleanTitleForID lib [0x40, 0x23, 0x24, 0x25, 0x5E, 0x26, 0x2A, 0x28, 0x29] = [] := by
  have hnone : ∀ title : GoString,
      (∀ r ∈ runes title, ¬ (0x61 ≤ r ∧ r ≤ 0x7A) ∧ ¬ (0x41 ≤ r ∧ r ≤ 0x5A) ∧
        ¬ (0x30 ≤ r ∧ r ≤ 0x39) ∧ lib.isHan r = false) →
      tc.CleanTitleForID lib title = [] := by
    intro title h
    apply cleanTitleForID_of_none
    intro r hr
    obtain ⟨h1, h2, h3, h4⟩ := h r hr
    unfold keptByTitleCleaner
    rw [decide_eq_false h1, decide_eq_false h2, decide_eq_false h3, h4]
    rfl
  refine ⟨fun title => runes_cleanTitleForID tc lib hHan title, rfl, hnone, ?_⟩
  apply hnone
  intro r hr
  have hrs : runes [0x40, 0x23, 0x24, 0x25, 0x5E, 0x26, 0x2A, 0x28, 0x29] =
      [0x40, 0x23, 0x24, 0x25, 0x5E, 0x26, 0x2A, 0x28, 0x29] := by decide
  rw [hrs] at hr
  have hhan : ∀ x : ℕ, x < 0x80 → lib.isHan x = false := by
    intro x hx
    rw [← Bool.not_eq_true]
    intro h
    exact absurd (hHan x h).1 (not_le.2 hx)
  simp only [List.mem_cons, List.mem_singleton, List.not_mem_nil, or_false] at hr
  rcases hr with h | h | h | h | h | h | h | h | h <;> rw [h] <;>
    exact ⟨by decide, by decide, by decide, hhan _ (by decide)⟩

/-- The table `unicode.Han` has no ASCII character and not U+FFFD. -/
theorem unicodeHan_range (r : Rune) (h : unicodeHan r = true) : 0x80 ≤ r ∧ r ≠ RuneError := by
  have key : ∀ a b x : ℕ, 0x80 ≤ a → (b < 0xFFFD ∨ 0xFFFD < a) → a ≤ x ∧ x ≤ b →
      0x80 ≤ x ∧ x ≠ 0xFFFD := by
    intro a b x h1 h2 h3
    omega
  unfold unicodeHan at h
  simp only [Bool.or_eq_true, decide_eq_true_iff] at h
  casesm* _ ∨ _
  all_goals
    rename_i h
    first
      | exact key _ _ r (by decide) (by decide) h
      | (rw [h]; exact ⟨by decide, by decide⟩)

/-- C26, amended: the code points of `CleanTitleForID(title)` are the code points of the
title, in their order, without those that are not an ASCII letter, an ASCII digit or a
character of the script Han, the table `unicode.Han` behind the class `\p{Han}` of the
regular expression. That table contains the CJK Unified Ideographs block from U+4E00 to
U+9FFF and code points outside it, among them U+3005, U+3007, U+3400 and U+2E80. The empty
title gives the empty string, and so does a title without a code point of these classes,
such as "@#$%^&*()". -/
theorem cleanTitleForID_spec (tc : TitleCleaner) (lib : Library)
    (hHan : ∀ r, lib.isHan r = unicodeHan r) :
    (∀ title : GoString, runes (tc.CleanTitleForID lib title) =
      (runes title).filter (fun r => decide (0x61 ≤ r ∧ r ≤ 0x7A) ||
        decide (0x41 ≤ r ∧ r ≤ 0x5A) || decide (0x30 ≤ r ∧ r ≤ 0x39) || unicodeHan r)) ∧
    (∀ r : Rune, 0x4E00 ≤ r ∧ r ≤ 0x9FFF → unicodeHan r = true) ∧
    unicodeHan 0x3005 = true ∧ unicodeHan 0x3007 = true ∧ unicodeHan 0x3400 = true ∧
    unicodeHan 0x2E80 = true ∧
    tc.CleanTitleForID lib [] = [] ∧
    (∀ title : GoString,
      (∀ r ∈ runes title, ¬ (0x61 ≤ r ∧ r ≤ 0x7A) ∧ ¬ (0x41 ≤ r ∧ r ≤ 0x5A) ∧
        ¬ (0x30 ≤ r ∧ r ≤ 0x39) ∧ unicodeHan r = false) →
      tc.CleanTitleForID lib title = []) ∧
    tc.CleanTitleForID lib [0x40, 0x23, 0x24, 0x25, 0x5E, 0x26, 0x2A, 0x28, 0x29] = [] := by
  have hfun : lib.isHan = unicodeHan := funext hHan
  obtain ⟨h1, h2, h3, h4⟩ := cleanTitleForID_kept tc lib (fun r h => by
    rw [hHan] at h
    exact unicodeHan_range r h)
  rw [hfun] at h1 h3
  refine ⟨h1, ?_, by decide, by decide, by decide, by decide, h2, h3, h4⟩
  intro r hr
  unfold unicodeHan
  have h5 : decide (0x4E00 ≤ r ∧ r ≤ 0x9FFF) = true := decide_eq_true hr
  simp only [h5, Bool.or_true, Bool.true_or]

/-- The test case "Title with spaces and symbols" of `TestTitleCleaner_CleanTitleForID`,
with the table `unicode.Han` as Han class. -/
theorem cleanTitleForID_test_case :
    NewTitleCleaner.CleanTitleForID exLibrary
        [0xE5, 0xB7, 0xA7, 0xE5, 0x85, 0x8B, 0xE5, 0x8A, 0x9B, 0xE8, 0x8D, 0x89, 0xE8, 0x8E, 0x93,
         0xE8, 0x9B, 0x8B, 0xE7, 0xB3, 0x95, 0x20, 0x28, 0x36, 0xE5, 0xAF, 0xB8, 0x29] =
      [0xE5, 0xB7, 0xA7, 0xE5, 0x85, 0x8B, 0xE5, 0x8A, 0x9B, 0xE8, 0x8D, 0x89, 0xE8, 0x8E, 0x93,
       0xE8, 0x9B, 0x8B, 0xE7, 0xB3, 0x95, 0x36, 0xE5, 0xAF, 0xB8] := by
  decide

/-- Witness for C26: with the example library, "A 中B々" is cleaned to "A中B々"; the code
points are U+0041, U+0020, U+4E2D, U+0042 and U+3005. -/
theorem cleanTitleForID_spec_witness :
    runes (NewTitleCleaner.CleanTitleForID exLibrary
        [0x41, 0x20, 0xE4, 0xB8, 0xAD, 0x42, 0xE3, 0x80, 0x85]) =
        (runes [0x41, 0x20, 0xE4, 0xB8, 0xAD, 0x42, 0xE3, 0x80, 0x85]).filter
          (fun r => decide (0x61 ≤ r ∧ r ≤ 0x7A) || decide (0x41 ≤ r ∧ r ≤ 0x5A) ||
            decide (0x30 ≤ r ∧ r ≤ 0x39) || unicodeHan r) ∧
      runes [0x41, 0x20, 0xE4, 0xB8, 0xAD, 0x42, 0xE3, 0x80, 0x85] =
        [0x41, 0x20, 0x4E2D, 0x42, 0x3005] ∧
      NewTitleCleaner.CleanTitleForID exLibrary
          [0x41, 0x20, 0xE4, 0xB8, 0xAD, 0x42, 0xE3, 0x80, 0x85] =
        [0x41, 0xE4, 0xB8, 0xAD, 0x42, 0xE3, 0x80, 0x85] :=
  ⟨(cleanTitleForID_spec NewTitleCleaner exLibrary (fun _ => rfl)).1
      [0x41, 0x20, 0xE4, 0xB8, 0xAD, 0x42, 0xE3, 0x80, 0x85], by decide, by decide⟩

/-- C26, counterexample: the title "々〇㐀⺀" consists of the code points U+3005, U+3007,
U+3400 and U+2E80, none of them an ASCII letter or digit or in the CJK Unified Ideographs
block from U+4E00 to U+9FFF, and `CleanTitleForID` removes none of them. -/
theorem cleanTitleForID_keeps_han_outside_block :
    runes [0xE3, 0x80, 0x85, 0xE3, 0x80, 0x87, 0xE3, 0x90, 0x80, 0xE2, 0xBA, 0x80] =
        [0x3005, 0x3007, 0x3400, 0x2E80] ∧
      ¬ (0x4E00 ≤ 0x3005 ∧ 0x3005 ≤ 0x9FFF) ∧ ¬ (0x4E00 ≤ 0x3007 ∧ 0x3007 ≤ 0x9FFF) ∧
      ¬ (0x4E00 ≤ 0x3400 ∧ 0x3400 ≤ 0x9FFF) ∧ ¬ (0x4E00 ≤ 0x2E80 ∧ 0x2E80 ≤ 0x9FFF) ∧
      NewTitleCleaner.CleanTitleForID exLibrary
          [0xE3, 0x80, 0x85, 0xE3, 0x80, 0x87, 0xE3, 0x90, 0x80, 0xE2, 0xBA, 0x80] =
        [0xE3, 0x80, 0x85, 0xE3, 0x80, 0x87, 0xE3, 0x90, 0x80, 0xE2, 0xBA, 0x80] := by
  decide

/-! ## The loop of `PromoteCandidates`, one candidate at a time -/

/-- The loop of `PromoteCandidates` runs its body for the first candidate and, unless the
body returns an error, goes on with the rest. -/
theorem promoteLoop_cons_eq (s : DataCleaningService) (lib : Library) (clock : ℕ → Time)
    (c : CandidateItem) (rest : List CandidateItem) (i : ℕ) (st : Store) (pd : PromotedData)
    (ids : List ℤ) :
    promoteLoop s lib clock (c :: rest) i st pd ids =
      match promoteStep s lib (clock i) c st pd ids with
      | (Except.error e, st1) => (Except.error e, st1)
      | (Except.ok r, st1) => promoteLoop s lib clock rest (i + 1) st1 r.1 r.2 := by
  rw [promoteLoop]
  unfold promoteStep
  by_cases h1 : s.titleCleaner.ShouldPromote c.TotalOccurrences = false
  · simp only [if_pos h1]
  simp only [if_neg h1]
  by_cases h2 : s.titleCleaner.ElectStandardTitle (lib.rangeVotes c.ID c.TitleVotes) = []
  · simp only [if_pos h2]
  simp only [if_neg h2]
  rcases hfind : st.masterFindByID (s.titleCleaner.GenerateID lib strDT
      (s.titleCleaner.ElectStandardTitle (lib.rangeVotes c.ID c.TitleVotes))) with err | _ | found
  · rfl
  · simp only []
    rcases hcr : st.masterCreate
        { ID := s.titleCleaner.GenerateID lib strDT
            (s.titleCleaner.ElectStandardTitle (lib.rangeVotes c.ID c.TitleVotes)),
          Region := c.Region, Platform := strDefaultPlatform,
          StandardTitle := s.titleCleaner.ElectStandardTitle (lib.rangeVotes c.ID c.TitleVotes),
          Price := c.LastPrice, Status := c.LastStatus, TrustScore := c.TotalOccurrences,
          CreateTime := 0, UpdateTime := 0 } with ⟨_ | err, st1⟩
    · rfl
    · rfl
  · simp only []
    generalize s.priceValidator.ValidateUpdate found.Price c.LastPrice found.UpdateTime
      (clock i) = v
    rcases v with ⟨p, _ | e⟩
    · simp only []
      rcases hup : st.masterUpdate { found with Price := p, Status := c.LastStatus } with
        ⟨_ | err, st1⟩
      · rfl
      · rfl
    · simp only []
      rcases hup : st.masterUpdate { found with Price := found.Price, Status := c.LastStatus }
        with ⟨_ | err, st1⟩
      · rfl
      · rfl

/-- When `FindByID` returns no master, no master of the catalog has the identifier. -/
theorem masterFindByID_none (st : Store) (id : GoString)
    (h : st.masterFindByID id = Except.ok none) : ∀ x ∈ st.masters, x.ID ≠ id := by
  unfold Store.masterFindByID at h
  by_cases hf : st.fails (StoreOp.masterFindByID id) = true
  · rw [if_pos hf] at h
    exact absurd h (by simp)
  · rw [if_neg hf] at h
    have h1 := Except.ok.inj h
    rw [List.find?_eq_none] at h1
    intro x hx hid
    exact h1 x hx (decide_eq_true hid)

/-- A failing `FindByID` returns the storage error. -/
theorem masterFindByID_error (st : Store) (id : GoString) (err : GoErr)
    (h : st.masterFindByID id = Except.error err) :
    st.fails (StoreOp.masterFindByID id) = true ∧ err = storageError := by
  unfold Store.masterFindByID at h
  by_cases hf : st.fails (StoreOp.masterFindByID id) = true
  · rw [if_pos hf] at h
    exact ⟨hf, (Except.error.inj h).symm⟩
  · rw [if_neg hf] at h
    exact absurd h (by simp)

/-- The body of the loop of `PromoteCandidates`, case by case: a candidate that is not
eligible is passed over; a failing lookup, creation or update returns the wrapped storage
error and leaves the store as it was; a successful creation appends the new master; a
successful update overwrites price and status of the rows with the identifier found; both
add a DTO and queue the identifier of the candidate. -/
theorem promoteStep_cases (s : DataCleaningService) (lib : Library) (now : Time)
    (c : CandidateItem) (st : Store) (pd : PromotedData) (ids : List ℤ) :
    (Eligible s c = false ∧ promoteStep s lib now c st pd ids = (Except.ok (pd, ids), st)) ∨
    (Eligible s c = true ∧ st.fails (StoreOp.masterFindByID (derivedID s lib c)) = true ∧
      promoteStep s lib now c st pd ids =
        (Except.error (GoErr.wrap "find master" storageError), st)) ∨
    (Eligible s c = true ∧ st.masterFindByID (derivedID s lib c) = Except.ok none ∧
      st.fails (StoreOp.masterCreate (derivedID s lib c)) = true ∧
      promoteStep s lib now c st pd ids =
        (Except.error (GoErr.wrap "create master" storageError), st)) ∨
    (Eligible s c = true ∧ st.masterFindByID (derivedID s lib c) = Except.ok none ∧
      st.fails (StoreOp.masterCreate (derivedID s lib c)) = false ∧
      promoteStep s lib now c st pd ids =
        (Except.ok (pd.add c.Region (promotedDTO (newMasterOf s lib c)), ids ++ [c.ID]),
          s.recordPriceTrend lib now (derivedID s lib c) c.LastPrice
            { st with masters := st.masters ++
              [{ newMasterOf s lib c with CreateTime := st.clock,
                                          UpdateTime := st.clock }] })) ∨
    (∃ found, Eligible s c = true ∧
      st.masterFindByID (derivedID s lib c) = Except.ok (some found) ∧
      st.fails (StoreOp.masterUpdate found.ID) = true ∧
      promoteStep s lib now c st pd ids =
        (Except.error (GoErr.wrap "update master" storageError), st)) ∨
    (∃ found, Eligible s c = true ∧
      st.masterFindByID (derivedID s lib c) = Except.ok (some found) ∧
      st.fails (StoreOp.masterUpdate found.ID) = false ∧
      promoteStep s lib now c st pd ids =
        (Except.ok (pd.add c.Region (promotedDTO
            { found with Price := finalPriceOf s found c now, Status := c.LastStatus }),
            ids ++ [c.ID]),
          if F64.beq (finalPriceOf s found c now) found.Price = false then
            s.recordPriceTrend lib now found.ID (finalPriceOf s found c now)
              { st with masters := st.masters.map (updateMasterRow st.clock
                  { found with Price := finalPriceOf s found c now,
                               Status := c.LastStatus }) }
          else
            { st with masters := st.masters.map (updateMasterRow st.clock
                { found with Price := finalPriceOf s found c now,
                             Status := c.LastStatus }) })) := by
  unfold promoteStep
  by_cases h1 : s.titleCleaner.ShouldPromote c.TotalOccurrences = false
  · refine Or.inl ⟨?_, by simp only [if_pos h1]⟩
    rw [← Bool.not_eq_true, eligible_iff_range s lib c]
    rw [h1]
    exact fun h => Bool.noConfusion h.1
  simp only [if_neg h1]
  rw [Bool.not_eq_false] at h1
  by_cases h2 : s.titleCleaner.ElectStandardTitle (lib.rangeVotes c.ID c.TitleVotes) = []
  · refine Or.inl ⟨?_, by simp only [if_pos h2]⟩
    rw [← Bool.not_eq_true, eligible_iff_range s lib c]
    exact fun h => h.2 h2
  simp only [if_neg h2]
  have hel : Eligible s c = true := (eligible_iff_range s lib c).2 ⟨h1, h2⟩
  rcases hfind : st.masterFindByID (s.titleCleaner.GenerateID lib strDT
      (s.titleCleaner.ElectStandardTitle (lib.rangeVotes c.ID c.TitleVotes))) with err | _ | found
  · have he := masterFindByID_error st _ err hfind
    refine Or.inr (Or.inl ⟨hel, he.1, ?_⟩)
    rw [he.2]
  · have hnone := masterFindByID_none st _ hfind
    have hany : st.masters.any (fun x => decide (x.ID = s.titleCleaner.GenerateID lib strDT
        (s.titleCleaner.ElectStandardTitle (lib.rangeVotes c.ID c.TitleVotes)))) = false := by
      rw [List.any_eq_false]
      intro x hx
      exact fun h => hnone x hx (of_decide_eq_true h)
    by_cases hf : st.fails (StoreOp.masterCreate (derivedID s lib c)) = true
    · refine Or.inr (Or.inr (Or.inl ⟨hel, hfind, hf, ?_⟩))
      have hf2 : st.fails (StoreOp.masterCreate (s.titleCleaner.GenerateID lib strDT
          (s.titleCleaner.ElectStandardTitle (lib.rangeVotes c.ID c.TitleVotes)))) = true := hf
      simp only [Store.masterCreate, hf2, if_true]
    · rw [Bool.not_eq_true] at hf
      refine Or.inr (Or.inr (Or.inr (Or.inl ⟨hel, hfind, hf, ?_⟩)))
      have hf2 : st.fails (StoreOp.masterCreate (s.titleCleaner.GenerateID lib strDT
          (s.titleCleaner.ElectStandardTitle (lib.rangeVotes c.ID c.TitleVotes)))) = false := hf
      simp only [Store.masterCreate, hf2, hany]
      rfl
  · by_cases hf : st.fails (StoreOp.masterUpdate found.ID) = true
    · refine Or.inr (Or.inr (Or.inr (Or.inr (Or.inl ⟨found, hel, hfind, hf, ?_⟩))))
      simp only [Store.masterUpdate, hf, if_true]
    · rw [Bool.not_eq_true] at hf
      refine Or.inr (Or.inr (Or.inr (Or.inr (Or.inr ⟨found, hel, hfind, hf, ?_⟩))))
      unfold finalPriceOf
      simp only [Store.masterUpdate, hf]
      generalize s.priceValidator.ValidateUpdate found.Price c.LastPrice found.UpdateTime
        now = v
      rcases v with ⟨p, _ | e⟩
      · simp only [if_true]
        by_cases hb : F64.beq p found.Price = false
        · simp only [if_pos hb]
          rfl
        · simp only [if_neg hb]
          rfl
      · have hne : ¬ ((some e : Option AppError) = none) := fun h => Option.noConfusion h
        simp only [if_neg hne]
        by_cases hb : F64.beq found.Price found.Price = false
        · simp only [if_pos hb]
          rfl
        · simp only [if_neg hb]
          rfl

/-- The loop over a concatenation: the loop over the first part and, unless that returns
an error, the loop over the second part from the state then reached. -/
theorem promoteLoop_append (s : DataCleaningService) (lib : Library) (clock : ℕ → Time)
    (pre l : List CandidateItem) :
    ∀ (i : ℕ) (st : Store) (pd : PromotedData) (ids : List ℤ),
      promoteLoop s lib clock (pre ++ l) i st pd ids =
        match promoteLoop s lib clock pre i st pd ids with
        | (Except.error e, st1) => (Except.error e, st1)
        | (Except.ok r, st1) => promoteLoop s lib clock l (i + pre.length) st1 r.1 r.2 := by
  induction pre with
  | nil =>
    intro i st pd ids
    rw [List.nil_append, promoteLoop]
    rfl
  | cons c pre ih =>
    intro i st pd ids
    rw [List.cons_append, promoteLoop_cons_eq, promoteLoop_cons_eq]
    rcases promoteStep s lib (clock i) c st pd ids with ⟨e | r, st1⟩
    · rfl
    · simp only []
      rw [ih, List.length_cons, Nat.add_assoc, Nat.add_comm 1]

/-- A property of the store that every iteration of the loop preserves holds after the
loop. -/
theorem promoteLoop_invariant (s : DataCleaningService) (lib : Library) (clock : ℕ → Time)
    (Inv : Store → Prop) (pool : List CandidateItem)
    (hstep : ∀ c ∈ pool, ∀ (now : Time) (st : Store) (pd : PromotedData) (ids : List ℤ),
      Inv st → Inv (promoteStep s lib now c st pd ids).2)
    (l : List CandidateItem) :
    (∀ c ∈ l, c ∈ pool) → ∀ (i : ℕ) (st : Store) (pd : PromotedData) (ids : List ℤ),
      Inv st → Inv (promoteLoop s lib clock l i st pd ids).2 := by
  induction l with
  | nil =>
    intro _ i st pd ids h
    rw [promoteLoop]
    exact h
  | cons c rest ih =>
    intro hsub i st pd ids h
    rw [promoteLoop_cons_eq]
    have hs := hstep c (hsub c (List.mem_cons_self _ _)) (clock i) st pd ids h
    rcases hst : promoteStep s lib (clock i) c st pd ids with ⟨e | r, st1⟩
    · rw [hst] at hs
      exact hs
    · rw [hst] at hs
      exact ih (fun d hd => hsub d (List.mem_cons_of_mem _ hd)) (i + 1) st1 r.1 r.2 hs

/-- One iteration of the loop changes nothing of the store but the masters and the
trends. -/
theorem promoteStep_frame (s : DataCleaningService) (lib : Library) (now : Time)
    (c : CandidateItem) (st : Store) (pd : PromotedData) (ids : List ℤ) :
    (promoteStep s lib now c st pd ids).2.candidates = st.candidates ∧
      (promoteStep s lib now c st pd ids).2.fails = st.fails ∧
      (promoteStep s lib now c st pd ids).2.clock = st.clock := by
  rcases promoteStep_cases s lib now c st pd ids with
    ⟨_, h⟩ | ⟨_, _, h⟩ | ⟨_, _, _, h⟩ | ⟨_, _, _, h⟩ | ⟨found, _, _, _, h⟩ | ⟨found, _, _, _, h⟩
  · rw [h]; exact ⟨rfl, rfl, rfl⟩
  · rw [h]; exact ⟨rfl, rfl, rfl⟩
  · rw [h]; exact ⟨rfl, rfl, rfl⟩
  · rw [h]
    have hfr := recordPriceTrend_frame s lib now (derivedID s lib c) c.LastPrice
      { st with masters := st.masters ++
        [{ newMasterOf s lib c with CreateTime := st.clock, UpdateTime := st.clock }] }
    exact ⟨hfr.2.1, hfr.2.2.1, hfr.2.2.2⟩
  · rw [h]; exact ⟨rfl, rfl, rfl⟩
  · rw [h]
    by_cases hb : F64.beq (finalPriceOf s found c now) found.Price = false
    · rw [if_pos hb]
      have hfr := recordPriceTrend_frame s lib now found.ID (finalPriceOf s found c now)
        { st with masters := st.masters.map (updateMasterRow st.clock
            { found with Price := finalPriceOf s found c now, Status := c.LastStatus }) }
      exact ⟨hfr.2.1, hfr.2.2.1, hfr.2.2.2⟩
    · rw [if_neg hb]
      exact ⟨rfl, rfl, rfl⟩

/-- The loop changes nothing of the store but the masters and the trends. -/
theorem promoteLoop_frame (s : DataCleaningService) (lib : Library) (clock : ℕ → Time)
    (l : List CandidateItem) (i : ℕ) (st : Store) (pd : PromotedData) (ids : List ℤ) :
    (promoteLoop s lib clock l i st pd ids).2.candidates = st.candidates ∧
      (promoteLoop s lib clock l i st pd ids).2.fails = st.fails ∧
      (promoteLoop s lib clock l i st pd ids).2.clock = st.clock :=
  promoteLoop_invariant s lib clock
    (fun st1 => st1.candidates = st.candidates ∧ st1.fails = st.fails ∧ st1.clock = st.clock)
    l
    (fun c _ now st1 pd1 ids1 h => by
      have hfr := promoteStep_frame s lib now c st1 pd1 ids1
      exact ⟨hfr.1.trans h.1, hfr.2.1.trans h.2.1, hfr.2.2.trans h.2.2⟩)
    l (fun _ h => h) i st pd ids ⟨rfl, rfl, rfl⟩

/-- Deleting candidates changes nothing of the store but the candidates, and every
candidate left was there before. -/
theorem candidateDeleteByIDs_frame (ids : List ℤ) :
    ∀ st : Store, (st.candidateDeleteByIDs ids).2.masters = st.masters ∧
      (st.candidateDeleteByIDs ids).2.trends = st.trends ∧
      ∀ c ∈ (st.candidateDeleteByIDs ids).2.candidates, c ∈ st.candidates := by
  induction ids with
  | nil => intro st; exact ⟨rfl, rfl, fun _ h => h⟩
  | cons id rest ih =>
    intro st
    rw [Store.candidateDeleteByIDs]
    by_cases hf : st.fails (StoreOp.candidateDelete id) = true
    · rw [if_pos hf]
      exact ⟨rfl, rfl, fun _ h => h⟩
    · rw [if_neg hf]
      have h := ih { st with candidates := st.candidates.filter (fun c => decide (c.ID ≠ id)) }
      exact ⟨h.1, h.2.1, fun c hc => (List.mem_filter.1 (h.2.2 c hc)).1⟩

/-- The masters and the trends after `PromoteCandidates` are those its loop leaves. -/
theorem promoteCandidates_masters (s : DataCleaningService) (lib : Library)
    (clock : ℕ → Time) (st : Store) :
    (s.PromoteCandidates lib clock st).2.masters = st.masters ∨
      (s.PromoteCandidates lib clock st).2.masters =
        (promoteLoop s lib clock st.candidates 0 st [] []).2.masters := by
  unfold DataCleaningService.PromoteCandidates Store.candidateListAll
  by_cases hf : st.fails StoreOp.candidateListAll = true
  · rw [if_pos hf]
    exact Or.inl rfl
  · rw [if_neg hf]
    right
    simp only []
    rcases promoteLoop s lib clock st.candidates 0 st [] [] with ⟨e | ⟨pd, ids⟩, st1⟩
    · rfl
    · simp only []
      by_cases hpos : ids.length > 0
      · rw [if_pos hpos]
        have hfr := candidateDeleteByIDs_frame ids st1
        rcases hd : st1.candidateDeleteByIDs ids with ⟨_ | err, st2⟩
        · rw [hd] at hfr
          exact hfr.1
        · rw [hd] at hfr
          exact hfr.1
      · rw [if_neg hpos]

/-! ## Claims about storage errors in `PromoteCandidates` -/

/-- A failing lookup, creation or update of the master of an eligible candidate makes the
body of the loop return the wrapped storage error, with the store as it was. -/
theorem promoteStep_storage_error (s : DataCleaningService) (lib : Library) (now : Time)
    (c : CandidateItem) (st : Store) (pd : PromotedData) (ids : List ℤ)
    (hel : Eligible s c = true)
    (hfail : st.fails (StoreOp.masterFindByID (derivedID s lib c)) = true ∨
      (st.masterFindByID (derivedID s lib c) = Except.ok none ∧
        st.fails (StoreOp.masterCreate (derivedID s lib c)) = true) ∨
      (∃ found, st.masterFindByID (derivedID s lib c) = Except.ok (some found) ∧
        st.fails (StoreOp.masterUpdate found.ID) = true)) :
    ∃ msg, promoteStep s lib now c st pd ids =
      (Except.error (GoErr.wrap msg storageError), st) := by
  have hfe : st.fails (StoreOp.masterFindByID (derivedID s lib c)) = true →
      st.masterFindByID (derivedID s lib c) = Except.error storageError := by
    intro h
    unfold Store.masterFindByID
    rw [if_pos h]
  rcases promoteStep_cases s lib now c st pd ids with
    ⟨h0, _⟩ | ⟨_, _, h⟩ | ⟨_, _, _, h⟩ | ⟨_, hfind, hok, _⟩ | ⟨found, _, _, _, h⟩ |
    ⟨found, _, hfind, hok, _⟩
  · rw [hel] at h0
    exact Bool.noConfusion h0
  · exact ⟨_, h⟩
  · exact ⟨_, h⟩
  · rcases hfail with hf | ⟨_, hf⟩ | ⟨found, hf, _⟩
    · rw [hfe hf] at hfind
      exact absurd hfind (by simp)
    · rw [hok] at hf
      exact Bool.noConfusion hf
    · rw [hfind] at hf
      exact absurd hf (by simp)
  · exact ⟨_, h⟩
  · rcases hfail with hf | ⟨hf, _⟩ | ⟨found2, hf, hf2⟩
    · rw [hfe hf] at hfind
      exact absurd hfind (by simp)
    · rw [hfind] at hf
      exact absurd hf (by simp)
    · rw [hfind] at hf
      have he : found = found2 := Option.some.inj (Except.ok.inj hf)
      rw [← he, hok] at hf2
      exact Bool.noConfusion hf2

/-- C24, amended: a failure to load the candidate list makes `PromoteCandidates` return
the wrapped storage error; so does, for an eligible candidate reached by the loop, a
failing lookup, creation or update of its master: the call returns that error and no
promotions, the store is the one the loop had reached, with the masters written for the
earlier candidates, and no candidate is deleted, the remaining candidates are not
processed. A price-validation rejection never stops the loop: with the master found and
its update succeeding the loop goes on with the rest of the candidates, whatever
`ValidateUpdate` returns. -/
theorem promoteCandidates_storage_error (s : DataCleaningService) (lib : Library)
    (clock : ℕ → Time) (st : Store) :
    (st.fails StoreOp.candidateListAll = true →
      s.PromoteCandidates lib clock st =
        ((none, some (GoErr.wrap "list candidates" storageError)), st)) ∧
    (∀ (pre post : List CandidateItem) (c : CandidateItem) (pd1 : PromotedData)
        (ids1 : List ℤ) (st1 : Store),
      st.fails StoreOp.candidateListAll = false → st.candidates = pre ++ c :: post →
      promoteLoop s lib clock pre 0 st [] [] = (Except.ok (pd1, ids1), st1) →
      Eligible s c = true →
      (st1.fails (StoreOp.masterFindByID (derivedID s lib c)) = true ∨
        (st1.masterFindByID (derivedID s lib c) = Except.ok none ∧
          st1.fails (StoreOp.masterCreate (derivedID s lib c)) = true) ∨
        (∃ found, st1.masterFindByID (derivedID s lib c) = Except.ok (some found) ∧
          st1.fails (StoreOp.masterUpdate found.ID) = true)) →
      (∃ msg, s.PromoteCandidates lib clock st =
        ((none, some (GoErr.wrap msg storageError)), st1)) ∧
      st1.candidates = st.candidates) ∧
    (∀ (c : CandidateItem) (rest : List CandidateItem) (i : ℕ) (pd : PromotedData)
        (ids : List ℤ) (found : MasterProduct),
      Eligible s c = true →
      st.masterFindByID (derivedID s lib c) = Except.ok (some found) →
      st.fails (StoreOp.masterUpdate found.ID) = false →
      ∃ st1, promoteLoop s lib clock (c :: rest) i st pd ids =
        promoteLoop s lib clock rest (i + 1) st1
          (pd.add c.Region (promotedDTO
            { found with Price := finalPriceOf s found c (clock i),
                         Status := c.LastStatus }))
          (ids ++ [c.ID])) := by
  refine ⟨?_, ?_, ?_⟩
  · intro hf
    unfold DataCleaningService.PromoteCandidates Store.candidateListAll
    rw [if_pos hf]
  · intro pre post c pd1 ids1 st1 hlist hpool hpre hel hfail
    have hfr := promoteLoop_frame s lib clock pre 0 st [] []
    rw [hpre] at hfr
    refine ⟨?_, hfr.1⟩
    obtain ⟨msg, hstep⟩ := promoteStep_storage_error s lib (clock (0 + pre.length)) c st1
      pd1 ids1 hel hfail
    refine ⟨msg, ?_⟩
    unfold DataCleaningService.PromoteCandidates Store.candidateListAll
    rw [if_neg (by rw [hlist]; exact Bool.noConfusion)]
    simp only []
    rw [hpool, promoteLoop_append, hpre]
    simp only []
    rw [promoteLoop_cons_eq, hstep]
  · intro c rest i pd ids found hel hfind hok
    have he := (eligible_iff_range s lib c).1 hel
    exact ⟨_, promoteLoop_duplicate s lib clock c rest i st pd ids found he.1 he.2 hfind hok
      (finalPriceOf s found c (clock i)) rfl⟩

/-- Witness for C24: a store whose candidate list cannot be loaded; the pool "ABCD",
"WXYZ" in a store in which the lookup of the identifier derived for "ABCD" fails; and
the example candidate with the example master under its derived identifier. -/
theorem promoteCandidates_storage_error_witness :
    (NewDataCleaningService true).PromoteCandidates exLibrary (fun _ => 2000)
        { exStore [] [exCandidate3] with fails := fun _ => true } =
      ((none, some (GoErr.wrap "list candidates" storageError)),
        { exStore [] [exCandidate3] with fails := fun _ => true }) ∧
      ((∃ msg, (NewDataCleaningService true).PromoteCandidates exLibrary2 (fun _ => 2000)
          exFailingStore = ((none, some (GoErr.wrap msg storageError)), exFailingStore)) ∧
        exFailingStore.candidates = exFailingStore.candidates) ∧
      ∃ st1, promoteLoop (NewDataCleaningService true) exLibrary (fun _ => 2000)
          [exCandidate3] 0 (exStore [exDupMaster] [exCandidate3]) [] [] =
        promoteLoop (NewDataCleaningService true) exLibrary (fun _ => 2000) [] (0 + 1) st1
          (PromotedData.add [] exCandidate3.Region (promotedDTO
            { exDupMaster with
              Price := finalPriceOf (NewDataCleaningService true) exDupMaster exCandidate3
                2000,
              Status := exCandidate3.LastStatus }))
          ([] ++ [exCandidate3.ID]) :=
  ⟨(promoteCandidates_storage_error (NewDataCleaningService true) exLibrary (fun _ => 2000)
      { exStore [] [exCandidate3] with fails := fun _ => true }).1 rfl,
    (promoteCandidates_storage_error (NewDataCleaningService true) exLibrary2
      (fun _ => 2000) exFailingStore).2.1 [] [exCandidateW] exCandidate3 [] [] exFailingStore
      (by decide) rfl rfl (by decide)
      (Or.inl (show decide (StoreOp.masterFindByID
          (derivedID (NewDataCleaningService true) exLibrary2 exCandidate3) =
          StoreOp.masterFindByID
            (derivedID (NewDataCleaningService true) exLibrary2 exCandidate3)) = true from
        decide_eq_true rfl)),
    (promoteCandidates_storage_error (NewDataCleaningService true) exLibrary (fun _ => 2000)
      (exStore [exDupMaster] [exCandidate3])).2.2 exCandidate3 [] 0 [] [] exDupMaster
      (by decide) (exDupMaster_found true) rfl⟩

/-- C24, counterexample: with the candidates "ABCD" and "WXYZ", both eligible, and a
store in which only the lookup of the identifier derived for "ABCD" fails, the call
returns the error of that lookup and no promotion, and leaves the store as it was, with
"WXYZ" neither promoted nor deleted; without "ABCD" in the pool the same call promotes
"WXYZ". -/
theorem promoteCandidates_aborts_on_storage_error :
    Eligible (NewDataCleaningService true) exCandidate3 = true ∧
      Eligible (NewDataCleaningService true) exCandidateW = true ∧
      (NewDataCleaningService true).PromoteCandidates exLibrary2 (fun _ => 2000)
          exFailingStore =
        ((none, some (GoErr.wrap "find master" storageError)), exFailingStore) ∧
      (((NewDataCleaningService true).PromoteCandidates exLibrary2 (fun _ => 2000)
          { exFailingStore with candidates := [exCandidateW] }).1 =
        (some [([0x72], [promotedDTO
          (newMasterOf (NewDataCleaningService true) exLibrary2 exCandidateW)])], none)) := by
  refine ⟨by decide, by decide, ?_, ?_⟩
  · unfold DataCleaningService.PromoteCandidates
    have hlist : exFailingStore.candidateListAll = Except.ok [exCandidate3, exCandidateW] :=
      rfl
    simp only [hlist]
    have hstep : promoteStep (NewDataCleaningService true) exLibrary2 2000 exCandidate3
        exFailingStore [] [] =
        (Except.error (GoErr.wrap "find master" storageError), exFailingStore) := by
      rcases promoteStep_cases (NewDataCleaningService true) exLibrary2 2000 exCandidate3
        exFailingStore [] [] with
        ⟨h0, _⟩ | ⟨_, _, h⟩ | ⟨_, hfind, _⟩ | ⟨_, hfind, _⟩ | ⟨found, _, hfind, _⟩ |
        ⟨found, _, hfind, _⟩
      · exact absurd h0 (by decide)
      · exact h
      all_goals
        have hfe : exFailingStore.masterFindByID
            (derivedID (NewDataCleaningService true) exLibrary2 exCandidate3) =
            Except.error storageError := by
          unfold Store.masterFindByID
          have hf : exFailingStore.fails (StoreOp.masterFindByID
              (derivedID (NewDataCleaningService true) exLibrary2 exCandidate3)) = true := by
            show decide (StoreOp.masterFindByID
              (derivedID (NewDataCleaningService true) exLibrary2 exCandidate3) =
              StoreOp.masterFindByID
                (derivedID (NewDataCleaningService true) exLibrary2 exCandidate3)) = true
            exact decide_eq_true rfl
          rw [if_pos hf]
        rw [hfe] at hfind
        exact absurd hfind (by simp)
    rw [promoteLoop_cons_eq, hstep]
  · rfl

/-! ## The effect of `ProcessIncomingItem` on the store, case by case -/

/-- The master Strategy A returns is one of the list. -/
theorem strategyA_some (s : DataCleaningService) (rawTitle : GoString)
    (masters : List MasterProduct) (m : MasterProduct)
    (h : strategyA s rawTitle masters = some m) : m ∈ masters := by
  induction masters with
  | nil => exact absurd h (by simp [strategyA])
  | cons x rest ih =>
    rw [strategyA] at h
    by_cases hx : s.titleCleaner.IsHighSimilarity rawTitle x.StandardTitle = true
    · rw [if_pos hx] at h
      rw [← Option.some.inj h]
      exact List.mem_cons_self _ _
    · rw [if_neg hx] at h
      exact List.mem_cons_of_mem _ (ih h)

/-- The master Strategy B returns is one of the list. -/
theorem strategyB_some (s : DataCleaningService) (rawTitle : GoString) (price : F64)
    (masters : List MasterProduct) (m : MasterProduct)
    (h : strategyB s rawTitle price masters = some m) : m ∈ masters := by
  induction masters with
  | nil => exact absurd h (by simp [strategyB])
  | cons x rest ih =>
    rw [strategyB] at h
    by_cases hx : (s.titleCleaner.IsMidSimilarity rawTitle x.StandardTitle &&
        s.titleCleaner.IsPriceMatch price x.Price) = true
    · rw [if_pos hx] at h
      rw [← Option.some.inj h]
      exact List.mem_cons_self _ _
    · rw [if_neg hx] at h
      exact List.mem_cons_of_mem _ (ih h)

/-- The store after `handleMasterMatch`: the store before, or the store with the
validated price, the status and the raised trust score written to the rows with the
identifier of the master. -/
theorem handleMasterMatch_store (s : DataCleaningService) (m : MasterProduct) (price : F64)
    (status : ℤ) (now : Time) (st : Store) :
    (s.handleMasterMatch m price status now st).2 = st ∨
      ∃ p, s.priceValidator.ValidateUpdate m.Price price m.UpdateTime now = (p, none) ∧
        (s.handleMasterMatch m price status now st).2 =
          { st with masters := st.masters.map (updateMasterRow st.clock
            { m with Price := p, Status := status, TrustScore := wrapInt (m.TrustScore + 1) }) } := by
  rcases hv : s.priceValidator.ValidateUpdate m.Price price m.UpdateTime now with ⟨p, _ | e⟩
  · by_cases hf : st.fails (StoreOp.masterUpdate m.ID) = true
    · left
      unfold DataCleaningService.handleMasterMatch
      simp only [hv, Store.masterUpdate, MasterProduct.IncrementTrustScore, hf, if_true]
    · right
      rw [Bool.not_eq_true] at hf
      refine ⟨p, rfl, ?_⟩
      rw [handleMasterMatch_accepted s m price status now st p hv hf]
  · left
    rw [handleMasterMatch_rejected s m price status now st
      (by rw [hv]; exact fun h => Option.noConfusion h)]

/-- The update the scan of `handleCandidateLogic` makes is for a candidate of the list,
under its identifier and region. -/
theorem candidateScan_some (s : DataCleaningService) (rawTitle cleanKey : GoString)
    (item : DTInputDTO) (now : Time) (st : Store) (candidates : List CandidateItem)
    (r : Option GoErr × Store)
    (h : candidateScan s rawTitle cleanKey item now st candidates = some r) :
    ∃ c ∈ candidates, r = st.candidateUpdate
      ((c.AddTitleVote rawTitle).1.UpdateLastSeen item.Price item.Status now) := by
  induction candidates with
  | nil => exact absurd h (by simp [candidateScan])
  | cons x rest ih =>
    rw [candidateScan] at h
    by_cases hx : s.titleCleaner.IsHighSimilarity cleanKey x.GroupKey = true
    · rw [if_pos hx] at h
      exact ⟨x, List.mem_cons_self _ _, (Option.some.inj h).symm⟩
    · rw [if_neg hx] at h
      obtain ⟨c, hc, hr⟩ := ih h
      exact ⟨c, List.mem_cons_of_mem _ hc, hr⟩

/-- A vote and a last-seen snapshot leave identifier and region of a candidate as they
are. -/
theorem addVote_updateLastSeen_id (c : CandidateItem) (rawTitle : GoString) (price : F64)
    (status : ℤ) (now : Time) :
    ((c.AddTitleVote rawTitle).1.UpdateLastSeen price status now).ID = c.ID ∧
      ((c.AddTitleVote rawTitle).1.UpdateLastSeen price status now).Region = c.Region := by
  unfold CandidateItem.AddTitleVote CandidateItem.UpdateLastSeen
  by_cases h : rawTitle = []
  · rw [if_pos h]
    exact ⟨rfl, rfl⟩
  · rw [if_neg h]
    exact ⟨rfl, rfl⟩

/-- The store after `handleCandidateLogic`: the store before; or the store with the
rows with the identifier of a candidate of the region updated; or the store with one
candidate of the region appended. -/
theorem handleCandidateLogic_store (s : DataCleaningService)
    (region rawTitle cleanKey : GoString) (item : DTInputDTO) (now : Time) (st : Store) :
    (s.handleCandidateLogic region rawTitle cleanKey item now st).2 = st ∨
    (∃ c c' : CandidateItem, c ∈ st.candidates ∧ c.Region = region ∧ c'.ID = c.ID ∧
      (s.handleCandidateLogic region rawTitle cleanKey item now st).2 =
        { st with candidates := st.candidates.map (updateCandidateRow st.clock c') }) ∨
    (∃ c' : CandidateItem, c'.Region = region ∧
      (s.handleCandidateLogic region rawTitle cleanKey item now st).2 =
        { st with
          candidates := st.candidates ++
            [{ c' with ID := st.nextCandidateID, CreateTime := st.clock,
                       UpdateTime := st.clock }],
          nextCandidateID := st.nextCandidateID + 1 }) := by
  unfold DataCleaningService.handleCandidateLogic
  by_cases ht : rawTitle = []
  · rw [if_pos ht]
    exact Or.inl rfl
  rw [if_neg ht]
  by_cases hp : item.Price < F64.fin 0
  · rw [if_pos hp]
    exact Or.inl rfl
  rw [if_neg hp]
  unfold Store.candidateFindByRegion
  by_cases hfc : st.fails (StoreOp.candidateFindByRegion region) = true
  · rw [if_pos hfc]
    exact Or.inl rfl
  rw [if_neg hfc]
  simp only []
  rcases hscan : candidateScan s rawTitle cleanKey item now st
      (st.candidates.filter (fun c => decide (c.Region = region))) with _ | r
  · simp only []
    unfold Store.candidateCreate
    by_cases hcr : st.fails StoreOp.candidateCreate = true
    · rw [if_pos hcr]
      exact Or.inl rfl
    · rw [if_neg hcr]
      exact Or.inr (Or.inr ⟨_, rfl, rfl⟩)
  · simp only []
    obtain ⟨c, hc, hr⟩ := candidateScan_some s _ _ item now st _ r hscan
    have hc2 := List.mem_filter.1 hc
    have hid := addVote_updateLastSeen_id c rawTitle item.Price item.Status now
    rw [hr]
    unfold Store.candidateUpdate
    by_cases hup : st.fails (StoreOp.candidateUpdate
        ((c.AddTitleVote rawTitle).1.UpdateLastSeen item.Price item.Status now).ID) = true
    · rw [if_pos hup]
      exact Or.inl rfl
    · rw [if_neg hup]
      exact Or.inr (Or.inl ⟨c, _, hc2.1, of_decide_eq_true hc2.2, hid.1, rfl⟩)

/-- The store after `ProcessIncomingItem`: the store before; or the store with a
validated price written to the rows with the identifier of a master of the region; or the
store with the rows with the identifier of a candidate of the region updated; or the store
with one candidate of the region appended. -/
theorem processIncomingItem_store (s : DataCleaningService) (lib : Library)
    (item : Option DTInputDTO) (region : GoString) (now : Time) (st : Store) :
    (s.ProcessIncomingItem lib item region now st).2 = st ∨
    (∃ it m p, item = some it ∧ m ∈ st.masters ∧ m.Region = region ∧
      s.priceValidator.ValidateUpdate m.Price it.Price m.UpdateTime now = (p, none) ∧
      (s.ProcessIncomingItem lib item region now st).2 =
        { st with masters := st.masters.map (updateMasterRow st.clock
          { m with Price := p, Status := it.Status, TrustScore := wrapInt (m.TrustScore + 1) }) }) ∨
    (∃ c c' : CandidateItem, c ∈ st.candidates ∧ c.Region = region ∧ c'.ID = c.ID ∧
      (s.ProcessIncomingItem lib item region now st).2 =
        { st with candidates := st.candidates.map (updateCandidateRow st.clock c') }) ∨
    (∃ c' : CandidateItem, c'.Region = region ∧
      (s.ProcessIncomingItem lib item region now st).2 =
        { st with
          candidates := st.candidates ++
            [{ c' with ID := st.nextCandidateID, CreateTime := st.clock,
                       UpdateTime := st.clock }],
          nextCandidateID := st.nextCandidateID + 1 }) := by
  cases item with
  | none => exact Or.inl rfl
  | some it =>
    have hmatch : ∀ m, m ∈ st.masters.filter (fun m => decide (m.Region = region)) →
        (s.handleMasterMatch m it.Price it.Status now st).2 = st ∨
        (∃ it2 m2 p, some it = some it2 ∧ m2 ∈ st.masters ∧ m2.Region = region ∧
          s.priceValidator.ValidateUpdate m2.Price it2.Price m2.UpdateTime now = (p, none) ∧
          (s.handleMasterMatch m it.Price it.Status now st).2 =
            { st with masters := st.masters.map (updateMasterRow st.clock
              { m2 with Price := p, Status := it2.Status,
                        TrustScore := wrapInt (m2.TrustScore + 1) }) }) := by
      intro m hm
      have hm2 := List.mem_filter.1 hm
      rcases handleMasterMatch_store s m it.Price it.Status now st with h | ⟨p, hv, h⟩
      · exact Or.inl h
      · exact Or.inr ⟨it, m, p, rfl, hm2.1, of_decide_eq_true hm2.2, hv, h⟩
    have hcand := handleCandidateLogic_store s region it.Title
      (s.titleCleaner.CleanTitleForID lib it.Title) it now st
    unfold DataCleaningService.ProcessIncomingItem
    simp only []
    unfold Store.masterFindByRegion
    by_cases hf : st.fails (StoreOp.masterFindByRegion region) = true
    · rw [if_pos hf]
      exact Or.inl rfl
    rw [if_neg hf]
    simp only []
    rcases hA : strategyA s it.Title
        (st.masters.filter (fun m => decide (m.Region = region))) with _ | m
    · simp only []
      rcases hB : strategyB s it.Title it.Price
          (st.masters.filter (fun m => decide (m.Region = region))) with _ | m
      · simp only []
        rcases hcl : s.handleCandidateLogic region it.Title
            (s.titleCleaner.CleanTitleForID lib it.Title) it now st with ⟨_ | err, st1⟩
        · rw [hcl] at hcand
          simp only []
          rcases hcand with h | h | h
          · exact Or.inl h
          · exact Or.inr (Or.inr (Or.inl h))
          · exact Or.inr (Or.inr (Or.inr h))
        · rw [hcl] at hcand
          simp only []
          rcases hcand with h | h | h
          · exact Or.inl h
          · exact Or.inr (Or.inr (Or.inl h))
          · exact Or.inr (Or.inr (Or.inr h))
      · simp only []
        rcases hmatch m (strategyB_some s _ _ _ m hB) with h | h
        · exact Or.inl h
        · exact Or.inr (Or.inl h)
    · simp only []
      rcases hmatch m (strategyA_some s _ _ m hA) with h | h
      · exact Or.inl h
      · exact Or.inr (Or.inl h)

/-! ## Claims about region scoping -/

/-- Filtering after a map that fixes the elements the filter keeps and does not change
the test. -/
theorem filter_map_fixed {α : Type} (l : List α) (f : α → α) (p : α → Bool)
    (h : ∀ x ∈ l, p (f x) = p x ∧ (p x = true → f x = x)) :
    (l.map f).filter p = l.filter p := by
  induction l with
  | nil => rfl
  | cons x rest ih =>
    have hx := h x (List.mem_cons_self _ _)
    have ih2 := ih (fun y hy => h y (List.mem_cons_of_mem _ hy))
    rw [List.map_cons]
    by_cases hp : p x = true
    · rw [List.filter_cons_of_pos (by rw [hx.1]; exact hp), List.filter_cons_of_pos hp, ih2,
        hx.2 hp]
    · rw [List.filter_cons_of_neg (by rw [hx.1]; exact hp), List.filter_cons_of_neg hp, ih2]

/-- The update of a master row keeps identifier and region, and leaves a row with another
identifier as it is. -/
theorem updateMasterRow_id_region (clock : Time) (m row : MasterProduct) :
    (updateMasterRow clock m row).ID = row.ID ∧
      (updateMasterRow clock m row).Region = row.Region ∧
      (row.ID ≠ m.ID → updateMasterRow clock m row = row) := by
  unfold updateMasterRow
  by_cases h : row.ID = m.ID
  · rw [if_pos h]
    exact ⟨rfl, rfl, fun h2 => absurd h h2⟩
  · rw [if_neg h]
    exact ⟨rfl, rfl, fun _ => rfl⟩

/-- The update of a candidate row keeps identifier and region, and leaves a row with
another identifier as it is. -/
theorem updateCandidateRow_id_region (clock : Time) (c row : CandidateItem) :
    (updateCandidateRow clock c row).ID = row.ID ∧
      (updateCandidateRow clock c row).Region = row.Region ∧
      (row.ID ≠ c.ID → updateCandidateRow clock c row = row) := by
  unfold updateCandidateRow
  by_cases h : row.ID = c.ID
  · rw [if_pos h]
    exact ⟨rfl, rfl, fun h2 => absurd h h2⟩
  · rw [if_neg h]
    exact ⟨rfl, rfl, fun _ => rfl⟩

/-- With pairwise distinct identifiers, `ProcessIncomingItem` leaves the masters and the
candidates of the other regions as they are. -/
theorem processIncomingItem_other_regions (s : DataCleaningService) (lib : Library)
    (item : Option DTInputDTO) (region : GoString) (now : Time) (st : Store)
    (hwf : st.WellFormed) :
    (s.ProcessIncomingItem lib item region now st).2.masters.filter
        (fun m => decide (m.Region ≠ region)) =
      st.masters.filter (fun m => decide (m.Region ≠ region)) ∧
    (s.ProcessIncomingItem lib item region now st).2.candidates.filter
        (fun c => decide (c.Region ≠ region)) =
      st.candidates.filter (fun c => decide (c.Region ≠ region)) := by
  rcases processIncomingItem_store s lib item region now st with
    h | ⟨it, m, p, _, hm, hreg, _, h⟩ | ⟨c, c', hc, hreg, hid, h⟩ | ⟨c', hreg, h⟩
  · rw [h]
    exact ⟨rfl, rfl⟩
  · rw [h]
    refine ⟨?_, rfl⟩
    apply filter_map_fixed
    intro row hrow
    have hu := updateMasterRow_id_region st.clock
      { m with Price := p, Status := it.Status, TrustScore := wrapInt (m.TrustScore + 1) } row
    refine ⟨by rw [hu.2.1], fun hp => hu.2.2 ?_⟩
    intro hid
    have hrm : row = m := List.inj_on_of_nodup_map hwf.1 hrow hm hid
    rw [hrm, hreg] at hp
    exact absurd rfl (of_decide_eq_true hp)
  · rw [h]
    refine ⟨rfl, ?_⟩
    apply filter_map_fixed
    intro row hrow
    have hu := updateCandidateRow_id_region st.clock c' row
    refine ⟨by rw [hu.2.1], fun hp => hu.2.2 ?_⟩
    intro hid2
    have hrc : row = c := List.inj_on_of_nodup_map hwf.2 hrow hc (hid2.trans hid)
    rw [hrc, hreg] at hp
    exact absurd rfl (of_decide_eq_true hp)
  · rw [h]
    refine ⟨rfl, ?_⟩
    show List.filter _ (st.candidates ++ _) = _
    rw [List.filter_append, List.filter_cons_of_neg, List.filter_nil, List.append_nil]
    intro hp
    exact absurd hreg (of_decide_eq_true hp)

/-- What `handleMasterMatch` returns depends on the store only through its failures. -/
theorem handleMasterMatch_fst (s : DataCleaningService) (m : MasterProduct) (price : F64)
    (status : ℤ) (now : Time) (st st2 : Store) (hf : st2.fails = st.fails) :
    (s.handleMasterMatch m price status now st2).1 =
      (s.handleMasterMatch m price status now st).1 := by
  unfold DataCleaningService.handleMasterMatch
  simp only []
  rcases s.priceValidator.ValidateUpdate m.Price price m.UpdateTime now with ⟨p, _ | e⟩
  · simp only [Store.masterUpdate, hf]
    by_cases hfail : st.fails (StoreOp.masterUpdate
        (MasterProduct.IncrementTrustScore { m with Price := p, Status := status }).ID) = true
    · simp only [if_pos hfail]
    · simp only [if_neg hfail]
  · rfl

/-- What the scan of `handleCandidateLogic` returns depends on the store only through its
failures. -/
theorem candidateScan_fst (s : DataCleaningService) (rawTitle cleanKey : GoString)
    (item : DTInputDTO) (now : Time) (st st2 : Store) (hf : st2.fails = st.fails)
    (l : List CandidateItem) :
    (candidateScan s rawTitle cleanKey item now st2 l).map Prod.fst =
      (candidateScan s rawTitle cleanKey item now st l).map Prod.fst := by
  induction l with
  | nil => rfl
  | cons x rest ih =>
    rw [candidateScan, candidateScan]
    by_cases hx : s.titleCleaner.IsHighSimilarity cleanKey x.GroupKey = true
    · rw [if_pos hx, if_pos hx]
      simp only [Option.map_some', Store.candidateUpdate, hf]
      by_cases hfail : st.fails (StoreOp.candidateUpdate
          ((x.AddTitleVote rawTitle).1.UpdateLastSeen item.Price item.Status now).ID) = true
      · simp only [if_pos hfail]
      · simp only [if_neg hfail]
    · rw [if_neg hx, if_neg hx]
      exact ih

/-- What `handleCandidateLogic` returns depends on the store only through its failures
and the candidates of the region. -/
theorem handleCandidateLogic_fst (s : DataCleaningService)
    (region rawTitle cleanKey : GoString) (item : DTInputDTO) (now : Time) (st st2 : Store)
    (hf : st2.fails = st.fails)
    (hc : st2.candidates.filter (fun c => decide (c.Region = region)) =
      st.candidates.filter (fun c => decide (c.Region = region))) :
    (s.handleCandidateLogic region rawTitle cleanKey item now st2).1 =
      (s.handleCandidateLogic region rawTitle cleanKey item now st).1 := by
  unfold DataCleaningService.handleCandidateLogic
  by_cases ht : rawTitle = []
  · rw [if_pos ht, if_pos ht]
  rw [if_neg ht, if_neg ht]
  by_cases hp : item.Price < F64.fin 0
  · rw [if_pos hp, if_pos hp]
  rw [if_neg hp, if_neg hp]
  unfold Store.candidateFindByRegion
  rw [hf, hc]
  by_cases hfc : st.fails (StoreOp.candidateFindByRegion region) = true
  · rw [if_pos hfc]
  rw [if_neg hfc]
  simp only []
  have hscan := candidateScan_fst s rawTitle cleanKey item now st st2 hf
    (st.candidates.filter (fun c => decide (c.Region = region)))
  rcases h2 : candidateScan s rawTitle cleanKey item now st2
      (st.candidates.filter (fun c => decide (c.Region = region))) with _ | r2 <;>
    rcases h1 : candidateScan s rawTitle cleanKey item now st
      (st.candidates.filter (fun c => decide (c.Region = region))) with _ | r1 <;>
    rw [h1, h2] at hscan
  · simp only [Store.candidateCreate, hf]
    by_cases hcr : st.fails StoreOp.candidateCreate = true
    · simp only [if_pos hcr]
    · simp only [if_neg hcr]
  · exact absurd hscan (by simp)
  · exact absurd hscan (by simp)
  · simp only [Option.map_some', Option.some.injEq] at hscan
    exact hscan

/-- What `ProcessIncomingItem` returns depends on the store only through its failures and
the masters and candidates of the region. -/
theorem processIncomingItem_reads (s : DataCleaningService) (lib : Library)
    (item : Option DTInputDTO) (region : GoString) (now : Time) (st st2 : Store)
    (hf : st2.fails = st.fails)
    (hm : st2.masters.filter (fun m => decide (m.Region = region)) =
      st.masters.filter (fun m => decide (m.Region = region)))
    (hc : st2.candidates.filter (fun c => decide (c.Region = region)) =
      st.candidates.filter (fun c => decide (c.Region = region))) :
    (s.ProcessIncomingItem lib item region now st2).1 =
      (s.ProcessIncomingItem lib item region now st).1 := by
  cases item with
  | none => rfl
  | some it =>
    unfold DataCleaningService.ProcessIncomingItem
    simp only []
    unfold Store.masterFindByRegion
    rw [hf, hm]
    by_cases hfm : st.fails (StoreOp.masterFindByRegion region) = true
    · rw [if_pos hfm]
    rw [if_neg hfm]
    simp only []
    rcases strategyA s it.Title
        (st.masters.filter (fun m => decide (m.Region = region))) with _ | m
    · simp only []
      rcases strategyB s it.Title it.Price
          (st.masters.filter (fun m => decide (m.Region = region))) with _ | m
      · simp only []
        have hcl := handleCandidateLogic_fst s region it.Title
          (s.titleCleaner.CleanTitleForID lib it.Title) it now st st2 hf hc
        rcases h2 : s.handleCandidateLogic region it.Title
            (s.titleCleaner.CleanTitleForID lib it.Title) it now st2 with ⟨_ | e2, x2⟩ <;>
          rcases h1 : s.handleCandidateLogic region it.Title
            (s.titleCleaner.CleanTitleForID lib it.Title) it now st with ⟨_ | e1, x1⟩ <;>
          rw [h1, h2] at hcl <;>
          first
          | rfl
          | (have h3 : e2 = e1 := Option.some.inj hcl
             rw [h3])
          | exact Option.noConfusion hcl
      · simp only []
        exact handleMasterMatch_fst s m it.Price it.Status now st st2 hf
    · simp only []
      exact handleMasterMatch_fst s m it.Price it.Status now st st2 hf

/-- The candidates after `PromoteCandidates` were candidates before: the call changes no
candidate. -/
theorem promoteCandidates_candidates (s : DataCleaningService) (lib : Library)
    (clock : ℕ → Time) (st : Store) :
    ∀ c ∈ (s.PromoteCandidates lib clock st).2.candidates, c ∈ st.candidates := by
  unfold DataCleaningService.PromoteCandidates Store.candidateListAll
  by_cases hf : st.fails StoreOp.candidateListAll = true
  · rw [if_pos hf]
    exact fun _ h => h
  · rw [if_neg hf]
    simp only []
    have hfr := promoteLoop_frame s lib clock st.candidates 0 st [] []
    rcases hloop : promoteLoop s lib clock st.candidates 0 st [] [] with
      ⟨e | ⟨pd, ids⟩, st1⟩
    · rw [hloop] at hfr
      have hc1 : st1.candidates = st.candidates := hfr.1
      intro c hc
      exact hc1 ▸ hc
    · rw [hloop] at hfr
      simp only []
      have hc1 : st1.candidates = st.candidates := hfr.1
      by_cases hpos : ids.length > 0
      · rw [if_pos hpos]
        have hd := candidateDeleteByIDs_frame ids st1
        rcases hdel : st1.candidateDeleteByIDs ids with ⟨_ | err, st2⟩
        · rw [hdel] at hd
          intro c hc
          exact hc1 ▸ hd.2.2 c hc
        · rw [hdel] at hd
          intro c hc
          exact hc1 ▸ hd.2.2 c hc
      · rw [if_neg hpos]
        intro c hc
        exact hc1 ▸ hc

/-- The masters during a pass of `PromoteCandidates` over the pool `pool`, started in the
store `st0`: every master of `st0` is still there under its identifier, and every master is
either a master of `st0` with its identifier and region, unchanged unless its identifier is
the one derived for an eligible candidate, or a new master with the identifier derived for
an eligible candidate and the region of that candidate. -/
theorem promoteStep_regions (s : DataCleaningService) (lib : Library) (st0 : Store)
    (now : Time) (c : CandidateItem) (hc : c ∈ st0.candidates) (st : Store)
    (pd : PromotedData) (ids : List ℤ)
    (hinv : (∀ row ∈ st0.masters, ∃ row1 ∈ st.masters, row1.ID = row.ID) ∧
      ∀ row1 ∈ st.masters,
        (∃ row ∈ st0.masters, row1.ID = row.ID ∧ row1.Region = row.Region ∧
          ((∀ d ∈ st0.candidates, Eligible s d = true → derivedID s lib d ≠ row.ID) →
            row1 = row)) ∨
        (∃ d ∈ st0.candidates, Eligible s d = true ∧ row1.ID = derivedID s lib d ∧
          row1.Region = d.Region ∧ ∀ row ∈ st0.masters, row.ID ≠ row1.ID)) :
    (∀ row ∈ st0.masters,
      ∃ row1 ∈ (promoteStep s lib now c st pd ids).2.masters, row1.ID = row.ID) ∧
      ∀ row1 ∈ (promoteStep s lib now c st pd ids).2.masters,
        (∃ row ∈ st0.masters, row1.ID = row.ID ∧ row1.Region = row.Region ∧
          ((∀ d ∈ st0.candidates, Eligible s d = true → derivedID s lib d ≠ row.ID) →
            row1 = row)) ∨
        (∃ d ∈ st0.candidates, Eligible s d = true ∧ row1.ID = derivedID s lib d ∧
          row1.Region = d.Region ∧ ∀ row ∈ st0.masters, row.ID ≠ row1.ID) := by
  rcases promoteStep_cases s lib now c st pd ids with
    ⟨_, h⟩ | ⟨_, _, h⟩ | ⟨_, _, _, h⟩ | ⟨hel, hfind, _, h⟩ | ⟨found, _, _, _, h⟩ |
    ⟨found, hel, hfind, _, h⟩
  · rw [h]; exact hinv
  · rw [h]; exact hinv
  · rw [h]; exact hinv
  · have hm : (promoteStep s lib now c st pd ids).2.masters = st.masters ++
        [{ newMasterOf s lib c with CreateTime := st.clock, UpdateTime := st.clock }] := by
      rw [h]
      exact (recordPriceTrend_frame s lib now (derivedID s lib c) c.LastPrice _).1
    rw [hm]
    have hnone := masterFindByID_none st _ hfind
    refine ⟨?_, ?_⟩
    · intro row hrow
      obtain ⟨row1, h1, h2⟩ := hinv.1 row hrow
      exact ⟨row1, List.mem_append_left _ h1, h2⟩
    · intro row1 hrow1
      rcases List.mem_append.1 hrow1 with h1 | h1
      · exact hinv.2 row1 h1
      · rw [List.mem_singleton] at h1
        right
        refine ⟨c, hc, hel, by rw [h1]; rfl, by rw [h1]; rfl, ?_⟩
        intro row hrow hid
        obtain ⟨row2, h2, h3⟩ := hinv.1 row hrow
        apply hnone row2 h2
        rw [h3, hid, h1]
        rfl
  · rw [h]; exact hinv
  · have hm : (promoteStep s lib now c st pd ids).2.masters =
        st.masters.map (updateMasterRow st.clock
          { found with Price := finalPriceOf s found c now, Status := c.LastStatus }) := by
      rw [h]
      by_cases hb : F64.beq (finalPriceOf s found c now) found.Price = false
      · rw [if_pos hb]
        exact (recordPriceTrend_frame s lib now found.ID _ _).1
      · rw [if_neg hb]
    rw [hm]
    have hfid : found.ID = derivedID s lib c := (masterFindByID_some st _ found hfind).2
    refine ⟨?_, ?_⟩
    · intro row hrow
      obtain ⟨row1, h1, h2⟩ := hinv.1 row hrow
      exact ⟨_, List.mem_map_of_mem _ h1,
        (updateMasterRow_id_region st.clock _ row1).1.trans h2⟩
    · intro row1 hrow1
      obtain ⟨x, hx, hx1⟩ := List.mem_map.1 hrow1
      have hu := updateMasterRow_id_region st.clock
        { found with Price := finalPriceOf s found c now, Status := c.LastStatus } x
      by_cases hid : x.ID = found.ID
      · rcases hinv.2 x hx with ⟨row, hrow, h1, h2, _⟩ | ⟨d, hd, h1, h2, h3, h4⟩
        · left
          refine ⟨row, hrow, by rw [← hx1, hu.1, h1], by rw [← hx1, hu.2.1, h2], ?_⟩
          intro hcond
          exact absurd (by rw [← h1, hid, hfid]) (hcond c hc hel)
        · right
          refine ⟨d, hd, h1, by rw [← hx1, hu.1, h2], by rw [← hx1, hu.2.1, h3], ?_⟩
          intro row hrow
          rw [← hx1, hu.1]
          exact h4 row hrow
      · have hfix : row1 = x := by
          rw [← hx1]
          exact hu.2.2 hid
        rw [hfix]
        exact hinv.2 x hx

/-- C23, amended: with pairwise distinct identifiers, `ProcessIncomingItem(item, region)`
leaves the masters and the candidates of every other region as they are, and what it
returns depends on the store only through its failures and the masters and candidates of
the region. `PromoteCandidates` changes no candidate (it only deletes), changes no
identifier or region of a master, creates a master only under the identifier derived for
an eligible candidate and in the region of that candidate, and leaves every master
unchanged whose identifier is not the one derived for an eligible candidate; a master
with such an identifier is updated whatever its region is. -/
theorem region_scoping (s : DataCleaningService) (lib : Library) :
    (∀ (item : Option DTInputDTO) (region : GoString) (now : Time) (st : Store),
      st.WellFormed →
      (s.ProcessIncomingItem lib item region now st).2.masters.filter
          (fun m => decide (m.Region ≠ region)) =
        st.masters.filter (fun m => decide (m.Region ≠ region)) ∧
      (s.ProcessIncomingItem lib item region now st).2.candidates.filter
          (fun c => decide (c.Region ≠ region)) =
        st.candidates.filter (fun c => decide (c.Region ≠ region))) ∧
    (∀ (item : Option DTInputDTO) (region : GoString) (now : Time) (st st2 : Store),
      st2.fails = st.fails →
      st2.masters.filter (fun m => decide (m.Region = region)) =
        st.masters.filter (fun m => decide (m.Region = region)) →
      st2.candidates.filter (fun c => decide (c.Region = region)) =
        st.candidates.filter (fun c => decide (c.Region = region)) →
      (s.ProcessIncomingItem lib item region now st2).1 =
        (s.ProcessIncomingItem lib item region now st).1) ∧
    (∀ (clock : ℕ → Time) (st : Store),
      (∀ c ∈ (s.PromoteCandidates lib clock st).2.candidates, c ∈ st.candidates) ∧
      ∀ row1 ∈ (s.PromoteCandidates lib clock st).2.masters,
        (∃ row ∈ st.masters, row1.ID = row.ID ∧ row1.Region = row.Region ∧
          ((∀ d ∈ st.candidates, Eligible s d = true → derivedID s lib d ≠ row.ID) →
            row1 = row)) ∨
        (∃ d ∈ st.candidates, Eligible s d = true ∧ row1.ID = derivedID s lib d ∧
          row1.Region = d.Region ∧ ∀ row ∈ st.masters, row.ID ≠ row1.ID)) := by
  refine ⟨fun item region now st hwf =>
      processIncomingItem_other_regions s lib item region now st hwf,
    fun item region now st st2 hf hm hc =>
      processIncomingItem_reads s lib item region now st st2 hf hm hc, ?_⟩
  intro clock st
  refine ⟨promoteCandidates_candidates s lib clock st, ?_⟩
  have hinit : (∀ row ∈ st.masters, ∃ row1 ∈ st.masters, row1.ID = row.ID) ∧
      ∀ row1 ∈ st.masters,
        (∃ row ∈ st.masters, row1.ID = row.ID ∧ row1.Region = row.Region ∧
          ((∀ d ∈ st.candidates, Eligible s d = true → derivedID s lib d ≠ row.ID) →
            row1 = row)) ∨
        (∃ d ∈ st.candidates, Eligible s d = true ∧ row1.ID = derivedID s lib d ∧
          row1.Region = d.Region ∧ ∀ row ∈ st.masters, row.ID ≠ row1.ID) :=
    ⟨fun row hrow => ⟨row, hrow, rfl⟩,
      fun row1 hrow1 => Or.inl ⟨row1, hrow1, rfl, rfl, fun _ => rfl⟩⟩
  have hloop := promoteLoop_invariant s lib clock
    (fun st1 => (∀ row ∈ st.masters, ∃ row1 ∈ st1.masters, row1.ID = row.ID) ∧
      ∀ row1 ∈ st1.masters,
        (∃ row ∈ st.masters, row1.ID = row.ID ∧ row1.Region = row.Region ∧
          ((∀ d ∈ st.candidates, Eligible s d = true → derivedID s lib d ≠ row.ID) →
            row1 = row)) ∨
        (∃ d ∈ st.candidates, Eligible s d = true ∧ row1.ID = derivedID s lib d ∧
          row1.Region = d.Region ∧ ∀ row ∈ st.masters, row.ID ≠ row1.ID))
    st.candidates
    (fun c hc now st1 pd ids h => promoteStep_regions s lib st now c hc st1 pd ids h)
    st.candidates (fun _ h => h) 0 st [] [] hinit
  rcases promoteCandidates_masters s lib clock st with h | h
  · rw [h]
    exact hinit.2
  · rw [h]
    exact hloop.2

/-- Witness for C23: the example observation at 90 in the region "r", in a store with
the example master and the example candidate of the region "r" and a master and a
candidate of the region "q". The call writes the price 90 to the master of the region "r"
and leaves the master and the candidate of the region "q" as they are; it returns the same
in the store without the rows of the region "q". -/
theorem region_scoping_witness :
    (((NewDataCleaningService true).ProcessIncomingItem exLibrary
        (some (exItem (F64.fin 90))) [0x72] 2000
        (exStore [exOtherRegionMaster, exMaster] [exCandidateQ, exCandidate])).2.masters.filter
          (fun m => decide (m.Region ≠ [0x72])) =
        (exStore [exOtherRegionMaster, exMaster] [exCandidateQ, exCandidate]).masters.filter
          (fun m => decide (m.Region ≠ [0x72])) ∧
      ((NewDataCleaningService true).ProcessIncomingItem exLibrary
        (some (exItem (F64.fin 90))) [0x72] 2000
        (exStore [exOtherRegionMaster, exMaster]
          [exCandidateQ, exCandidate])).2.candidates.filter
          (fun c => decide (c.Region ≠ [0x72])) =
        (exStore [exOtherRegionMaster, exMaster]
          [exCandidateQ, exCandidate]).candidates.filter
          (fun c => decide (c.Region ≠ [0x72]))) ∧
    (exStore [exOtherRegionMaster, exMaster] [exCandidateQ, exCandidate]).masters.filter
        (fun m => decide (m.Region ≠ [0x72])) = [exOtherRegionMaster] ∧
    (exStore [exOtherRegionMaster, exMaster] [exCandidateQ, exCandidate]).candidates.filter
        (fun c => decide (c.Region ≠ [0x72])) = [exCandidateQ] ∧
    ((NewDataCleaningService true).ProcessIncomingItem exLibrary
        (some (exItem (F64.fin 90))) [0x72] 2000
        (exStore [exOtherRegionMaster, exMaster] [exCandidateQ, exCandidate])).2.masters =
      [exOtherRegionMaster,
        { exMaster with Price := F64.fin 90, TrustScore := 4, UpdateTime := 2000 }] ∧
    ((NewDataCleaningService true).ProcessIncomingItem exLibrary
        (some (exItem (F64.fin 90))) [0x72] 2000 (exStore [exMaster] [exCandidate])).1 =
      ((NewDataCleaningService true).ProcessIncomingItem exLibrary
        (some (exItem (F64.fin 90))) [0x72] 2000
        (exStore [exOtherRegionMaster, exMaster] [exCandidateQ, exCandidate])).1 :=
  ⟨(region_scoping (NewDataCleaningService true) exLibrary).1 (some (exItem (F64.fin 90)))
      [0x72] 2000 (exStore [exOtherRegionMaster, exMaster] [exCandidateQ, exCandidate])
      ⟨by decide, by decide⟩,
    by decide, by decide,
    by
      rw [processIncomingItem_of_matched (NewDataCleaningService true) exLibrary
        (exItem (F64.fin 90)) [0x72] 2000
        (exStore [exOtherRegionMaster, exMaster] [exCandidateQ, exCandidate]) [exMaster]
        exMaster rfl (Or.inl (exItem_matched _)),
        handleMasterMatch_accepted (NewDataCleaningService true) exMaster
          (exItem (F64.fin 90)).Price (exItem (F64.fin 90)).Status 2000
          (exStore [exOtherRegionMaster, exMaster] [exCandidateQ, exCandidate]) (F64.fin 90)
          validateUpdate_100_90 rfl]
      decide,
    (region_scoping (NewDataCleaningService true) exLibrary).2.1 (some (exItem (F64.fin 90)))
      [0x72] 2000 (exStore [exOtherRegionMaster, exMaster] [exCandidateQ, exCandidate])
      (exStore [exMaster] [exCandidate]) rfl (by decide) (by decide)⟩

/-- C23, counterexample: promoting the example candidate of the region "r" writes its
price 90 to the master of its derived identifier, which is a master of the region "q". -/
theorem promoteCandidates_updates_other_region :
    exCandidate3.Region = [0x72] ∧ exOtherRegionMaster.Region = [0x71] ∧
      exOtherRegionMaster.Price = F64.fin 100 ∧
      (NewDataCleaningService false).PromoteCandidates exLibrary (fun _ => 2000)
          (exStore [exOtherRegionMaster] [exCandidate3]) =
        ((some [([0x72], [promotedDTO { exOtherRegionMaster with Price := F64.fin 90 }])],
            none),
          { exStore [{ exOtherRegionMaster with Price := F64.fin 90, UpdateTime := 2000 }] []
            with trends := [] }) := by
  refine ⟨rfl, rfl, rfl, ?_⟩
  have hfind : (exStore [exOtherRegionMaster] [exCandidate3]).masterFindByID
      ((NewDataCleaningService false).titleCleaner.GenerateID exLibrary strDT
        ((NewDataCleaningService false).titleCleaner.ElectStandardTitle
          exCandidate3.TitleVotes)) = Except.ok (some exOtherRegionMaster) := by
    have helect : (NewDataCleaningService false).titleCleaner.ElectStandardTitle
        exCandidate3.TitleVotes = [0x41, 0x42, 0x43, 0x44] := by decide
    rw [helect]
    unfold Store.masterFindByID
    rw [if_neg (by exact Bool.noConfusion)]
    have hid : decide (exOtherRegionMaster.ID =
        (NewDataCleaningService false).titleCleaner.GenerateID
          exLibrary strDT [0x41, 0x42, 0x43, 0x44]) = true := decide_eq_true rfl
    show Except.ok (List.find? _ [exOtherRegionMaster]) = _
    rw [List.find?_cons]
    simp only [hid]
  have hval : (NewDataCleaningService false).priceValidator.ValidateUpdate
      exOtherRegionMaster.Price exCandidate3.LastPrice exOtherRegionMaster.UpdateTime 2000 =
      (F64.fin 90, none) := validateUpdate_100_90
  have hstep := promoteLoop_duplicate (NewDataCleaningService false) exLibrary
    (fun _ => 2000) exCandidate3 [] 0 (exStore [exOtherRegionMaster] [exCandidate3]) [] []
    exOtherRegionMaster (by decide) (by decide) hfind rfl (F64.fin 90)
    (by rw [hval]; rfl)
  have hne : F64.beq (F64.fin 90) exOtherRegionMaster.Price = false := by decide
  rw [if_pos hne] at hstep
  unfold DataCleaningService.PromoteCandidates
  have hlist : (exStore [exOtherRegionMaster] [exCandidate3]).candidateListAll =
      Except.ok [exCandidate3] := rfl
  simp only [hlist, hstep]
  rfl

/-! ## Claims about the end-to-end path -/

/-- In a succeeding store, an observation with a non-empty title and a price that is not
negative, in a region without a master and without a candidate whose group key is
High-similar to the clean key, becomes a new candidate of the region. -/
theorem processIncomingItem_new_candidate (s : DataCleaningService) (lib : Library)
    (item : DTInputDTO) (region : GoString) (now : Time) (st : Store) (hst : st.Succeeds)
    (hnoM : ∀ m ∈ st.masters, m.Region ≠ region)
    (hnoC : ∀ c ∈ st.candidates, c.Region = region →
      s.titleCleaner.IsHighSimilarity (s.titleCleaner.CleanTitleForID lib item.Title)
        c.GroupKey = false)
    (ht : item.Title ≠ []) (hp : ¬ (item.Price < F64.fin 0)) :
    s.ProcessIncomingItem lib (some item) region now st =
      ((none, none),
        { st with
          candidates := st.candidates ++
            [{ ID := st.nextCandidateID,
               GroupKey := s.titleCleaner.CleanTitleForID lib item.Title, Region := region,
               TitleVotes := [(item.Title, 1)], TotalOccurrences := 1,
               LastPrice := item.Price, LastStatus := item.Status, FirstSeenTime := now,
               LastSeenTime := now, CreateTime := st.clock, UpdateTime := st.clock }],
          nextCandidateID := st.nextCandidateID + 1 }) := by
  have hread : st.masterFindByRegion region = Except.ok [] := by
    unfold Store.masterFindByRegion
    rw [hst, if_neg Bool.noConfusion]
    have hnil : st.masters.filter (fun m => decide (m.Region = region)) = [] := by
      rw [List.filter_eq_nil_iff]
      intro m hm h
      exact hnoM m hm (of_decide_eq_true h)
    rw [hnil]
  have hreadC : st.candidateFindByRegion region =
      Except.ok (st.candidates.filter (fun c => decide (c.Region = region))) := by
    unfold Store.candidateFindByRegion
    rw [hst, if_neg Bool.noConfusion]
  rw [processIncomingItem_of_no_match s lib item region now st [] hread
    (fun y hy => absurd hy (List.not_mem_nil y)) (fun y hy => absurd hy (List.not_mem_nil y)),
    handleCandidateLogic_create s region item.Title _ item now st _ ht hp hreadC
      (fun y hy => hnoC y (List.mem_filter.1 hy).1 (of_decide_eq_true (List.mem_filter.1 hy).2))]
  unfold Store.candidateCreate
  rw [hst, if_neg Bool.noConfusion]
  rfl

/-- In a succeeding store, an observation with a non-empty title and a price that is not
negative, in a region without a master and whose only candidate has a group key that is
High-similar to the clean key, is folded into that candidate. -/
theorem processIncomingItem_existing_candidate (s : DataCleaningService) (lib : Library)
    (item : DTInputDTO) (region : GoString) (now : Time) (st : Store)
    (pre : List CandidateItem) (c : CandidateItem) (hst : st.Succeeds)
    (hnoM : ∀ m ∈ st.masters, m.Region ≠ region) (hcands : st.candidates = pre ++ [c])
    (hpre : ∀ x ∈ pre, x.Region ≠ region ∧ x.ID ≠ c.ID) (hreg : c.Region = region)
    (ht : item.Title ≠ []) (hp : ¬ (item.Price < F64.fin 0))
    (hk : s.titleCleaner.IsHighSimilarity (s.titleCleaner.CleanTitleForID lib item.Title)
      c.GroupKey = true) :
    s.ProcessIncomingItem lib (some item) region now st =
      ((none, none),
        { st with
          candidates := pre ++
            [{ c with TitleVotes := c.TitleVotes.incr item.Title,
                      TotalOccurrences := wrapInt (c.TotalOccurrences + 1),
                      LastPrice := item.Price, LastStatus := item.Status,
                      LastSeenTime := now, UpdateTime := st.clock }] }) := by
  have hread : st.masterFindByRegion region = Except.ok [] := by
    unfold Store.masterFindByRegion
    rw [hst, if_neg Bool.noConfusion]
    have hnil : st.masters.filter (fun m => decide (m.Region = region)) = [] := by
      rw [List.filter_eq_nil_iff]
      intro m hm h
      exact hnoM m hm (of_decide_eq_true h)
    rw [hnil]
  have hfilter : st.candidates.filter (fun c => decide (c.Region = region)) = [c] := by
    rw [hcands, List.filter_append]
    have hnil : pre.filter (fun c => decide (c.Region = region)) = [] := by
      rw [List.filter_eq_nil_iff]
      intro x hx h
      exact (hpre x hx).1 (of_decide_eq_true h)
    have hc1 : [c].filter (fun c => decide (c.Region = region)) = [c] := by
      rw [List.filter_eq_self]
      intro x hx
      rw [List.mem_singleton.1 hx]
      exact decide_eq_true hreg
    rw [hnil, List.nil_append, hc1]
  have hreadC : st.candidateFindByRegion region = Except.ok [c] := by
    unfold Store.candidateFindByRegion
    rw [hst, if_neg Bool.noConfusion, hfilter]
  have hfirst : IsFirst (fun x => s.titleCleaner.IsHighSimilarity
      (s.titleCleaner.CleanTitleForID lib item.Title) x.GroupKey) [c] c :=
    ⟨[], [], rfl, hk, fun y hy => absurd hy (List.not_mem_nil y)⟩
  rw [processIncomingItem_of_no_match s lib item region now st [] hread
    (fun y hy => absurd hy (List.not_mem_nil y)) (fun y hy => absurd hy (List.not_mem_nil y)),
    handleCandidateLogic_update s region item.Title _ item now st [c] c ht hp hreadC hfirst]
  unfold Store.candidateUpdate
  rw [hst, if_neg Bool.noConfusion]
  have hmap : st.candidates.map (updateCandidateRow st.clock
      { c with TitleVotes := c.TitleVotes.incr item.Title,
               TotalOccurrences := wrapInt (c.TotalOccurrences + 1),
               LastPrice := item.Price, LastStatus := item.Status, LastSeenTime := now }) =
      pre ++ [{ c with TitleVotes := c.TitleVotes.incr item.Title,
                       TotalOccurrences := wrapInt (c.TotalOccurrences + 1),
                       LastPrice := item.Price, LastStatus := item.Status,
                       LastSeenTime := now, UpdateTime := st.clock }] := by
    rw [hcands, List.map_append]
    have hpre2 : pre.map (updateCandidateRow st.clock
        { c with TitleVotes := c.TitleVotes.incr item.Title,
                 TotalOccurrences := wrapInt (c.TotalOccurrences + 1),
                 LastPrice := item.Price, LastStatus := item.Status,
                 LastSeenTime := now }) = pre := by
      conv_rhs => rw [← List.map_id pre]
      apply List.map_congr_left
      intro x hx
      exact (updateCandidateRow_id_region st.clock _ x).2.2 (hpre x hx).2
    rw [hpre2, List.map_cons, List.map_nil]
    unfold updateCandidateRow
    rw [if_pos rfl]
  simp only [hmap]
  rfl

/-- The loop of `PromoteCandidates` passes over candidates that are not eligible. -/
theorem promoteLoop_skip (s : DataCleaningService) (lib : Library) (clock : ℕ → Time)
    (pre : List CandidateItem) (hpre : ∀ c ∈ pre, Eligible s c = false) :
    ∀ (i : ℕ) (st : Store) (pd : PromotedData) (ids : List ℤ),
      promoteLoop s lib clock pre i st pd ids = (Except.ok (pd, ids), st) := by
  induction pre with
  | nil =>
    intro i st pd ids
    rw [promoteLoop]
  | cons c rest ih =>
    intro i st pd ids
    have hc := hpre c (List.mem_cons_self _ _)
    rw [promoteLoop_cons_eq]
    rcases promoteStep_cases s lib (clock i) c st pd ids with
      ⟨_, h⟩ | ⟨h0, _⟩ | ⟨h0, _⟩ | ⟨h0, _⟩ | ⟨_, h0, _⟩ | ⟨_, h0, _⟩
    · rw [h]
      exact ih (fun d hd => hpre d (List.mem_cons_of_mem _ hd)) (i + 1) st pd ids
    all_goals
      rw [hc] at h0
      exact Bool.noConfusion h0

/-- In a succeeding store whose only eligible candidate is the last of the pool, with a
derived identifier that names no master and an identifier no other candidate has,
`PromoteCandidates` creates the master of that candidate, returns its DTO and deletes the
candidate. -/
theorem promoteCandidates_single (s : DataCleaningService) (lib : Library)
    (clock : ℕ → Time) (st : Store) (pre : List CandidateItem) (c : CandidateItem)
    (hst : st.Succeeds) (hcands : st.candidates = pre ++ [c])
    (hpre : ∀ x ∈ pre, Eligible s x = false ∧ x.ID ≠ c.ID) (hel : Eligible s c = true)
    (hnoID : ∀ m ∈ st.masters, m.ID ≠ derivedID s lib c) :
    ∃ st1, s.PromoteCandidates lib clock st =
        ((some [(c.Region, [promotedDTO (newMasterOf s lib c)])], none), st1) ∧
      st1.candidates = pre ∧
      st1.masters = st.masters ++
        [{ newMasterOf s lib c with CreateTime := st.clock, UpdateTime := st.clock }] := by
  have hlist : st.candidateListAll = Except.ok (pre ++ [c]) := by
    unfold Store.candidateListAll
    rw [hst, if_neg Bool.noConfusion, hcands]
  have hfind : st.masterFindByID (derivedID s lib c) = Except.ok none := by
    unfold Store.masterFindByID
    rw [hst, if_neg Bool.noConfusion]
    have hnone : st.masters.find? (fun m => decide (m.ID = derivedID s lib c)) = none := by
      rw [List.find?_eq_none]
      intro m hm h
      exact hnoID m hm (of_decide_eq_true h)
    rw [hnone]
  have hstep : promoteStep s lib (clock (0 + pre.length)) c st [] [] =
      (Except.ok (PromotedData.add [] c.Region (promotedDTO (newMasterOf s lib c)),
          [] ++ [c.ID]),
        s.recordPriceTrend lib (clock (0 + pre.length)) (derivedID s lib c) c.LastPrice
          { st with masters := st.masters ++
            [{ newMasterOf s lib c with CreateTime := st.clock,
                                        UpdateTime := st.clock }] }) := by
    rcases promoteStep_cases s lib (clock (0 + pre.length)) c st [] [] with
      ⟨h0, _⟩ | ⟨_, h0, _⟩ | ⟨_, _, h0, _⟩ | ⟨_, _, _, h⟩ | ⟨found, _, h0, _⟩ |
      ⟨found, _, h0, _⟩
    · rw [hel] at h0
      exact Bool.noConfusion h0
    · rw [hst] at h0
      exact Bool.noConfusion h0
    · rw [hst] at h0
      exact Bool.noConfusion h0
    · exact h
    · rw [hfind] at h0
      exact absurd h0 (by simp)
    · rw [hfind] at h0
      exact absurd h0 (by simp)
  have hfr := recordPriceTrend_frame s lib (clock (0 + pre.length)) (derivedID s lib c)
    c.LastPrice
    { st with masters := st.masters ++
      [{ newMasterOf s lib c with CreateTime := st.clock, UpdateTime := st.clock }] }
  obtain ⟨st2, hdel, hc2⟩ := candidateDeleteByIDs_succeeds [c.ID]
    (s.recordPriceTrend lib (clock (0 + pre.length)) (derivedID s lib c) c.LastPrice
      { st with masters := st.masters ++
        [{ newMasterOf s lib c with CreateTime := st.clock, UpdateTime := st.clock }] })
    (fun op => by rw [hfr.2.2.1]; exact hst op)
  have hd := candidateDeleteByIDs_frame [c.ID]
    (s.recordPriceTrend lib (clock (0 + pre.length)) (derivedID s lib c) c.LastPrice
      { st with masters := st.masters ++
        [{ newMasterOf s lib c with CreateTime := st.clock, UpdateTime := st.clock }] })
  rw [hdel] at hd
  refine ⟨st2, ?_, ?_, ?_⟩
  · unfold DataCleaningService.PromoteCandidates
    simp only [hlist]
    rw [promoteLoop_append, promoteLoop_skip s lib clock pre (fun x hx => (hpre x hx).1)]
    simp only []
    rw [promoteLoop_cons_eq, hstep]
    simp only []
    rw [promoteLoop]
    simp only [List.nil_append, List.length_singleton, gt_iff_lt, Nat.lt_one_iff,
      Nat.zero_lt_one, if_true, hdel]
    rfl
  · rw [hc2, hfr.2.1]
    show List.filter _ st.candidates = pre
    rw [hcands, List.filter_append]
    have h1 : pre.filter (fun x => decide (x.ID ∉ [c.ID])) = pre := by
      rw [List.filter_eq_self]
      intro x hx
      exact decide_eq_true (fun h => (hpre x hx).2 (List.mem_singleton.1 h))
    rw [h1, List.filter_cons_of_neg (by simp), List.filter_nil, List.append_nil]
  · rw [hd.1, hfr.1]

/-- A vote keeps every count at least 1, and raises the largest count by at most one, as
long as the counts are below `MaxInt64`. -/
theorem voteMap_incr_pos (m : VoteMap) (k : GoString) (n : ℤ) (hn0 : 0 ≤ n)
    (hn : n < MaxInt64) (h : ∀ e ∈ m, 1 ≤ e.2 ∧ e.2 ≤ n) :
    ∀ e ∈ m.incr k, 1 ≤ e.2 ∧ e.2 ≤ n + 1 := by
  unfold VoteMap.incr
  by_cases hany : m.any (fun e => decide (e.1 = k)) = true
  · rw [if_pos hany]
    intro e he
    obtain ⟨x, hx, hxe⟩ := List.mem_map.1 he
    have hx1 := h x hx
    by_cases hk : x.1 = k
    · rw [if_pos hk] at hxe
      rw [← hxe]
      show 1 ≤ wrapInt (x.2 + 1) ∧ wrapInt (x.2 + 1) ≤ n + 1
      rw [wrapInt_succ x.2 (le_trans (by decide) hx1.1) (lt_of_le_of_lt hx1.2 hn)]
      omega
    · rw [if_neg hk] at hxe
      rw [← hxe]
      exact ⟨hx1.1, by omega⟩
  · rw [if_neg hany]
    intro e he
    rcases List.mem_append.1 he with h1 | h1
    · exact ⟨(h e h1).1, by have := (h e h1).2; omega⟩
    · rw [List.mem_singleton.1 h1]
      exact ⟨le_refl _, by show (1 : ℤ) ≤ n + 1; omega⟩

/-- The title elected from the votes of three non-empty titles, visited in any order, is
not empty, has the highest count and is among the longest titles with that count. -/
theorem elect_three (tc : TitleCleaner) (t1 t2 t3 : GoString) (h1 : t1 ≠ []) (h2 : t2 ≠ [])
    (h3 : t3 ≠ []) (v : VoteMap)
    (hperm : v.Perm (VoteMap.incr (VoteMap.incr [(t1, 1)] t2) t3)) :
    tc.ElectStandardTitle v ≠ [] ∧
      ∃ n, (tc.ElectStandardTitle v, n) ∈ VoteMap.incr (VoteMap.incr [(t1, 1)] t2) t3 ∧
        (∀ e ∈ VoteMap.incr (VoteMap.incr [(t1, 1)] t2) t3, e.2 ≤ n) ∧
        ∀ e ∈ VoteMap.incr (VoteMap.incr [(t1, 1)] t2) t3, e.2 = n →
          e.1.length ≤ (tc.ElectStandardTitle v).length := by
  have hpos : ∀ e ∈ VoteMap.incr (VoteMap.incr [(t1, 1)] t2) t3, 1 ≤ e.2 := by
    intro e he
    refine (voteMap_incr_pos _ t3 2 (by decide) (by decide)
      (voteMap_incr_pos _ t2 1 (by decide) (by decide) ?_) e he).1
    intro x hx
    rw [List.mem_singleton.1 hx]
    exact ⟨le_refl _, le_refl _⟩
  have hne : VoteMap.incr (VoteMap.incr [(t1, 1)] t2) t3 ≠ [] := by
    intro h
    have hk := (voteMap_keys_incr (VoteMap.incr [(t1, 1)] t2) t3 t3).2 (Or.inr rfl)
    rw [h] at hk
    exact absurd hk (List.not_mem_nil _)
  have hne2 : v ≠ [] := fun h => hne (List.Perm.eq_nil (h ▸ hperm.symm))
  obtain ⟨n, hmem, hmax, hlen⟩ := electStandardTitle_aux tc v hne2
    (fun e he => hpos e (hperm.mem_iff.1 he))
  have hmem2 := hperm.mem_iff.1 hmem
  refine ⟨?_, n, hmem2, fun e he => hmax e (hperm.mem_iff.2 he),
    fun e he => hlen e (hperm.mem_iff.2 he)⟩
  have hkey : tc.ElectStandardTitle v ∈
      (VoteMap.incr (VoteMap.incr [(t1, 1)] t2) t3).map Prod.fst :=
    List.mem_map.2 ⟨_, hmem2, rfl⟩
  rcases (voteMap_keys_incr _ t3 _).1 hkey with hk | hk
  · rcases (voteMap_keys_incr _ t2 _).1 hk with hk2 | hk2
    · have : tc.ElectStandardTitle v = t1 := by
        simpa using hk2
      rw [this]
      exact h1
    · rw [hk2]
      exact h2
  · rw [hk]
    exact h3

/-- Three observations of a region without master and candidate, with non-empty titles,
prices that are not negative and the clean keys of the second and the third High-similar
to the clean key of the first, are folded into one candidate. -/
theorem three_observations (s : DataCleaningService) (lib : Library) (region : GoString)
    (st : Store) (i1 i2 i3 : DTInputDTO) (n1 n2 n3 : Time) (hst : st.Succeeds)
    (hnoM : ∀ m ∈ st.masters, m.Region ≠ region)
    (hnoC : ∀ c ∈ st.candidates, c.Region ≠ region)
    (hfresh : ∀ c ∈ st.candidates, c.ID ≠ st.nextCandidateID)
    (ht1 : i1.Title ≠ []) (ht2 : i2.Title ≠ []) (ht3 : i3.Title ≠ [])
    (hp1 : ¬ (i1.Price < F64.fin 0)) (hp2 : ¬ (i2.Price < F64.fin 0))
    (hp3 : ¬ (i3.Price < F64.fin 0))
    (hk2 : s.titleCleaner.IsHighSimilarity (s.titleCleaner.CleanTitleForID lib i2.Title)
      (s.titleCleaner.CleanTitleForID lib i1.Title) = true)
    (hk3 : s.titleCleaner.IsHighSimilarity (s.titleCleaner.CleanTitleForID lib i3.Title)
      (s.titleCleaner.CleanTitleForID lib i1.Title) = true) :
    s.ProcessIncomingItem lib (some i1) region n1 st =
        ((none, none),
          { st with candidates := st.candidates ++ [seededCandidate s lib region st i1 n1],
                    nextCandidateID := st.nextCandidateID + 1 }) ∧
      s.ProcessIncomingItem lib (some i2) region n2
          { st with candidates := st.candidates ++ [seededCandidate s lib region st i1 n1],
                    nextCandidateID := st.nextCandidateID + 1 } =
        ((none, none),
          { st with
            candidates := st.candidates ++
              [foldedInto (seededCandidate s lib region st i1 n1) i2 n2 st.clock],
            nextCandidateID := st.nextCandidateID + 1 }) ∧
      s.ProcessIncomingItem lib (some i3) region n3
          { st with
            candidates := st.candidates ++
              [foldedInto (seededCandidate s lib region st i1 n1) i2 n2 st.clock],
            nextCandidateID := st.nextCandidateID + 1 } =
        ((none, none),
          { st with
            candidates := st.candidates ++
              [foldedInto (foldedInto (seededCandidate s lib region st i1 n1) i2 n2 st.clock)
                i3 n3 st.clock],
            nextCandidateID := st.nextCandidateID + 1 }) := by
  have hpre : ∀ (c : CandidateItem), c.ID = st.nextCandidateID →
      ∀ x ∈ st.candidates, x.Region ≠ region ∧ x.ID ≠ c.ID :=
    fun c hc x hx => ⟨hnoC x hx, by rw [hc]; exact hfresh x hx⟩
  refine ⟨?_, ?_, ?_⟩
  · exact processIncomingItem_new_candidate s lib i1 region n1 st hst hnoM
      (fun c hc hreg => absurd hreg (hnoC c hc)) ht1 hp1
  · exact processIncomingItem_existing_candidate s lib i2 region n2
      { st with candidates := st.candidates ++ [seededCandidate s lib region st i1 n1],
                nextCandidateID := st.nextCandidateID + 1 }
      st.candidates (seededCandidate s lib region st i1 n1) (fun op => hst op) hnoM rfl
      (hpre _ rfl) rfl ht2 hp2 hk2
  · exact processIncomingItem_existing_candidate s lib i3 region n3
      { st with
        candidates := st.candidates ++
          [foldedInto (seededCandidate s lib region st i1 n1) i2 n2 st.clock],
        nextCandidateID := st.nextCandidateID + 1 }
      st.candidates (foldedInto (seededCandidate s lib region st i1 n1) i2 n2 st.clock)
      (fun op => hst op) hnoM rfl (hpre _ rfl) rfl ht3 hp3 hk3

/-- The similarity of two non-empty strings from their edit distance and their larger
length. -/
theorem calculateSimilarity_eval (tc : TitleCleaner) (a b : GoString) (ha : a ≠ [])
    (hb : b ≠ []) (d m : ℕ) (hd : levenshteinDistance a b = d)
    (hm : max (runes a).length (runes b).length = m) (hd53 : d < 2 ^ 53)
    (hm53 : m < 2 ^ 53) (hm0 : m ≠ 0) :
    tc.CalculateSimilarity a b = F64.sub (F64.fin 1) (F64.round ((d : ℚ) / (m : ℚ))) := by
  rw [calculateSimilarity_of_ne_nil tc a b ha hb, hd, hm]
  have h1 : F64.ofInt ((d : ℕ) : ℤ) = F64.fin (d : ℚ) := by
    unfold F64.ofInt
    rw [Int.cast_natCast]
    exact F64.round_natCast d hd53
  have h2 : F64.ofInt ((m : ℕ) : ℤ) = F64.fin (m : ℚ) := by
    unfold F64.ofInt
    rw [Int.cast_natCast]
    exact F64.round_natCast m hm53
  rw [h1, h2, F64.div_fin_fin _ _ (by exact_mod_cast hm0)]

/-- Two strings of eight code points at edit distance 1 have the similarity 0.875. -/
theorem calculateSimilarity_one_of_eight (tc : TitleCleaner) (a b : GoString) (ha : a ≠ [])
    (hb : b ≠ []) (hd : levenshteinDistance a b = 1)
    (hm : max (runes a).length (runes b).length = 8) :
    tc.CalculateSimilarity a b = F64.fin (7 / 8) := by
  rw [calculateSimilarity_eval tc a b ha hb 1 8 hd hm (by norm_num) (by norm_num)
    (by norm_num)]
  have h1 : F64.round (((1 : ℕ) : ℚ) / ((8 : ℕ) : ℚ)) = F64.fin (1 / 8) := by
    have h := F64.round_dyadic 1 (-3) (by norm_num) (by norm_num) (by norm_num)
    have he : ((1 : ℕ) : ℚ) * (2 : ℚ) ^ (-3 : ℤ) = 1 / 8 := by norm_num
    rw [he] at h
    rw [← h]
    norm_num
  rw [h1]
  show F64.round (1 - 1 / 8) = _
  have h := F64.round_dyadic 7 (-3) (by norm_num) (by norm_num) (by norm_num)
  have he : ((7 : ℕ) : ℚ) * (2 : ℚ) ^ (-3 : ℤ) = 7 / 8 := by norm_num
  rw [he] at h
  rw [← h]
  norm_num

/-- Two different strings of one code point have the similarity 0. -/
theorem calculateSimilarity_one_of_one (tc : TitleCleaner) (a b : GoString) (ha : a ≠ [])
    (hb : b ≠ []) (hd : levenshteinDistance a b = 1)
    (hm : max (runes a).length (runes b).length = 1) :
    tc.CalculateSimilarity a b = F64.fin 0 := by
  rw [calculateSimilarity_eval tc a b ha hb 1 1 hd hm (by norm_num) (by norm_num)
    (by norm_num)]
  have h1 : F64.round (((1 : ℕ) : ℚ) / ((1 : ℕ) : ℚ)) = F64.fin 1 := by
    rw [← F64.round_one]
    norm_num
  rw [h1]
  show F64.round (1 - 1) = _
  rw [sub_self, F64.round_zero]

/-- The titles "A!!!!!!!", "B!!!!!!!" and "C!!!!!!!" are High-similar to one another, and
their clean keys "A", "B" and "C" are not. -/
theorem exTitles_similarity :
    NewTitleCleaner.IsHighSimilarity exTitleA exTitleB = true ∧
      NewTitleCleaner.IsHighSimilarity exTitleA exTitleC = true ∧
      NewTitleCleaner.IsHighSimilarity exTitleB exTitleC = true ∧
      NewTitleCleaner.IsHighSimilarity [0x42] [0x41] = false ∧
      NewTitleCleaner.IsHighSimilarity [0x43] [0x41] = false ∧
      NewTitleCleaner.IsHighSimilarity [0x43] [0x42] = false := by
  have hhigh : ∀ a b : GoString, a ≠ [] → b ≠ [] → levenshteinDistance a b = 1 →
      max (runes a).length (runes b).length = 8 →
      NewTitleCleaner.IsHighSimilarity a b = true := by
    intro a b ha hb hd hm
    rw [isHighSimilarity_of_ne_nil _ a b ha hb, calculateSimilarity_one_of_eight _ a b ha hb hd hm]
    show F64.fin (3 / 4) ≤ F64.fin (7 / 8)
    exact (F64.fin_le_fin _ _).2 (by norm_num)
  have hlow : ∀ a b : GoString, a ≠ [] → b ≠ [] → levenshteinDistance a b = 1 →
      max (runes a).length (runes b).length = 1 →
      NewTitleCleaner.IsHighSimilarity a b = false := by
    intro a b ha hb hd hm
    rw [← Bool.not_eq_true, isHighSimilarity_of_ne_nil _ a b ha hb,
      calculateSimilarity_one_of_one _ a b ha hb hd hm]
    show ¬ (F64.fin (3 / 4) ≤ F64.fin 0)
    intro h
    have := (F64.fin_le_fin _ _).1 h
    norm_num at this
  exact ⟨hhigh _ _ (by decide) (by decide) (by decide) (by decide),
    hhigh _ _ (by decide) (by decide) (by decide) (by decide),
    hhigh _ _ (by decide) (by decide) (by decide) (by decide),
    hlow _ _ (by decide) (by decide) (by decide) (by decide),
    hlow _ _ (by decide) (by decide) (by decide) (by decide),
    hlow _ _ (by decide) (by decide) (by decide) (by decide)⟩

/-- C21, counterexample: the observations "A!!!!!!!", "B!!!!!!!" and "C!!!!!!!" at the
price 10 have titles that are High-similar to one another, and three
`ProcessIncomingItem` calls in the empty store leave three candidates, with the group keys
"A", "B" and "C" and one occurrence each. -/
theorem three_observations_three_candidates :
    NewTitleCleaner.IsHighSimilarity exTitleA exTitleB = true ∧
      NewTitleCleaner.IsHighSimilarity exTitleA exTitleC = true ∧
      NewTitleCleaner.IsHighSimilarity exTitleB exTitleC = true ∧
      ((NewDataCleaningService true).ProcessIncomingItem exLibrary (some (exTitled exTitleC))
        [0x72] 2000
        ((NewDataCleaningService true).ProcessIncomingItem exLibrary
          (some (exTitled exTitleB)) [0x72] 2000
          ((NewDataCleaningService true).ProcessIncomingItem exLibrary
            (some (exTitled exTitleA)) [0x72] 2000 (exStore [] [])).2).2).2.candidates.map
          (fun c => (c.GroupKey, c.TotalOccurrences)) =
        [([0x41], 1), ([0x42], 1), ([0x43], 1)] := by
  obtain ⟨hAB, hAC, hBC, hBA, hCA, hCB⟩ := exTitles_similarity
  refine ⟨hAB, hAC, hBC, ?_⟩
  have hA : (NewDataCleaningService true).titleCleaner.CleanTitleForID exLibrary
      (exTitled exTitleA).Title = [0x41] := by decide
  have hB : (NewDataCleaningService true).titleCleaner.CleanTitleForID exLibrary
      (exTitled exTitleB).Title = [0x42] := by decide
  have hC : (NewDataCleaningService true).titleCleaner.CleanTitleForID exLibrary
      (exTitled exTitleC).Title = [0x43] := by decide
  have h1 := processIncomingItem_new_candidate (NewDataCleaningService true) exLibrary
    (exTitled exTitleA) [0x72] 2000 (exStore [] []) (fun _ => rfl)
    (fun _ h => absurd h (List.not_mem_nil _)) (fun _ h => absurd h (List.not_mem_nil _))
    (by decide) (by decide)
  rw [h1]
  simp only []
  have h2 := processIncomingItem_new_candidate (NewDataCleaningService true) exLibrary
    (exTitled exTitleB) [0x72] 2000
    { exStore [] [] with
      candidates := (exStore [] []).candidates ++
        [{ ID := (exStore [] []).nextCandidateID,
           GroupKey := (NewDataCleaningService true).titleCleaner.CleanTitleForID exLibrary
             (exTitled exTitleA).Title,
           Region := [0x72], TitleVotes := [((exTitled exTitleA).Title, 1)],
           TotalOccurrences := 1, LastPrice := (exTitled exTitleA).Price,
           LastStatus := (exTitled exTitleA).Status, FirstSeenTime := 2000,
           LastSeenTime := 2000, CreateTime := (exStore [] []).clock,
           UpdateTime := (exStore [] []).clock }],
      nextCandidateID := (exStore [] []).nextCandidateID + 1 }
    (fun _ => rfl) (fun _ h => absurd h (List.not_mem_nil _))
    (by
      intro c hc _
      have hc2 : c ∈ [_] := hc
      rw [List.mem_singleton.1 hc2, hB]
      show NewTitleCleaner.IsHighSimilarity [0x42]
        ((NewDataCleaningService true).titleCleaner.CleanTitleForID exLibrary
          (exTitled exTitleA).Title) = false
      rw [hA]
      exact hBA)
    (by decide) (by decide)
  rw [h2]
  simp only []
  rw [processIncomingItem_new_candidate (NewDataCleaningService true) exLibrary
    (exTitled exTitleC) [0x72] 2000 _ (fun _ => rfl)
    (fun _ h => absurd h (List.not_mem_nil _))
    (by
      intro c hc _
      rw [hC]
      have hc2 : c ∈ [_, _] := hc
      rw [List.mem_cons, List.mem_singleton] at hc2
      rcases hc2 with h | h
      · rw [h]
        show NewTitleCleaner.IsHighSimilarity [0x43]
          ((NewDataCleaningService true).titleCleaner.CleanTitleForID exLibrary
            (exTitled exTitleA).Title) = false
        rw [hA]
        exact hCA
      · rw [h]
        show NewTitleCleaner.IsHighSimilarity [0x43]
          ((NewDataCleaningService true).titleCleaner.CleanTitleForID exLibrary
            (exTitled exTitleB).Title) = false
        rw [hB]
        exact hCB)
    (by decide) (by decide)]
  simp only []
  show List.map _ [_, _, _] = _
  simp only [List.map_cons, List.map_nil, hA, hB, hC]

/-- An accepted price is not below the minimum price of the validator. -/
theorem validateUpdate_accepted_min (v : PriceValidator) (oldPrice newPrice : F64)
    (lastUpdateTime now : Time)
    (h : (v.ValidateUpdate oldPrice newPrice lastUpdateTime now).2 = none) :
    ¬ (newPrice < v.minPrice) := by
  intro hmin
  obtain ⟨q, hq, hnew, _⟩ := validateUpdate_accepted v oldPrice newPrice lastUpdateTime now h
  by_cases h1 : (oldPrice.isNaN || newPrice.isNaN) = true
  · rw [validateUpdate_of_nan v _ _ _ _ h1] at h
    exact Option.noConfusion h
  by_cases h2 : (oldPrice.isInf || newPrice.isInf) = true
  · rw [validateUpdate_of_inf v _ _ _ _ (by simpa using h1) h2] at h
    exact Option.noConfusion h
  cases oldPrice with
  | nan => simp [F64.isNaN] at h1
  | posInf => simp [F64.isInf] at h2
  | negInf => simp [F64.isInf] at h2
  | fin o =>
    rw [hnew] at h hmin
    rw [validateUpdate_fin, if_neg (not_lt.2 hq)] at h
    by_cases hd : utcDay lastUpdateTime ≠ utcDay now
    · rw [if_pos hd, if_pos hmin] at h
      exact Option.noConfusion h
    · rw [if_neg hd, if_pos hmin] at h
      exact Option.noConfusion h

/-- With the minimum price 1.0 an accepted price is finite and at least 1. -/
theorem validateUpdate_accepted_default (v : PriceValidator) (hv : v.minPrice = F64.fin 1)
    (oldPrice newPrice : F64) (lastUpdateTime now : Time) (p : F64)
    (h : v.ValidateUpdate oldPrice newPrice lastUpdateTime now = (p, none)) :
    ∃ q : ℚ, p = F64.fin q ∧ 1 ≤ q := by
  have h2 : (v.ValidateUpdate oldPrice newPrice lastUpdateTime now).2 = none := by
    rw [h]
  obtain ⟨q, _, hnew, hq⟩ :=
    validateUpdate_accepted v oldPrice newPrice lastUpdateTime now h2
  have hmin := validateUpdate_accepted_min v oldPrice newPrice lastUpdateTime now h2
  rw [h] at hq
  refine ⟨q, hq, ?_⟩
  rw [hnew, hv] at hmin
  exact not_lt.1 (fun hlt => hmin ((F64.fin_lt_fin q 1).2 hlt))

/-- The masters after the example observation at 90 is folded into the example master. -/
theorem exMaster_updated :
    ((NewDataCleaningService true).ProcessIncomingItem exLibrary
        (some (exItem (F64.fin 90))) [0x72] 2000 (exStore [exMaster] [])).2.masters =
      [{ exMaster with Price := F64.fin 90, TrustScore := 4, UpdateTime := 2000 }] := by
  rw [processIncomingItem_of_matched (NewDataCleaningService true) exLibrary
    (exItem (F64.fin 90)) [0x72] 2000 (exStore [exMaster] []) [exMaster] exMaster rfl
    (Or.inl (exItem_matched _)),
    handleMasterMatch_accepted (NewDataCleaningService true) exMaster
      (exItem (F64.fin 90)).Price (exItem (F64.fin 90)).Status 2000
      (exStore [exMaster] []) (F64.fin 90) validateUpdate_100_90 rfl]
  rfl

/-- A provenance in the loop over a pool is a provenance in the loop over a longer
pool. -/
theorem priceProvenance_append (s : DataCleaningService) (lib : Library) (clock : ℕ → Time)
    (st : Store) (l l2 : List CandidateItem) (id : GoString) (price : F64)
    (h : PriceProvenance s lib clock st l id price) :
    PriceProvenance s lib clock st (l ++ l2) id price := by
  have hidx : ∀ (i : ℕ) (c : CandidateItem), l[i]? = some c →
      (l ++ l2)[i]? = some c ∧ (l ++ l2).take i = l.take i := by
    intro i c hc
    have hlt : i < l.length := by
      by_contra hge
      rw [List.getElem?_eq_none (not_lt.1 hge)] at hc
      exact Option.noConfusion hc
    exact ⟨by rw [List.getElem?_append_left hlt, hc],
      List.take_append_of_le_length (le_of_lt hlt)⟩
  rcases h with h | ⟨i, c, found, pd, ids, sti, h1, h2, h3, h4, h5, h6⟩ |
    ⟨i, c, pd, ids, sti, h1, h2, h3, h4, h5, h6⟩
  · exact Or.inl h
  · refine Or.inr (Or.inl ⟨i, c, found, pd, ids, sti, (hidx i c h1).1, h2, ?_, h4, h5, h6⟩)
    rw [(hidx i c h1).2]
    exact h3
  · refine Or.inr (Or.inr ⟨i, c, pd, ids, sti, (hidx i c h1).1, h2, ?_, h4, h5, h6⟩)
    rw [(hidx i c h1).2]
    exact h3

/-- Every master the loop of `PromoteCandidates` leaves has a price with a provenance. -/
theorem promoteLoop_prices (s : DataCleaningService) (lib : Library) (clock : ℕ → Time)
    (st : Store) (l : List CandidateItem) :
    ∀ row ∈ (promoteLoop s lib clock l 0 st [] []).2.masters,
      PriceProvenance s lib clock st l row.ID row.Price := by
  induction l using List.reverseRecOn with
  | nil =>
    intro row hrow
    rw [promoteLoop] at hrow
    exact Or.inl ⟨row, hrow, rfl, rfl⟩
  | append_singleton l c ih =>
    intro row hrow
    rw [promoteLoop_append] at hrow
    rcases hloop : promoteLoop s lib clock l 0 st [] [] with ⟨e | ⟨pd, ids⟩, st1⟩
    · rw [hloop] at hrow ih
      exact priceProvenance_append s lib clock st l [c] _ _ (ih row hrow)
    · rw [hloop] at hrow ih
      simp only [] at hrow ih
      rw [promoteLoop_cons_eq] at hrow
      have hrow2 : row ∈ (promoteStep s lib (clock (0 + l.length)) c st1 pd ids).2.masters := by
        rcases hstep : promoteStep s lib (clock (0 + l.length)) c st1 pd ids with
          ⟨e | r2, st2⟩
        · rw [hstep] at hrow
          exact hrow
        · rw [hstep] at hrow
          simp only [] at hrow
          rw [promoteLoop] at hrow
          exact hrow
      clear hrow
      have hrow := hrow2
      have hidx : (l ++ [c])[l.length]? = some c := by
        rw [List.getElem?_append_right (le_refl _), Nat.sub_self]
        rfl
      have htake : (l ++ [c]).take l.length = l := by
        rw [List.take_append_of_le_length (le_refl _), List.take_length]
      have hmono : ∀ x ∈ st1.masters,
          PriceProvenance s lib clock st (l ++ [c]) x.ID x.Price :=
        fun x hx => priceProvenance_append s lib clock st l [c] _ _ (ih x hx)
      rw [Nat.zero_add] at hrow
      rcases promoteStep_cases s lib (clock l.length) c st1 pd ids with
        ⟨_, h⟩ | ⟨_, _, h⟩ | ⟨_, _, _, h⟩ | ⟨hel, hfind, _, h⟩ | ⟨found, _, _, _, h⟩ |
        ⟨found, hel, hfind, _, h⟩
      · rw [h] at hrow
        exact hmono row hrow
      · rw [h] at hrow
        exact hmono row hrow
      · rw [h] at hrow
        exact hmono row hrow
      · rw [h] at hrow
        have hm := (recordPriceTrend_frame s lib (clock l.length) (derivedID s lib c)
          c.LastPrice { st1 with masters := st1.masters ++
            [{ newMasterOf s lib c with CreateTime := st1.clock,
                                        UpdateTime := st1.clock }] }).1
        rw [hm] at hrow
        rcases List.mem_append.1 hrow with h1 | h1
        · exact hmono row h1
        · rw [List.mem_singleton] at h1
          refine Or.inr (Or.inr ⟨l.length, c, pd, ids, st1, hidx, hel, ?_, hfind, ?_, ?_⟩)
          · rw [htake]
            exact hloop
          · rw [h1]
            rfl
          · rw [h1]
            rfl
      · rw [h] at hrow
        exact hmono row hrow
      · have hm : (promoteStep s lib (clock l.length) c st1 pd ids).2.masters =
            st1.masters.map (updateMasterRow st1.clock
              { found with Price := finalPriceOf s found c (clock l.length),
                           Status := c.LastStatus }) := by
          rw [h]
          by_cases hb : F64.beq (finalPriceOf s found c (clock l.length)) found.Price = false
          · rw [if_pos hb]
            exact (recordPriceTrend_frame s lib (clock l.length) found.ID _ _).1
          · rw [if_neg hb]
        rw [hm] at hrow
        have hfound := masterFindByID_some st1 _ found hfind
        obtain ⟨x, hx, hx1⟩ := List.mem_map.1 hrow
        have hu := updateMasterRow_id_region st1.clock
          { found with Price := finalPriceOf s found c (clock l.length),
                       Status := c.LastStatus } x
        by_cases hid : x.ID = found.ID
        · have hprice : row.Price = finalPriceOf s found c (clock l.length) := by
            rw [← hx1]
            unfold updateMasterRow
            rw [if_pos hid]
          have hrid : row.ID = found.ID := by rw [← hx1, hu.1, hid]
          by_cases hacc : (s.priceValidator.ValidateUpdate found.Price c.LastPrice
              found.UpdateTime (clock l.length)).2 = none
          · refine Or.inr (Or.inl ⟨l.length, c, found, pd, ids, st1, hidx, hel, ?_, hfind,
              hrid.symm, ?_⟩)
            · rw [htake]
              exact hloop
            · rw [hprice]
              unfold finalPriceOf
              rw [if_pos hacc, ← hacc]
          · have hkeep : row.Price = found.Price := by
              rw [hprice]
              unfold finalPriceOf
              rw [if_neg hacc]
            rw [hrid, hkeep]
            exact hmono found hfound.1
        · have hfix : row = x := by
            rw [← hx1]
            exact hu.2.2 hid
          rw [hfix]
          exact hmono x hx

/-- The masters after the example candidate is promoted in a store with the example
master under its derived identifier. -/
theorem exDupMaster_promoted :
    ((NewDataCleaningService false).PromoteCandidates exLibrary (fun _ => 2000)
        (exStore [exDupMaster] [exCandidate3])).2.masters =
      [{ exDupMaster with Price := F64.fin 90, UpdateTime := 2000 }] := by
  have hval : (NewDataCleaningService false).priceValidator.ValidateUpdate exDupMaster.Price
      exCandidate3.LastPrice exDupMaster.UpdateTime 2000 = (F64.fin 90, none) :=
    validateUpdate_100_90
  have hstep := promoteLoop_duplicate (NewDataCleaningService false) exLibrary
    (fun _ => 2000) exCandidate3 [] 0 (exStore [exDupMaster] [exCandidate3]) [] []
    exDupMaster (by decide) (by decide) (exDupMaster_found false) rfl (F64.fin 90)
    (by rw [hval]; rfl)
  have hne : F64.beq (F64.fin 90) exDupMaster.Price = false := by decide
  rw [if_pos hne] at hstep
  unfold DataCleaningService.PromoteCandidates
  have hlist : (exStore [exDupMaster] [exCandidate3]).candidateListAll =
      Except.ok [exCandidate3] := rfl
  simp only [hlist, hstep]
  rfl

/-- C22, amended: every master after `ProcessIncomingItem` is a master of the store before,
or has the identifier of a master of the region in the store before and a price that
`ValidateUpdate` returned without error for the stored price and update time of that
master, the observed price and the time of the call. Every master after
`PromoteCandidates` has the price of a master before with its identifier; or a price that
`ValidateUpdate` returned without error, in an iteration of the loop reached without an
error, for the stored price and update time of the master found under the identifier
derived for the eligible candidate of that iteration, the last price of that candidate and
the time of the iteration; or, when that iteration found no master under the derived
identifier, the last price of its candidate, written as observed. With the minimum price
1.0 every price that `ValidateUpdate` returns without error is finite and at least 1. -/
theorem master_price_provenance (s : DataCleaningService) (lib : Library) :
    (∀ (item : Option DTInputDTO) (region : GoString) (now : Time) (st : Store),
      ∀ row ∈ (s.ProcessIncomingItem lib item region now st).2.masters,
        row ∈ st.masters ∨
        ∃ it, item = some it ∧ ∃ m ∈ st.masters, m.Region = region ∧ row.ID = m.ID ∧
          s.priceValidator.ValidateUpdate m.Price it.Price m.UpdateTime now =
            (row.Price, none)) ∧
    (∀ (clock : ℕ → Time) (st : Store),
      ∀ row ∈ (s.PromoteCandidates lib clock st).2.masters,
        (∃ row0 ∈ st.masters, row0.ID = row.ID ∧ row0.Price = row.Price) ∨
        (∃ (i : ℕ) (c : CandidateItem) (found : MasterProduct) (pd : PromotedData)
            (ids : List ℤ) (sti : Store),
          st.candidates[i]? = some c ∧ Eligible s c = true ∧
          promoteLoop s lib clock (st.candidates.take i) 0 st [] [] =
            (Except.ok (pd, ids), sti) ∧
          sti.masterFindByID (derivedID s lib c) = Except.ok (some found) ∧
          found.ID = row.ID ∧
          s.priceValidator.ValidateUpdate found.Price c.LastPrice found.UpdateTime
            (clock i) = (row.Price, none)) ∨
        (∃ (i : ℕ) (c : CandidateItem) (pd : PromotedData) (ids : List ℤ) (sti : Store),
          st.candidates[i]? = some c ∧ Eligible s c = true ∧
          promoteLoop s lib clock (st.candidates.take i) 0 st [] [] =
            (Except.ok (pd, ids), sti) ∧
          sti.masterFindByID (derivedID s lib c) = Except.ok none ∧
          derivedID s lib c = row.ID ∧ c.LastPrice = row.Price)) ∧
    (∀ (oldPrice newPrice : F64) (lastUpdateTime now : Time) (p : F64),
      s.priceValidator.minPrice = F64.fin 1 →
      s.priceValidator.ValidateUpdate oldPrice newPrice lastUpdateTime now = (p, none) →
      ∃ q : ℚ, p = F64.fin q ∧ 1 ≤ q) := by
  refine ⟨?_, ?_, fun oldPrice newPrice lastUpdateTime now p hv h =>
    validateUpdate_accepted_default s.priceValidator hv oldPrice newPrice lastUpdateTime now
      p h⟩
  · intro item region now st row hrow
    rcases processIncomingItem_store s lib item region now st with h | ⟨it, m, p, hit, hm,
      hreg, hv, h⟩ | ⟨c, c2, _, _, _, h⟩ | ⟨c2, _, h⟩
    · rw [h] at hrow
      exact Or.inl hrow
    · rw [h] at hrow
      obtain ⟨x, hx, hx1⟩ := List.mem_map.1 hrow
      by_cases hid : x.ID = m.ID
      · right
        refine ⟨it, hit, m, hm, hreg, ?_, ?_⟩
        · rw [← hx1, (updateMasterRow_id_region st.clock _ x).1]
          exact hid
        · have hprice : row.Price = p := by
            rw [← hx1]
            unfold updateMasterRow
            rw [if_pos hid]
          rw [hprice]
          exact hv
      · left
        have hfix := (updateMasterRow_id_region st.clock
          { m with Price := p, Status := it.Status,
                   TrustScore := wrapInt (m.TrustScore + 1) }
          x).2.2 hid
        rw [← hx1, hfix]
        exact hx
    · rw [h] at hrow
      exact Or.inl hrow
    · rw [h] at hrow
      exact Or.inl hrow
  · intro clock st row hrow
    rcases promoteCandidates_masters s lib clock st with h | h
    · rw [h] at hrow
      exact Or.inl ⟨row, hrow, rfl, rfl⟩
    · rw [h] at hrow
      exact promoteLoop_prices s lib clock st st.candidates row hrow

/-- Witness for C22: the example observation at 90 folded into the example master priced
100; the example candidate, last seen at 90, promoted in a store with the example master,
priced 100, under its derived identifier; and the price 90 that `ValidateUpdate` accepts
after 100. -/
theorem master_price_provenance_witness :
    (({ exMaster with Price := F64.fin 90, TrustScore := 4, UpdateTime := 2000 } :
          MasterProduct) ∈ (exStore [exMaster] []).masters ∨
        ∃ it, some (exItem (F64.fin 90)) = some it ∧ ∃ m ∈ (exStore [exMaster] []).masters,
          m.Region = [0x72] ∧
          ({ exMaster with Price := F64.fin 90, TrustScore := 4, UpdateTime := 2000 } :
            MasterProduct).ID = m.ID ∧
          (NewDataCleaningService true).priceValidator.ValidateUpdate m.Price it.Price
              m.UpdateTime 2000 =
            (({ exMaster with Price := F64.fin 90, TrustScore := 4, UpdateTime := 2000 } :
              MasterProduct).Price, none)) ∧
      ((∃ row0 ∈ (exStore [exDupMaster] [exCandidate3]).masters,
          row0.ID = ({ exDupMaster with Price := F64.fin 90, UpdateTime := 2000 } :
            MasterProduct).ID ∧
          row0.Price = ({ exDupMaster with Price := F64.fin 90, UpdateTime := 2000 } :
            MasterProduct).Price) ∨
        (∃ (i : ℕ) (c : CandidateItem) (found : MasterProduct) (pd : PromotedData)
            (ids : List ℤ) (sti : Store),
          (exStore [exDupMaster] [exCandidate3]).candidates[i]? = some c ∧
          Eligible (NewDataCleaningService false) c = true ∧
          promoteLoop (NewDataCleaningService false) exLibrary (fun _ => 2000)
              ((exStore [exDupMaster] [exCandidate3]).candidates.take i) 0
              (exStore [exDupMaster] [exCandidate3]) [] [] =
            (Except.ok (pd, ids), sti) ∧
          sti.masterFindByID (derivedID (NewDataCleaningService false) exLibrary c) =
            Except.ok (some found) ∧
          found.ID = ({ exDupMaster with Price := F64.fin 90, UpdateTime := 2000 } :
            MasterProduct).ID ∧
          (NewDataCleaningService false).priceValidator.ValidateUpdate found.Price
              c.LastPrice found.UpdateTime 2000 =
            (({ exDupMaster with Price := F64.fin 90, UpdateTime := 2000 } :
              MasterProduct).Price, none)) ∨
        (∃ (i : ℕ) (c : CandidateItem) (pd : PromotedData) (ids : List ℤ) (sti : Store),
          (exStore [exDupMaster] [exCandidate3]).candidates[i]? = some c ∧
          Eligible (NewDataCleaningService false) c = true ∧
          promoteLoop (NewDataCleaningService false) exLibrary (fun _ => 2000)
              ((exStore [exDupMaster] [exCandidate3]).candidates.take i) 0
              (exStore [exDupMaster] [exCandidate3]) [] [] =
            (Except.ok (pd, ids), sti) ∧
          sti.masterFindByID (derivedID (NewDataCleaningService false) exLibrary c) =
            Except.ok none ∧
          derivedID (NewDataCleaningService false) exLibrary c =
            ({ exDupMaster with Price := F64.fin 90, UpdateTime := 2000 } :
              MasterProduct).ID ∧
          c.LastPrice = ({ exDupMaster with Price := F64.fin 90, UpdateTime := 2000 } :
            MasterProduct).Price)) ∧
      (NewDataCleaningService true).priceValidator.minPrice = F64.fin 1 ∧
      (NewDataCleaningService true).priceValidator.ValidateUpdate (F64.fin 100) (F64.fin 90)
          1000 2000 = (F64.fin 90, none) ∧
      ∃ q : ℚ, F64.fin 90 = F64.fin q ∧ 1 ≤ q :=
  ⟨(master_price_provenance (NewDataCleaningService true) exLibrary).1
      (some (exItem (F64.fin 90))) [0x72] 2000 (exStore [exMaster] []) _
      (by rw [exMaster_updated]; exact List.mem_singleton_self _),
    (master_price_provenance (NewDataCleaningService false) exLibrary).2.1 (fun _ => 2000)
      (exStore [exDupMaster] [exCandidate3]) _
      (by rw [exDupMaster_promoted]; exact List.mem_singleton_self _),
    rfl, validateUpdate_100_90,
    (master_price_provenance (NewDataCleaningService true) exLibrary).2.2 (F64.fin 100)
      (F64.fin 90) 1000 2000 (F64.fin 90) rfl validateUpdate_100_90⟩

/-- C22, counterexample: three observations "ABCD" at the price 0.5 in the empty store and
a following `PromoteCandidates` call leave one master, with the price 0.5, which is below
the minimum price 1.0 of the validator. -/
theorem promoteCandidates_creates_unvalidated_price :
    ((NewDataCleaningService true).PromoteCandidates exLibrary (fun _ => 2000)
        ((NewDataCleaningService true).ProcessIncomingItem exLibrary
          (some (exItem (F64.fin (1 / 2)))) [0x72] 2000
          ((NewDataCleaningService true).ProcessIncomingItem exLibrary
            (some (exItem (F64.fin (1 / 2)))) [0x72] 2000
            ((NewDataCleaningService true).ProcessIncomingItem exLibrary
              (some (exItem (F64.fin (1 / 2)))) [0x72] 2000
              (exStore [] [])).2).2).2).2.masters.map (fun m => m.Price) =
        [F64.fin (1 / 2)] ∧
      F64.fin (1 / 2) < (NewDataCleaningService true).priceValidator.minPrice := by
  have hself : NewTitleCleaner.IsHighSimilarity [0x41, 0x42, 0x43, 0x44]
      [0x41, 0x42, 0x43, 0x44] = true := isHighSimilarity_self [0x41, 0x42, 0x43, 0x44]
    (by decide)
  have hkey : (NewDataCleaningService true).titleCleaner.IsHighSimilarity
      ((NewDataCleaningService true).titleCleaner.CleanTitleForID exLibrary
        (exItem (F64.fin (1 / 2))).Title)
      ((NewDataCleaningService true).titleCleaner.CleanTitleForID exLibrary
        (exItem (F64.fin (1 / 2))).Title) = true := by
    rw [show (NewDataCleaningService true).titleCleaner.CleanTitleForID exLibrary
      (exItem (F64.fin (1 / 2))).Title = [0x41, 0x42, 0x43, 0x44] from by decide]
    exact hself
  have hprice : ¬ ((exItem (F64.fin (1 / 2))).Price < F64.fin 0) := by
    show ¬ (F64.fin (1 / 2) < F64.fin 0)
    rw [F64.fin_lt_fin]
    norm_num
  obtain ⟨hc1, hc2, hc3⟩ := three_observations (NewDataCleaningService true) exLibrary [0x72]
    (exStore [] []) (exItem (F64.fin (1 / 2))) (exItem (F64.fin (1 / 2)))
    (exItem (F64.fin (1 / 2))) 2000 2000 2000 (fun _ => rfl)
    (fun _ h => absurd h (List.not_mem_nil _)) (fun _ h => absurd h (List.not_mem_nil _))
    (fun _ h => absurd h (List.not_mem_nil _)) (by decide) (by decide) (by decide)
    hprice hprice hprice hkey hkey
  refine ⟨?_, ?_⟩
  · rw [hc1]
    simp only []
    rw [hc2]
    simp only []
    rw [hc3]
    simp only []
    obtain ⟨st4, hrun, _, hmast⟩ := promoteCandidates_single (NewDataCleaningService true)
      exLibrary (fun _ => 2000)
      { exStore [] [] with
        candidates := (exStore [] []).candidates ++
          [foldedInto (foldedInto (seededCandidate (NewDataCleaningService true) exLibrary
            [0x72] (exStore [] []) (exItem (F64.fin (1 / 2))) 2000)
            (exItem (F64.fin (1 / 2))) 2000 (exStore [] []).clock)
            (exItem (F64.fin (1 / 2))) 2000 (exStore [] []).clock],
        nextCandidateID := (exStore [] []).nextCandidateID + 1 }
      [] _ (fun _ => rfl) rfl
      (fun _ h => absurd h (List.not_mem_nil _))
      (show Eligible (NewDataCleaningService true)
        (foldedInto (foldedInto (seededCandidate (NewDataCleaningService true) exLibrary
          [0x72] (exStore [] []) (exItem (F64.fin (1 / 2))) 2000)
          (exItem (F64.fin (1 / 2))) 2000 (exStore [] []).clock)
          (exItem (F64.fin (1 / 2))) 2000 (exStore [] []).clock) = true from by decide)
      (fun _ h => absurd h (List.not_mem_nil _))
    rw [hrun]
    simp only []
    rw [hmast]
    rfl
  · show F64.fin (1 / 2) < F64.fin 1
    rw [F64.fin_lt_fin]
    norm_num

/-- The votes `{"ABCDEFGH": 2, "ABCDEFGX": 2}` arise from four observations: the titles
"ABCDEFGH" and "ABCDEFGX", observed in turn twice in the empty store, are folded into one
candidate, which is eligible for promotion. -/
theorem tied_votes_reachable :
    ((NewDataCleaningService true).ProcessIncomingItem exLibrary (some (exTitled exTitleX))
        [0x72] 2000
        ((NewDataCleaningService true).ProcessIncomingItem exLibrary
          (some (exTitled exTitleH)) [0x72] 2000
          ((NewDataCleaningService true).ProcessIncomingItem exLibrary
            (some (exTitled exTitleX)) [0x72] 2000
            ((NewDataCleaningService true).ProcessIncomingItem exLibrary
              (some (exTitled exTitleH)) [0x72] 2000
              (exStore [] [])).2).2).2).2.candidates.map
          (fun c => (c.TitleVotes, c.TotalOccurrences,
            Eligible (NewDataCleaningService true) c)) =
        [([(exTitleH, 2), (exTitleX, 2)], 4, true)] := by
  have hH : (NewDataCleaningService true).titleCleaner.CleanTitleForID exLibrary
      (exTitled exTitleH).Title = exTitleH := by decide
  have hX : (NewDataCleaningService true).titleCleaner.CleanTitleForID exLibrary
      (exTitled exTitleX).Title = exTitleX := by decide
  have hHH : NewTitleCleaner.IsHighSimilarity exTitleH exTitleH = true :=
    isHighSimilarity_self exTitleH (by decide)
  have hXH : NewTitleCleaner.IsHighSimilarity exTitleX exTitleH = true := by
    rw [isHighSimilarity_of_ne_nil _ exTitleX exTitleH (by decide) (by decide),
      calculateSimilarity_one_of_eight _ exTitleX exTitleH (by decide) (by decide)
        (by decide) (by decide)]
    show F64.fin (3 / 4) ≤ F64.fin (7 / 8)
    exact (F64.fin_le_fin _ _).2 (by norm_num)
  obtain ⟨hc1, hc2, hc3⟩ := three_observations (NewDataCleaningService true) exLibrary [0x72]
    (exStore [] []) (exTitled exTitleH) (exTitled exTitleX) (exTitled exTitleH) 2000 2000
    2000 (fun _ => rfl)
    (fun _ h => absurd h (List.not_mem_nil _)) (fun _ h => absurd h (List.not_mem_nil _))
    (fun _ h => absurd h (List.not_mem_nil _)) (by decide) (by decide) (by decide)
    (by decide) (by decide) (by decide)
    (by rw [hX, hH]; exact hXH) (by rw [hH]; exact hHH)
  have hc4 := processIncomingItem_existing_candidate (NewDataCleaningService true) exLibrary
    (exTitled exTitleX) [0x72] 2000
    { exStore [] [] with
      candidates := (exStore [] []).candidates ++
        [foldedInto (foldedInto (seededCandidate (NewDataCleaningService true) exLibrary
          [0x72] (exStore [] []) (exTitled exTitleH) 2000)
          (exTitled exTitleX) 2000 (exStore [] []).clock)
          (exTitled exTitleH) 2000 (exStore [] []).clock],
      nextCandidateID := (exStore [] []).nextCandidateID + 1 }
    []
    (foldedInto (foldedInto (seededCandidate (NewDataCleaningService true) exLibrary
      [0x72] (exStore [] []) (exTitled exTitleH) 2000)
      (exTitled exTitleX) 2000 (exStore [] []).clock)
      (exTitled exTitleH) 2000 (exStore [] []).clock)
    (fun _ => rfl) (fun _ h => absurd h (List.not_mem_nil _)) rfl
    (fun _ h => absurd h (List.not_mem_nil _)) rfl (by decide) (by decide)
    (by
      rw [hX]
      show NewTitleCleaner.IsHighSimilarity exTitleX
        ((NewDataCleaningService true).titleCleaner.CleanTitleForID exLibrary
          (exTitled exTitleH).Title) = true
      rw [hH]
      exact hXH)
  rw [hc1]
  simp only []
  rw [hc2]
  simp only []
  rw [hc3]
  simp only []
  rw [hc4]
  decide

/-- C21, amended: in a store whose operations all succeed, for a region without master
and candidate and three observations with prices that are not negative, whose titles are
High-similar to one another and whose clean keys, for the second and the third, are
High-similar to the clean key of the first, three `ProcessIncomingItem` calls return
`(nil, nil)` and leave exactly one candidate in the region, with three occurrences and
the votes of the three titles. When no other candidate is eligible and no master carries
the identifier derived for that candidate, a following `PromoteCandidates` call with the
promotion threshold 3 returns one DTO for the region, deletes that candidate and creates
exactly one master, of that region. Its standard title is the title `ElectStandardTitle`
elects from the votes in the order in which the `range` visits them, whatever that order
is: a title with the highest count and, among those, of the greatest length; it is the
same for every order when no two titles tie on count and length. -/
theorem three_observations_then_promote (s : DataCleaningService) (lib : Library)
    (region : GoString) (st : Store) (i1 i2 i3 : DTInputDTO) (n1 n2 n3 : Time)
    (clock : ℕ → Time) (hthr : s.titleCleaner.promotionThreshold = 3) (hst : st.Succeeds)
    (hnoM : ∀ m ∈ st.masters, m.Region ≠ region)
    (hnoC : ∀ c ∈ st.candidates, c.Region ≠ region)
    (hfresh : ∀ c ∈ st.candidates, c.ID ≠ st.nextCandidateID)
    (h12 : s.titleCleaner.IsHighSimilarity i1.Title i2.Title = true)
    (h13 : s.titleCleaner.IsHighSimilarity i1.Title i3.Title = true)
    (h23 : s.titleCleaner.IsHighSimilarity i2.Title i3.Title = true)
    (hp1 : ¬ (i1.Price < F64.fin 0)) (hp2 : ¬ (i2.Price < F64.fin 0))
    (hp3 : ¬ (i3.Price < F64.fin 0))
    (hk2 : s.titleCleaner.IsHighSimilarity (s.titleCleaner.CleanTitleForID lib i2.Title)
      (s.titleCleaner.CleanTitleForID lib i1.Title) = true)
    (hk3 : s.titleCleaner.IsHighSimilarity (s.titleCleaner.CleanTitleForID lib i3.Title)
      (s.titleCleaner.CleanTitleForID lib i1.Title) = true)
    (hother : ∀ c ∈ st.candidates, Eligible s c = false)
    (hnoID : ∀ m ∈ st.masters, m.ID ≠ s.titleCleaner.GenerateID lib strDT
      (s.titleCleaner.ElectStandardTitle (lib.rangeVotes st.nextCandidateID
        (VoteMap.incr (VoteMap.incr [(i1.Title, 1)] i2.Title) i3.Title)))) :
    ∃ st1 st2 st3 cand,
      s.ProcessIncomingItem lib (some i1) region n1 st = ((none, none), st1) ∧
      s.ProcessIncomingItem lib (some i2) region n2 st1 = ((none, none), st2) ∧
      s.ProcessIncomingItem lib (some i3) region n3 st2 = ((none, none), st3) ∧
      st3.masters = st.masters ∧ st3.candidates = st.candidates ++ [cand] ∧
      st3.candidates.filter (fun c => decide (c.Region = region)) = [cand] ∧
      cand.TotalOccurrences = 3 ∧
      cand.TitleVotes = VoteMap.incr (VoteMap.incr [(i1.Title, 1)] i2.Title) i3.Title ∧
      ∃ st4 m, s.PromoteCandidates lib clock st3 =
          ((some [(region, [promotedDTO (newMasterOf s lib cand)])], none), st4) ∧
        st4.candidates = st.candidates ∧ st4.masters = st.masters ++ [m] ∧
        m.Region = region ∧
        m.StandardTitle =
          s.titleCleaner.ElectStandardTitle (lib.rangeVotes cand.ID cand.TitleVotes) ∧
        m.ID = s.titleCleaner.GenerateID lib strDT m.StandardTitle ∧
        (∃ n, (m.StandardTitle, n) ∈ cand.TitleVotes ∧ (∀ e ∈ cand.TitleVotes, e.2 ≤ n) ∧
          ∀ e ∈ cand.TitleVotes, e.2 = n → e.1.length ≤ m.StandardTitle.length) ∧
        ((∀ e1 ∈ cand.TitleVotes, ∀ e2 ∈ cand.TitleVotes, e1.2 = e2.2 →
            e1.1.length = e2.1.length → e1.1 = e2.1) →
          m.StandardTitle = s.titleCleaner.ElectStandardTitle cand.TitleVotes) := by
  have ht1 : i1.Title ≠ [] := by
    intro h
    rw [isHighSimilarity_of_nil _ _ _ (Or.inl h)] at h13
    exact Bool.noConfusion h13
  have ht2 : i2.Title ≠ [] := by
    intro h
    rw [isHighSimilarity_of_nil _ _ _ (Or.inr h)] at h12
    exact Bool.noConfusion h12
  have ht3 : i3.Title ≠ [] := by
    intro h
    rw [isHighSimilarity_of_nil _ _ _ (Or.inr h)] at h23
    exact Bool.noConfusion h23
  obtain ⟨hc1, hc2, hc3⟩ := three_observations s lib region st i1 i2 i3 n1 n2 n3 hst hnoM
    hnoC hfresh ht1 ht2 ht3 hp1 hp2 hp3 hk2 hk3
  have hperm := lib.rangeVotes_perm st.nextCandidateID
    (VoteMap.incr (VoteMap.incr [(i1.Title, 1)] i2.Title) i3.Title)
  have helect := elect_three s.titleCleaner i1.Title i2.Title i3.Title ht1 ht2 ht3 _ hperm
  have hpos : ∀ e ∈ VoteMap.incr (VoteMap.incr [(i1.Title, 1)] i2.Title) i3.Title,
      1 ≤ e.2 := by
    intro e he
    refine (voteMap_incr_pos _ i3.Title 2 (by decide) (by decide)
      (voteMap_incr_pos _ i2.Title 1 (by decide) (by decide) ?_) e he).1
    intro x hx
    rw [List.mem_singleton.1 hx]
    exact ⟨le_refl _, le_refl _⟩
  have hel : Eligible s
      (foldedInto (foldedInto (seededCandidate s lib region st i1 n1) i2 n2 st.clock)
        i3 n3 st.clock) = true := by
    rw [eligible_iff_range s lib]
    refine ⟨?_, helect.1⟩
    unfold TitleCleaner.ShouldPromote
    rw [hthr]
    exact decide_eq_true (by
      show (3 : ℤ) ≤ wrapInt (wrapInt (1 + 1) + 1)
      decide)
  obtain ⟨st4, hrun, hcand4, hmast4⟩ := promoteCandidates_single s lib clock
    { st with
      candidates := st.candidates ++
        [foldedInto (foldedInto (seededCandidate s lib region st i1 n1) i2 n2 st.clock)
          i3 n3 st.clock],
      nextCandidateID := st.nextCandidateID + 1 }
    st.candidates
    (foldedInto (foldedInto (seededCandidate s lib region st i1 n1) i2 n2 st.clock)
      i3 n3 st.clock)
    (fun op => hst op) rfl (fun x hx => ⟨hother x hx, hfresh x hx⟩) hel hnoID
  refine ⟨_, _, _, _, hc1, hc2, hc3, rfl, rfl, ?_, ?_, rfl, st4, _, hrun, hcand4, hmast4,
    rfl, rfl, rfl, helect.2, ?_⟩
  · show List.filter _ (st.candidates ++ _) = _
    rw [List.filter_append]
    have hnil : st.candidates.filter (fun c => decide (c.Region = region)) = [] := by
      rw [List.filter_eq_nil_iff]
      intro x hx h
      exact hnoC x hx (of_decide_eq_true h)
    rw [hnil, List.nil_append, List.filter_eq_self]
    intro x hx
    rw [List.mem_singleton.1 hx]
    exact decide_eq_true rfl
  · show wrapInt (wrapInt (1 + 1) + 1) = 3
    decide
  · intro huniq
    exact (electStandardTitle_perm s.titleCleaner _ _ hperm.symm hpos huniq).symm

/-- The titles "ABCDEFGH", "ABCDEFGX" and "ABCDEFGY" are High-similar to one another. -/
theorem exTitlesHXY_similarity :
    NewTitleCleaner.IsHighSimilarity exTitleH exTitleX = true ∧
      NewTitleCleaner.IsHighSimilarity exTitleH exTitleY = true ∧
      NewTitleCleaner.IsHighSimilarity exTitleX exTitleY = true ∧
      NewTitleCleaner.IsHighSimilarity exTitleX exTitleH = true ∧
      NewTitleCleaner.IsHighSimilarity exTitleY exTitleH = true := by
  have hhigh : ∀ a b : GoString, a ≠ [] → b ≠ [] → levenshteinDistance a b = 1 →
      max (runes a).length (runes b).length = 8 →
      NewTitleCleaner.IsHighSimilarity a b = true := by
    intro a b ha hb hd hm
    rw [isHighSimilarity_of_ne_nil _ a b ha hb,
      calculateSimilarity_one_of_eight _ a b ha hb hd hm]
    show F64.fin (3 / 4) ≤ F64.fin (7 / 8)
    exact (F64.fin_le_fin _ _).2 (by norm_num)
  exact ⟨hhigh _ _ (by decide) (by decide) (by decide) (by decide),
    hhigh _ _ (by decide) (by decide) (by decide) (by decide),
    hhigh _ _ (by decide) (by decide) (by decide) (by decide),
    hhigh _ _ (by decide) (by decide) (by decide) (by decide),
    hhigh _ _ (by decide) (by decide) (by decide) (by decide)⟩

/-- Witness for C21: the observations "ABCDEFGH", "ABCDEFGX" and "ABCDEFGY" at the price
10 in the empty store, one vote each. With the votes visited in the order of their
insertion the master is created with the title "ABCDEFGH", with the votes visited in the
reverse order with the title "ABCDEFGY". -/
theorem three_observations_then_promote_witness :
    (∃ st1 st2 st3 cand,
      (NewDataCleaningService true).ProcessIncomingItem exLibrary2
        (some (exTitled exTitleH)) [0x72] 2000 (exStore [] []) = ((none, none), st1) ∧
      (NewDataCleaningService true).ProcessIncomingItem exLibrary2
        (some (exTitled exTitleX)) [0x72] 2000 st1 = ((none, none), st2) ∧
      (NewDataCleaningService true).ProcessIncomingItem exLibrary2
        (some (exTitled exTitleY)) [0x72] 2000 st2 = ((none, none), st3) ∧
      st3.candidates = [cand] ∧ cand.TotalOccurrences = 3 ∧
      cand.TitleVotes = [(exTitleH, 1), (exTitleX, 1), (exTitleY, 1)] ∧
      ∃ st4 m, ((NewDataCleaningService true).PromoteCandidates exLibrary2 (fun _ => 2000)
          st3).2 = st4 ∧
        st4.candidates = [] ∧ st4.masters = [m] ∧ m.StandardTitle = exTitleH) ∧
    (∃ st1 st2 st3 cand,
      (NewDataCleaningService true).ProcessIncomingItem exLibraryRev
        (some (exTitled exTitleH)) [0x72] 2000 (exStore [] []) = ((none, none), st1) ∧
      (NewDataCleaningService true).ProcessIncomingItem exLibraryRev
        (some (exTitled exTitleX)) [0x72] 2000 st1 = ((none, none), st2) ∧
      (NewDataCleaningService true).ProcessIncomingItem exLibraryRev
        (some (exTitled exTitleY)) [0x72] 2000 st2 = ((none, none), st3) ∧
      st3.candidates = [cand] ∧ cand.TotalOccurrences = 3 ∧
      cand.TitleVotes = [(exTitleH, 1), (exTitleX, 1), (exTitleY, 1)] ∧
      ∃ st4 m, ((NewDataCleaningService true).PromoteCandidates exLibraryRev (fun _ => 2000)
          st3).2 = st4 ∧
        st4.candidates = [] ∧ st4.masters = [m] ∧ m.StandardTitle = exTitleY) :=
  have hsim := exTitlesHXY_similarity
  have hkX : ∀ lib : Library, lib.isHan = unicodeHan →
      (NewDataCleaningService true).titleCleaner.IsHighSimilarity
        ((NewDataCleaningService true).titleCleaner.CleanTitleForID lib
          (exTitled exTitleX).Title)
        ((NewDataCleaningService true).titleCleaner.CleanTitleForID lib
          (exTitled exTitleH).Title) = true := fun lib hlib => by
    have e1 : (NewDataCleaningService true).titleCleaner.CleanTitleForID lib
        (exTitled exTitleX).Title = exTitleX := by
      unfold TitleCleaner.CleanTitleForID keptByTitleCleaner
      rw [hlib]
      decide
    have e2 : (NewDataCleaningService true).titleCleaner.CleanTitleForID lib
        (exTitled exTitleH).Title = exTitleH := by
      unfold TitleCleaner.CleanTitleForID keptByTitleCleaner
      rw [hlib]
      decide
    rw [e1, e2]
    exact hsim.2.2.2.1
  have hkY : ∀ lib : Library, lib.isHan = unicodeHan →
      (NewDataCleaningService true).titleCleaner.IsHighSimilarity
        ((NewDataCleaningService true).titleCleaner.CleanTitleForID lib
          (exTitled exTitleY).Title)
        ((NewDataCleaningService true).titleCleaner.CleanTitleForID lib
          (exTitled exTitleH).Title) = true := fun lib hlib => by
    have e1 : (NewDataCleaningService true).titleCleaner.CleanTitleForID lib
        (exTitled exTitleY).Title = exTitleY := by
      unfold TitleCleaner.CleanTitleForID keptByTitleCleaner
      rw [hlib]
      decide
    have e2 : (NewDataCleaningService true).titleCleaner.CleanTitleForID lib
        (exTitled exTitleH).Title = exTitleH := by
      unfold TitleCleaner.CleanTitleForID keptByTitleCleaner
      rw [hlib]
      decide
    rw [e1, e2]
    exact hsim.2.2.2.2
  let ⟨a1, a2, a3, ca, ha1, ha2, ha3, _, ha5, _, ha7, ha8, a4, ma, ha9, ha10, ha11, _, ha13,
      _⟩ :=
    three_observations_then_promote (NewDataCleaningService true) exLibrary2 [0x72]
      (exStore [] []) (exTitled exTitleH) (exTitled exTitleX) (exTitled exTitleY)
      2000 2000 2000 (fun _ => 2000) rfl (fun _ => rfl)
      (fun _ h => absurd h (List.not_mem_nil _)) (fun _ h => absurd h (List.not_mem_nil _))
      (fun _ h => absurd h (List.not_mem_nil _)) hsim.1 hsim.2.1 hsim.2.2.1 (by decide)
      (by decide) (by decide) (hkX exLibrary2 rfl) (hkY exLibrary2 rfl)
      (fun _ h => absurd h (List.not_mem_nil _)) (fun _ h => absurd h (List.not_mem_nil _))
  let ⟨b1, b2, b3, cb, hb1, hb2, hb3, _, hb5, _, hb7, hb8, b4, mb, hb9, hb10, hb11, _, hb13,
      _⟩ :=
    three_observations_then_promote (NewDataCleaningService true) exLibraryRev [0x72]
      (exStore [] []) (exTitled exTitleH) (exTitled exTitleX) (exTitled exTitleY)
      2000 2000 2000 (fun _ => 2000) rfl (fun _ => rfl)
      (fun _ h => absurd h (List.not_mem_nil _)) (fun _ h => absurd h (List.not_mem_nil _))
      (fun _ h => absurd h (List.not_mem_nil _)) hsim.1 hsim.2.1 hsim.2.2.1 (by decide)
      (by decide) (by decide) (hkX exLibraryRev rfl) (hkY exLibraryRev rfl)
      (fun _ h => absurd h (List.not_mem_nil _)) (fun _ h => absurd h (List.not_mem_nil _))
  ⟨⟨a1, a2, a3, ca, ha1, ha2, ha3, ha5, ha7, by rw [ha8]; decide, a4, ma, by rw [ha9],
      ha10, ha11, by
        rw [ha13, ha8]
        show NewTitleCleaner.ElectStandardTitle
          (VoteMap.incr (VoteMap.incr [(exTitleH, 1)] exTitleX) exTitleY) = exTitleH
        decide⟩,
    ⟨b1, b2, b3, cb, hb1, hb2, hb3, hb5, hb7, by rw [hb8]; decide, b4, mb, by rw [hb9],
      hb10, hb11, by
        rw [hb13, hb8]
        show NewTitleCleaner.ElectStandardTitle
          (List.reverse (VoteMap.incr (VoteMap.incr [(exTitleH, 1)] exTitleX) exTitleY)) =
            exTitleY
        decide⟩⟩

/-- Two strings of at most four code points, one of them of four, at the edit distance
`d` have the similarity `1 - d / 4`. -/
theorem calculateSimilarity_of_four (tc : TitleCleaner) (a b : GoString) (ha : a ≠ [])
    (hb : b ≠ []) (d : ℕ) (hd : levenshteinDistance a b = d) (hd4 : d ≤ 4)
    (hm : max (runes a).length (runes b).length = 4) :
    tc.CalculateSimilarity a b = F64.fin (1 - (d : ℚ) / 4) := by
  rw [calculateSimilarity_eval tc a b ha hb d 4 hd hm
    (lt_of_le_of_lt hd4 (by norm_num)) (by norm_num) (by norm_num)]
  have hbig : (1 : ℚ) < (2 : ℚ) ^ (1024 : ℤ) := by norm_num
  have h3 : (2 : ℚ) ^ (-2 : ℤ) = 1 / 4 := by norm_num
  have hdq : (d : ℚ) ≤ 4 := by exact_mod_cast hd4
  have hd0 : (0 : ℚ) ≤ (d : ℚ) := Nat.cast_nonneg d
  have h1 : F64.round ((d : ℚ) / ((4 : ℕ) : ℚ)) = F64.fin ((d : ℚ) / 4) := by
    have h := F64.round_dyadic d (-2) (lt_of_le_of_lt hd4 (by norm_num)) (by norm_num) (by
      rw [h3]
      linarith)
    have he : (d : ℚ) * (2 : ℚ) ^ (-2 : ℤ) = (d : ℚ) / 4 := by
      rw [h3]
      ring
    rw [he] at h
    rw [← h]
    norm_num
  rw [h1]
  show F64.round (1 - (d : ℚ) / 4) = _
  have h := F64.round_dyadic (4 - d) (-2) (lt_of_le_of_lt (Nat.sub_le _ _) (by norm_num))
    (by norm_num) (by
      rw [h3, Nat.cast_sub hd4]
      push_cast
      linarith)
  have he : ((4 - d : ℕ) : ℚ) * (2 : ℚ) ^ (-2 : ℤ) = 1 - (d : ℚ) / 4 := by
    rw [h3, Nat.cast_sub hd4]
    push_cast
    ring
  rw [he] at h
  exact h

/-- The classification of the titles "ABCX", "ABXY" and "WXYZ" against "ABCD": High, Mid
and neither. -/
theorem exMasters_similarity :
    NewTitleCleaner.IsHighSimilarity [0x41, 0x42, 0x43, 0x44] [0x41, 0x42, 0x43, 0x58] =
        true ∧
      NewTitleCleaner.IsHighSimilarity [0x41, 0x42, 0x43, 0x44] [0x41, 0x42, 0x58, 0x59] =
        false ∧
      NewTitleCleaner.IsMidSimilarity [0x41, 0x42, 0x43, 0x44] [0x41, 0x42, 0x58, 0x59] =
        true ∧
      NewTitleCleaner.IsHighSimilarity [0x41, 0x42, 0x43, 0x44] [0x57, 0x58, 0x59, 0x5A] =
        false ∧
      NewTitleCleaner.IsMidSimilarity [0x41, 0x42, 0x43, 0x44] [0x57, 0x58, 0x59, 0x5A] =
        false := by
  have h1 := calculateSimilarity_of_four NewTitleCleaner [0x41, 0x42, 0x43, 0x44]
    [0x41, 0x42, 0x43, 0x58] (by decide) (by decide) 1 (by decide) (by decide) (by decide)
  have h2 := calculateSimilarity_of_four NewTitleCleaner [0x41, 0x42, 0x43, 0x44]
    [0x41, 0x42, 0x58, 0x59] (by decide) (by decide) 2 (by decide) (by decide) (by decide)
  have h4 := calculateSimilarity_of_four NewTitleCleaner [0x41, 0x42, 0x43, 0x44]
    [0x57, 0x58, 0x59, 0x5A] (by decide) (by decide) 4 (by decide) (by decide) (by decide)
  refine ⟨?_, ?_, ?_, ?_, ?_⟩
  · rw [isHighSimilarity_of_ne_nil _ _ _ (by decide) (by decide), h1]
    show F64.fin (3 / 4) ≤ F64.fin _
    exact (F64.fin_le_fin _ _).2 (by norm_num)
  · rw [← Bool.not_eq_true, isHighSimilarity_of_ne_nil _ _ _ (by decide) (by decide), h2]
    show ¬ (F64.fin (3 / 4) ≤ F64.fin _)
    rw [F64.fin_le_fin]
    norm_num
  · rw [isMidSimilarity_of_ne_nil _ _ _ (by decide) (by decide), h2]
    constructor
    · show F64.fin (1 / 2) ≤ F64.fin _
      exact (F64.fin_le_fin _ _).2 (by norm_num)
    · show F64.fin _ < F64.fin (3 / 4)
      exact (F64.fin_lt_fin _ _).2 (by norm_num)
  · rw [← Bool.not_eq_true, isHighSimilarity_of_ne_nil _ _ _ (by decide) (by decide), h4]
    show ¬ (F64.fin (3 / 4) ≤ F64.fin _)
    rw [F64.fin_le_fin]
    norm_num
  · rw [← Bool.not_eq_true, isMidSimilarity_of_ne_nil _ _ _ (by decide) (by decide), h4]
    intro h
    have h5 : F64.fin (1 / 2) ≤ F64.fin (1 - ((4 : ℕ) : ℚ) / 4) := h.1
    rw [F64.fin_le_fin] at h5
    norm_num at h5

/-- The price 100 matches the price 100.5 and does not match the price 200. -/
theorem exMasters_priceMatch :
    NewTitleCleaner.IsPriceMatch (F64.fin 100) (F64.fin (201 / 2)) = true ∧
      NewTitleCleaner.IsPriceMatch (F64.fin 100) (F64.fin 200) = false := by
  constructor
  · rw [isPriceMatch_fin_iff]
    rw [abs_le]
    constructor <;> norm_num
  · rw [← Bool.not_eq_true, isPriceMatch_fin_iff]
    intro h
    rw [abs_le] at h
    have := h.1
    norm_num at this

/-- Witness for C12: the observation "ABCD" at the price 100 against three lists of
masters of the region. In the first list a master that is Mid-similar with a matching
price precedes two High-similar masters, and the first High-similar one is matched; in the
second a master that is not similar and a Mid-similar master without a price match precede
a Mid-similar master with a matching price, which is matched; in the third only the first
two of these are left, and the item goes to the candidate pool. -/
theorem processIncomingItem_match_selection_witness :
    (MatchedByTitle (NewDataCleaningService true) (exItem (F64.fin 100))
        [exMasterMid, exMasterHigh, exMaster] exMasterHigh ∧
      (NewDataCleaningService true).ProcessIncomingItem exLibrary
          (some (exItem (F64.fin 100))) [0x72] 2000
          (exStore [exMasterMid, exMasterHigh, exMaster] []) =
        (NewDataCleaningService true).handleMasterMatch exMasterHigh
          (exItem (F64.fin 100)).Price (exItem (F64.fin 100)).Status 2000
          (exStore [exMasterMid, exMasterHigh, exMaster] [])) ∧
    (MatchedByTitleAndPrice (NewDataCleaningService true) (exItem (F64.fin 100))
        [exMasterLow, exMasterMidFar, exMasterMid] exMasterMid ∧
      (NewDataCleaningService true).ProcessIncomingItem exLibrary
          (some (exItem (F64.fin 100))) [0x72] 2000
          (exStore [exMasterLow, exMasterMidFar, exMasterMid] []) =
        (NewDataCleaningService true).handleMasterMatch exMasterMid
          (exItem (F64.fin 100)).Price (exItem (F64.fin 100)).Status 2000
          (exStore [exMasterLow, exMasterMidFar, exMasterMid] [])) ∧
    ((∀ y ∈ [exMasterLow, exMasterMidFar],
        (NewDataCleaningService true).titleCleaner.IsHighSimilarity
          (exItem (F64.fin 100)).Title y.StandardTitle = false) ∧
      (∀ y ∈ [exMasterLow, exMasterMidFar],
        ((NewDataCleaningService true).titleCleaner.IsMidSimilarity
            (exItem (F64.fin 100)).Title y.StandardTitle &&
          (NewDataCleaningService true).titleCleaner.IsPriceMatch
            (exItem (F64.fin 100)).Price y.Price) = false) ∧
      (NewDataCleaningService true).ProcessIncomingItem exLibrary
          (some (exItem (F64.fin 100))) [0x72] 2000
          (exStore [exMasterLow, exMasterMidFar] []) =
        ((none, ((NewDataCleaningService true).handleCandidateLogic [0x72]
            (exItem (F64.fin 100)).Title
            ((NewDataCleaningService true).titleCleaner.CleanTitleForID exLibrary
              (exItem (F64.fin 100)).Title) (exItem (F64.fin 100)) 2000
            (exStore [exMasterLow, exMasterMidFar] [])).1.map
              (GoErr.wrap "handle candidate")),
          ((NewDataCleaningService true).handleCandidateLogic [0x72]
            (exItem (F64.fin 100)).Title
            ((NewDataCleaningService true).titleCleaner.CleanTitleForID exLibrary
              (exItem (F64.fin 100)).Title) (exItem (F64.fin 100)) 2000
            (exStore [exMasterLow, exMasterMidFar] [])).2)) :=
  have hsim := exMasters_similarity
  have hprice := exMasters_priceMatch
  have hself : NewTitleCleaner.IsHighSimilarity [0x41, 0x42, 0x43, 0x44]
      [0x41, 0x42, 0x43, 0x44] = true := isHighSimilarity_self _ (by decide)
  have hA : MatchedByTitle (NewDataCleaningService true) (exItem (F64.fin 100))
      [exMasterMid, exMasterHigh, exMaster] exMasterHigh :=
    ⟨[exMasterMid], [exMaster], rfl, hsim.1, fun y hy => by
      rw [List.mem_singleton.1 hy]
      exact hsim.2.1⟩
  have hhigh2 : ∀ y ∈ [exMasterLow, exMasterMidFar, exMasterMid],
      (NewDataCleaningService true).titleCleaner.IsHighSimilarity
        (exItem (F64.fin 100)).Title y.StandardTitle = false := fun y hy => by
    simp only [List.mem_cons, List.mem_singleton, List.not_mem_nil, or_false] at hy
    rcases hy with h | h | h <;> rw [h]
    · exact hsim.2.2.2.1
    · exact hsim.2.1
    · exact hsim.2.1
  have hC2 : ∀ y ∈ [exMasterLow, exMasterMidFar],
      ((NewDataCleaningService true).titleCleaner.IsMidSimilarity
          (exItem (F64.fin 100)).Title y.StandardTitle &&
        (NewDataCleaningService true).titleCleaner.IsPriceMatch
          (exItem (F64.fin 100)).Price y.Price) = false := fun y hy => by
    simp only [List.mem_cons, List.mem_singleton, List.not_mem_nil, or_false] at hy
    rcases hy with h | h <;> rw [h]
    · show (NewTitleCleaner.IsMidSimilarity [0x41, 0x42, 0x43, 0x44]
          [0x57, 0x58, 0x59, 0x5A] &&
        NewTitleCleaner.IsPriceMatch (F64.fin 100) (F64.fin 100)) = false
      rw [hsim.2.2.2.2]
      rfl
    · show (NewTitleCleaner.IsMidSimilarity [0x41, 0x42, 0x43, 0x44]
          [0x41, 0x42, 0x58, 0x59] &&
        NewTitleCleaner.IsPriceMatch (F64.fin 100) (F64.fin 200)) = false
      rw [hprice.2]
      exact Bool.and_false _
  have hB : MatchedByTitleAndPrice (NewDataCleaningService true) (exItem (F64.fin 100))
      [exMasterLow, exMasterMidFar, exMasterMid] exMasterMid :=
    ⟨hhigh2, [exMasterLow, exMasterMidFar], [], rfl, by
      show (NewTitleCleaner.IsMidSimilarity [0x41, 0x42, 0x43, 0x44]
          [0x41, 0x42, 0x58, 0x59] &&
        NewTitleCleaner.IsPriceMatch (F64.fin 100) (F64.fin (201 / 2))) = true
      rw [hsim.2.2.1, hprice.1]
      rfl, hC2⟩
  have hC1 : ∀ y ∈ [exMasterLow, exMasterMidFar],
      (NewDataCleaningService true).titleCleaner.IsHighSimilarity
        (exItem (F64.fin 100)).Title y.StandardTitle = false := fun y hy =>
    hhigh2 y (List.mem_of_mem_take (show y ∈ List.take 2 _ from hy))
  ⟨⟨hA, (processIncomingItem_match_selection (NewDataCleaningService true) exLibrary
      (exItem (F64.fin 100)) [0x72] 2000 (exStore [exMasterMid, exMasterHigh, exMaster] [])
      [exMasterMid, exMasterHigh, exMaster] rfl).1 exMasterHigh hA⟩,
    ⟨hB, (processIncomingItem_match_selection (NewDataCleaningService true) exLibrary
      (exItem (F64.fin 100)) [0x72] 2000
      (exStore [exMasterLow, exMasterMidFar, exMasterMid] [])
      [exMasterLow, exMasterMidFar, exMasterMid] rfl).2.1 exMasterMid hB⟩,
    ⟨hC1, hC2, (processIncomingItem_match_selection (NewDataCleaningService true) exLibrary
      (exItem (F64.fin 100)) [0x72] 2000 (exStore [exMasterLow, exMasterMidFar] [])
      [exMasterLow, exMasterMidFar] rfl).2.2 hC1 hC2⟩⟩

/-- C16, amended: the candidate fold on a non-empty raw title and a non-negative price,
for the candidates the store returns for the region. If some group key is High-similar to
the clean key, the fold makes one `Update` call, for the first such candidate with the
count of the raw title and the occurrences raised by one in the arithmetic of `int`, no
other count changed, and the price and status of the item as last-seen snapshot, and
creates nothing; when that call succeeds only that candidate changes in the pool. The
count and the occurrences are raised by exactly one when they are below `MaxInt64`. If no
group key is High-similar, the fold makes one `Create` call for a candidate with the clean
key as group key, the votes `{rawTitle: 1}`, one occurrence and the price and status of
the item; when that call succeeds the pool is the old pool followed by that candidate. -/
theorem handleCandidateLogic_fold (s : DataCleaningService)
    (region rawTitle cleanKey : GoString) (item : DTInputDTO) (now : Time) (st : Store)
    (candidates : List CandidateItem)
    (htitle : rawTitle ≠ []) (hprice : F64.fin 0 ≤ item.Price)
    (hread : st.candidateFindByRegion region = Except.ok candidates) :
    (∀ c, IsFirst (fun x => s.titleCleaner.IsHighSimilarity cleanKey x.GroupKey) candidates c →
      s.handleCandidateLogic region rawTitle cleanKey item now st =
        st.candidateUpdate
          { c with TitleVotes := c.TitleVotes.incr rawTitle,
                   TotalOccurrences := wrapInt (c.TotalOccurrences + 1),
                   LastPrice := item.Price, LastStatus := item.Status,
                   LastSeenTime := now } ∧
      (c.TitleVotes.incr rawTitle).get rawTitle = wrapInt (c.TitleVotes.get rawTitle + 1) ∧
      (∀ k, k ≠ rawTitle → (c.TitleVotes.incr rawTitle).get k = c.TitleVotes.get k) ∧
      (MinInt64 ≤ c.TitleVotes.get rawTitle → c.TitleVotes.get rawTitle < MaxInt64 →
        (c.TitleVotes.incr rawTitle).get rawTitle = c.TitleVotes.get rawTitle + 1) ∧
      (MinInt64 ≤ c.TotalOccurrences → c.TotalOccurrences < MaxInt64 →
        wrapInt (c.TotalOccurrences + 1) = c.TotalOccurrences + 1) ∧
      (st.WellFormed → st.fails (StoreOp.candidateUpdate c.ID) = false →
        (s.handleCandidateLogic region rawTitle cleanKey item now st).1 = none ∧
        (s.handleCandidateLogic region rawTitle cleanKey item now st).2.candidates =
          st.candidates.map (fun row => if row = c then
            { c with TitleVotes := c.TitleVotes.incr rawTitle,
                     TotalOccurrences := wrapInt (c.TotalOccurrences + 1),
                     LastPrice := item.Price, LastStatus := item.Status,
                     LastSeenTime := now, UpdateTime := st.clock } else row) ∧
        (s.handleCandidateLogic region rawTitle cleanKey item now st).2.masters =
          st.masters)) ∧
    ((∀ y ∈ candidates, s.titleCleaner.IsHighSimilarity cleanKey y.GroupKey = false) →
      s.handleCandidateLogic region rawTitle cleanKey item now st =
        st.candidateCreate
          { ID := 0, GroupKey := cleanKey, Region := region, TitleVotes := [(rawTitle, 1)],
            TotalOccurrences := 1, LastPrice := item.Price, LastStatus := item.Status,
            FirstSeenTime := now, LastSeenTime := now, CreateTime := 0, UpdateTime := 0 } ∧
      (st.fails StoreOp.candidateCreate = false →
        (s.handleCandidateLogic region rawTitle cleanKey item now st).1 = none ∧
        (s.handleCandidateLogic region rawTitle cleanKey item now st).2.candidates =
          st.candidates ++
            [{ ID := st.nextCandidateID, GroupKey := cleanKey, Region := region,
               TitleVotes := [(rawTitle, 1)], TotalOccurrences := 1,
               LastPrice := item.Price, LastStatus := item.Status, FirstSeenTime := now,
               LastSeenTime := now, CreateTime := st.clock, UpdateTime := st.clock }] ∧
        (s.handleCandidateLogic region rawTitle cleanKey item now st).2.masters =
          st.masters)) := by
  have hp : ¬ (item.Price < F64.fin 0) := F64.not_lt_of_le64 hprice
  constructor
  · intro c hc
    have hcall := handleCandidateLogic_update s region rawTitle cleanKey item now st
      candidates c htitle hp hread hc
    refine ⟨hcall, voteMap_get_incr_self _ _, fun k hk => voteMap_get_incr_other _ _ _ hk,
      fun h1 h2 => by rw [voteMap_get_incr_self, wrapInt_succ _ h1 h2],
      wrapInt_succ _, ?_⟩
    intro hwf hok
    have hmem : c ∈ st.candidates := by
      have := isFirst_mem hc
      rw [candidateFindByRegion_ok st region candidates hread] at this
      exact List.mem_of_mem_filter this
    rw [hcall]
    unfold Store.candidateUpdate
    simp only [hok]
    refine ⟨rfl, ?_, rfl⟩
    exact map_updateCandidateRow st.clock c _ st.candidates rfl hmem hwf.2
  · intro hnone
    have hcall := handleCandidateLogic_create s region rawTitle cleanKey item now st
      candidates htitle hp hread hnone
    refine ⟨hcall, ?_⟩
    intro hok
    rw [hcall]
    unfold Store.candidateCreate
    simp only [hok]
    exact ⟨rfl, rfl, rfl⟩

/-- Witness for C16: the observation "ABCD" at the price 90. In a pool with the group
keys "WXYZ", "ABCX" and "ABCD" the candidate "ABCX", the first with a High-similar key, is
the one written back, with a first vote for "ABCD" and three occurrences, and "ABCD", also
High-similar, is left as it was; in a pool with the group key "WXYZ" alone a candidate
"ABCD" is created. -/
theorem handleCandidateLogic_fold_witness :
    (IsFirst (fun x => (NewDataCleaningService true).titleCleaner.IsHighSimilarity
          [0x41, 0x42, 0x43, 0x44] x.GroupKey)
        [exCandidateLowKey, exCandidateHighKey, exCandidate] exCandidateHighKey ∧
      ((NewDataCleaningService true).handleCandidateLogic [0x72] [0x41, 0x42, 0x43, 0x44]
        [0x41, 0x42, 0x43, 0x44] (exItem (F64.fin 90)) 2000
        (exStore [] [exCandidateLowKey, exCandidateHighKey, exCandidate])).1 = none ∧
      ((NewDataCleaningService true).handleCandidateLogic [0x72] [0x41, 0x42, 0x43, 0x44]
        [0x41, 0x42, 0x43, 0x44] (exItem (F64.fin 90)) 2000
        (exStore [] [exCandidateLowKey, exCandidateHighKey, exCandidate])).2.candidates =
        [exCandidateLowKey,
          { exCandidateHighKey with
            TitleVotes := [([0x41, 0x42, 0x43, 0x58], 2), ([0x41, 0x42, 0x43, 0x44], 1)],
            TotalOccurrences := 3, LastPrice := F64.fin 90, LastSeenTime := 2000,
            UpdateTime := 2000 },
          exCandidate]) ∧
    ((∀ y ∈ [exCandidateLowKey],
        (NewDataCleaningService true).titleCleaner.IsHighSimilarity
          [0x41, 0x42, 0x43, 0x44] y.GroupKey = false) ∧
      ((NewDataCleaningService true).handleCandidateLogic [0x72] [0x41, 0x42, 0x43, 0x44]
        [0x41, 0x42, 0x43, 0x44] (exItem (F64.fin 90)) 2000
        (exStore [] [exCandidateLowKey])).1 = none ∧
      ((NewDataCleaningService true).handleCandidateLogic [0x72] [0x41, 0x42, 0x43, 0x44]
        [0x41, 0x42, 0x43, 0x44] (exItem (F64.fin 90)) 2000
        (exStore [] [exCandidateLowKey])).2.candidates =
        [exCandidateLowKey,
          { ID := 10, GroupKey := [0x41, 0x42, 0x43, 0x44], Region := [0x72],
            TitleVotes := [([0x41, 0x42, 0x43, 0x44], 1)], TotalOccurrences := 1,
            LastPrice := F64.fin 90, LastStatus := 1, FirstSeenTime := 2000,
            LastSeenTime := 2000, CreateTime := 2000, UpdateTime := 2000 }]) :=
  have hsim := exMasters_similarity
  have hfirst : IsFirst (fun x => (NewDataCleaningService true).titleCleaner.IsHighSimilarity
        [0x41, 0x42, 0x43, 0x44] x.GroupKey)
      [exCandidateLowKey, exCandidateHighKey, exCandidate] exCandidateHighKey :=
    ⟨[exCandidateLowKey], [exCandidate], rfl, hsim.1, fun y hy => by
      rw [List.mem_singleton.1 hy]
      exact hsim.2.2.2.1⟩
  have hnone : ∀ y ∈ [exCandidateLowKey],
      (NewDataCleaningService true).titleCleaner.IsHighSimilarity
        [0x41, 0x42, 0x43, 0x44] y.GroupKey = false := fun y hy => by
    rw [List.mem_singleton.1 hy]
    exact hsim.2.2.2.1
  have h1 := ((handleCandidateLogic_fold (NewDataCleaningService true) [0x72]
    [0x41, 0x42, 0x43, 0x44] [0x41, 0x42, 0x43, 0x44] (exItem (F64.fin 90)) 2000
    (exStore [] [exCandidateLowKey, exCandidateHighKey, exCandidate])
    [exCandidateLowKey, exCandidateHighKey, exCandidate] (by decide) (by decide) rfl).1
    exCandidateHighKey hfirst).2.2.2.2.2 ⟨List.nodup_nil, by decide⟩ rfl
  have h2 := ((handleCandidateLogic_fold (NewDataCleaningService true) [0x72]
    [0x41, 0x42, 0x43, 0x44] [0x41, 0x42, 0x43, 0x44] (exItem (F64.fin 90)) 2000
    (exStore [] [exCandidateLowKey]) [exCandidateLowKey] (by decide) (by decide) rfl).2
    hnone).2 rfl
  ⟨⟨hfirst, h1.1, by rw [h1.2.1]; decide⟩, ⟨hnone, h2.1, by rw [h2.2.1]; rfl⟩⟩

/-- C16, counterexample: the observation "ABCD" at the price 90 and a pool with one
candidate, of the group key "ABCD", with `MaxInt64` votes for "ABCD" and `MaxInt64`
occurrences. The fold writes the candidate back with the count of "ABCD" and the
occurrences at `MinInt64`. -/
theorem handleCandidateLogic_wraps_at_maxInt :
    exCandidateMax.TitleVotes.get [0x41, 0x42, 0x43, 0x44] = 9223372036854775807 ∧
      exCandidateMax.TotalOccurrences = 9223372036854775807 ∧
      ((NewDataCleaningService true).handleCandidateLogic [0x72] [0x41, 0x42, 0x43, 0x44]
        [0x41, 0x42, 0x43, 0x44] (exItem (F64.fin 90)) 2000
        (exStore [] [exCandidateMax])).1 = none ∧
      ((NewDataCleaningService true).handleCandidateLogic [0x72] [0x41, 0x42, 0x43, 0x44]
        [0x41, 0x42, 0x43, 0x44] (exItem (F64.fin 90)) 2000
        (exStore [] [exCandidateMax])).2.candidates.map
          (fun c => (c.TitleVotes.get [0x41, 0x42, 0x43, 0x44], c.TotalOccurrences)) =
        [(-9223372036854775808, -9223372036854775808)] := by
  rw [handleCandidateLogic_update (NewDataCleaningService true) [0x72]
    [0x41, 0x42, 0x43, 0x44] [0x41, 0x42, 0x43, 0x44] (exItem (F64.fin 90)) 2000
    (exStore [] [exCandidateMax]) [exCandidateMax] exCandidateMax (by decide) (by decide) rfl
    ⟨[], [], rfl, isHighSimilarity_self [0x41, 0x42, 0x43, 0x44] (by decide),
      fun _ h => absurd h (List.not_mem_nil _)⟩]
  exact ⟨by decide, rfl, rfl, by decide⟩

end KbFood
